import Mathlib

/-!
# Verovio layout engines: chords, beams, tuplets

A shallow embedding of `src/chord.cpp`, `src/drawinginterface.cpp` and
`src/tuplet.cpp`.  Objects of the score tree live in a memory indexed by
addresses; member functions that write through pointers become functions on
that memory.  Code with undefined behaviour (dereferencing `end()` or a null
pointer) returns `none`.
-/

namespace Verovio

/-! ## Machine integers -/

/-- The value a 32-bit `int` holds after an arithmetic operation whose exact result is
`x`: two's-complement wrap-around into the range from `-2^31` to `2^31 - 1`. -/
def wrapInt32 (x : Int) : Int := (x + 2147483648) % 4294967296 - 2147483648

/-! ## Chord (chord.cpp) -/

/-- Address of an object (an `Object*`, `Note*` or `ChordCluster*`). -/
abbrev Ref := Nat

/-- The fields of a `Note` that chord.cpp reads or writes. -/
structure Note where
  /-- Value of `GetDiatonicPitch()`. -/
  diatonicPitch : Int
  /-- Value of `GetDrawingY()`. -/
  drawingY : Int
  /-- The back-reference `m_cluster` (`none` is `NULL`). -/
  m_cluster : Option Ref
  /-- The 1-based position `m_clusterPosition` (0 when unclustered). -/
  m_clusterPosition : Int
deriving DecidableEq, Repr

/-- Dynamic type of a tree object, as far as the casts of `FilterList` tell
them apart: a `Note` (a layer element with a duration interface), another
`LayerElement` with or without a duration interface, or any other `Object`. -/
inductive Object where
  | note (n : Note)
  | layerElement (hasDurationInterface : Bool)
  | other
deriving DecidableEq, Repr

/-- The memory holding the tree objects. -/
abbrev Objects := Ref → Object

/-- Model of `dynamic_cast<Note*>(p)`: the note at `p`, `none` when the cast yields `NULL`. -/
def asNote (objects : Objects) (p : Ref) : Option Note :=
  match objects p with
  | Object.note n => some n
  | _ => none

/-- Model of `n->GetDiatonicPitch()` after `dynamic_cast<Note*>`; used by the comparator,
which is only called on lists that hold notes alone. -/
def pitchOf (objects : Objects) (p : Ref) : Int :=
  match asNote objects p with
  | some n => n.diatonicPitch
  | none => 0

/-- Writes `note->m_cluster = c; note->m_clusterPosition = pos` at address `p`. -/
def setCluster (objects : Objects) (p : Ref) (c : Option Ref) (pos : Int) : Objects :=
  match objects p with
  | Object.note n =>
      Function.update objects p
        (Object.note { n with m_cluster := c, m_clusterPosition := pos })
  | _ => objects

/-- A chord: the object memory, the list `m_clusters` (each `ChordCluster*` with
the vector of `Note*` it points to) and `heapTop`, the address the next
`new ChordCluster()` returns (a counter, so that a new cluster never gets the
address of a cluster created earlier). -/
structure Chord where
  objects : Objects
  m_clusters : List (Ref × List Ref)
  heapTop : Ref

/-- Model of `Chord::ClearClusters`: every note of every cluster loses its back-reference
and position, the clusters are deleted and the list is cleared. -/
def ClearClusters (ch : Chord) : Chord :=
  { ch with
    objects :=
      ch.m_clusters.foldl
        (fun objs cluster => cluster.2.foldl (fun o p => setCluster o p none 0) objs)
        ch.objects
    m_clusters := [] }

/-- Model of `compare_pitch(first, second)`. -/
def compare_pitch (objects : Objects) (first second : Ref) : Bool :=
  decide (pitchOf objects first < pitchOf objects second)

/-- The first loop of `Chord::FilterList`: erase everything that is not a
`LayerElement`, has no duration interface, or is not a `Note`. -/
def eraseNonNotes (objects : Objects) : List Ref → List Ref
  | [] => []
  | p :: rest =>
    match objects p with
    | Object.other => eraseNonNotes objects rest
    | Object.layerElement _ => eraseNonNotes objects rest
    | Object.note _ => p :: eraseNonNotes objects rest

/-- Model of `childList->sort(compare_pitch)`: `std::list::sort` is a stable sort; `a` stays
before `b` unless `compare_pitch b a`. -/
def sortByPitch (objects : Objects) (l : List Ref) : List Ref :=
  l.insertionSort (fun a b => compare_pitch objects b a = false)

/-- Model of `cluster->push_back(p)` on the cluster at address `c`. -/
def pushBack (clusters : List (Ref × List Ref)) (c p : Ref) : List (Ref × List Ref) :=
  clusters.map (fun cl => if cl.1 = c then (cl.1, cl.2 ++ [p]) else cl)

/-- Model of `(int)cluster->size()` of the cluster at address `c`. -/
def clusterSize (clusters : List (Ref × List Ref)) (c : Ref) : Int :=
  match clusters.find? (fun cl => cl.1 = c) with
  | some cl => cl.2.length
  | none => 0

/-- Local variables of the second loop of `Chord::FilterList`. -/
structure ClusterLoop where
  chord : Chord
  lastNote : Ref
  lastPitch : Int
  curCluster : Option Ref

/-- One iteration of the cluster loop of `Chord::FilterList` at `*iter = cur`. -/
def clusterStep (st : ClusterLoop) (cur : Ref) : Option ClusterLoop :=
  match asNote st.chord.objects cur with
  | none => none
  | some curNote =>
    let curPitch := curNote.diatonicPitch
    if curPitch - st.lastPitch = 1 then
      match asNote st.chord.objects st.lastNote with
      | none => none
      | some last =>
        let st1 : ClusterLoop :=
          if last.m_cluster.isNone then
            let c := st.chord.heapTop
            let clusters := pushBack (st.chord.m_clusters ++ [(c, [])]) c st.lastNote
            { st with
              chord :=
                { objects := setCluster st.chord.objects st.lastNote (some c)
                    (clusterSize clusters c)
                  m_clusters := clusters
                  heapTop := c + 1 }
              curCluster := some c }
          else st
        match st1.curCluster with
        | none => none
        | some c =>
          let clusters := pushBack st1.chord.m_clusters c cur
          some
            { chord :=
                { st1.chord with
                  objects := setCluster st1.chord.objects cur (some c) (clusterSize clusters c)
                  m_clusters := clusters }
              lastNote := cur
              lastPitch := curPitch
              curCluster := some c }
    else
      some { st with lastNote := cur, lastPitch := curPitch }

/-- The cluster loop run over the remaining list. -/
def clusterLoop : ClusterLoop → List Ref → Option ClusterLoop
  | st, [] => some st
  | st, cur :: rest =>
    match clusterStep st cur with
    | none => none
    | some st1 => clusterLoop st1 rest

/-- Model of `Chord::FilterList(childList)`: returns the chord and the list it leaves, or
`none` where the code dereferences `childList->end()` or a null pointer.  The
child list comes from a traversal of the chord's subtree and holds every object
once; the theorems below assume `Nodup` of it. -/
def FilterList (ch : Chord) (childList : List Ref) : Option (Chord × List Ref) :=
  let sorted := sortByPitch ch.objects (eraseNonNotes ch.objects childList)
  let cleared := ClearClusters ch
  match sorted with
  | [] => none
  | first :: rest =>
    match asNote cleared.objects first with
    | none => none
    | some lastNote =>
      match clusterLoop
          { chord := cleared, lastNote := first, lastPitch := lastNote.diatonicPitch,
            curCluster := none } rest with
      | none => none
      | some st => some (st.chord, sorted)

/-- The loop of `Chord::GetYExtremes(yMax, yMin)` over the chord's list
(`GetList(this)`), with the flag `passed`; `yMax`, `yMin` are the values the two
outputs hold. -/
def GetYExtremesLoop (objects : Objects) : List Ref → Bool → Int → Int → Bool × Int × Int
  | [], passed, yMax, yMin => (passed, yMax, yMin)
  | p :: rest, passed, yMax, yMin =>
    match asNote objects p with
    | none => GetYExtremesLoop objects rest passed yMax yMin
    | some note =>
      let y1 := note.drawingY
      if !passed then GetYExtremesLoop objects rest true y1 y1
      else if y1 > yMax then GetYExtremesLoop objects rest passed y1 yMin
      else if y1 < yMin then GetYExtremesLoop objects rest passed yMax y1
      else GetYExtremesLoop objects rest passed yMax yMin

/-- Model of `Chord::GetYExtremes`: the pair `(*yMax, *yMin)` after the call, given the
values the outputs held before it. -/
def GetYExtremes (objects : Objects) (childList : List Ref) (yMax yMin : Int) : Int × Int :=
  (GetYExtremesLoop objects childList false yMax yMin).2

/-- Memory holding unclustered notes with the given diatonic pitches at addresses
`0, 1, ...` (the drawing Y is set to the same value) and no note elsewhere. -/
def notesAt (pitches : List Int) : Objects := fun p =>
  match pitches.get? p with
  | some v => Object.note { diatonicPitch := v, drawingY := v, m_cluster := none, m_clusterPosition := 0 }
  | none => Object.other

/-- A chord without clusters over `notesAt pitches`. -/
def chordOf (pitches : List Int) : Chord :=
  { objects := notesAt pitches, m_clusters := [], heapTop := 100 }


/-- Model of `Chord::ResetAccidSpace(fullUnit)`: the grid `m_accidSpace` after the
call, given the notes `m_accidList` points to.  `ACCID_WIDTH` is a constant of
`chord.h`, which is not among the sources.  The `int` products and the
difference wrap around as 32-bit values.  The result is `none` where the code
divides by zero, a quotient does not fit in an `int`, or a vector is resized to a
negative size. -/
def ResetAccidSpace (ACCID_WIDTH : Int) (m_accidList : List Note) (fullUnit : Int) :
    Option (List (List Bool)) :=
  match m_accidList.head?, m_accidList.getLast? with
  | some first, some last =>
    let halfUnit := Int.tdiv fullUnit 2
    let doubleUnit := wrapInt32 (fullUnit * 2)
    let size : Int := wrapInt32 m_accidList.length
    let ySpan := wrapInt32 (first.drawingY - last.drawingY)
    if halfUnit = 0 then none
    else if halfUnit = -1 ∧ ySpan = -2147483648 then none
    else
      let rows := Int.tdiv ySpan halfUnit
      let rowCount := max rows ACCID_WIDTH
      if rowCount < 0 then none
      else
        let product := wrapInt32 (doubleUnit * size)
        if halfUnit = -1 ∧ product = -2147483648 then none
        else
          let lineLength := Int.tdiv product halfUnit
          if rowCount = 0 then some []
          else if lineLength < 0 then none
          else some (List.replicate rowCount.toNat (List.replicate lineLength.toNat false))
  | _, _ => some []

/-! ## BeamDrawingInterface (drawinginterface.cpp) -/

/-- Enumeration `data_BEAMPLACE`. -/
inductive data_BEAMPLACE where
  | NONE | above | below | mixed
deriving DecidableEq, Repr

/-- Enumeration `data_STEMDIRECTION`. -/
inductive data_STEMDIRECTION where
  | NONE | up | down
deriving DecidableEq, Repr

/-- Enumeration `data_STAFFREL_basic`. -/
inductive data_STAFFREL_basic where
  | NONE | above | below
deriving DecidableEq, Repr

/-- Constants of `vrvdef.h`, which is not among the sources: they are parameters
of the functions that use them. -/
structure VrvDef where
  DUR_MAX : Int
  DUR_32 : Int
  VRV_UNSET : Int

/-- Model of `GetNoteDirection(leftNoteY, rightNoteY)`. -/
def GetNoteDirection (leftNoteY rightNoteY : Int) : data_STEMDIRECTION :=
  if leftNoteY = rightNoteY then data_STEMDIRECTION.NONE
  else if leftNoteY < rightNoteY then data_STEMDIRECTION.up else data_STEMDIRECTION.down

/-- What the beam code reads from the note `m_closestNote` points to. -/
structure ClosestNote where
  /-- Value of `GetDrawingY()`. -/
  drawingY : Int
  /-- Value of `GetDrawingLoc()`. -/
  drawingLoc : Int
deriving DecidableEq, Repr

/-- The class ids (`ClassId`) that the three source files test with `Is`; `OTHER`
stands for every other class. -/
inductive ClassId where
  | ACCID | ARTIC | BEAM | BTREM | CHORD | CLEF | DOT | FLAG | FTREM | NOTE | REST | SPACE
  | STAFF | STEM | TABGRP | TUPLET | TUPLET_BRACKET | TUPLET_NUM | OTHER
deriving DecidableEq, Repr

/-- What `InitCoords` reads from the top or the bottom note of a chord. -/
structure ChordNote where
  /-- The member `m_crossStaff` (`none` is `NULL`). -/
  m_crossStaff : Option Ref := none
  /-- Value of `GetCrossStaffRel()`. -/
  crossStaffRel : data_STAFFREL_basic := data_STAFFREL_basic.NONE
deriving DecidableEq, Repr

/-- A `LayerElement` of a beam list, with what the beam code reads from it. -/
structure LayerElement where
  /-- The class tested by `Is`. -/
  classId : ClassId := ClassId.NOTE
  /-- Value of `GetDurationInterface()->GetActualDur()`; `none` when
  `GetDurationInterface()` is null. -/
  actualDur : Option Int := none
  /-- Value of `GetBreaksec()` when the element is an `AttBeamSecondary` and
  `HasBreaksec()`, `none` otherwise. -/
  breaksec : Option Int := none
  /-- Value of `GetCrossStaff(layer)` (`none` is `NULL`). -/
  crossStaff : Option Ref := none
  /-- Value of `GetCrossStaffRel()`. -/
  crossStaffRel : data_STAFFREL_basic := data_STAFFREL_basic.NONE
  /-- For a chord, the note `GetTopNote()` returns. -/
  topNote : ChordNote := {}
  /-- For a chord, the note `GetBottomNote()` returns. -/
  bottomNote : ChordNote := {}
  /-- Value `BeamElementCoord::GetStemDir()` returns for a new coord that refers to
  this element (the function is defined in beam.cpp, which is not among the
  sources). -/
  stemDir : data_STEMDIRECTION := data_STEMDIRECTION.NONE
  /-- Value of `IsGraceNote()`. -/
  isGraceNote : Bool := false
  /-- Value of `GetDrawingCueSize()`. -/
  drawingCueSize : Bool := false
deriving DecidableEq, Repr

/-- A `BeamElementCoord`, with the members the beam code reads or writes; the
defaults are those of a coord made by `new BeamElementCoord()`. -/
structure BeamElementCoord where
  /-- Whether `m_stem` is non-null. -/
  m_stem : Bool := false
  /-- The note `m_closestNote` points to (`none` is `NULL`). -/
  m_closestNote : Option ClosestNote := none
  m_dur : Int := 0
  m_beamRelativePlace : data_BEAMPLACE := data_BEAMPLACE.NONE
  /-- The element `m_element` points to (`none` is `NULL`). -/
  m_element : Option LayerElement := none
  m_breaksec : Int := 0
deriving DecidableEq, Repr

/-- The members of `BeamDrawingInterface`; the defaults are the values `Reset` assigns. -/
structure BeamDrawingInterface where
  m_changingDur : Bool := false
  m_beamHasChord : Bool := false
  m_hasMultipleStemDir : Bool := false
  m_cueSize : Bool := false
  m_fractionSize : Int := 100
  m_crossStaffContent : Option Ref := none
  m_crossStaffRel : data_STAFFREL_basic := data_STAFFREL_basic.NONE
  m_shortestDur : Int := 0
  m_notesStemDir : data_STEMDIRECTION := data_STEMDIRECTION.NONE
  m_drawingPlace : data_BEAMPLACE := data_BEAMPLACE.NONE
  m_beamStaff : Option Ref := none
  m_beamWidth : Int := 0
  m_beamWidthBlack : Int := 0
  m_beamWidthWhite : Int := 0
  m_beamElementCoords : List BeamElementCoord := []
deriving Repr

/-- The test `!coord->m_stem || !coord->m_closestNote` negated: the coord is a
usable anchor. -/
def BeamElementCoord.usable (coord : BeamElementCoord) : Bool :=
  coord.m_stem && coord.m_closestNote.isSome

/-- Model of `coord->m_closestNote->GetDrawingY()` (read on usable coords only). -/
def BeamElementCoord.closestY (coord : BeamElementCoord) : Int :=
  match coord.m_closestNote with
  | some note => note.drawingY
  | none => 0

/-- The vector `items` filled by the loop of `IsHorizontal`. -/
def horizontalItems (b : BeamDrawingInterface) : List Int :=
  (b.m_beamElementCoords.filter BeamElementCoord.usable).map BeamElementCoord.closestY

/-- The vector `directions` filled by the loop of `IsHorizontal`. -/
def horizontalDirections (b : BeamDrawingInterface) : List data_BEAMPLACE :=
  (b.m_beamElementCoords.filter BeamElementCoord.usable).map
    BeamElementCoord.m_beamRelativePlace

/-- The vector `items` filled by the loop of `IsRepeatedPattern`: the composite key
`GetDrawingY() * DUR_MAX + m_dur` of every usable coord, computed as the code
does in 32-bit `int` arithmetic, where the product and the sum wrap around. -/
def patternItems (k : VrvDef) (b : BeamDrawingInterface) : List Int :=
  (b.m_beamElementCoords.filter BeamElementCoord.usable).map
    (fun coord => wrapInt32 (wrapInt32 (coord.closestY * k.DUR_MAX) + coord.m_dur))

/-- Model of `std::equal(first1, last1, first2)`: the first range against the beginning of
the second (which is at least as long wherever it is called). -/
def std_equal : List Int → List Int → Bool
  | [], _ => true
  | _ :: _, [] => false
  | x :: xs, y :: ys => x == y && std_equal xs ys

/-- Model of `std::is_sorted(first, last)`: no element is smaller than its predecessor. -/
def std_is_sorted : List Int → Bool
  | [] => true
  | [_] => true
  | x :: y :: rest => decide (x ≤ y) && std_is_sorted (y :: rest)

/-- Model of `std::unique_copy(first, last, out)`: consecutive duplicates are copied once. -/
def std_unique_copy : List Int → List Int
  | [] => []
  | [x] => [x]
  | x :: y :: rest => if x = y then std_unique_copy (y :: rest) else x :: std_unique_copy (y :: rest)

/-- The vector `dividers` of `IsRepeatedPattern`: every `i` with
`2 <= i <= itemCount / 2` and `itemCount % i == 0`, in increasing order. -/
def patternDividers (itemCount : Nat) : List Nat :=
  (List.range (itemCount / 2 + 1)).filter (fun i => decide (2 ≤ i) && decide (itemCount % i = 0))

/-- The inner loop of `IsRepeatedPattern` for one divider: `pattern` stays true when
every block `items[j * divider, (j + 1) * divider)` equals the first block. -/
def patternAt (items : List Int) (divider : Nat) : Bool :=
  ((List.range (items.length / divider)).drop 1).all
    (fun j => decide ((items.drop (j * divider)).take divider = items.take divider))

/-- Model of `BeamDrawingInterface::IsRepeatedPattern`. -/
def IsRepeatedPattern (k : VrvDef) (b : BeamDrawingInterface) : Bool :=
  if b.m_drawingPlace = data_BEAMPLACE.mixed then false
  else if b.m_drawingPlace = data_BEAMPLACE.NONE then false
  else if b.m_beamElementCoords.length < 4 then false
  else
    let items := patternItems k b
    if items.length < 4 || std_equal (items.drop 1) items then false
    else (patternDividers items.length).any (fun divider => patternAt items divider)

/-- The loop of `HasOneStepHeight`: `(top, bottom)` after the coords. -/
def stepHeightLoop : List BeamElementCoord → Int → Int → Int × Int
  | [], top, bottom => (top, bottom)
  | coord :: rest, top, bottom =>
    match coord.m_closestNote with
    | some note =>
      let loc := note.drawingLoc
      let top1 := if loc > top then loc else top
      let bottom1 := if loc < bottom then loc else bottom
      stepHeightLoop rest top1 bottom1
    | none => stepHeightLoop rest top bottom

/-- Model of `BeamDrawingInterface::HasOneStepHeight`. -/
def HasOneStepHeight (k : VrvDef) (b : BeamDrawingInterface) : Bool :=
  if b.m_shortestDur < k.DUR_32 then false
  else
    let r := stepHeightLoop b.m_beamElementCoords (-128) 128
    decide ((r.1 - r.2).natAbs ≤ 1)

/-- The `std::for_each` of `IsHorizontalMixedBeam`: `directionChanges` after the
directions, starting from `previous`. -/
def countDirectionChanges : List data_BEAMPLACE → data_BEAMPLACE → Nat → Nat
  | [], _, directionChanges => directionChanges
  | current :: rest, previous, directionChanges =>
    if current ≠ previous then countDirectionChanges rest current (directionChanges + 1)
    else countDirectionChanges rest previous directionChanges

/-- The map `beamDirections` of `IsHorizontalMixedBeam`: one counter per key. -/
structure BeamDirections where
  none : Nat := 0
  up : Nat := 0
  down : Nat := 0
deriving DecidableEq, Repr

/-- Model of `beamDirections[d]`. -/
def BeamDirections.get (m : BeamDirections) : data_STEMDIRECTION → Nat
  | data_STEMDIRECTION.NONE => m.none
  | data_STEMDIRECTION.up => m.up
  | data_STEMDIRECTION.down => m.down

/-- Model of `++beamDirections[d]`. -/
def BeamDirections.incr (m : BeamDirections) : data_STEMDIRECTION → BeamDirections
  | data_STEMDIRECTION.NONE => { m with none := m.none + 1 }
  | data_STEMDIRECTION.up => { m with up := m.up + 1 }
  | data_STEMDIRECTION.down => { m with down := m.down + 1 }

/-- The counting loop of `IsHorizontalMixedBeam` over `items[i]`, `directions[i]`. -/
def mixedBeamLoop (k : VrvDef) :
    List Int → List data_BEAMPLACE → Int → Int → BeamDirections → BeamDirections
  | item :: items, direction :: directions, previousTop, previousBottom, m =>
    if direction = data_BEAMPLACE.above then
      if previousTop = k.VRV_UNSET then mixedBeamLoop k items directions item previousBottom m
      else
        mixedBeamLoop k items directions previousTop previousBottom
          (m.incr (GetNoteDirection previousTop item))
    else if direction = data_BEAMPLACE.below then
      if previousBottom = k.VRV_UNSET then mixedBeamLoop k items directions previousTop item m
      else
        mixedBeamLoop k items directions previousTop previousBottom
          (m.incr (GetNoteDirection previousBottom item))
    else mixedBeamLoop k items directions previousTop previousBottom m
  | _, _, _, _, m => m

/-- Model of `BeamDrawingInterface::IsHorizontalMixedBeam(items, directions)`; `none` where
the code reads `front()` of an empty vector. -/
def IsHorizontalMixedBeam (k : VrvDef) (b : BeamDrawingInterface) (items : List Int)
    (directions : List data_BEAMPLACE) : Option Bool :=
  if items.length ≠ directions.length then some false
  else if items.length = 3 && b.m_crossStaffContent.isSome
      && (decide (directions.get? 0 = directions.get? 2)
        && decide (directions.get? 0 ≠ directions.get? 1)) then some true
  else
    match directions.head?, items.head?, items.getLast? with
    | some previous, some front, some back =>
      let directionChanges := countDirectionChanges directions previous 0
      if directionChanges ≤ 1 then some false
      else
        let outsidePitchDirection := GetNoteDirection front back
        let beamDirections := mixedBeamLoop k items directions k.VRV_UNSET k.VRV_UNSET {}
        some
          ([data_STEMDIRECTION.NONE, data_STEMDIRECTION.up, data_STEMDIRECTION.down].any
            (fun d =>
              if d = outsidePitchDirection then false
              else decide (beamDirections.get d > beamDirections.get outsidePitchDirection)))
    | _, _, _ => none

/-- The concave-shape loop of `IsHorizontal` over `items[1 .. itemCount - 2]`. -/
def concaveShape (place : data_BEAMPLACE) (items : List Int) (first last : Int) : Bool :=
  ((items.drop 1).dropLast).any (fun item =>
    if place = data_BEAMPLACE.above then decide (item ≥ first) && decide (item ≥ last)
    else if place = data_BEAMPLACE.below then decide (item ≤ first) && decide (item ≤ last)
    else false)

/-- The two-pitch branch of `IsHorizontal` (entered when `pitches.size() == 2`). -/
def twoPitchStep (place : data_BEAMPLACE) (items : List Int) (firstStep lastStep : Bool) : Bool :=
  if place = data_BEAMPLACE.above then
    if firstStep && std_is_sorted items then true
    else if lastStep && std_is_sorted items.reverse then true
    else false
  else
    if lastStep && std_is_sorted items then true
    else if firstStep && std_is_sorted items.reverse then true
    else false

/-- Model of `BeamDrawingInterface::IsHorizontal`; `none` only where `IsHorizontalMixedBeam`
is undefined. -/
def IsHorizontal (k : VrvDef) (b : BeamDrawingInterface) : Option Bool :=
  if IsRepeatedPattern k b then some true
  else if HasOneStepHeight k b then some true
  else if b.m_drawingPlace = data_BEAMPLACE.NONE then some true
  else
    let items := horizontalItems b
    let directions := horizontalDirections b
    if items.length < 2 then some true
    else
      let first := items.headD 0
      let last := items.getLastD 0
      if first = last then some true
      else
        match (if b.m_drawingPlace = data_BEAMPLACE.mixed then
            IsHorizontalMixedBeam k b items directions else some false) with
        | none => none
        | some true => some true
        | some false =>
          let firstStep := decide (first ≠ items.getD 1 0)
          let lastStep := decide (last ≠ items.getD (items.length - 2) 0)
          if decide (items.length > 2) && (firstStep || lastStep) then
            if concaveShape b.m_drawingPlace items first last then some true
            else if (std_unique_copy items).length = 2
                && twoPitchStep b.m_drawingPlace items firstStep lastStep then some true
            else some false
          else some false

/-- A usable coord whose closest note has drawing Y `y` and staff location `y`. -/
def anchorAt (y : Int) : BeamElementCoord :=
  { m_stem := true, m_closestNote := some { drawingY := y, drawingLoc := y } }

/-- A beam with the given drawing place whose coords are usable anchors at the
given drawing Y values. -/
def beamOf (place : data_BEAMPLACE) (ys : List Int) : BeamDrawingInterface :=
  { m_drawingPlace := place, m_beamElementCoords := ys.map anchorAt }

/-! ### InitCoords and InitCue -/

/-- Model of `BeamDrawingInterface::Reset`: every member it assigns gets its reset
value; the coords are not touched. -/
def BeamDrawingInterface.Reset (b : BeamDrawingInterface) : BeamDrawingInterface :=
  { m_beamElementCoords := b.m_beamElementCoords }

/-- Model of `BeamDrawingInterface::ClearCoords`: the coords are deleted and the
array is cleared. -/
def ClearCoords (b : BeamDrawingInterface) : BeamDrawingInterface :=
  { b with m_beamElementCoords := [] }

/-- Assignment through `m_beamElementCoords.at(i)`: the coord at index `i` is
replaced by `f` of it. -/
def updateCoord (f : BeamElementCoord → BeamElementCoord) :
    List BeamElementCoord → Nat → List BeamElementCoord
  | [], _ => []
  | coord :: rest, 0 => f coord :: rest
  | coord :: rest, i + 1 => coord :: updateCoord f rest i

/-- The cross-staff test on a chord note: `note->m_crossStaff` is non-null and
differs from `m_beamStaff`. -/
def ChordNote.crossOther (note : ChordNote) (beamStaff : Option Ref) : Bool :=
  note.m_crossStaff.isSome && decide (note.m_crossStaff ≠ beamStaff)

/-- The cross-staff part of the body of the loop of `InitCoords`, for one chord
note of the `for` over `{ GetTopNote(), GetBottomNote() }`. -/
def crossStaffOfNote (b : BeamDrawingInterface) (note : ChordNote) : BeamDrawingInterface :=
  if note.crossOther b.m_beamStaff then
    { b with m_crossStaffContent := note.m_crossStaff, m_crossStaffRel := note.crossStaffRel }
  else b

/-- First statement of the loop body of `InitCoords`:
`if (current->Is(CHORD)) m_beamHasChord = true`. -/
def markChord (b : BeamDrawingInterface) (current : LayerElement) : BeamDrawingInterface :=
  if current.classId = ClassId.CHORD then { b with m_beamHasChord := true } else b

/-- The assignments of `m_element`, `m_dur` and `m_breaksec = 0` to the coord at
`elementCount`. -/
def fillCoord (b : BeamDrawingInterface) (elementCount : Nat) (current : LayerElement)
    (currentDur : Int) : BeamDrawingInterface :=
  { b with
    m_beamElementCoords :=
      updateCoord
        (fun coord =>
          { coord with m_element := some current, m_dur := currentDur, m_breaksec := 0 })
        b.m_beamElementCoords elementCount }

/-- The look at beam breaks: an element with a secondary beam break sets
`m_changingDur` and stores the break in its coord. -/
def beamBreak (b : BeamDrawingInterface) (elementCount : Nat) (current : LayerElement) :
    BeamDrawingInterface :=
  match current.breaksec with
  | some breaksec =>
    { b with
      m_changingDur := true
      m_beamElementCoords :=
        updateCoord (fun coord => { coord with m_breaksec := breaksec })
          b.m_beamElementCoords elementCount }
  | none => b

/-- The cross-staff part of the loop body: the staff of the element when it is
another staff than the beam staff, else for a chord its top and then its bottom
note. -/
def crossStaffStep (b : BeamDrawingInterface) (current : LayerElement) : BeamDrawingInterface :=
  if current.crossStaff.isSome && decide (current.crossStaff ≠ b.m_beamStaff) then
    { b with m_crossStaffContent := current.crossStaff,
             m_crossStaffRel := current.crossStaffRel }
  else if current.classId = ClassId.CHORD then
    crossStaffOfNote (crossStaffOfNote b current.topNote) current.bottomNote
  else b

/-- The stem-direction part of the loop body, for chords and notes. -/
def stemDirStep (b : BeamDrawingInterface) (current : LayerElement) : BeamDrawingInterface :=
  if current.classId = ClassId.CHORD ∨ current.classId = ClassId.NOTE then
    if b.m_hasMultipleStemDir = false then
      if current.stemDir ≠ data_STEMDIRECTION.NONE then
        if b.m_notesStemDir ≠ data_STEMDIRECTION.NONE ∧ b.m_notesStemDir ≠ current.stemDir then
          { b with m_hasMultipleStemDir := true, m_notesStemDir := data_STEMDIRECTION.NONE }
        else { b with m_notesStemDir := current.stemDir }
      else b
    else b
  else b

/-- The shortest-duration part of the loop body, for chords, notes and tab
groups: `m_shortestDur = std::max(currentDur, m_shortestDur)`. -/
def shortestDurStep (b : BeamDrawingInterface) (current : LayerElement) (currentDur : Int) :
    BeamDrawingInterface :=
  if current.classId = ClassId.CHORD ∨ current.classId = ClassId.NOTE
      ∨ current.classId = ClassId.TABGRP then
    { b with m_shortestDur := max currentDur b.m_shortestDur }
  else b

/-- The check for more than one duration in the beam:
`if (!m_changingDur && currentDur != lastDur) m_changingDur = true`. -/
def changingDurStep (b : BeamDrawingInterface) (currentDur lastDur : Int) :
    BeamDrawingInterface :=
  if b.m_changingDur = false ∧ currentDur ≠ lastDur then { b with m_changingDur := true } else b

/-- The body of the `do` loop of `InitCoords` for the element `current`, whose
actual duration is `currentDur`, at index `elementCount`; `lastDur` is the
duration of the element before. -/
def initCoordsElement (b : BeamDrawingInterface) (lastDur : Int) (elementCount : Nat)
    (current : LayerElement) (currentDur : Int) : BeamDrawingInterface :=
  let b1 := markChord b current
  let b2 := fillCoord b1 elementCount current currentDur
  let b3 := beamBreak b2 elementCount current
  let b4 := crossStaffStep b3 current
  let b5 := stemDirStep b4 current
  let b6 := shortestDurStep b5 current currentDur
  changingDurStep b6 currentDur lastDur

/-- The `do` loop of `InitCoords` from the element `current` on; the last argument
holds the objects after it (`none` for an object that is not a `LayerElement`).
The assertion on the duration interface fails with `none`; an object that is not
a layer element ends the function with the state reached. -/
def initCoordsLoop : BeamDrawingInterface → Int → Nat → LayerElement →
    List (Option LayerElement) → Option BeamDrawingInterface
  | b, lastDur, elementCount, current, [] =>
    match current.actualDur with
    | none => none
    | some currentDur => some (initCoordsElement b lastDur elementCount current currentDur)
  | b, lastDur, elementCount, current, none :: _ =>
    match current.actualDur with
    | none => none
    | some currentDur => some (initCoordsElement b lastDur elementCount current currentDur)
  | b, lastDur, elementCount, current, some next :: rest =>
    match current.actualDur with
    | none => none
    | some currentDur =>
      initCoordsLoop (initCoordsElement b lastDur elementCount current currentDur) currentDur
        (elementCount + 1) next rest

/-- Model of `BeamDrawingInterface::InitCoords(childList, staff, place)`; the objects
of `childList` are given as `some` layer element or `none` (the cast to
`LayerElement` fails).  The result is `none` where the code dereferences a null
pointer or an assertion fails. -/
def InitCoords (b : BeamDrawingInterface) (childList : List (Option LayerElement))
    (staff : Ref) (place : data_BEAMPLACE) : Option BeamDrawingInterface :=
  let b1 := ClearCoords b.Reset
  match childList with
  | [] => some b1
  | none :: _ => none
  | some current :: rest =>
    match current.actualDur with
    | none => none
    | some lastDur =>
      let b2 : BeamDrawingInterface :=
        { b1 with
          m_beamStaff := some staff
          m_beamElementCoords := List.replicate childList.length {} }
      initCoordsLoop b2 lastDur 0 current rest

/-- Model of `BeamDrawingInterface::InitCue(beamCue)`. -/
def InitCue (b : BeamDrawingInterface) (beamCue : Bool) : BeamDrawingInterface :=
  let cueSize : Bool :=
    if beamCue then beamCue
    else
      b.m_beamElementCoords.all (fun coord =>
        match coord.m_element with
        | none => false
        | some element => element.isGraceNote || element.drawingCueSize)
  let b1 : BeamDrawingInterface := { b with m_cueSize := cueSize }
  if b1.m_cueSize = true ∧ b1.m_notesStemDir = data_STEMDIRECTION.NONE then
    { b1 with m_notesStemDir := data_STEMDIRECTION.up }
  else b1

/-! ### GetBeamOverflow -/

/-- Model of `BeamDrawingInterface::GetBeamOverflow(above, below)`: the two
reference parameters go in and come out as a pair.  `GetAlignment` gives the
staff alignment of a staff (`none` is `NULL`). -/
def GetBeamOverflow (b : BeamDrawingInterface) (GetAlignment : Ref → Option Ref)
    (above below : Option Ref) : Option Ref × Option Ref :=
  match b.m_beamStaff, b.m_crossStaffContent with
  | some beamStaff, some crossStaffContent =>
    if b.m_drawingPlace = data_BEAMPLACE.mixed then (none, none)
    else if b.m_drawingPlace = data_BEAMPLACE.below then
      if b.m_crossStaffRel = data_STAFFREL_basic.above then (none, GetAlignment beamStaff)
      else (none, GetAlignment crossStaffContent)
    else if b.m_drawingPlace = data_BEAMPLACE.above then
      if b.m_crossStaffRel = data_STAFFREL_basic.below then (GetAlignment beamStaff, none)
      else (GetAlignment crossStaffContent, none)
    else (above, below)
  | _, _ => (above, below)

/-- Model of `BeamDrawingInterface::GetBeamChildOverflow(above, below)`. -/
def GetBeamChildOverflow (b : BeamDrawingInterface) (GetAlignment : Ref → Option Ref)
    (above below : Option Ref) : Option Ref × Option Ref :=
  match b.m_beamStaff, b.m_crossStaffContent with
  | some beamStaff, some crossStaffContent =>
    if b.m_crossStaffRel = data_STAFFREL_basic.above then
      (GetAlignment crossStaffContent, GetAlignment beamStaff)
    else (GetAlignment beamStaff, GetAlignment crossStaffContent)
  | _, _ => (above, below)

/-! ## Tuplet (tuplet.cpp) -/

/-- An element of the tuplet's list (`GetList(this)`), as far as
`CalcDrawingBracketAndNumPos` tells elements apart: a chord with its drawing
stem direction, a note with the result of `IsChordTone()` (non-null or null) and
its drawing stem direction, or anything else (a rest, a space, ...). -/
inductive TupletListElement where
  | chord (drawingStemDir : data_STEMDIRECTION)
  | note (isChordTone : Bool) (drawingStemDir : data_STEMDIRECTION)
  | other
deriving DecidableEq, Repr

/-- Enumeration `data_BOOLEAN`. -/
inductive data_BOOLEAN where
  | NONE | true | false
deriving DecidableEq, Repr

/-- What the tuplet code reads from a `Beam`: its drawing place and the members
`m_startingX`, `m_startingY`, `m_beamSlope` of its `m_beamSegment`.  The slope is
only compared with 0 here. -/
structure Beam where
  m_drawingPlace : data_BEAMPLACE := data_BEAMPLACE.NONE
  m_startingX : Int := 0
  m_startingY : Int := 0
  m_beamSlope : Rat := 0
deriving DecidableEq, Repr

/-- A `TupletBracket`: its relative Y (`GetDrawingYRel`, `SetDrawingYRel`) and the
top and bottom of its own bounding box. -/
structure TupletBracket where
  drawingYRel : Int := 0
  selfTop : Int := 0
  selfBottom : Int := 0
  /-- The value set by `SetDrawingXRelLeft`. -/
  drawingXRelLeft : Int := 0
  /-- The value set by `SetDrawingXRelRight`. -/
  drawingXRelRight : Int := 0
deriving DecidableEq, Repr

/-- What a `TupletBracket*` held by a tuplet number points to: the bracket of the
tuplet itself, that is the object `FindDescendantByType(TUPLET_BRACKET)` returns
(the only pointer `AdjustTupletsX` stores), whose fields are read from the tuplet
at the time of the read; or another bracket, which no function here writes. -/
inductive BracketPtr where
  | ownBracket
  | otherBracket (bracket : TupletBracket)
deriving DecidableEq, Repr

/-- A `TupletNum`: its cross staff and cross layer, its relative Y, and the pointer
`GetAlignedBracket()` returns (`none` is `NULL`). -/
structure TupletNum where
  m_crossStaff : Option Ref := none
  m_crossLayer : Option Ref := none
  drawingYRel : Int := 0
  alignedBracket : Option BracketPtr := none
deriving DecidableEq, Repr

/-- A descendant of the tuplet, with what the tuplet code reads from it. -/
structure Descendant where
  classId : ClassId := ClassId.NOTE
  /-- Value of `HasSelfBB()`. -/
  hasSelfBB : Bool := false
  selfTop : Int := 0
  selfBottom : Int := 0
  selfLeft : Int := 0
  selfRight : Int := 0
  /-- Whether `GetFirstAncestor(BEAM)` is non-null. -/
  hasBeamAncestor : Bool := false
  m_crossStaff : Option Ref := none
  m_crossLayer : Option Ref := none
deriving DecidableEq, Repr

/-- What `GetDrawingLeftRightXRel` reads from the element `m_drawingLeft` or
`m_drawingRight` points to: its class, its drawing X, for a chord `GetXMin()` and
`GetXMax()`, its `GetDrawingRadius(doc)` and its `GetSelfX2()`. -/
structure DrawingEnd where
  classId : ClassId := ClassId.NOTE
  drawingX : Int := 0
  xMin : Int := 0
  xMax : Int := 0
  drawingRadius : Int := 0
  selfX2 : Int := 0
deriving DecidableEq, Repr

/-- The members of `Tuplet` read or written by the functions modelled here: the
attributes `bracket.place`, `num.place`, `bracket.visible`, `num.visible` (`NONE`
when absent), the drawing positions, the tuplet's list, its cross staff and
layer, the aligned beams, its children, and what the tree searches return: the
descendants in document order, the bracket and number found by
`FindDescendantByType`, and the staff found by `GetFirstAncestor(STAFF)`. -/
structure Tuplet where
  m_bracketPlace : data_STAFFREL_basic := data_STAFFREL_basic.NONE
  m_numPlace : data_STAFFREL_basic := data_STAFFREL_basic.NONE
  m_drawingBracketPos : data_STAFFREL_basic := data_STAFFREL_basic.NONE
  m_drawingNumPos : data_STAFFREL_basic := data_STAFFREL_basic.NONE
  list : List TupletListElement := []
  m_bracketVisible : data_BOOLEAN := data_BOOLEAN.NONE
  m_numVisible : data_BOOLEAN := data_BOOLEAN.NONE
  m_crossStaff : Option Ref := none
  m_crossLayer : Option Ref := none
  m_bracketAlignedBeam : Option Beam := none
  m_numAlignedBeam : Option Beam := none
  m_children : List Ref := []
  /-- The flag set by `Modify()`. -/
  m_isModified : Bool := false
  descendants : List Descendant := []
  tupletBracket : Option TupletBracket := none
  tupletNum : Option TupletNum := none
  staffAncestor : Option Ref := none
  /-- Value of `HasNum()`. -/
  hasNum : Bool := true
  m_drawingLeft : Option DrawingEnd := none
  m_drawingRight : Option DrawingEnd := none
  /-- The beam `GetFirstAncestor(BEAM, MAX_BEAM_DEPTH)` returns (`none` is `NULL`). -/
  beamParent : Option Beam := none
  /-- The beam `FindDescendantByType(BEAM)` returns (`none` is `NULL`). -/
  beamChild : Option Beam := none
deriving Repr

/-- The bracket a `TupletBracket*` points to, as it is when the pointer is read;
`none` when the pointer is to the tuplet's bracket and the tuplet has none. -/
def Tuplet.bracketAt (t : Tuplet) : BracketPtr → Option TupletBracket
  | BracketPtr.ownBracket => t.tupletBracket
  | BracketPtr.otherBracket bracket => some bracket

/-- Model of `HasBracketPlace()`: libmei's generated test, the attribute differs from its
`NONE` value (the pattern of `atts_externalsymbols.cpp`). -/
def Tuplet.HasBracketPlace (t : Tuplet) : Bool :=
  t.m_bracketPlace != data_STAFFREL_basic.NONE

/-- Model of `HasNumPlace()`, generated like `HasBracketPlace`. -/
def Tuplet.HasNumPlace (t : Tuplet) : Bool :=
  t.m_numPlace != data_STAFFREL_basic.NONE

/-- The stem-counting loop of `CalcDrawingBracketAndNumPos`: `(ups, downs)` after
the list. -/
def countStemDirs : List TupletListElement → Nat → Nat → Nat × Nat
  | [], ups, downs => (ups, downs)
  | TupletListElement.chord dir :: rest, ups, downs =>
    if dir = data_STEMDIRECTION.up then countStemDirs rest (ups + 1) downs
    else countStemDirs rest ups (downs + 1)
  | TupletListElement.note isChordTone dir :: rest, ups, downs =>
    let ups1 := if !isChordTone && decide (dir = data_STEMDIRECTION.up) then ups + 1 else ups
    let downs1 :=
      if !isChordTone && decide (dir = data_STEMDIRECTION.down) then downs + 1 else downs
    countStemDirs rest ups1 downs1
  | TupletListElement.other :: rest, ups, downs => countStemDirs rest ups downs

/-- Model of `Tuplet::CalcDrawingBracketAndNumPos(tupletNumHead)`. -/
def CalcDrawingBracketAndNumPos (t : Tuplet) (tupletNumHead : Bool) : Tuplet :=
  let bracketPos0 :=
    if t.HasBracketPlace then t.m_bracketPlace else data_STAFFREL_basic.NONE
  let numPos0 := if t.HasNumPlace then t.m_numPlace else bracketPos0
  if bracketPos0 ≠ data_STAFFREL_basic.NONE then
    { t with m_drawingBracketPos := bracketPos0, m_drawingNumPos := numPos0 }
  else
    let counts := countStemDirs t.list 0 0
    let bracketPos1 :=
      if counts.1 > counts.2 then data_STAFFREL_basic.above else data_STAFFREL_basic.below
    let bracketPos2 :=
      if tupletNumHead then
        (if bracketPos1 = data_STAFFREL_basic.below then data_STAFFREL_basic.above
          else data_STAFFREL_basic.below)
      else bracketPos1
    let numPos1 := if numPos0 = data_STAFFREL_basic.NONE then bracketPos2 else numPos0
    { t with m_drawingBracketPos := bracketPos2, m_drawingNumPos := numPos1 }

/-! ### Children -/

/-- An object given to `AddChild`: its class, the result of
`IsEditorialElement()`, and its parent pointer. -/
structure TreeObject where
  classId : ClassId := ClassId.OTHER
  isEditorialElement : Bool := false
  m_parent : Option Ref := none
deriving DecidableEq, Repr

/-- Model of `Tuplet::IsSupportedChild(child)`; the assertions on the dynamic type
hold for every object of the class tested. -/
def IsSupportedChild (child : TreeObject) : Bool :=
  if child.classId = ClassId.BEAM then true
  else if child.classId = ClassId.TUPLET_BRACKET then true
  else if child.classId = ClassId.BTREM then true
  else if child.classId = ClassId.CHORD then true
  else if child.classId = ClassId.CLEF then true
  else if child.classId = ClassId.FTREM then true
  else if child.classId = ClassId.NOTE then true
  else if child.classId = ClassId.TUPLET_NUM then true
  else if child.classId = ClassId.REST then true
  else if child.classId = ClassId.SPACE then true
  else if child.classId = ClassId.TUPLET then true
  else if child.isEditorialElement then true
  else false

/-- Model of `Tuplet::AddChild(child)` for the tuplet at address `self`: `tree`
holds the objects, `child` is the address of the child.  `SetParent` assigns the
parent pointer and `Modify` sets the flag of the tuplet. -/
def AddChild (tree : Ref → TreeObject) (t : Tuplet) (self child : Ref) :
    (Ref → TreeObject) × Tuplet :=
  if !IsSupportedChild (tree child) then (tree, t)
  else
    let tree1 := Function.update tree child { tree child with m_parent := some self }
    let children :=
      if (tree1 child).classId = ClassId.TUPLET_BRACKET
          ∨ (tree1 child).classId = ClassId.TUPLET_NUM then
        child :: t.m_children
      else t.m_children ++ [child]
    (tree1, { t with m_children := children, m_isModified := true })

/-! ### Vertical adjustment -/

/-- What the vertical adjustment takes from outside the three source files: the
units of the `Doc`, the drawing Y and the number `n` of the staves, the Y of a beam
at an X (the `int` made from `m_startingY + m_beamSlope * (x - m_startingX)`, which
the code computes in `double`), the drawing Y and the middle X of the tuplet
number, and the `m_yRel` left by processing `Object::AdjustTupletNumOverlap`
(given the tuplet, the number, its staff, the horizontal margin and the start
value of `m_yRel`). -/
structure Layout where
  GetDrawingUnit : Int → Int
  GetDrawingDoubleUnit : Int → Int
  GetDrawingStaffSize : Int → Int
  staffDrawingY : Ref → Int
  staffN : Ref → Int
  beamYAt : Beam → Int → Int
  numDrawingY : TupletNum → Int
  numDrawingXMid : TupletNum → Int
  overlapYRel : Tuplet → TupletNum → Ref → Int → Int → Int

/-- Model of `FindAllDescendantsByComparison` with a `ClassIdsComparison`: the
descendants of one of the classes, in document order. -/
def Tuplet.FindAllDescendantsByComparison (t : Tuplet) (classIds : List ClassId) :
    List Descendant :=
  t.descendants.filter (fun d => decide (d.classId ∈ classIds))

/-- The loop of `AdjustTupletBracketY` over the articulations: `articPadding` after
the list. -/
def articPaddingLoop (layout : Layout) (beam : Beam) (pos : data_STAFFREL_basic) :
    List Descendant → Int → Int
  | [], articPadding => articPadding
  | artic :: rest, articPadding =>
    if !artic.hasSelfBB then articPaddingLoop layout beam pos rest articPadding
    else if pos = data_STAFFREL_basic.above then
      let relevantX := if beam.m_beamSlope > 0 then artic.selfLeft else artic.selfRight
      let currentYRel := layout.beamYAt beam relevantX
      let articYRel := artic.selfTop
      articPaddingLoop layout beam pos rest (min (currentYRel - articYRel) articPadding)
    else
      let relevantX := if beam.m_beamSlope > 0 then artic.selfRight else artic.selfLeft
      let currentYRel := layout.beamYAt beam relevantX
      let articYRel := artic.selfBottom
      articPaddingLoop layout beam pos rest (max (currentYRel - articYRel) articPadding)

/-- The loop of `AdjustTupletBracketY` over the rests: `restAdjust` after the
list. -/
def restAdjustLoop (pos : data_STAFFREL_basic) (bracketPosition : Int) :
    List Descendant → Int → Int
  | [], restAdjust => restAdjust
  | descendant :: rest, restAdjust =>
    if descendant.hasBeamAncestor || !descendant.hasSelfBB then
      restAdjustLoop pos bracketPosition rest restAdjust
    else if pos = data_STAFFREL_basic.above then
      if bracketPosition < descendant.selfTop then
        let verticalShift := descendant.selfTop - bracketPosition
        if restAdjust = 0 ∨ restAdjust < verticalShift then
          restAdjustLoop pos bracketPosition rest verticalShift
        else restAdjustLoop pos bracketPosition rest restAdjust
      else restAdjustLoop pos bracketPosition rest restAdjust
    else
      if bracketPosition > descendant.selfBottom then
        let verticalShift := descendant.selfBottom - bracketPosition
        if restAdjust = 0 ∨ restAdjust > verticalShift then
          restAdjustLoop pos bracketPosition rest verticalShift
        else restAdjustLoop pos bracketPosition rest restAdjust
      else restAdjustLoop pos bracketPosition rest restAdjust

/-- The staff-line part of `AdjustTupletBracketY`: the vertical margin after the
test for a horizontal beam; `none` where `%` divides by zero. -/
def staffLineNudge (beam : Beam) (yReference doubleUnit staffHeight bracketVerticalMargin : Int) :
    Option Int :=
  if beam.m_beamSlope = 0 then
    if beam.m_startingY < yReference ∧ beam.m_startingY > yReference - staffHeight then
      if doubleUnit = 0 then none
      else if Int.tmod beam.m_startingY doubleUnit = 0 then
        some (bracketVerticalMargin + Int.tdiv doubleUnit 4)
      else some bracketVerticalMargin
    else some bracketVerticalMargin
  else some bracketVerticalMargin

/-- The loop of `AdjustTupletBracketY` without a beam: `yRel` after the
descendants. -/
def contentLoop (pos : data_STAFFREL_basic) (yReference : Int) : List Descendant → Int → Int
  | [], yRel => yRel
  | descendant :: rest, yRel =>
    if !descendant.hasSelfBB then contentLoop pos yReference rest yRel
    else if pos = data_STAFFREL_basic.above then
      let dist := descendant.selfTop - yReference
      contentLoop pos yReference rest (if yRel < dist then dist else yRel)
    else
      let dist := descendant.selfBottom - yReference
      contentLoop pos yReference rest (if yRel > dist then dist else yRel)

/-- Model of `Tuplet::AdjustTupletBracketY(doc, staff, staffSize)`; `none` where the
code divides by zero. -/
def AdjustTupletBracketY (layout : Layout) (t : Tuplet) (staff : Ref) (staffSize : Int) :
    Option Tuplet :=
  match t.tupletBracket with
  | none => some t
  | some tupletBracket =>
    if t.m_bracketVisible = data_BOOLEAN.false then some t
    else
      let yReference := layout.staffDrawingY staff
      let doubleUnit := layout.GetDrawingDoubleUnit staffSize
      let bracketVerticalMargin :=
        doubleUnit * (if t.m_drawingBracketPos = data_STAFFREL_basic.above then 1 else -1)
      match t.m_bracketAlignedBeam with
      | some beam =>
        let artics := t.FindAllDescendantsByComparison [ClassId.ARTIC]
        let articPadding := articPaddingLoop layout beam t.m_drawingBracketPos artics 0
        let descendants := t.FindAllDescendantsByComparison [ClassId.REST]
        let bracketRel := tupletBracket.drawingYRel - articPadding + bracketVerticalMargin
        let bracketPosition :=
          Int.tdiv (tupletBracket.selfTop + tupletBracket.selfBottom + bracketRel) 2
        let restAdjust := restAdjustLoop t.m_drawingBracketPos bracketPosition descendants 0
        let bracketVerticalMargin1 :=
          if restAdjust ≠ 0 then bracketVerticalMargin + restAdjust else bracketVerticalMargin
        match staffLineNudge beam yReference doubleUnit (layout.GetDrawingStaffSize staffSize)
            bracketVerticalMargin1 with
        | none => none
        | some bracketVerticalMargin2 =>
          some { t with
            tupletBracket := some { tupletBracket with
              drawingYRel := tupletBracket.drawingYRel - articPadding + bracketVerticalMargin2 } }
      | none =>
        let yRel0 :=
          if t.m_drawingBracketPos = data_STAFFREL_basic.above then 0
          else -(layout.GetDrawingStaffSize staffSize)
        let descendants :=
          t.FindAllDescendantsByComparison
            [ClassId.ARTIC, ClassId.ACCID, ClassId.BEAM, ClassId.DOT, ClassId.FLAG, ClassId.NOTE,
              ClassId.REST, ClassId.STEM]
        let yRel := contentLoop t.m_drawingBracketPos yReference descendants yRel0
        some { t with
          tupletBracket := some { tupletBracket with
            drawingYRel := tupletBracket.drawingYRel + yRel + bracketVerticalMargin } }

/-- Model of `Tuplet::HasValidTupletNumPosition(preferredStaff, otherStaff)`. -/
def HasValidTupletNumPosition (layout : Layout) (t : Tuplet) (preferredStaff otherStaff : Ref) :
    Bool :=
  match t.m_numAlignedBeam with
  | none => true
  | some beam =>
    if beam.m_drawingPlace = data_BEAMPLACE.mixed then false
    else if layout.staffN preferredStaff < layout.staffN otherStaff then
      if beam.m_drawingPlace = data_BEAMPLACE.below
          ∧ t.m_drawingNumPos = data_STAFFREL_basic.below then false
      else true
    else
      if beam.m_drawingPlace = data_BEAMPLACE.above
          ∧ t.m_drawingNumPos = data_STAFFREL_basic.above then false
      else true

/-- The loop of `CalculateTupletNumCrossStaff` over the descendants:
`(crossStaff, crossLayer, crossStaffCount)` when it ends or breaks. -/
def crossStaffLoop : List Descendant → Option Ref → Option Ref → Nat →
    Option Ref × Option Ref × Nat
  | [], crossStaff, crossLayer, crossStaffCount => (crossStaff, crossLayer, crossStaffCount)
  | durElement :: rest, crossStaff, crossLayer, crossStaffCount =>
    if crossStaff.isSome && durElement.m_crossStaff.isSome
        && decide (durElement.m_crossStaff ≠ crossStaff) then
      (none, crossLayer, crossStaffCount)
    else if durElement.m_crossStaff.isSome then
      crossStaffLoop rest durElement.m_crossStaff durElement.m_crossLayer (crossStaffCount + 1)
    else crossStaffLoop rest crossStaff crossLayer crossStaffCount

/-- Model of `Tuplet::CalculateTupletNumCrossStaff(layerElement)`, the element being
the tuplet number; `none` where the assertion on the staff ancestor fails. -/
def CalculateTupletNumCrossStaff (layout : Layout) (t : Tuplet) (layerElement : TupletNum) :
    Option TupletNum :=
  if t.m_crossStaff.isSome then
    some { layerElement with m_crossStaff := t.m_crossStaff, m_crossLayer := t.m_crossLayer }
  else
    match t.staffAncestor with
    | none => none
    | some staff =>
      let descendants :=
        t.FindAllDescendantsByComparison [ClassId.CHORD, ClassId.NOTE, ClassId.REST]
      let r := crossStaffLoop descendants none none 0
      match r.1 with
      | none => some layerElement
      | some crossStaff =>
        let descendantCount := descendants.length
        let isMostlyCrossStaff : Bool := decide (r.2.2 > descendantCount / 2)
        if (isMostlyCrossStaff && HasValidTupletNumPosition layout t crossStaff staff)
            || (!isMostlyCrossStaff && !HasValidTupletNumPosition layout t staff crossStaff) then
          some { layerElement with m_crossStaff := some crossStaff, m_crossLayer := r.2.1 }
        else some layerElement

/-- Model of `Tuplet::AdjustTupletNumY(doc, staff, staffSize)`; the aligned bracket is
read through the pointer, so it is the bracket as `AdjustTupletBracketY` left
it. -/
def AdjustTupletNumY (layout : Layout) (t : Tuplet) (staff : Ref) (staffSize : Int) :
    Option Tuplet :=
  match t.tupletNum with
  | none => some t
  | some tupletNum0 =>
    if t.m_numVisible = data_BOOLEAN.false then some t
    else
      match CalculateTupletNumCrossStaff layout t tupletNum0 with
      | none => none
      | some tupletNum =>
        let tupletNumStaff :=
          match tupletNum.m_crossStaff with
          | some crossStaff => crossStaff
          | none => staff
        let yReference := layout.staffDrawingY tupletNumStaff
        let doubleUnit := layout.GetDrawingDoubleUnit staffSize
        match tupletNum.alignedBracket with
        | some alignedBracket =>
          match t.bracketAt alignedBracket with
          | none => none
          | some bracket =>
            some { t with tupletNum := some { tupletNum with drawingYRel := bracket.drawingYRel } }
        | none =>
          let numVerticalMargin :=
            if t.m_drawingNumPos = data_STAFFREL_basic.above then doubleUnit else -doubleUnit
          let staffHeight := layout.GetDrawingStaffSize staffSize
          let adjustedPosition :=
            if t.m_drawingNumPos = data_STAFFREL_basic.above then 0 else -staffHeight
          let tupletNum1 : TupletNum :=
            match t.m_numAlignedBeam with
            | none => { tupletNum with drawingYRel := adjustedPosition }
            | some _ => tupletNum
          let m_yRel :=
            layout.overlapYRel { t with tupletNum := some tupletNum1 } tupletNum1 tupletNumStaff
              (2 * layout.GetDrawingUnit staffSize) (layout.numDrawingY tupletNum1)
          let yRel0 := m_yRel - yReference
          let yRel1 :=
            match t.m_numAlignedBeam with
            | some beam =>
              if t.m_crossStaff.isNone
                  && !(t.descendants.any (fun d => decide (d.classId = ClassId.ARTIC))) then
                let xMid := layout.numDrawingXMid tupletNum1
                let yMid := layout.beamYAt beam xMid
                let beamYRel := yMid - yReference + numVerticalMargin
                if (t.m_drawingNumPos = data_STAFFREL_basic.above ∧ beamYRel > 0)
                    ∨ (t.m_drawingNumPos = data_STAFFREL_basic.below ∧ beamYRel < -staffHeight)
                then beamYRel else yRel0
              else yRel0 + numVerticalMargin
            | none => yRel0 + numVerticalMargin
          let yRel2 :=
            if (t.m_drawingNumPos = data_STAFFREL_basic.below ∧ yRel1 > adjustedPosition)
                ∨ (t.m_drawingNumPos = data_STAFFREL_basic.above ∧ yRel1 < adjustedPosition)
            then adjustedPosition else yRel1
          some { t with tupletNum := some { tupletNum1 with drawingYRel := yRel2 } }

/-! ### Horizontal adjustment -/

/-- Model of `GetChildCount(classId)`: the number of children of the class. -/
def Tuplet.GetChildCount (tree : Ref → TreeObject) (t : Tuplet) (classId : ClassId) : Nat :=
  (t.m_children.filter (fun child => decide ((tree child).classId = classId))).length

/-- Model of `Tuplet::GetDrawingLeftRightXRel(XRelLeft, XRelRight, doc)`: the two
outputs, `none` where an assertion fails. -/
def GetDrawingLeftRightXRel (t : Tuplet) : Option (Int × Int) :=
  match t.m_drawingLeft, t.m_drawingRight with
  | some left, some right =>
    let XRelLeft : Int := if left.classId = ClassId.CHORD then left.xMin - left.drawingX else 0
    let XRelRight : Int :=
      if right.classId = ClassId.NOTE then 0 + 2 * right.drawingRadius
      else if right.classId = ClassId.REST then 0 + right.selfX2
      else if right.classId = ClassId.CHORD then
        right.xMax - right.drawingX + 2 * right.drawingRadius
      else 0
    some (XRelLeft, XRelRight)
  | _, _ => none

/-- The two tests of `AdjustTupletsX` that cancel the alignment with a beam whose
place and the position `pos` are not concordant. -/
def cancelAlignment (beam : Option Beam) (pos : data_STAFFREL_basic) : Option Beam :=
  match beam with
  | some b =>
    if b.m_drawingPlace = data_BEAMPLACE.above ∧ pos = data_STAFFREL_basic.below then none
    else if b.m_drawingPlace = data_BEAMPLACE.below ∧ pos = data_STAFFREL_basic.above then none
    else some b
  | none => none

/-- Model of `Tuplet::AdjustTupletsX`; every return gives `FUNCTOR_SIBLINGS`, so only
the tuplet is returned.  `none` where the assertion on the bracket position
fails. -/
def AdjustTupletsX (tree : Ref → TreeObject) (t : Tuplet) : Option Tuplet :=
  if !t.hasNum then some t
  else if t.m_bracketVisible = data_BOOLEAN.false ∧ t.m_numVisible = data_BOOLEAN.false then
    some t
  else if t.m_drawingLeft.isNone || t.m_drawingRight.isNone then some t
  else if t.m_drawingBracketPos = data_STAFFREL_basic.NONE then none
  else
    let bracketAlignedBeam0 :=
      match t.beamParent with
      | some beamParent => some beamParent
      | none => t.m_bracketAlignedBeam
    let bracketAlignedBeam1 :=
      match t.beamChild with
      | some beamChild =>
        if t.GetChildCount tree ClassId.NOTE = 0 ∧ t.GetChildCount tree ClassId.CHORD = 0
            ∧ t.GetChildCount tree ClassId.BEAM = 1 then some beamChild
        else bracketAlignedBeam0
      | none => bracketAlignedBeam0
    let numAlignedBeam0 := bracketAlignedBeam1
    let bracketAlignedBeam2 := cancelAlignment bracketAlignedBeam1 t.m_drawingBracketPos
    let numAlignedBeam1 := cancelAlignment numAlignedBeam0 t.m_drawingNumPos
    match GetDrawingLeftRightXRel t with
    | none => none
    | some (XRelLeft, XRelRight) =>
      let tupletBracket : Option TupletBracket :=
        match t.tupletBracket with
        | some bracket =>
          if t.m_bracketVisible ≠ data_BOOLEAN.false then
            some { bracket with drawingXRelLeft := XRelLeft, drawingXRelRight := XRelRight }
          else some bracket
        | none => none
      let tupletNum : Option TupletNum :=
        match t.tupletNum with
        | some num =>
          if t.m_numVisible ≠ data_BOOLEAN.false then
            if tupletBracket.isSome ∧ t.m_drawingNumPos = t.m_drawingBracketPos then
              some { num with alignedBracket := some BracketPtr.ownBracket }
            else some { num with alignedBracket := none }
          else some num
        | none => none
      some { t with
        m_bracketAlignedBeam := bracketAlignedBeam2
        m_numAlignedBeam := numAlignedBeam1
        tupletBracket := tupletBracket
        tupletNum := tupletNum }

/-! ## Notions used to state the properties -/

/-- The note at `b` lies exactly one diatonic step above the note at `a`. -/
def stepUp (objects : Objects) (a b : Ref) : Bool :=
  decide (pitchOf objects b - pitchOf objects a = 1)

/-- The member vectors of the chord's clusters, in the order of `m_clusters`. -/
def clusterMembers (ch : Chord) : List (List Ref) :=
  ch.m_clusters.map Prod.snd

/-- Every note of the list has a null back-reference or is a member of one of the
chord's own clusters (so that `ClearClusters` resets it). -/
def Resettable (ch : Chord) (l : List Ref) : Prop :=
  ∀ p ∈ l, ∀ n, asNote ch.objects p = some n →
    n.m_cluster = none ∨ ∃ cl ∈ ch.m_clusters, p ∈ cl.2

/-- Every note of the list is unclustered (null back-reference, position 0) or is
a member of one of the chord's own clusters. -/
def OwnClusters (ch : Chord) (l : List Ref) : Prop :=
  ∀ p ∈ l, ∀ n, asNote ch.objects p = some n →
    (n.m_cluster = none ∧ n.m_clusterPosition = 0) ∨ ∃ cl ∈ ch.m_clusters, p ∈ cl.2

/-- The drawing Y positions of the notes of a list, in list order. -/
def noteYs (objects : Objects) (l : List Ref) : List Int :=
  l.filterMap (fun p => (asNote objects p).map Note.drawingY)

/-- The drawing stem direction of a chord or of a note that is not a chord tone;
`none` for chord tones and for everything else. -/
def TupletListElement.stemDir : TupletListElement → Option data_STEMDIRECTION
  | TupletListElement.chord dir => some dir
  | TupletListElement.note false dir => some dir
  | _ => none

/-- Number of elements of the list whose stem points up. -/
def upStems (l : List TupletListElement) : Nat :=
  l.countP (fun e => e.stemDir == some data_STEMDIRECTION.up)

/-- Number of elements of the list whose stem points down. -/
def downStems (l : List TupletListElement) : Nat :=
  l.countP (fun e => e.stemDir == some data_STEMDIRECTION.down)

/-- The staff locations (`GetDrawingLoc`) of the closest notes of the coords that
have one, in coord order. -/
def closestLocs (coords : List BeamElementCoord) : List Int :=
  coords.filterMap (fun coord => coord.m_closestNote.map ClosestNote.drawingLoc)

/-- Number of positions of the sequence whose placement differs from the one
before. -/
def placementSwitches : List data_BEAMPLACE → Nat
  | a :: b :: rest => (if a ≠ b then 1 else 0) + placementSwitches (b :: rest)
  | _ => 0

/-- The items of one placement group: those whose direction is `place`, in
order. -/
def groupItems (place : data_BEAMPLACE) : List Int → List data_BEAMPLACE → List Int
  | item :: items, direction :: directions =>
    if direction = place then item :: groupItems place items directions
    else groupItems place items directions
  | _, _ => []

/-- The note direction between each pair of consecutive values. -/
def consecutiveDirections : List Int → List data_STEMDIRECTION
  | a :: b :: rest => GetNoteDirection a b :: consecutiveDirections (b :: rest)
  | _ => []

/-- The note direction from the first value to each later value. -/
def fromFirstDirections : List Int → List data_STEMDIRECTION
  | [] => []
  | a :: rest => rest.map (GetNoteDirection a)

/-- Some direction other than `outer` occurs strictly more often in `ds` than
`outer` does. -/
def Outnumbered (outer : data_STEMDIRECTION) (ds : List data_STEMDIRECTION) : Prop :=
  ∃ d, d ≠ outer ∧ ds.count outer < ds.count d

/-- The directions counted for a group whose reference value is `previous`
(`none` while it is unset): from the reference to each item, the first item
becoming the reference when there is none. -/
def refDirections : Option Int → List Int → List data_STEMDIRECTION
  | some previous, ys => ys.map (GetNoteDirection previous)
  | none, ys => fromFirstDirections ys

/-- The reference value held by `previousTop` or `previousBottom`. -/
def refOf (k : VrvDef) (previous : Int) : Option Int :=
  if previous = k.VRV_UNSET then none else some previous

/-- The coord of an element after `InitCoords`: a new coord that refers to the
element and holds its actual duration and its secondary beam break (0 without
one). -/
def coordOf (e : LayerElement) : BeamElementCoord :=
  { m_element := some e, m_dur := e.actualDur.getD 0, m_breaksec := e.breaksec.getD 0 }

/-- The staff and the relation of a chord note that is drawn on another staff
than `staff` (no entry otherwise). -/
def ChordNote.crossMatch (note : ChordNote) (staff : Ref) : List (Ref × data_STAFFREL_basic) :=
  match note.m_crossStaff with
  | some s => if s ≠ staff then [(s, note.crossStaffRel)] else []
  | none => []

/-- The staff and the relation of an element that is itself drawn on another
staff than `staff` (no entry otherwise). -/
def LayerElement.ownMatch (e : LayerElement) (staff : Ref) : List (Ref × data_STAFFREL_basic) :=
  match e.crossStaff with
  | some s => if s ≠ staff then [(s, e.crossStaffRel)] else []
  | none => []

/-- The cross-staff matches of one element, in the order in which they are met:
the element itself; for a chord that does not match itself, its top note and
then its bottom note. -/
def crossStaffMatches (staff : Ref) (e : LayerElement) : List (Ref × data_STAFFREL_basic) :=
  if e.ownMatch staff ≠ [] then e.ownMatch staff
  else if e.classId = ClassId.CHORD then e.topNote.crossMatch staff ++ e.bottomNote.crossMatch staff
  else []

/-- The cross-staff matches of a list of elements, in list order. -/
def allCrossStaffMatches (staff : Ref) (elems : List LayerElement) :
    List (Ref × data_STAFFREL_basic) :=
  (elems.map (crossStaffMatches staff)).flatten

/-- The content and relation recorded from a match (`NULL` and `NONE` without
one). -/
def recorded (m : Option (Ref × data_STAFFREL_basic)) : Option Ref × data_STAFFREL_basic :=
  match m with
  | some (s, rel) => (some s, rel)
  | none => (none, data_STAFFREL_basic.NONE)

/-- The element is a Note or a Chord whose stem direction is not NONE. -/
def LayerElement.stemmed (e : LayerElement) : Prop :=
  (e.classId = ClassId.CHORD ∨ e.classId = ClassId.NOTE) ∧ e.stemDir ≠ data_STEMDIRECTION.NONE

instance LayerElement.decidableStemmed (e : LayerElement) : Decidable e.stemmed := by
  unfold LayerElement.stemmed
  infer_instance

/-- The element is a Note, a Chord or a TabGrp. -/
def LayerElement.isNoteChordOrTabGrp (e : LayerElement) : Prop :=
  e.classId = ClassId.CHORD ∨ e.classId = ClassId.NOTE ∨ e.classId = ClassId.TABGRP

instance LayerElement.decidableIsNoteChordOrTabGrp (e : LayerElement) :
    Decidable e.isNoteChordOrTabGrp := by
  unfold LayerElement.isNoteChordOrTabGrp
  infer_instance

/-- The Chord, Note and Rest descendants of the tuplet, in document order. -/
def Tuplet.durationDescendants (t : Tuplet) : List Descendant :=
  t.descendants.filter (fun d =>
    decide (d.classId ∈ [ClassId.CHORD, ClassId.NOTE, ClassId.REST]))

/-- A beam at Y `y` sits on a line of the staff whose top line is at `yReference`:
`y` lies strictly between the top and the bottom of the staff and its distance
from the top line is a multiple of `doubleUnit`. -/
def onStaffLine (y yReference staffHeight doubleUnit : Int) : Prop :=
  y < yReference ∧ y > yReference - staffHeight ∧ doubleUnit ∣ yReference - y

instance onStaffLine.decidable (y yReference staffHeight doubleUnit : Int) :
    Decidable (onStaffLine y yReference staffHeight doubleUnit) := by
  unfold onStaffLine
  infer_instance

/-- The element counts as a down-stem in the tally of
`CalcDrawingBracketAndNumPos`: a chord whose stem direction is not up, or a note
that is not a chord tone whose stem direction is down. -/
def TupletListElement.talliedDown : TupletListElement → Bool
  | TupletListElement.chord dir => decide (dir ≠ data_STEMDIRECTION.up)
  | TupletListElement.note false dir => decide (dir = data_STEMDIRECTION.down)
  | _ => false

/-- Number of descendants of the list that have a cross staff. -/
def crossCount (l : List Descendant) : Nat :=
  l.countP (fun d => d.m_crossStaff.isSome)

/-- The cross layer of the last descendant of the list that has a cross staff
(`start` when there is none). -/
def lastCrossLayer : List Descendant → Option Ref → Option Ref
  | [], start => start
  | d :: rest, start =>
    if d.m_crossStaff.isSome then lastCrossLayer rest d.m_crossLayer
    else lastCrossLayer rest start

/-- Most of the Chord, Note and Rest descendants of the tuplet are cross-staff:
more than half of them (the half rounded down). -/
def Tuplet.isMostlyCrossStaff (t : Tuplet) : Prop :=
  crossCount t.durationDescendants > t.durationDescendants.length / 2

instance Tuplet.decidableIsMostlyCrossStaff (t : Tuplet) : Decidable t.isMostlyCrossStaff := by
  unfold Tuplet.isMostlyCrossStaff
  infer_instance

/-- The function `IsHorizontal` with the two-pitch branch (the test
`pitches.size() == 2` and what it guards) removed; everything else is as in
`IsHorizontal`. -/
def IsHorizontalWithoutTwoPitch (k : VrvDef) (b : BeamDrawingInterface) : Option Bool :=
  if IsRepeatedPattern k b then some true
  else if HasOneStepHeight k b then some true
  else if b.m_drawingPlace = data_BEAMPLACE.NONE then some true
  else
    let items := horizontalItems b
    let directions := horizontalDirections b
    if items.length < 2 then some true
    else
      let first := items.headD 0
      let last := items.getLastD 0
      if first = last then some true
      else
        match (if b.m_drawingPlace = data_BEAMPLACE.mixed then
            IsHorizontalMixedBeam k b items directions else some false) with
        | none => none
        | some true => some true
        | some false =>
          let firstStep := decide (first ≠ items.getD 1 0)
          let lastStep := decide (last ≠ items.getD (items.length - 2) 0)
          if decide (items.length > 2) && (firstStep || lastStep) then
            if concaveShape b.m_drawingPlace items first last then some true
            else some false
          else some false

/-! ## Concrete inputs -/

/-- A chord whose cluster list holds one stale cluster `{1, 3}`: the notes at 1
and 3 carry its back-reference, the notes at 0 and 2 are unclustered. -/
def staleChord : Chord :=
  { objects := fun p =>
      match p with
      | 0 => Object.note { diatonicPitch := 62, drawingY := 0, m_cluster := none, m_clusterPosition := 0 }
      | 1 => Object.note { diatonicPitch := 60, drawingY := 0, m_cluster := some 7, m_clusterPosition := 1 }
      | 2 => Object.note { diatonicPitch := 61, drawingY := 0, m_cluster := none, m_clusterPosition := 0 }
      | 3 => Object.note { diatonicPitch := 70, drawingY := 0, m_cluster := some 7, m_clusterPosition := 2 }
      | 4 => Object.layerElement true
      | _ => Object.other
    m_clusters := [(7, [1, 3])]
    heapTop := 8 }


/-- The constants of `vrvdef.h` with their usual values. -/
def vrvDef : VrvDef := { DUR_MAX := 1024, DUR_32 := 7, VRV_UNSET := -2147483647 }

/-- A beam of 32nd notes with one coord, whose closest note is at staff location
130. -/
def highBeam : BeamDrawingInterface :=
  { m_shortestDur := 7, m_beamElementCoords := [anchorAt 130] }

/-- Drawing Y values of five anchors: the first, third, fourth and fifth are
placed above, the second below. -/
def zigzagItems : List Int := [0, 50, 10, 5, 3]

/-- The placements of the anchors of `zigzagItems`. -/
def zigzagDirections : List data_BEAMPLACE :=
  [data_BEAMPLACE.above, data_BEAMPLACE.below, data_BEAMPLACE.above, data_BEAMPLACE.above,
    data_BEAMPLACE.above]

/-- A note with the given actual duration and stem direction. -/
def noteOf (dur : Int) (dir : data_STEMDIRECTION) : LayerElement :=
  { classId := ClassId.NOTE, actualDur := some dur, stemDir := dir }

/-- A rest with the given actual duration; `dir` is what `GetStemDir` returns for
its coord. -/
def restOf (dur : Int) (dir : data_STEMDIRECTION) : LayerElement :=
  { classId := ClassId.REST, actualDur := some dur, stemDir := dir }

/-- A note of actual duration 5 drawn on the staff `staff`, below the beam
staff. -/
def noteOn (staff : Ref) : LayerElement :=
  { classId := ClassId.NOTE, actualDur := some 5, crossStaff := some staff,
    crossStaffRel := data_STAFFREL_basic.below }

/-- A note of actual duration 6 with a secondary beam break after one beam. -/
def brokenNote : LayerElement :=
  { classId := ClassId.NOTE, actualDur := some 6, breaksec := some 1 }

/-- A beam state left by an earlier call: one coord, the flags set. -/
def usedBeam : BeamDrawingInterface :=
  { m_changingDur := true, m_hasMultipleStemDir := true, m_shortestDur := 9,
    m_crossStaffContent := some 4, m_beamElementCoords := [anchorAt 1] }

/-- A mixed beam with cross-staff content on staff 1. -/
def crossStaffBeam : BeamDrawingInterface :=
  { m_drawingPlace := data_BEAMPLACE.mixed, m_crossStaffContent := some 1,
    m_crossStaffRel := data_STAFFREL_basic.below }

/-- A tree with a note at address 1, a tuplet bracket at 2, a staff at 3 and an
editorial element at 4; the tuplet itself is at address 0. -/
def smallTree : Ref → TreeObject := fun p =>
  match p with
  | 0 => { classId := ClassId.TUPLET }
  | 1 => { classId := ClassId.NOTE }
  | 2 => { classId := ClassId.TUPLET_BRACKET }
  | 3 => { classId := ClassId.STAFF }
  | 4 => { classId := ClassId.OTHER, isEditorialElement := true }
  | _ => { classId := ClassId.OTHER }

/-- A layout with unit 5, double unit 10, staff height 40, the staves drawn at
Y 1005, a beam as high at every X as where it starts, and an overlap pass that
leaves `m_yRel` as it was. -/
def plainLayout : Layout :=
  { GetDrawingUnit := fun _ => 5
    GetDrawingDoubleUnit := fun _ => 10
    GetDrawingStaffSize := fun _ => 40
    staffDrawingY := fun _ => 1005
    staffN := fun staff => staff
    beamYAt := fun beam _ => beam.m_startingY
    numDrawingY := fun tupletNum => 1005 + tupletNum.drawingYRel
    numDrawingXMid := fun _ => 0
    overlapYRel := fun _ _ _ _ yRel => yRel }

/-- A tuplet with a bracket above and a horizontal bracket-aligned beam that
starts at Y `startingY`. -/
def beamedTuplet (startingY : Int) : Tuplet :=
  { m_drawingBracketPos := data_STAFFREL_basic.above
    m_drawingNumPos := data_STAFFREL_basic.above
    tupletBracket := some {}
    m_bracketAlignedBeam := some { m_drawingPlace := data_BEAMPLACE.above, m_startingY := startingY }
    staffAncestor := some 0 }

/-- A tuplet with a bracket and a number above, no aligned beam, and two notes
whose boxes have their tops at Y 1020 and 1000. -/
def plainTuplet : Tuplet :=
  { m_drawingBracketPos := data_STAFFREL_basic.above
    m_drawingNumPos := data_STAFFREL_basic.above
    tupletBracket := some {}
    tupletNum := some {}
    descendants :=
      [{ classId := ClassId.NOTE, hasSelfBB := true, selfTop := 1020, selfBottom := 1010 },
        { classId := ClassId.NOTE, hasSelfBB := true, selfTop := 1000, selfBottom := 990 }]
    staffAncestor := some 0 }

/-- The tuplet `plainTuplet` with notes at both ends, before the horizontal
adjustment: its number is not yet aligned with the bracket. -/
def alignedTuplet : Tuplet :=
  { m_drawingBracketPos := data_STAFFREL_basic.above
    m_drawingNumPos := data_STAFFREL_basic.above
    m_drawingLeft := some {}
    m_drawingRight := some {}
    tupletBracket := some {}
    tupletNum := some {}
    descendants :=
      [{ classId := ClassId.NOTE, hasSelfBB := true, selfTop := 1020, selfBottom := 1010 },
        { classId := ClassId.NOTE, hasSelfBB := true, selfTop := 1000, selfBottom := 990 }]
    staffAncestor := some 0 }

/-- The tuplet `alignedTuplet` after `AdjustTupletsX` and `AdjustTupletBracketY`: the
number points to the tuplet's bracket, which is at the relative Y 25. -/
def bracketedTuplet : Tuplet :=
  { m_drawingBracketPos := data_STAFFREL_basic.above
    m_drawingNumPos := data_STAFFREL_basic.above
    m_drawingLeft := some {}
    m_drawingRight := some {}
    tupletBracket := some { drawingYRel := 25 }
    tupletNum := some { alignedBracket := some BracketPtr.ownBracket }
    descendants :=
      [{ classId := ClassId.NOTE, hasSelfBB := true, selfTop := 1020, selfBottom := 1010 },
        { classId := ClassId.NOTE, hasSelfBB := true, selfTop := 1000, selfBottom := 990 }]
    staffAncestor := some 0 }

/-- A tuplet on staff 0 with a note on cross staff 1, a rest, and a chord on cross
staff 2. -/
def twoCrossTuplet : Tuplet :=
  { staffAncestor := some 0
    descendants :=
      [{ m_crossStaff := some 1 }, { classId := ClassId.REST },
        { classId := ClassId.CHORD, m_crossStaff := some 2 }] }

/-- An unclustered note with diatonic pitch 60 at drawing Y `y`. -/
def noteAtY (y : Int) : Note :=
  { diatonicPitch := 60, drawingY := y, m_cluster := none, m_clusterPosition := 0 }

/-- A tuplet on staff 0 with a note on cross staff 1 and two notes on its own
staff, whose number-aligned beam has place mixed. -/
def mixedBeamTuplet : Tuplet :=
  { staffAncestor := some 0
    m_drawingNumPos := data_STAFFREL_basic.above
    m_numAlignedBeam := some { m_drawingPlace := data_BEAMPLACE.mixed }
    descendants := [{ m_crossStaff := some 1, m_crossLayer := some 7 }, {}, {}] }

/-- A tuplet inside a beam of place above, with bracket position below and number
position above, and notes at both ends. -/
def splitTuplet : Tuplet :=
  { m_drawingBracketPos := data_STAFFREL_basic.below
    m_drawingNumPos := data_STAFFREL_basic.above
    m_drawingLeft := some {}
    m_drawingRight := some { drawingRadius := 3 }
    beamParent := some { m_drawingPlace := data_BEAMPLACE.above }
    tupletBracket := some {}
    tupletNum := some {} }

/-! ## Invariants of the cluster loop of `Chord::FilterList` -/

/-- Invariant of the cluster loop, phrased with the state `(ag, g, gs)` of
`List.splitBy.loop`: `ag` is the last note seen, `g` the rest of its run
(reversed), `gs` the finished runs (reversed), `rest` the notes still to come.
`o0` is the memory when the loop started. -/
structure LoopInv (o0 : Objects) (st : ClusterLoop) (ag : Ref) (g : List Ref)
    (gs : List (List Ref)) (rest : List Ref) : Prop where
  last_eq : st.lastNote = ag
  pitch_eq : st.lastPitch = pitchOf o0 ag
  pitches : ∀ p, pitchOf st.chord.objects p = pitchOf o0 p
  kinds : ∀ p, (asNote st.chord.objects p).isSome = (asNote o0 p).isSome
  ag_note : ∃ n, asNote st.chord.objects ag = some n
  shape : ∃ closed : List (Ref × List Ref),
    closed.map Prod.snd = gs.reverse.filter (fun r => decide (2 ≤ r.length)) ∧
    ((g = [] ∧ st.chord.m_clusters = closed) ∨
      (g ≠ [] ∧ ∃ c, st.curCluster = some c ∧
        st.chord.m_clusters = closed ++ [(c, (ag :: g).reverse)]))
  idle : g = [] → ∀ n, asNote st.chord.objects ag = some n → n.m_cluster = none
  rest_fresh : ∀ p ∈ rest, ∃ n, asNote st.chord.objects p = some n ∧ n.m_cluster = none
  ag_not_rest : ag ∉ rest
  rest_nodup : rest.Nodup
  addr_nodup : (st.chord.m_clusters.map Prod.fst).Nodup
  addr_lt : ∀ cl ∈ st.chord.m_clusters, cl.1 < st.chord.heapTop
  backrefs : ∀ cl ∈ st.chord.m_clusters, ∀ (i : Nat) (p : Ref), cl.2[i]? = some p →
    ∃ n, asNote st.chord.objects p = some n ∧ n.m_cluster = some cl.1 ∧
      n.m_clusterPosition = (i : Int) + 1
  untouched : ∀ p, (∀ cl ∈ st.chord.m_clusters, p ∉ cl.2) → st.chord.objects p = o0 p

/-- What the cluster loop has established when it ends; `runs` are the maximal
runs of the list it went over. -/
structure LoopDone (o0 : Objects) (ch : Chord) (runs : List (List Ref)) : Prop where
  members : clusterMembers ch = runs.filter (fun r => decide (2 ≤ r.length))
  pitches : ∀ p, pitchOf ch.objects p = pitchOf o0 p
  kinds : ∀ p, (asNote ch.objects p).isSome = (asNote o0 p).isSome
  addr_nodup : (ch.m_clusters.map Prod.fst).Nodup
  backrefs : ∀ cl ∈ ch.m_clusters, ∀ (i : Nat) (p : Ref), cl.2[i]? = some p →
    ∃ n, asNote ch.objects p = some n ∧ n.m_cluster = some cl.1 ∧
      n.m_clusterPosition = (i : Int) + 1
  untouched : ∀ p, (∀ cl ∈ ch.m_clusters, p ∉ cl.2) → ch.objects p = o0 p

/-- Whether the note at `p` is a member of one of the clusters. -/
def IsMember (clusters : List (Ref × List Ref)) (p : Ref) : Prop :=
  ∃ cl ∈ clusters, p ∈ cl.2

/-- Invariant of the cluster loop that assumes nothing about the back-references
the notes carry when the loop starts: `seen` are the notes gone through (the
last of them is `lastNote`), `rest` the notes still to come. -/
structure GenInv (o0 : Objects) (st : ClusterLoop) (seen rest : List Ref) : Prop where
  last_seen : st.lastNote ∈ seen
  rest_nodup : rest.Nodup
  rest_unseen : ∀ p ∈ rest, p ∉ seen
  members_seen : ∀ p, IsMember st.chord.m_clusters p → p ∈ seen
  cur_last : ∀ c, st.curCluster = some c →
    ∃ init ms, st.chord.m_clusters = init ++ [(c, ms)]
  pitches : ∀ p, pitchOf st.chord.objects p = pitchOf o0 p
  kinds : ∀ p, (asNote st.chord.objects p).isSome = (asNote o0 p).isSome
  addr_nodup : (st.chord.m_clusters.map Prod.fst).Nodup
  addr_lt : ∀ cl ∈ st.chord.m_clusters, cl.1 < st.chord.heapTop
  backrefs : ∀ cl ∈ st.chord.m_clusters, ∀ (i : Nat) (p : Ref), cl.2[i]? = some p →
    ∃ n, asNote st.chord.objects p = some n ∧ n.m_cluster = some cl.1 ∧
      n.m_clusterPosition = (i : Int) + 1
  untouched : ∀ p, ¬ IsMember st.chord.m_clusters p → st.chord.objects p = o0 p

/-- What one iteration does, whenever it does not fail. -/
structure StepFacts (st st1 : ClusterLoop) (cur : Ref) : Prop where
  last_eq : st1.lastNote = cur
  pitch_eq : ∀ n, asNote st.chord.objects cur = some n → st1.lastPitch = n.diatonicPitch
  frame : ∀ p, p ≠ st.lastNote → p ≠ cur → st1.chord.objects p = st.chord.objects p
  grow : ∀ p, IsMember st1.chord.m_clusters p →
    IsMember st.chord.m_clusters p ∨ p = cur ∨
      (p = st.lastNote ∧ ∀ n, asNote st.chord.objects p = some n → n.m_cluster = none)
  keep : ∀ p, IsMember st.chord.m_clusters p → IsMember st1.chord.m_clusters p


/-- Whether the object at `p` is a note with a non-null back-reference. -/
def hasCluster (objects : Objects) (p : Ref) : Bool :=
  match asNote objects p with
  | some n => n.m_cluster.isSome
  | none => false

/-- Two runs of the cluster loop over the same notes, `a` from the memory of a
first call and `b` from the memory that call left: they have built the same
clusters, and a note still to come that lost its back-reference between the
calls is a member of `final`, the clusters the first run ends with. -/
structure Lockstep (a b : ClusterLoop) (rest : List Ref) (final : List (Ref × List Ref)) :
    Prop where
  last_eq : a.lastNote = b.lastNote
  pitch_eq : a.lastPitch = b.lastPitch
  members_eq : clusterMembers a.chord = clusterMembers b.chord
  cur_eq : a.curCluster.isSome = b.curCluster.isSome
  last_null : hasCluster a.chord.objects a.lastNote = hasCluster b.chord.objects b.lastNote
  notes_eq : ∀ p, (asNote a.chord.objects p).map Note.diatonicPitch
    = (asNote b.chord.objects p).map Note.diatonicPitch
  rest_le : ∀ p ∈ rest, hasCluster b.chord.objects p = true →
    hasCluster a.chord.objects p = true
  rest_final : ∀ p ∈ rest, hasCluster a.chord.objects p = true →
    hasCluster b.chord.objects p = false → IsMember final p

/-! ## The state of `InitCoords` when its loop starts -/

/-- The state of `InitCoords` before the first element is visited: every member
has its reset value, the beam staff is `staff`, and there are `size` new
coords. -/
def beamStart (staff : Ref) (size : Nat) : BeamDrawingInterface :=
  { m_beamStaff := some staff, m_beamElementCoords := List.replicate size {} }

/-! ## Runs of a list (`List.splitBy`) -/

theorem wrapInt32_of_range {x : Int} (h1 : -2147483648 ≤ x) (h2 : x < 2147483648) :
    wrapInt32 x = x := by
  unfold wrapInt32
  omega

theorem pair_infix_append {α : Type} {a b : α} :
    ∀ (xs ys : List α), [a, b] <:+: xs ++ ys →
      [a, b] <:+: xs ∨ [a, b] <:+: ys ∨
        (∃ (hx : xs ≠ []) (hy : ys ≠ []), xs.getLast hx = a ∧ ys.head hy = b) := by
  intro xs
  induction xs with
  | nil => intro ys h; exact Or.inr (Or.inl (by simpa using h))
  | cons x xs ih =>
    intro ys h
    rw [List.cons_append, List.infix_cons_iff] at h
    rcases h with h | h
    · -- the pair is a prefix
      obtain ⟨t, ht⟩ := h
      simp only [List.cons_append, List.nil_append, List.cons.injEq] at ht
      obtain ⟨hax, ht⟩ := ht
      subst hax
      cases xs with
      | nil =>
        simp only [List.nil_append] at ht
        refine Or.inr (Or.inr ⟨by simp, by rw [← ht]; simp, by simp, ?_⟩)
        subst ht
        simp
      | cons x2 xs2 =>
        simp only [List.cons_append, List.cons.injEq] at ht
        obtain ⟨hb, _⟩ := ht
        subst hb
        exact Or.inl ⟨[], xs2, by simp⟩
    · rcases ih ys h with h1 | h1 | ⟨hx, hy, h1, h2⟩
      · exact Or.inl (List.infix_cons h1)
      · exact Or.inr (Or.inl h1)
      · exact Or.inr (Or.inr ⟨by simp, hy, by rw [List.getLast_cons hx]; exact h1, h2⟩)

theorem pair_infix_runs {α : Type} (R : α → α → Bool) {a b : α} (hR : R a b = true) :
    ∀ (runs : List (List α)), (∀ m ∈ runs, m ≠ []) →
      runs.Chain' (fun x y => ∃ hx hy, R (x.getLast hx) (y.head hy) = false) →
      [a, b] <:+: runs.flatten → ∃ m ∈ runs, [a, b] <:+: m := by
  intro runs
  induction runs with
  | nil =>
    intro _ _ h
    have := List.IsInfix.length_le h
    simp at this
  | cons m ms ih =>
    intro hne hch h
    rw [List.flatten_cons] at h
    rcases pair_infix_append m ms.flatten h with h1 | h1 | ⟨hx, hy, h1, h2⟩
    · exact ⟨m, List.mem_cons_self _ _, h1⟩
    · obtain ⟨m2, hm2, hin⟩ :=
        ih (fun m hm => hne m (List.mem_cons_of_mem _ hm)) (List.Chain'.tail hch) h1
      exact ⟨m2, List.mem_cons_of_mem _ hm2, hin⟩
    · exfalso
      cases ms with
      | nil => exact hy rfl
      | cons m2 ms2 =>
        have hm2 : m2 ≠ [] := hne m2 (by simp)
        obtain ⟨hx1, hy1, hfalse⟩ := (List.chain'_cons.mp hch).1
        have hhead : (m2 :: ms2).flatten.head hy = m2.head hm2 := by
          cases m2 with
          | nil => exact absurd rfl hm2
          | cons z zs => simp
        rw [hhead] at h2
        rw [h1, h2, hR] at hfalse
        cases hfalse

/-- Runs of a duplicate-free list have no element in common: a run is determined
by any one of its elements. -/
theorem run_unique {α : Type} {runs : List (List α)} (hnd : runs.flatten.Nodup)
    {m1 m2 : List α} (h1 : m1 ∈ runs) (h2 : m2 ∈ runs) {x : α} (hx1 : x ∈ m1) (hx2 : x ∈ m2) :
    m1 = m2 := by
  by_contra hne
  have hpw := (List.nodup_flatten.mp hnd).2
  have hsymm : Symmetric (@List.Disjoint α) := fun _ _ h => h.symm
  exact (hpw.forall hsymm h1 h2 hne) hx1 hx2

/-- The runs of length at least 2 of a list. -/
theorem longRuns_mem {α : Type} (R : α → α → Bool) (l : List α) {c : List α}
    (hc : c ∈ (l.splitBy R).filter (fun r => decide (2 ≤ r.length))) :
    2 ≤ c.length ∧ c <:+: l ∧ c.Chain' (fun a b => R a b = true) := by
  rw [List.mem_filter] at hc
  refine ⟨by simpa using hc.2, ?_, List.chain'_of_mem_splitBy hc.1⟩
  have := List.infix_of_mem_flatten hc.1
  rwa [List.flatten_splitBy] at this

theorem longRuns_cover {α : Type} (R : α → α → Bool) (l : List α) {a b : α}
    (hab : [a, b] <:+: l) (hR : R a b = true) :
    ∃ c ∈ (l.splitBy R).filter (fun r => decide (2 ≤ r.length)), [a, b] <:+: c := by
  rw [← List.flatten_splitBy R l] at hab
  obtain ⟨m, hm, hin⟩ := pair_infix_runs R hR (l.splitBy R)
    (fun m hm => List.ne_nil_of_mem_splitBy R hm) (List.chain'_getLast_head_splitBy R l) hab
  refine ⟨m, ?_, hin⟩
  rw [List.mem_filter]
  exact ⟨hm, by simpa using List.IsInfix.length_le hin⟩

theorem longRuns_maximal_right {α : Type} (R : α → α → Bool) (l : List α) (hnd : l.Nodup)
    {c : List α} (hc : c ∈ (l.splitBy R).filter (fun r => decide (2 ≤ r.length)))
    {x y : α} (hx : c ++ [x] <:+: l) (hy : c.getLast? = some y) : R y x = false := by
  by_contra hR
  rw [Bool.not_eq_false] at hR
  obtain ⟨ys, rfl⟩ := List.getLast?_eq_some_iff.mp hy
  have hpair : [y, x] <:+: l :=
    List.IsInfix.trans ⟨ys, [], by simp⟩ hx
  obtain ⟨c2, hc2, hin⟩ := longRuns_cover R l hpair hR
  have hnd2 : (l.splitBy R).flatten.Nodup := by rw [List.flatten_splitBy]; exact hnd
  have hyc2 : y ∈ c2 := hin.subset (by simp)
  have hxc2 : x ∈ c2 := hin.subset (by simp)
  have heq : ys ++ [y] = c2 :=
    run_unique hnd2 (List.mem_filter.mp hc).1 (List.mem_filter.mp hc2).1 (by simp) hyc2
  have hnd3 : (ys ++ [y] ++ [x]).Nodup := List.Nodup.sublist hx.sublist hnd
  rw [← heq] at hxc2
  have := (List.nodup_append.mp hnd3).2.2
  exact this hxc2 (by simp)

theorem longRuns_maximal_left {α : Type} (R : α → α → Bool) (l : List α) (hnd : l.Nodup)
    {c : List α} (hc : c ∈ (l.splitBy R).filter (fun r => decide (2 ≤ r.length)))
    {x y : α} (hx : x :: c <:+: l) (hy : c.head? = some y) : R x y = false := by
  by_contra hR
  rw [Bool.not_eq_false] at hR
  obtain ⟨ys, rfl⟩ := List.head?_eq_some_iff.mp hy
  have hpair : [x, y] <:+: l :=
    List.IsInfix.trans ⟨[], ys, by simp⟩ hx
  obtain ⟨c2, hc2, hin⟩ := longRuns_cover R l hpair hR
  have hnd2 : (l.splitBy R).flatten.Nodup := by rw [List.flatten_splitBy]; exact hnd
  have hyc2 : y ∈ c2 := hin.subset (by simp)
  have hxc2 : x ∈ c2 := hin.subset (by simp)
  have heq : y :: ys = c2 :=
    run_unique hnd2 (List.mem_filter.mp hc).1 (List.mem_filter.mp hc2).1 (by simp) hyc2
  have hnd3 : (x :: y :: ys).Nodup := List.Nodup.sublist hx.sublist hnd
  rw [← heq] at hxc2
  exact (List.nodup_cons.mp hnd3).1 hxc2

theorem sublist_flatten {α : Type} {L1 L2 : List (List α)} (h : List.Sublist L1 L2) :
    List.Sublist L1.flatten L2.flatten := by
  induction h with
  | slnil => exact List.Sublist.refl _
  | cons a _ ih =>
    rw [List.flatten_cons]
    exact ih.trans (List.sublist_append_right _ _)
  | cons₂ a _ ih =>
    rw [List.flatten_cons, List.flatten_cons]
    exact List.Sublist.append (List.Sublist.refl _) ih

theorem longRuns_nodup {α : Type} (R : α → α → Bool) (l : List α) (hnd : l.Nodup) :
    ((l.splitBy R).filter (fun r => decide (2 ≤ r.length))).flatten.Nodup := by
  have hsub := sublist_flatten
    (List.filter_sublist (p := fun r => decide (2 ≤ r.length)) (l.splitBy R))
  rw [List.flatten_splitBy] at hsub
  exact List.Nodup.sublist hsub hnd

/-! ## Chord: memory lemmas -/

theorem asNote_eq_some {objects : Objects} {p : Ref} {n : Note} :
    asNote objects p = some n ↔ objects p = Object.note n := by
  unfold asNote
  cases h : objects p <;> simp

theorem setCluster_same {objects : Objects} {p : Ref} {n : Note} (c : Option Ref) (pos : Int)
    (h : asNote objects p = some n) :
    asNote (setCluster objects p c pos) p
      = some { n with m_cluster := c, m_clusterPosition := pos } := by
  rw [asNote_eq_some] at h
  simp [setCluster, h, asNote]

theorem setCluster_other (objects : Objects) {p q : Ref} (c : Option Ref) (pos : Int)
    (h : q ≠ p) : setCluster objects p c pos q = objects q := by
  unfold setCluster
  cases objects p <;> simp [Function.update, h]

theorem asNote_setCluster_other (objects : Objects) {p q : Ref} (c : Option Ref) (pos : Int)
    (h : q ≠ p) : asNote (setCluster objects p c pos) q = asNote objects q := by
  simp [asNote, setCluster_other objects c pos h]

theorem setCluster_not_note {objects : Objects} {p : Ref} (c : Option Ref) (pos : Int)
    (h : asNote objects p = none) : setCluster objects p c pos = objects := by
  unfold setCluster
  unfold asNote at h
  cases hp : objects p <;> simp_all

theorem pitchOf_setCluster (objects : Objects) (p q : Ref) (c : Option Ref) (pos : Int) :
    pitchOf (setCluster objects p c pos) q = pitchOf objects q := by
  by_cases hq : q = p
  · subst hq
    cases hn : asNote objects q with
    | none => rw [setCluster_not_note c pos hn]
    | some n => simp [pitchOf, setCluster_same c pos hn, hn]
  · simp [pitchOf, asNote_setCluster_other objects c pos hq]

theorem drawingY_setCluster (objects : Objects) (p q : Ref) (c : Option Ref) (pos : Int) :
    (asNote (setCluster objects p c pos) q).map Note.drawingY
      = (asNote objects q).map Note.drawingY := by
  by_cases hq : q = p
  · subst hq
    cases hn : asNote objects q with
    | none => rw [setCluster_not_note c pos hn, hn]
    | some n => simp [setCluster_same c pos hn]
  · simp [asNote_setCluster_other objects c pos hq]

theorem isSome_asNote_setCluster (objects : Objects) (p q : Ref) (c : Option Ref) (pos : Int) :
    (asNote (setCluster objects p c pos) q).isSome = (asNote objects q).isSome := by
  by_cases hq : q = p
  · subst hq
    cases hn : asNote objects q with
    | none => rw [setCluster_not_note c pos hn, hn]
    | some n => simp [setCluster_same c pos hn]
  · simp [asNote_setCluster_other objects c pos hq]

/-! ### Cluster list lemmas -/

theorem pushBack_fresh (clusters : List (Ref × List Ref)) (c p : Ref)
    (h : ∀ cl ∈ clusters, cl.1 ≠ c) : pushBack clusters c p = clusters := by
  unfold pushBack
  conv_rhs => rw [← List.map_id clusters]
  apply List.map_congr_left
  intro cl hcl
  simp [h cl hcl]

theorem pushBack_append_last (init : List (Ref × List Ref)) (c p : Ref) (ms : List Ref)
    (h : ∀ cl ∈ init, cl.1 ≠ c) :
    pushBack (init ++ [(c, ms)]) c p = init ++ [(c, ms ++ [p])] := by
  have h1 := pushBack_fresh init c p h
  unfold pushBack at h1 ⊢
  simp [h1]

theorem clusterSize_append_last (init : List (Ref × List Ref)) (c : Ref) (ms : List Ref)
    (h : ∀ cl ∈ init, cl.1 ≠ c) :
    clusterSize (init ++ [(c, ms)]) c = ms.length := by
  unfold clusterSize
  have : init.find? (fun cl => decide (cl.1 = c)) = none := by
    rw [List.find?_eq_none]
    intro cl hcl
    simpa using h cl hcl
  simp [List.find?_append, this]

/-! ### The cluster loop, one iteration at a time -/

theorem clusterStep_noStep {st : ClusterLoop} {cur : Ref} {n : Note}
    (hcur : asNote st.chord.objects cur = some n) (hstep : ¬ n.diatonicPitch - st.lastPitch = 1) :
    clusterStep st cur = some { st with lastNote := cur, lastPitch := n.diatonicPitch } := by
  simp [clusterStep, hcur, hstep]

theorem clusterStep_new {st : ClusterLoop} {cur : Ref} {n last : Note}
    (hcur : asNote st.chord.objects cur = some n) (hstep : n.diatonicPitch - st.lastPitch = 1)
    (hlast : asNote st.chord.objects st.lastNote = some last) (hnone : last.m_cluster = none)
    (hfresh : ∀ cl ∈ st.chord.m_clusters, cl.1 ≠ st.chord.heapTop) :
    clusterStep st cur = some
      { chord :=
          { objects :=
              setCluster (setCluster st.chord.objects st.lastNote (some st.chord.heapTop) 1)
                cur (some st.chord.heapTop) 2
            m_clusters := st.chord.m_clusters ++ [(st.chord.heapTop, [st.lastNote, cur])]
            heapTop := st.chord.heapTop + 1 }
        lastNote := cur
        lastPitch := n.diatonicPitch
        curCluster := some st.chord.heapTop } := by
  have e1 := pushBack_append_last st.chord.m_clusters st.chord.heapTop st.lastNote [] hfresh
  have e2 := pushBack_append_last st.chord.m_clusters st.chord.heapTop cur [st.lastNote] hfresh
  have s1 := clusterSize_append_last st.chord.m_clusters st.chord.heapTop [st.lastNote] hfresh
  have s2 := clusterSize_append_last st.chord.m_clusters st.chord.heapTop [st.lastNote, cur] hfresh
  simp only [List.nil_append, List.singleton_append] at e1 e2
  simp [clusterStep, hcur, hstep, hlast, hnone, e1, e2, s1, s2]

theorem clusterStep_extend {st : ClusterLoop} {cur c c1 : Ref} {n last : Note}
    {init : List (Ref × List Ref)} {ms : List Ref}
    (hcur : asNote st.chord.objects cur = some n) (hstep : n.diatonicPitch - st.lastPitch = 1)
    (hlast : asNote st.chord.objects st.lastNote = some last) (hsome : last.m_cluster = some c1)
    (hc : st.curCluster = some c) (hcl : st.chord.m_clusters = init ++ [(c, ms)])
    (hfresh : ∀ cl ∈ init, cl.1 ≠ c) :
    clusterStep st cur = some
      { chord :=
          { st.chord with
            objects := setCluster st.chord.objects cur (some c) ((ms.length : Int) + 1)
            m_clusters := init ++ [(c, ms ++ [cur])] }
        lastNote := cur
        lastPitch := n.diatonicPitch
        curCluster := some c } := by
  have e2 := pushBack_append_last init c cur ms hfresh
  have s2 := clusterSize_append_last init c (ms ++ [cur]) hfresh
  simp [clusterStep, hcur, hstep, hlast, hsome, hc, hcl, e2, s2]

theorem LoopInv.member_ne {o0 : Objects} {st : ClusterLoop} {ag : Ref} {g : List Ref}
    {gs : List (List Ref)} {rest : List Ref} (h : LoopInv o0 st ag g gs rest)
    {cl : Ref × List Ref} (hcl : cl ∈ st.chord.m_clusters) {p q : Ref} (hp : p ∈ cl.2)
    {n : Note} (hq : asNote st.chord.objects q = some n) (hn : n.m_cluster = none) : p ≠ q := by
  rintro rfl
  obtain ⟨i, hi, hget⟩ := List.getElem_of_mem hp
  have hopt : cl.2[i]? = some p := by simp [List.getElem?_eq_getElem hi, hget]
  obtain ⟨m, hm, hmc, _⟩ := h.backrefs cl hcl i p hopt
  rw [hq] at hm
  cases hm
  rw [hn] at hmc
  cases hmc

theorem LoopInv.noStep {o0 : Objects} {st : ClusterLoop} {ag cur : Ref} {g : List Ref}
    {gs : List (List Ref)} {rest : List Ref} (h : LoopInv o0 st ag g gs (cur :: rest))
    (hstep : ¬ pitchOf o0 cur - pitchOf o0 ag = 1) :
    ∃ st1, clusterStep st cur = some st1 ∧
      LoopInv o0 st1 cur [] ((ag :: g).reverse :: gs) rest := by
  obtain ⟨n, hn, hnc⟩ := h.rest_fresh cur (List.mem_cons_self _ _)
  have hpc : n.diatonicPitch = pitchOf o0 cur := by
    rw [← h.pitches cur]; simp [pitchOf, hn]
  have hs : ¬ n.diatonicPitch - st.lastPitch = 1 := by rw [hpc, h.pitch_eq]; exact hstep
  refine ⟨_, clusterStep_noStep hn hs, ?_⟩
  have hnd := List.nodup_cons.mp h.rest_nodup
  refine
    { last_eq := rfl
      pitch_eq := hpc
      pitches := h.pitches
      kinds := h.kinds
      ag_note := ⟨n, hn⟩
      shape := ?_
      idle := ?_
      rest_fresh := fun p hp => h.rest_fresh p (List.mem_cons_of_mem _ hp)
      ag_not_rest := hnd.1
      rest_nodup := hnd.2
      addr_nodup := h.addr_nodup
      addr_lt := h.addr_lt
      backrefs := h.backrefs
      untouched := h.untouched }
  · obtain ⟨closed, hclosed, hcase⟩ := h.shape
    refine ⟨st.chord.m_clusters, ?_, Or.inl ⟨rfl, rfl⟩⟩
    rcases hcase with ⟨hg, hm⟩ | ⟨hg, c, _, hm⟩
    · subst hg
      simp [hm, hclosed, List.filter_append]
    · have hlen : 2 ≤ g.length + 1 := by
        cases g with
        | nil => exact absurd rfl hg
        | cons a t => simp
      simp [hm, hclosed, List.filter_append, hlen]
  · intro _ m hm
    rw [hn] at hm
    cases hm
    exact hnc

theorem LoopInv.newCluster {o0 : Objects} {st : ClusterLoop} {ag cur : Ref}
    {gs : List (List Ref)} {rest : List Ref} (h : LoopInv o0 st ag [] gs (cur :: rest))
    (hstep : pitchOf o0 cur - pitchOf o0 ag = 1) :
    ∃ st1, clusterStep st cur = some st1 ∧ LoopInv o0 st1 cur [ag] gs rest := by
  obtain ⟨n, hn, hnc⟩ := h.rest_fresh cur (List.mem_cons_self _ _)
  obtain ⟨last, hlast⟩ := h.ag_note
  have hlastNone : last.m_cluster = none := h.idle rfl last hlast
  have hpc : n.diatonicPitch = pitchOf o0 cur := by
    rw [← h.pitches cur]; simp [pitchOf, hn]
  have hs : n.diatonicPitch - st.lastPitch = 1 := by rw [hpc, h.pitch_eq]; exact hstep
  have hfresh : ∀ cl ∈ st.chord.m_clusters, cl.1 ≠ st.chord.heapTop :=
    fun cl hcl => Nat.ne_of_lt (h.addr_lt cl hcl)
  have hlast1 : asNote st.chord.objects st.lastNote = some last := by rw [h.last_eq]; exact hlast
  have hnd := List.nodup_cons.mp h.rest_nodup
  have hne : cur ≠ ag := fun e => h.ag_not_rest (e ▸ List.mem_cons_self _ _)
  refine ⟨_, clusterStep_new hn hs hlast1 hlastNone hfresh, ?_⟩
  rw [h.last_eq]
  have hcur1 : asNote (setCluster st.chord.objects ag (some st.chord.heapTop) 1) cur = some n := by
    rw [asNote_setCluster_other _ _ _ hne]; exact hn
  refine
    { last_eq := rfl
      pitch_eq := hpc
      pitches := fun p => by simp only [pitchOf_setCluster]; exact h.pitches p
      kinds := fun p => by simp only [isSome_asNote_setCluster]; exact h.kinds p
      ag_note := ⟨_, setCluster_same _ _ hcur1⟩
      shape := ?_
      idle := fun hg => absurd hg (by simp)
      rest_fresh := ?_
      ag_not_rest := hnd.1
      rest_nodup := hnd.2
      addr_nodup := ?_
      addr_lt := ?_
      backrefs := ?_
      untouched := ?_ }
  · obtain ⟨closed, hclosed, hcase⟩ := h.shape
    rcases hcase with ⟨_, hm⟩ | ⟨hg, _⟩
    · exact ⟨closed, hclosed, Or.inr ⟨by simp, st.chord.heapTop, rfl, by simp [hm]⟩⟩
    · exact absurd rfl hg
  · intro p hp
    have hp1 : p ≠ cur := fun e => hnd.1 (e ▸ hp)
    have hp2 : p ≠ ag := fun e => h.ag_not_rest (e ▸ List.mem_cons_of_mem _ hp)
    obtain ⟨m, hm, hmc⟩ := h.rest_fresh p (List.mem_cons_of_mem _ hp)
    exact ⟨m, by rw [asNote_setCluster_other _ _ _ hp1, asNote_setCluster_other _ _ _ hp2, hm], hmc⟩
  · simp only [List.map_append, List.map_cons, List.map_nil]
    rw [List.nodup_append]
    refine ⟨h.addr_nodup, by simp, ?_⟩
    intro a ha hb
    simp only [List.mem_singleton] at hb
    obtain ⟨cl, hcl, hcla⟩ := List.mem_map.mp ha
    exact hfresh cl hcl (hcla.trans hb)
  · intro cl hcl
    simp only [List.mem_append, List.mem_singleton] at hcl
    rcases hcl with hcl | rfl
    · exact Nat.lt_succ_of_lt (h.addr_lt cl hcl)
    · exact Nat.lt_succ_self _
  · intro cl hcl i p hip
    simp only [List.mem_append, List.mem_singleton] at hcl
    rcases hcl with hcl | rfl
    · have hmem : p ∈ cl.2 := List.mem_iff_getElem?.mpr ⟨i, hip⟩
      have hp1 : p ≠ cur := h.member_ne hcl hmem hn hnc
      have hp2 : p ≠ ag := h.member_ne hcl hmem hlast hlastNone
      rw [asNote_setCluster_other _ _ _ hp1, asNote_setCluster_other _ _ _ hp2]
      exact h.backrefs cl hcl i p hip
    · match i, hip with
      | 0, hip =>
        simp only [List.getElem?_cons_zero, Option.some.injEq] at hip
        subst hip
        rw [asNote_setCluster_other _ _ _ (Ne.symm hne), setCluster_same _ _ hlast]
        exact ⟨_, rfl, rfl, by simp⟩
      | 1, hip =>
        simp only [List.getElem?_cons_succ, List.getElem?_cons_zero, Option.some.injEq] at hip
        subst hip
        rw [setCluster_same _ _ hcur1]
        exact ⟨_, rfl, rfl, by simp⟩
      | (k + 2), hip => simp at hip
  · intro p hp
    have hp1 : p ≠ cur := by
      rintro rfl
      exact hp (st.chord.heapTop, [ag, p]) (by simp) (by simp)
    have hp2 : p ≠ ag := by
      rintro rfl
      exact hp (st.chord.heapTop, [p, cur]) (by simp) (by simp)
    show setCluster (setCluster st.chord.objects ag (some st.chord.heapTop) 1) cur
      (some st.chord.heapTop) 2 p = o0 p
    rw [setCluster_other _ _ _ hp1, setCluster_other _ _ _ hp2]
    exact h.untouched p (fun cl hcl => hp cl (by simp [hcl]))

theorem LoopInv.extend {o0 : Objects} {st : ClusterLoop} {ag cur : Ref} {g : List Ref}
    {gs : List (List Ref)} {rest : List Ref} (h : LoopInv o0 st ag g gs (cur :: rest))
    (hg : g ≠ []) (hstep : pitchOf o0 cur - pitchOf o0 ag = 1) :
    ∃ st1, clusterStep st cur = some st1 ∧ LoopInv o0 st1 cur (ag :: g) gs rest := by
  obtain ⟨n, hn, hnc⟩ := h.rest_fresh cur (List.mem_cons_self _ _)
  obtain ⟨closed, hclosed, hcase⟩ := h.shape
  rcases hcase with ⟨hg0, _⟩ | ⟨_, c, hcur, hm⟩
  · exact absurd hg0 hg
  have hmemLast : (c, (ag :: g).reverse) ∈ st.chord.m_clusters := by simp [hm]
  have hidx : ((c, (ag :: g).reverse) : Ref × List Ref).2[g.length]? = some ag := by
    simp [List.getElem?_append_right]
  obtain ⟨last, hlast, hlastc, _⟩ := h.backrefs _ hmemLast g.length ag hidx
  have hpc : n.diatonicPitch = pitchOf o0 cur := by
    rw [← h.pitches cur]; simp [pitchOf, hn]
  have hs : n.diatonicPitch - st.lastPitch = 1 := by rw [hpc, h.pitch_eq]; exact hstep
  have hlast1 : asNote st.chord.objects st.lastNote = some last := by rw [h.last_eq]; exact hlast
  have hnodup := h.addr_nodup
  rw [hm] at hnodup
  simp only [List.map_append, List.map_cons, List.map_nil] at hnodup
  have hfresh : ∀ cl ∈ closed, cl.1 ≠ c := by
    intro cl hcl e
    have := (List.nodup_append.mp hnodup).2.2
    exact this (List.mem_map.mpr ⟨cl, hcl, e⟩) (List.mem_singleton_self c)
  have hnd := List.nodup_cons.mp h.rest_nodup
  refine ⟨_, clusterStep_extend hn hs hlast1 hlastc hcur hm hfresh, ?_⟩
  refine
    { last_eq := rfl
      pitch_eq := hpc
      pitches := fun p => by simp only [pitchOf_setCluster]; exact h.pitches p
      kinds := fun p => by simp only [isSome_asNote_setCluster]; exact h.kinds p
      ag_note := ⟨_, setCluster_same _ _ hn⟩
      shape := ⟨closed, hclosed, Or.inr ⟨by simp, c, rfl, by simp⟩⟩
      idle := fun hg1 => absurd hg1 (by simp)
      rest_fresh := ?_
      ag_not_rest := hnd.1
      rest_nodup := hnd.2
      addr_nodup := ?_
      addr_lt := ?_
      backrefs := ?_
      untouched := ?_ }
  · intro p hp
    have hp1 : p ≠ cur := fun e => hnd.1 (e ▸ hp)
    obtain ⟨m, hm1, hmc⟩ := h.rest_fresh p (List.mem_cons_of_mem _ hp)
    exact ⟨m, by rw [asNote_setCluster_other _ _ _ hp1, hm1], hmc⟩
  · simpa using hnodup
  · intro cl hcl
    simp only [List.mem_append, List.mem_singleton] at hcl
    rcases hcl with hcl | rfl
    · exact h.addr_lt cl (by simp [hm, hcl])
    · exact h.addr_lt (c, (ag :: g).reverse) hmemLast
  · intro cl hcl i p hip
    simp only [List.mem_append, List.mem_singleton] at hcl
    rcases hcl with hcl | rfl
    · have hcl1 : cl ∈ st.chord.m_clusters := by simp [hm, hcl]
      have hp1 : p ≠ cur := h.member_ne hcl1 (List.getElem?_mem hip) hn hnc
      rw [asNote_setCluster_other _ _ _ hp1]
      exact h.backrefs cl hcl1 i p hip
    · simp only at hip
      by_cases hi : i < ((ag :: g).reverse).length
      · rw [List.getElem?_append_left hi] at hip
        have hp1 : p ≠ cur := h.member_ne hmemLast (List.getElem?_mem hip) hn hnc
        rw [asNote_setCluster_other _ _ _ hp1]
        exact h.backrefs _ hmemLast i p hip
      · rw [List.getElem?_append_right (Nat.le_of_not_lt hi)] at hip
        have hi0 : i - ((ag :: g).reverse).length = 0 := by
          by_contra hne
          obtain ⟨k, hk⟩ := Nat.exists_eq_succ_of_ne_zero hne
          rw [hk] at hip
          simp at hip
        rw [hi0] at hip
        simp only [List.getElem?_cons_zero, Option.some.injEq] at hip
        subst hip
        have hieq : i = ((ag :: g).reverse).length := by omega
        rw [setCluster_same _ _ hn]
        exact ⟨_, rfl, rfl, by simp [hieq]⟩
  · intro p hp
    have hp1 : p ≠ cur := by
      rintro rfl
      exact hp (c, (ag :: g).reverse ++ [p]) (by simp) (by simp)
    show setCluster st.chord.objects cur (some c) _ p = o0 p
    rw [setCluster_other _ _ _ hp1]
    apply h.untouched p
    intro cl hcl
    rw [hm] at hcl
    simp only [List.mem_append, List.mem_singleton] at hcl
    rcases hcl with hcl | rfl
    · exact hp cl (by simp [hcl])
    · intro hmem
      exact hp (c, (ag :: g).reverse ++ [cur]) (by simp) (by simp [List.mem_append] at hmem ⊢; tauto)

theorem clusterLoop_spec {o0 : Objects} (rest : List Ref) :
    ∀ {st : ClusterLoop} {ag : Ref} {g : List Ref} {gs : List (List Ref)},
      LoopInv o0 st ag g gs rest →
      ∃ st1, clusterLoop st rest = some st1 ∧
        LoopDone o0 st1.chord (List.splitBy.loop (stepUp o0) rest ag g gs) := by
  induction rest with
  | nil =>
    intro st ag g gs h
    refine ⟨st, rfl, ?_⟩
    refine
      { members := ?_
        pitches := h.pitches
        kinds := h.kinds
        addr_nodup := h.addr_nodup
        backrefs := h.backrefs
        untouched := h.untouched }
    obtain ⟨closed, hclosed, hcase⟩ := h.shape
    rcases hcase with ⟨hg, hm⟩ | ⟨hg, c, _, hm⟩
    · subst hg
      simp [clusterMembers, List.splitBy.loop, hm, hclosed, List.filter_append]
    · have hlen : 2 ≤ g.length + 1 := by
        cases g with
        | nil => exact absurd rfl hg
        | cons a t => simp
      simp [clusterMembers, List.splitBy.loop, hm, hclosed, List.filter_append, hlen]
  | cons cur rest ih =>
    intro st ag g gs h
    by_cases hstep : pitchOf o0 cur - pitchOf o0 ag = 1
    · have hR : stepUp o0 ag cur = true := by simp [stepUp, hstep]
      by_cases hg : g = []
      · subst hg
        obtain ⟨st1, hst1, hinv⟩ := h.newCluster hstep
        obtain ⟨st2, hst2, hdone⟩ := ih hinv
        exact ⟨st2, by simp [clusterLoop, hst1, hst2], by simpa [List.splitBy.loop, hR] using hdone⟩
      · obtain ⟨st1, hst1, hinv⟩ := h.extend hg hstep
        obtain ⟨st2, hst2, hdone⟩ := ih hinv
        exact ⟨st2, by simp [clusterLoop, hst1, hst2], by simpa [List.splitBy.loop, hR] using hdone⟩
    · have hR : stepUp o0 ag cur = false := by simp [stepUp, hstep]
      obtain ⟨st1, hst1, hinv⟩ := h.noStep hstep
      obtain ⟨st2, hst2, hdone⟩ := ih hinv
      exact ⟨st2, by simp [clusterLoop, hst1, hst2], by simpa [List.splitBy.loop, hR] using hdone⟩

/-! ### ClearClusters -/

theorem resetAll_not_mem (ps : List Ref) :
    ∀ (o : Objects) (p : Ref), p ∉ ps →
      ps.foldl (fun o q => setCluster o q none 0) o p = o p := by
  induction ps with
  | nil => intro o p _; rfl
  | cons q ps ih =>
    intro o p hp
    simp only [List.mem_cons, not_or] at hp
    rw [List.foldl_cons, ih _ _ hp.2, setCluster_other _ _ _ hp.1]

theorem resetAll_note (ps : List Ref) :
    ∀ (o : Objects) (p : Ref) (n : Note), asNote o p = some n →
      asNote (ps.foldl (fun o q => setCluster o q none 0) o) p = some n ∨
      asNote (ps.foldl (fun o q => setCluster o q none 0) o) p
        = some { n with m_cluster := none, m_clusterPosition := 0 } := by
  induction ps with
  | nil => intro o p n h; exact Or.inl h
  | cons q ps ih =>
    intro o p n h
    rw [List.foldl_cons]
    by_cases hq : p = q
    · subst hq
      rcases ih _ p _ (setCluster_same none 0 h) with h1 | h1
      · exact Or.inr h1
      · exact Or.inr h1
    · exact ih _ p n (by rw [asNote_setCluster_other _ _ _ hq]; exact h)

theorem resetAll_mem (ps : List Ref) :
    ∀ (o : Objects) (p : Ref) (n : Note), asNote o p = some n → p ∈ ps →
      asNote (ps.foldl (fun o q => setCluster o q none 0) o) p
        = some { n with m_cluster := none, m_clusterPosition := 0 } := by
  induction ps with
  | nil => intro o p n _ hp; cases hp
  | cons q ps ih =>
    intro o p n h hp
    rw [List.foldl_cons]
    by_cases hq : p = q
    · subst hq
      rcases resetAll_note ps _ p _ (setCluster_same none 0 h) with h1 | h1
      · exact h1
      · exact h1
    · have hp1 : p ∈ ps := by
        rcases List.mem_cons.mp hp with e | e
        · exact absurd e hq
        · exact e
      exact ih _ p n (by rw [asNote_setCluster_other _ _ _ hq]; exact h) hp1

theorem clearFold_eq (cls : List (Ref × List Ref)) :
    ∀ o : Objects,
      cls.foldl (fun objs cluster => cluster.2.foldl (fun o p => setCluster o p none 0) objs) o
        = (cls.map Prod.snd).flatten.foldl (fun o q => setCluster o q none 0) o := by
  induction cls with
  | nil => intro o; rfl
  | cons cl cls ih =>
    intro o
    simp only [List.foldl_cons, List.map_cons, List.flatten_cons, List.foldl_append]
    exact ih _

theorem ClearClusters_objects (ch : Chord) :
    (ClearClusters ch).objects
      = (ch.m_clusters.map Prod.snd).flatten.foldl (fun o q => setCluster o q none 0)
          ch.objects := by
  simp [ClearClusters, clearFold_eq]

theorem ClearClusters_note (ch : Chord) {p : Ref} {n : Note} (h : asNote ch.objects p = some n) :
    asNote (ClearClusters ch).objects p = some n ∨
    asNote (ClearClusters ch).objects p
      = some { n with m_cluster := none, m_clusterPosition := 0 } := by
  rw [ClearClusters_objects]
  exact resetAll_note _ _ _ _ h

theorem ClearClusters_member (ch : Chord) {p : Ref} {n : Note} (h : asNote ch.objects p = some n)
    {cl : Ref × List Ref} (hcl : cl ∈ ch.m_clusters) (hp : p ∈ cl.2) :
    asNote (ClearClusters ch).objects p
      = some { n with m_cluster := none, m_clusterPosition := 0 } := by
  rw [ClearClusters_objects]
  apply resetAll_mem _ _ _ _ h
  simp only [List.mem_flatten, List.mem_map]
  exact ⟨cl.2, ⟨cl, hcl, rfl⟩, hp⟩

theorem ClearClusters_not_note (ch : Chord) {p : Ref} (h : asNote ch.objects p = none) :
    (ClearClusters ch).objects p = ch.objects p := by
  rw [ClearClusters_objects]
  generalize (ch.m_clusters.map Prod.snd).flatten = ps
  generalize ch.objects = o at h ⊢
  induction ps generalizing o with
  | nil => rfl
  | cons q ps ih =>
    rw [List.foldl_cons]
    by_cases hq : p = q
    · subst hq
      rw [setCluster_not_note none 0 h]
      exact ih o h
    · rw [ih _ (by rw [asNote_setCluster_other _ _ _ hq]; exact h), setCluster_other _ _ _ hq]

theorem pitchOf_ClearClusters (ch : Chord) (p : Ref) :
    pitchOf (ClearClusters ch).objects p = pitchOf ch.objects p := by
  cases h : asNote ch.objects p with
  | none =>
    have := ClearClusters_not_note ch h
    simp [pitchOf, asNote, this]
  | some n =>
    rcases ClearClusters_note ch h with h1 | h1 <;> simp [pitchOf, h, h1]

theorem ClearClusters_m_clusters (ch : Chord) : (ClearClusters ch).m_clusters = [] := rfl

/-! ### The filter and the sort -/

theorem eraseNonNotes_eq_filter (objects : Objects) (l : List Ref) :
    eraseNonNotes objects l = l.filter (fun p => (asNote objects p).isSome) := by
  induction l with
  | nil => rfl
  | cons p rest ih =>
    unfold eraseNonNotes
    cases hp : objects p <;> simp [asNote, hp, List.filter_cons, ih]

theorem mem_sortByPitch {objects : Objects} {l : List Ref} {p : Ref} :
    p ∈ sortByPitch objects l ↔ p ∈ l :=
  (List.perm_insertionSort _ l).mem_iff

theorem mem_filtered {objects : Objects} {l : List Ref} {p : Ref} :
    p ∈ sortByPitch objects (eraseNonNotes objects l)
      ↔ p ∈ l ∧ (asNote objects p).isSome = true := by
  rw [mem_sortByPitch, eraseNonNotes_eq_filter, List.mem_filter]

theorem nodup_filtered (objects : Objects) {l : List Ref} (h : l.Nodup) :
    (sortByPitch objects (eraseNonNotes objects l)).Nodup := by
  rw [sortByPitch, (List.perm_insertionSort _ _).nodup_iff, eraseNonNotes_eq_filter]
  exact h.filter _

/-! ### FilterList as a whole -/

theorem stepUp_ClearClusters (ch : Chord) :
    stepUp (ClearClusters ch).objects = stepUp ch.objects := by
  funext a b
  simp [stepUp, pitchOf_ClearClusters]

theorem OwnClusters.resettable {ch : Chord} {l : List Ref} (h : OwnClusters ch l) :
    Resettable ch l := by
  intro p hp n hn
  rcases h p hp n hn with ⟨h1, _⟩ | h2
  · exact Or.inl h1
  · exact Or.inr h2

theorem cleared_fresh {ch : Chord} {l : List Ref} (hown : Resettable ch l) {p : Ref}
    (hp : p ∈ sortByPitch ch.objects (eraseNonNotes ch.objects l)) :
    ∃ n, asNote (ClearClusters ch).objects p = some n ∧ n.m_cluster = none := by
  obtain ⟨hpl, hnote⟩ := mem_filtered.mp hp
  obtain ⟨n, hn⟩ := Option.isSome_iff_exists.mp hnote
  rcases hown p hpl n hn with h1 | ⟨cl, hcl, hmem⟩
  · rcases ClearClusters_note ch hn with h | h
    · exact ⟨_, h, h1⟩
    · exact ⟨_, h, rfl⟩
  · exact ⟨_, ClearClusters_member ch hn hcl hmem, rfl⟩

/-- On a list of distinct objects holding at least one note, whose notes are
unclustered or clustered in this chord, `FilterList` returns; the clusters it
builds are the runs of `List.splitBy` of length at least 2. -/
theorem FilterList_spec (ch : Chord) (l : List Ref) (hnd : l.Nodup) (hown : Resettable ch l)
    (hne : sortByPitch ch.objects (eraseNonNotes ch.objects l) ≠ []) :
    ∃ ch1, FilterList ch l = some (ch1, sortByPitch ch.objects (eraseNonNotes ch.objects l)) ∧
      LoopDone (ClearClusters ch).objects ch1
        ((sortByPitch ch.objects (eraseNonNotes ch.objects l)).splitBy (stepUp ch.objects)) := by
  have hfresh := fun p hp => cleared_fresh hown (p := p) hp
  have hnodup := nodup_filtered ch.objects hnd
  unfold FilterList
  generalize sortByPitch ch.objects (eraseNonNotes ch.objects l) = sorted at *
  cases sorted with
  | nil => exact absurd rfl hne
  | cons first rest =>
    obtain ⟨n, hn, hnc⟩ := hfresh first (List.mem_cons_self _ _)
    have hnd2 := List.nodup_cons.mp hnodup
    have hinv : LoopInv (ClearClusters ch).objects
        { chord := ClearClusters ch, lastNote := first, lastPitch := n.diatonicPitch,
          curCluster := none } first [] [] rest :=
      { last_eq := rfl
        pitch_eq := by simp [pitchOf, hn]
        pitches := fun _ => rfl
        kinds := fun _ => rfl
        ag_note := ⟨n, hn⟩
        shape := ⟨[], by simp, Or.inl ⟨rfl, rfl⟩⟩
        idle := fun _ m hm => by rw [hn] at hm; cases hm; exact hnc
        rest_fresh := fun p hp => hfresh p (List.mem_cons_of_mem _ hp)
        ag_not_rest := hnd2.1
        rest_nodup := hnd2.2
        addr_nodup := by simp [ClearClusters_m_clusters]
        addr_lt := by simp [ClearClusters_m_clusters]
        backrefs := by simp [ClearClusters_m_clusters]
        untouched := fun _ _ => rfl }
    obtain ⟨st1, hst1, hdone⟩ := clusterLoop_spec rest hinv
    refine ⟨st1.chord, by simp [hn, hst1], ?_⟩
    rw [stepUp_ClearClusters] at hdone
    simpa [List.splitBy] using hdone

/-! ### Sortedness -/

theorem compare_pitch_false_iff (objects : Objects) (a b : Ref) :
    compare_pitch objects b a = false ↔ pitchOf objects a ≤ pitchOf objects b := by
  simp [compare_pitch]

theorem sorted_sortByPitch (objects : Objects) (l : List Ref) :
    (sortByPitch objects l).Sorted (fun a b => compare_pitch objects b a = false) := by
  haveI : IsTotal Ref (fun a b => compare_pitch objects b a = false) :=
    ⟨fun a b => by
      simp only [compare_pitch_false_iff]
      exact le_total _ _⟩
  haveI : IsTrans Ref (fun a b => compare_pitch objects b a = false) :=
    ⟨fun a b c hab hbc => by
      simp only [compare_pitch_false_iff] at *
      exact le_trans hab hbc⟩
  exact List.sorted_insertionSort _ l

theorem sortByPitch_congr {o1 o2 : Objects} (h : ∀ p, pitchOf o1 p = pitchOf o2 p)
    (l : List Ref) : sortByPitch o1 l = sortByPitch o2 l := by
  have : (fun a b => compare_pitch o1 b a = false) = (fun a b => compare_pitch o2 b a = false) := by
    funext a b
    simp [compare_pitch, h]
  unfold sortByPitch
  simp only [this]

theorem sortByPitch_idem (objects : Objects) (l : List Ref) :
    sortByPitch objects (sortByPitch objects l) = sortByPitch objects l :=
  List.Sorted.insertionSort_eq (sorted_sortByPitch objects l)

theorem isSome_asNote_ClearClusters (ch : Chord) (p : Ref) :
    (asNote (ClearClusters ch).objects p).isSome = (asNote ch.objects p).isSome := by
  cases h : asNote ch.objects p with
  | none =>
    have := ClearClusters_not_note ch h
    simp [asNote, this] at h ⊢
    simp [h]
  | some n =>
    rcases ClearClusters_note ch h with h1 | h1 <;> simp [h1]

theorem ClearClusters_not_member (ch : Chord) {p : Ref}
    (h : ∀ cl ∈ ch.m_clusters, p ∉ cl.2) : (ClearClusters ch).objects p = ch.objects p := by
  rw [ClearClusters_objects]
  apply resetAll_not_mem
  simp only [List.mem_flatten, List.mem_map, not_exists, not_and]
  rintro ms ⟨cl, hcl, rfl⟩
  exact h cl hcl

/-! ### The cluster loop from an arbitrary memory -/

theorem GenInv.member_some {o0 : Objects} {st : ClusterLoop} {seen rest : List Ref}
    (h : GenInv o0 st seen rest) {p : Ref} (hp : IsMember st.chord.m_clusters p) :
    ∃ n c, asNote st.chord.objects p = some n ∧ n.m_cluster = some c := by
  obtain ⟨cl, hcl, hmem⟩ := hp
  obtain ⟨i, hi⟩ := List.mem_iff_getElem?.mp hmem
  obtain ⟨n, hn, hc, _⟩ := h.backrefs cl hcl i p hi
  exact ⟨n, cl.1, hn, hc⟩

theorem GenInv.after_step {o0 : Objects} {st st1 : ClusterLoop} {seen rest : List Ref} {cur : Ref}
    (h : GenInv o0 st seen (cur :: rest)) (hs : clusterStep st cur = some st1) :
    GenInv o0 st1 (seen ++ [cur]) rest ∧ StepFacts st st1 cur := by
  have hnd := List.nodup_cons.mp h.rest_nodup
  have hcur_unseen : cur ∉ seen := h.rest_unseen cur (List.mem_cons_self _ _)
  have hcur_ne : cur ≠ st.lastNote := fun e => hcur_unseen (e ▸ h.last_seen)
  have hcur_nomem : ¬ IsMember st.chord.m_clusters cur := fun hm => hcur_unseen (h.members_seen cur hm)
  have hrest1 : ∀ p ∈ rest, p ∉ seen ++ [cur] := by
    intro p hp hmem
    rcases List.mem_append.mp hmem with hm | hm
    · exact h.rest_unseen p (List.mem_cons_of_mem _ hp) hm
    · simp only [List.mem_singleton] at hm
      exact hnd.1 (hm ▸ hp)
  cases hcur : asNote st.chord.objects cur with
  | none => simp [clusterStep, hcur] at hs
  | some n =>
    by_cases hstep : n.diatonicPitch - st.lastPitch = 1
    swap
    · -- no step
      rw [clusterStep_noStep hcur hstep] at hs
      cases hs
      refine ⟨?_, ?_⟩
      · exact
          { last_seen := by simp
            rest_nodup := hnd.2
            rest_unseen := hrest1
            members_seen := fun p hp => List.mem_append_left _ (h.members_seen p hp)
            cur_last := h.cur_last
            pitches := h.pitches
            kinds := h.kinds
            addr_nodup := h.addr_nodup
            addr_lt := h.addr_lt
            backrefs := h.backrefs
            untouched := h.untouched }
      · exact
          { last_eq := rfl
            pitch_eq := fun m hm => by rw [hcur] at hm; cases hm; rfl
            frame := fun _ _ _ => rfl
            grow := fun p hp => Or.inl hp
            keep := fun p hp => hp }
    · cases hlast : asNote st.chord.objects st.lastNote with
      | none => simp [clusterStep, hcur, hstep, hlast] at hs
      | some last =>
        cases hlc : last.m_cluster with
        | none =>
          -- a new cluster is created
          have hfresh : ∀ cl ∈ st.chord.m_clusters, cl.1 ≠ st.chord.heapTop :=
            fun cl hcl => Nat.ne_of_lt (h.addr_lt cl hcl)
          rw [clusterStep_new hcur hstep hlast hlc hfresh] at hs
          cases hs
          have hlast_nomem : ¬ IsMember st.chord.m_clusters st.lastNote := by
            intro hm
            obtain ⟨m, c, hm1, hm2⟩ := h.member_some hm
            rw [hlast] at hm1
            cases hm1
            rw [hlc] at hm2
            cases hm2
          have hcur1 : asNote (setCluster st.chord.objects st.lastNote
              (some st.chord.heapTop) 1) cur = some n := by
            rw [asNote_setCluster_other _ _ _ hcur_ne]; exact hcur
          refine ⟨?_, ?_⟩
          · refine
              { last_seen := by simp
                rest_nodup := hnd.2
                rest_unseen := hrest1
                members_seen := ?_
                cur_last := ?_
                pitches := fun p => by simp only [pitchOf_setCluster]; exact h.pitches p
                kinds := fun p => by simp only [isSome_asNote_setCluster]; exact h.kinds p
                addr_nodup := ?_
                addr_lt := ?_
                backrefs := ?_
                untouched := ?_ }
            · rintro p ⟨cl, hcl, hp⟩
              simp only [List.mem_append, List.mem_singleton] at hcl
              rcases hcl with hcl | rfl
              · exact List.mem_append_left _ (h.members_seen p ⟨cl, hcl, hp⟩)
              · simp only [List.mem_cons, List.mem_singleton, List.not_mem_nil, or_false] at hp
                rcases hp with rfl | rfl
                · exact List.mem_append_left _ h.last_seen
                · simp
            · intro c hc
              simp only [Option.some.injEq] at hc
              subst hc
              exact ⟨_, _, rfl⟩
            · simp only [List.map_append, List.map_cons, List.map_nil]
              rw [List.nodup_append]
              refine ⟨h.addr_nodup, by simp, ?_⟩
              intro a ha hb
              simp only [List.mem_singleton] at hb
              obtain ⟨cl, hcl, hcla⟩ := List.mem_map.mp ha
              exact hfresh cl hcl (hcla.trans hb)
            · intro cl hcl
              simp only [List.mem_append, List.mem_singleton] at hcl
              rcases hcl with hcl | rfl
              · exact Nat.lt_succ_of_lt (h.addr_lt cl hcl)
              · exact Nat.lt_succ_self _
            · intro cl hcl i p hip
              simp only [List.mem_append, List.mem_singleton] at hcl
              rcases hcl with hcl | rfl
              · have hpm : IsMember st.chord.m_clusters p := ⟨cl, hcl, List.getElem?_mem hip⟩
                have hp1 : p ≠ cur := fun e => hcur_nomem (e ▸ hpm)
                have hp2 : p ≠ st.lastNote := fun e => hlast_nomem (e ▸ hpm)
                rw [asNote_setCluster_other _ _ _ hp1, asNote_setCluster_other _ _ _ hp2]
                exact h.backrefs cl hcl i p hip
              · match i, hip with
                | 0, hip =>
                  simp only [List.getElem?_cons_zero, Option.some.injEq] at hip
                  subst hip
                  rw [asNote_setCluster_other _ _ _ (Ne.symm hcur_ne), setCluster_same _ _ hlast]
                  exact ⟨_, rfl, rfl, by simp⟩
                | 1, hip =>
                  simp only [List.getElem?_cons_succ, List.getElem?_cons_zero,
                    Option.some.injEq] at hip
                  subst hip
                  rw [setCluster_same _ _ hcur1]
                  exact ⟨_, rfl, rfl, by simp⟩
                | (j + 2), hip => simp at hip
            · intro p hp
              have hp1 : p ≠ cur := by
                rintro rfl
                exact hp ⟨(st.chord.heapTop, [st.lastNote, p]), by simp, by simp⟩
              have hp2 : p ≠ st.lastNote := by
                rintro rfl
                exact hp ⟨(st.chord.heapTop, [st.lastNote, cur]), by simp, by simp⟩
              show setCluster (setCluster st.chord.objects st.lastNote (some st.chord.heapTop) 1)
                cur (some st.chord.heapTop) 2 p = o0 p
              rw [setCluster_other _ _ _ hp1, setCluster_other _ _ _ hp2]
              apply h.untouched p
              rintro ⟨cl, hcl, hmem⟩
              exact hp ⟨cl, by simp [hcl], hmem⟩
          · refine
              { last_eq := rfl
                pitch_eq := fun m hm => by rw [hcur] at hm; cases hm; rfl
                frame := ?_
                grow := ?_
                keep := ?_ }
            · intro p hp1 hp2
              show setCluster (setCluster st.chord.objects st.lastNote (some st.chord.heapTop) 1)
                cur (some st.chord.heapTop) 2 p = st.chord.objects p
              rw [setCluster_other _ _ _ hp2, setCluster_other _ _ _ hp1]
            · rintro p ⟨cl, hcl, hp⟩
              simp only [List.mem_append, List.mem_singleton] at hcl
              rcases hcl with hcl | rfl
              · exact Or.inl ⟨cl, hcl, hp⟩
              · simp only [List.mem_cons, List.mem_singleton, List.not_mem_nil, or_false] at hp
                rcases hp with rfl | rfl
                · right; right
                  refine ⟨rfl, fun m hm => ?_⟩
                  rw [hlast] at hm
                  cases hm
                  exact hlc
                · exact Or.inr (Or.inl rfl)
            · rintro p ⟨cl, hcl, hp⟩
              exact ⟨cl, by simp [hcl], hp⟩
        | some c1 =>
          cases hcc : st.curCluster with
          | none => simp [clusterStep, hcur, hstep, hlast, hlc, hcc] at hs
          | some c =>
            obtain ⟨init, ms, hm⟩ := h.cur_last c hcc
            have hnodup := h.addr_nodup
            rw [hm] at hnodup
            simp only [List.map_append, List.map_cons, List.map_nil] at hnodup
            have hfresh : ∀ cl ∈ init, cl.1 ≠ c := by
              intro cl hcl e
              have := (List.nodup_append.mp hnodup).2.2
              exact this (List.mem_map.mpr ⟨cl, hcl, e⟩) (List.mem_singleton_self c)
            have hmemLast : (c, ms) ∈ st.chord.m_clusters := by simp [hm]
            rw [clusterStep_extend hcur hstep hlast hlc hcc hm hfresh] at hs
            cases hs
            refine ⟨?_, ?_⟩
            · refine
                { last_seen := by simp
                  rest_nodup := hnd.2
                  rest_unseen := hrest1
                  members_seen := ?_
                  cur_last := ?_
                  pitches := fun p => by simp only [pitchOf_setCluster]; exact h.pitches p
                  kinds := fun p => by simp only [isSome_asNote_setCluster]; exact h.kinds p
                  addr_nodup := by simpa using hnodup
                  addr_lt := ?_
                  backrefs := ?_
                  untouched := ?_ }
              · rintro p ⟨cl, hcl, hp⟩
                simp only [List.mem_append, List.mem_singleton] at hcl
                rcases hcl with hcl | rfl
                · exact List.mem_append_left _
                    (h.members_seen p ⟨cl, by simp [hm, hcl], hp⟩)
                · simp only [List.mem_append, List.mem_singleton] at hp
                  rcases hp with hp | rfl
                  · exact List.mem_append_left _ (h.members_seen p ⟨(c, ms), hmemLast, hp⟩)
                  · simp
              · intro c2 hc2
                simp only [Option.some.injEq] at hc2
                subst hc2
                exact ⟨_, _, rfl⟩
              · intro cl hcl
                simp only [List.mem_append, List.mem_singleton] at hcl
                rcases hcl with hcl | rfl
                · exact h.addr_lt cl (by simp [hm, hcl])
                · exact h.addr_lt (c, ms) hmemLast
              · intro cl hcl i p hip
                simp only [List.mem_append, List.mem_singleton] at hcl
                rcases hcl with hcl | rfl
                · have hcl1 : cl ∈ st.chord.m_clusters := by simp [hm, hcl]
                  have hp1 : p ≠ cur :=
                    fun e => hcur_nomem (e ▸ ⟨cl, hcl1, List.getElem?_mem hip⟩)
                  rw [asNote_setCluster_other _ _ _ hp1]
                  exact h.backrefs cl hcl1 i p hip
                · simp only at hip
                  by_cases hi : i < ms.length
                  · rw [List.getElem?_append_left hi] at hip
                    have hp1 : p ≠ cur :=
                      fun e => hcur_nomem (e ▸ ⟨(c, ms), hmemLast, List.getElem?_mem hip⟩)
                    rw [asNote_setCluster_other _ _ _ hp1]
                    exact h.backrefs _ hmemLast i p hip
                  · rw [List.getElem?_append_right (Nat.le_of_not_lt hi)] at hip
                    have hi0 : i - ms.length = 0 := by
                      by_contra hne
                      obtain ⟨j, hj⟩ := Nat.exists_eq_succ_of_ne_zero hne
                      rw [hj] at hip
                      simp at hip
                    rw [hi0] at hip
                    simp only [List.getElem?_cons_zero, Option.some.injEq] at hip
                    subst hip
                    have hieq : i = ms.length := by omega
                    rw [setCluster_same _ _ hcur]
                    exact ⟨_, rfl, rfl, by simp [hieq]⟩
              · intro p hp
                have hp1 : p ≠ cur := by
                  rintro rfl
                  exact hp ⟨(c, ms ++ [p]), by simp, by simp⟩
                show setCluster st.chord.objects cur (some c) _ p = o0 p
                rw [setCluster_other _ _ _ hp1]
                apply h.untouched p
                rintro ⟨cl, hcl, hmem⟩
                rw [hm] at hcl
                simp only [List.mem_append, List.mem_singleton] at hcl
                rcases hcl with hcl | rfl
                · exact hp ⟨cl, by simp [hcl], hmem⟩
                · exact hp ⟨(c, ms ++ [cur]), by simp, by simp [hmem]⟩
            · refine
                { last_eq := rfl
                  pitch_eq := fun m hm => by rw [hcur] at hm; cases hm; rfl
                  frame := ?_
                  grow := ?_
                  keep := ?_ }
              · intro p _ hp2
                show setCluster st.chord.objects cur (some c) _ p = st.chord.objects p
                rw [setCluster_other _ _ _ hp2]
              · rintro p ⟨cl, hcl, hp⟩
                simp only [List.mem_append, List.mem_singleton] at hcl
                rcases hcl with hcl | rfl
                · exact Or.inl ⟨cl, by simp [hm, hcl], hp⟩
                · simp only [List.mem_append, List.mem_singleton] at hp
                  rcases hp with hp | rfl
                  · exact Or.inl ⟨(c, ms), hmemLast, hp⟩
                  · exact Or.inr (Or.inl rfl)
              · rintro p ⟨cl, hcl, hp⟩
                rw [hm] at hcl
                simp only [List.mem_append, List.mem_singleton] at hcl
                rcases hcl with hcl | rfl
                · exact ⟨cl, by simp [hcl], hp⟩
                · exact ⟨(c, ms ++ [cur]), by simp, by simp [hp]⟩

theorem clusterLoop_cons {st st2 : ClusterLoop} {cur : Ref} {rest : List Ref}
    (h : clusterLoop st (cur :: rest) = some st2) :
    ∃ st1, clusterStep st cur = some st1 ∧ clusterLoop st1 rest = some st2 := by
  unfold clusterLoop at h
  cases hs : clusterStep st cur with
  | none => simp [hs] at h
  | some st1 => exact ⟨st1, rfl, by simpa [hs] using h⟩

theorem GenInv.after_loop {o0 : Objects} (rest : List Ref) :
    ∀ {st st2 : ClusterLoop} {seen : List Ref}, GenInv o0 st seen rest →
      clusterLoop st rest = some st2 → GenInv o0 st2 (seen ++ rest) [] := by
  induction rest with
  | nil =>
    intro st st2 seen h hl
    simp only [clusterLoop, Option.some.injEq] at hl
    subst hl
    simpa using h
  | cons cur rest ih =>
    intro st st2 seen h hl
    obtain ⟨st1, hs, hl1⟩ := clusterLoop_cons hl
    have := ih (h.after_step hs).1 hl1
    simpa using this

/-- A note gone through that is neither the last note nor in a cluster stays outside
every cluster. -/
theorem GenInv.outsider {o0 : Objects} (rest : List Ref) :
    ∀ {st st2 : ClusterLoop} {seen : List Ref} {p : Ref}, GenInv o0 st seen rest →
      p ∈ seen → p ≠ st.lastNote → ¬ IsMember st.chord.m_clusters p →
      clusterLoop st rest = some st2 → ¬ IsMember st2.chord.m_clusters p := by
  induction rest with
  | nil =>
    intro st st2 seen p _ _ _ hno hl
    simp only [clusterLoop, Option.some.injEq] at hl
    subst hl
    exact hno
  | cons cur rest ih =>
    intro st st2 seen p h hp hne hno hl
    obtain ⟨st1, hs, hl1⟩ := clusterLoop_cons hl
    obtain ⟨hinv, hfacts⟩ := h.after_step hs
    have hpc : p ≠ cur := fun e => h.rest_unseen cur (List.mem_cons_self _ _) (e ▸ hp)
    refine ih hinv (List.mem_append_left _ hp) (by rw [hfacts.last_eq]; exact hpc) ?_ hl1
    intro hm
    rcases hfacts.grow p hm with h1 | h1 | ⟨h1, _⟩
    · exact hno h1
    · exact hpc h1
    · exact hne h1

/-- A last note that carries a back-reference without being in a cluster is never
put into one. -/
theorem GenInv.stale_last {o0 : Objects} {rest : List Ref} {st st2 : ClusterLoop}
    {seen : List Ref} (h : GenInv o0 st seen rest) {n : Note} {c : Ref}
    (hn : asNote st.chord.objects st.lastNote = some n) (hc : n.m_cluster = some c)
    (hno : ¬ IsMember st.chord.m_clusters st.lastNote)
    (hl : clusterLoop st rest = some st2) : ¬ IsMember st2.chord.m_clusters st.lastNote := by
  cases rest with
  | nil =>
    simp only [clusterLoop, Option.some.injEq] at hl
    subst hl
    exact hno
  | cons cur rest =>
    obtain ⟨st1, hs, hl1⟩ := clusterLoop_cons hl
    obtain ⟨hinv, hfacts⟩ := h.after_step hs
    have hpc : st.lastNote ≠ cur :=
      fun e => h.rest_unseen cur (List.mem_cons_self _ _) (e ▸ h.last_seen)
    refine GenInv.outsider rest hinv (List.mem_append_left _ h.last_seen)
      (by rw [hfacts.last_eq]; exact hpc) ?_ hl1
    intro hm
    rcases hfacts.grow _ hm with h1 | h1 | ⟨_, h1⟩
    · exact hno h1
    · exact hpc h1
    · have := h1 n hn
      rw [hc] at this
      cases this

/-- The pieces of a call of `FilterList` that returns. -/
theorem FilterList_some_unfold {ch ch1 : Chord} {l l1 : List Ref}
    (h : FilterList ch l = some (ch1, l1)) :
    ∃ first rest n st,
      sortByPitch ch.objects (eraseNonNotes ch.objects l) = first :: rest ∧
      l1 = first :: rest ∧
      asNote (ClearClusters ch).objects first = some n ∧
      clusterLoop
        { chord := ClearClusters ch, lastNote := first, lastPitch := n.diatonicPitch,
          curCluster := none } rest = some st ∧
      st.chord = ch1 := by
  unfold FilterList at h
  generalize sortByPitch ch.objects (eraseNonNotes ch.objects l) = sorted at h
  cases sorted with
  | nil => simp at h
  | cons first rest =>
    simp only at h
    cases h1 : asNote (ClearClusters ch).objects first with
    | none => simp [h1] at h
    | some n =>
      simp only [h1] at h
      cases h2 : clusterLoop
          { chord := ClearClusters ch, lastNote := first, lastPitch := n.diatonicPitch,
            curCluster := none } rest with
      | none => simp [h2] at h
      | some st =>
        simp only [h2, Option.some.injEq, Prod.mk.injEq] at h
        exact ⟨first, rest, n, st, rfl, h.2.symm, h1, h2, h.1⟩

theorem GenInv.init (ch : Chord) {first : Ref} {rest : List Ref} (lastPitch : Int)
    (hnd : (first :: rest).Nodup) :
    GenInv (ClearClusters ch).objects
      { chord := ClearClusters ch, lastNote := first, lastPitch := lastPitch,
        curCluster := none } [first] rest :=
  { last_seen := by simp
    rest_nodup := (List.nodup_cons.mp hnd).2
    rest_unseen := fun p hp hmem => by
      simp only [List.mem_singleton] at hmem
      exact (List.nodup_cons.mp hnd).1 (hmem ▸ hp)
    members_seen := fun p hp => by
      obtain ⟨cl, hcl, _⟩ := hp
      simp [ClearClusters_m_clusters] at hcl
    cur_last := fun c hc => by simp at hc
    pitches := fun _ => rfl
    kinds := fun _ => rfl
    addr_nodup := by simp [ClearClusters_m_clusters]
    addr_lt := by simp [ClearClusters_m_clusters]
    backrefs := by simp [ClearClusters_m_clusters]
    untouched := fun _ _ => rfl }

/-- After every call of `FilterList` that returns on a list of distinct objects,
the general invariant holds of the chord it leaves. -/
theorem FilterList_some_inv {ch ch1 : Chord} {l l1 : List Ref} (hnd : l.Nodup)
    (h : FilterList ch l = some (ch1, l1)) :
    ∃ st, st.chord = ch1 ∧ GenInv (ClearClusters ch).objects st l1 [] := by
  obtain ⟨first, rest, n, st, hsorted, hl1, _, hloop, hch⟩ := FilterList_some_unfold h
  have hnd1 := nodup_filtered ch.objects hnd
  rw [hsorted] at hnd1
  have := GenInv.after_loop rest (GenInv.init ch n.diatonicPitch hnd1) hloop
  rw [hl1]
  exact ⟨st, hch, by simpa using this⟩

/-! ### Two runs in lockstep -/

theorem diatonicPitch_setCluster (objects : Objects) (p q : Ref) (c : Option Ref) (pos : Int) :
    (asNote (setCluster objects p c pos) q).map Note.diatonicPitch
      = (asNote objects q).map Note.diatonicPitch := by
  by_cases hq : q = p
  · subst hq
    cases hn : asNote objects q with
    | none => rw [setCluster_not_note c pos hn, hn]
    | some n => simp [setCluster_same c pos hn]
  · simp [asNote_setCluster_other objects c pos hq]

theorem hasCluster_setCluster_same {objects : Objects} {p : Ref} {n : Note} (c : Ref) (pos : Int)
    (h : asNote objects p = some n) : hasCluster (setCluster objects p (some c) pos) p = true := by
  simp [hasCluster, setCluster_same (some c) pos h]

theorem hasCluster_setCluster_other (objects : Objects) {p q : Ref} (c : Option Ref) (pos : Int)
    (h : q ≠ p) : hasCluster (setCluster objects p c pos) q = hasCluster objects q := by
  simp [hasCluster, asNote_setCluster_other objects c pos h]

theorem hasCluster_of_some {objects : Objects} {p : Ref} {n : Note} (h : asNote objects p = some n) :
    hasCluster objects p = n.m_cluster.isSome := by
  simp [hasCluster, h]

theorem Lockstep.next {oa ob : Objects} {a b a1 a2 : ClusterLoop} {seen rest : List Ref}
    {cur : Ref} (ha : GenInv oa a seen (cur :: rest)) (hb : GenInv ob b seen (cur :: rest))
    (hL : Lockstep a b (cur :: rest) a2.chord.m_clusters)
    (hsa : clusterStep a cur = some a1) (hla : clusterLoop a1 rest = some a2) :
    ∃ b1, clusterStep b cur = some b1 ∧ Lockstep a1 b1 rest a2.chord.m_clusters := by
  have hnd := List.nodup_cons.mp ha.rest_nodup
  have hcur_unseen : cur ∉ seen := ha.rest_unseen cur (List.mem_cons_self _ _)
  have hcur_ne_a : cur ≠ a.lastNote := fun e => hcur_unseen (e ▸ ha.last_seen)
  have hcur_ne_b : cur ≠ b.lastNote := fun e => hcur_unseen (e ▸ hb.last_seen)
  have hrest_ne : ∀ p ∈ rest, p ≠ cur ∧ p ≠ a.lastNote ∧ p ≠ b.lastNote := by
    intro p hp
    refine ⟨fun e => hnd.1 (e ▸ hp), ?_, ?_⟩
    · exact fun e => ha.rest_unseen p (List.mem_cons_of_mem _ hp) (e ▸ ha.last_seen)
    · exact fun e => hb.rest_unseen p (List.mem_cons_of_mem _ hp) (e ▸ hb.last_seen)
  obtain ⟨hinv1, hfacts⟩ := ha.after_step hsa
  cases hcur : asNote a.chord.objects cur with
  | none => simp [clusterStep, hcur] at hsa
  | some na =>
    have hcurb : ∃ nb, asNote b.chord.objects cur = some nb ∧
        nb.diatonicPitch = na.diatonicPitch := by
      have := hL.notes_eq cur
      rw [hcur] at this
      cases hb1 : asNote b.chord.objects cur with
      | none => simp [hb1] at this
      | some nb => exact ⟨nb, rfl, by simpa [hb1] using this.symm⟩
    obtain ⟨nb, hnb, hpitch⟩ := hcurb
    by_cases hstep : na.diatonicPitch - a.lastPitch = 1
    swap
    · -- no step in either run
      have hstepb : ¬ nb.diatonicPitch - b.lastPitch = 1 := by
        rw [hpitch, ← hL.pitch_eq]; exact hstep
      rw [clusterStep_noStep hcur hstep] at hsa
      cases hsa
      refine ⟨_, clusterStep_noStep hnb hstepb, ?_⟩
      refine
        { last_eq := rfl
          pitch_eq := hpitch.symm
          members_eq := hL.members_eq
          cur_eq := hL.cur_eq
          last_null := ?_
          notes_eq := hL.notes_eq
          rest_le := fun p hp => hL.rest_le p (List.mem_cons_of_mem _ hp)
          rest_final := fun p hp => hL.rest_final p (List.mem_cons_of_mem _ hp) }
      show hasCluster a.chord.objects cur = hasCluster b.chord.objects cur
      cases hbc : hasCluster b.chord.objects cur with
      | true => exact hL.rest_le cur (List.mem_cons_self _ _) hbc
      | false =>
        cases hac : hasCluster a.chord.objects cur with
        | false => rfl
        | true =>
          exfalso
          have hmem := hL.rest_final cur (List.mem_cons_self _ _) hac hbc
          rw [hasCluster_of_some hcur] at hac
          obtain ⟨c, hc⟩ := Option.isSome_iff_exists.mp hac
          have hno : ¬ IsMember a.chord.m_clusters cur :=
            fun hm => hcur_unseen (ha.members_seen cur hm)
          exact GenInv.stale_last hinv1 hcur hc hno hla hmem
    · have hstepb : nb.diatonicPitch - b.lastPitch = 1 := by
        rw [hpitch, ← hL.pitch_eq]; exact hstep
      cases hlast : asNote a.chord.objects a.lastNote with
      | none => simp [clusterStep, hcur, hstep, hlast] at hsa
      | some la =>
        have hlastb : ∃ lb, asNote b.chord.objects b.lastNote = some lb := by
          have := hL.notes_eq a.lastNote
          rw [hlast, hL.last_eq] at this
          cases hb1 : asNote b.chord.objects b.lastNote with
          | none => simp [hb1] at this
          | some lb => exact ⟨lb, rfl⟩
        obtain ⟨lb, hlb⟩ := hlastb
        have hnull : la.m_cluster.isSome = lb.m_cluster.isSome := by
          have := hL.last_null
          rwa [hasCluster_of_some hlast, hasCluster_of_some hlb] at this
        cases hlc : la.m_cluster with
        | none =>
          have hlcb : lb.m_cluster = none := by
            rw [hlc] at hnull
            cases hx : lb.m_cluster with
            | none => rfl
            | some x => simp [hx] at hnull
          have hfresha : ∀ cl ∈ a.chord.m_clusters, cl.1 ≠ a.chord.heapTop :=
            fun cl hcl => Nat.ne_of_lt (ha.addr_lt cl hcl)
          have hfreshb : ∀ cl ∈ b.chord.m_clusters, cl.1 ≠ b.chord.heapTop :=
            fun cl hcl => Nat.ne_of_lt (hb.addr_lt cl hcl)
          rw [clusterStep_new hcur hstep hlast hlc hfresha] at hsa
          cases hsa
          refine ⟨_, clusterStep_new hnb hstepb hlb hlcb hfreshb, ?_⟩
          have hcura : asNote (setCluster a.chord.objects a.lastNote
              (some a.chord.heapTop) 1) cur = some na := by
            rw [asNote_setCluster_other _ _ _ hcur_ne_a]; exact hcur
          have hcurb1 : asNote (setCluster b.chord.objects b.lastNote
              (some b.chord.heapTop) 1) cur = some nb := by
            rw [asNote_setCluster_other _ _ _ hcur_ne_b]; exact hnb
          refine
            { last_eq := rfl
              pitch_eq := hpitch.symm
              members_eq := ?_
              cur_eq := rfl
              last_null := ?_
              notes_eq := fun p => by
                simp only [diatonicPitch_setCluster]; exact hL.notes_eq p
              rest_le := ?_
              rest_final := ?_ }
          · have := hL.members_eq
            simp only [clusterMembers] at this ⊢
            simp [this, hL.last_eq]
          · show hasCluster (setCluster _ cur _ _) cur = hasCluster (setCluster _ cur _ _) cur
            rw [hasCluster_setCluster_same _ _ hcura, hasCluster_setCluster_same _ _ hcurb1]
          · intro p hp
            obtain ⟨h1, h2, h3⟩ := hrest_ne p hp
            show hasCluster (setCluster (setCluster _ _ _ _) cur _ _) p = true →
              hasCluster (setCluster (setCluster _ _ _ _) cur _ _) p = true
            rw [hasCluster_setCluster_other _ _ _ h1, hasCluster_setCluster_other _ _ _ h3,
              hasCluster_setCluster_other _ _ _ h1, hasCluster_setCluster_other _ _ _ h2]
            exact hL.rest_le p (List.mem_cons_of_mem _ hp)
          · intro p hp
            obtain ⟨h1, h2, h3⟩ := hrest_ne p hp
            show hasCluster (setCluster (setCluster _ _ _ _) cur _ _) p = true →
              hasCluster (setCluster (setCluster _ _ _ _) cur _ _) p = false → _
            rw [hasCluster_setCluster_other _ _ _ h1, hasCluster_setCluster_other _ _ _ h2,
              hasCluster_setCluster_other _ _ _ h1, hasCluster_setCluster_other _ _ _ h3]
            exact hL.rest_final p (List.mem_cons_of_mem _ hp)
        | some c1 =>
          have hlcb : ∃ c1b, lb.m_cluster = some c1b := by
            rw [hlc] at hnull
            exact Option.isSome_iff_exists.mp hnull.symm
          obtain ⟨c1b, hlcb⟩ := hlcb
          cases hcc : a.curCluster with
          | none => simp [clusterStep, hcur, hstep, hlast, hlc, hcc] at hsa
          | some ca =>
            have hccb : ∃ cb, b.curCluster = some cb := by
              have := hL.cur_eq
              rw [hcc] at this
              exact Option.isSome_iff_exists.mp this.symm
            obtain ⟨cb, hccb⟩ := hccb
            obtain ⟨inita, msa, hma⟩ := ha.cur_last ca hcc
            obtain ⟨initb, msb, hmb⟩ := hb.cur_last cb hccb
            have hfresh_of : ∀ {st : ClusterLoop} {init : List (Ref × List Ref)} {c : Ref}
                {ms : List Ref}, (st.chord.m_clusters.map Prod.fst).Nodup →
                st.chord.m_clusters = init ++ [(c, ms)] → ∀ cl ∈ init, cl.1 ≠ c := by
              intro st init c ms hnodup hm cl hcl e
              rw [hm] at hnodup
              simp only [List.map_append, List.map_cons, List.map_nil] at hnodup
              exact (List.nodup_append.mp hnodup).2.2 (List.mem_map.mpr ⟨cl, hcl, e⟩)
                (List.mem_singleton_self c)
            have hfresha := hfresh_of ha.addr_nodup hma
            have hfreshb := hfresh_of hb.addr_nodup hmb
            rw [clusterStep_extend hcur hstep hlast hlc hcc hma hfresha] at hsa
            cases hsa
            refine ⟨_, clusterStep_extend hnb hstepb hlb hlcb hccb hmb hfreshb, ?_⟩
            have hmem := hL.members_eq
            simp only [clusterMembers, hma, hmb, List.map_append, List.map_cons,
              List.map_nil] at hmem
            obtain ⟨hinit, hms⟩ := List.append_inj' hmem rfl
            simp only [List.cons.injEq, and_true] at hms
            refine
              { last_eq := rfl
                pitch_eq := hpitch.symm
                members_eq := ?_
                cur_eq := rfl
                last_null := ?_
                notes_eq := fun p => by
                  simp only [diatonicPitch_setCluster]; exact hL.notes_eq p
                rest_le := ?_
                rest_final := ?_ }
            · simp [clusterMembers, hinit, hms]
            · show hasCluster (setCluster _ cur _ _) cur = hasCluster (setCluster _ cur _ _) cur
              rw [hasCluster_setCluster_same _ _ hcur, hasCluster_setCluster_same _ _ hnb]
            · intro p hp
              obtain ⟨h1, _, _⟩ := hrest_ne p hp
              show hasCluster (setCluster _ cur _ _) p = true →
                hasCluster (setCluster _ cur _ _) p = true
              rw [hasCluster_setCluster_other _ _ _ h1, hasCluster_setCluster_other _ _ _ h1]
              exact hL.rest_le p (List.mem_cons_of_mem _ hp)
            · intro p hp
              obtain ⟨h1, _, _⟩ := hrest_ne p hp
              show hasCluster (setCluster _ cur _ _) p = true →
                hasCluster (setCluster _ cur _ _) p = false → _
              rw [hasCluster_setCluster_other _ _ _ h1, hasCluster_setCluster_other _ _ _ h1]
              exact hL.rest_final p (List.mem_cons_of_mem _ hp)

theorem Lockstep.run (rest : List Ref) :
    ∀ {oa ob : Objects} {a b a2 : ClusterLoop} {seen : List Ref},
      GenInv oa a seen rest → GenInv ob b seen rest →
      Lockstep a b rest a2.chord.m_clusters → clusterLoop a rest = some a2 →
      ∃ b2, clusterLoop b rest = some b2 ∧
        clusterMembers b2.chord = clusterMembers a2.chord := by
  induction rest with
  | nil =>
    intro oa ob a b a2 seen _ _ hL hla
    simp only [clusterLoop, Option.some.injEq] at hla
    subst hla
    exact ⟨b, rfl, hL.members_eq.symm⟩
  | cons cur rest ih =>
    intro oa ob a b a2 seen ha hb hL hla
    obtain ⟨a1, hsa, hla1⟩ := clusterLoop_cons hla
    obtain ⟨b1, hsb, hL1⟩ := Lockstep.next ha hb hL hsa hla1
    obtain ⟨b2, hlb, hmem⟩ := ih (ha.after_step hsa).1 (hb.after_step hsb).1 hL1 hla1
    exact ⟨b2, by simp [clusterLoop, hsb, hlb], hmem⟩

theorem map_pitch_eq_of {o1 o2 : Objects} {p : Ref} (hp : pitchOf o1 p = pitchOf o2 p)
    (hk : (asNote o1 p).isSome = (asNote o2 p).isSome) :
    (asNote o1 p).map Note.diatonicPitch = (asNote o2 p).map Note.diatonicPitch := by
  unfold pitchOf at hp
  cases h1 : asNote o1 p <;> cases h2 : asNote o2 p <;> simp_all

theorem hasCluster_cleared_member (ch : Chord) {p : Ref} (h : IsMember ch.m_clusters p) :
    hasCluster (ClearClusters ch).objects p = false := by
  obtain ⟨cl, hcl, hp⟩ := h
  cases hn : asNote ch.objects p with
  | none =>
    have := ClearClusters_not_note ch hn
    simp [hasCluster, asNote, this] at hn ⊢
    simp [hn]
  | some n => simp [hasCluster, ClearClusters_member ch hn hcl hp]

theorem cleared_not_member (ch : Chord) {p : Ref} (h : ¬ IsMember ch.m_clusters p) :
    (ClearClusters ch).objects p = ch.objects p :=
  ClearClusters_not_member ch (fun cl hcl hp => h ⟨cl, hcl, hp⟩)

/-! ## Chord::FilterList: the clusters -/

theorem eraseNonNotes_notes {objects : Objects} {l : List Ref}
    (h : ∀ p ∈ l, ∃ n, asNote objects p = some n) : eraseNonNotes objects l = l := by
  rw [eraseNonNotes_eq_filter, List.filter_eq_self]
  intro p hp
  obtain ⟨n, hn⟩ := h p hp
  simp [hn]

/-- On a non-empty list of distinct notes with null back-references `FilterList`
returns, leaves the pitch-sorted list, and builds the runs of length at least 2. -/
theorem FilterList_notes (ch : Chord) (l : List Ref) (hne : l ≠ []) (hnd : l.Nodup)
    (hnotes : ∀ p ∈ l, ∃ n, asNote ch.objects p = some n ∧ n.m_cluster = none) :
    ∃ ch1, FilterList ch l = some (ch1, sortByPitch ch.objects l) ∧
      LoopDone (ClearClusters ch).objects ch1
        ((sortByPitch ch.objects l).splitBy (stepUp ch.objects)) := by
  have herase : eraseNonNotes ch.objects l = l :=
    eraseNonNotes_notes (fun p hp => (hnotes p hp).imp (fun _ h => h.1))
  have hres : Resettable ch l := by
    intro p hp n hn
    obtain ⟨m, hm, hmc⟩ := hnotes p hp
    rw [hn] at hm
    cases hm
    exact Or.inl hmc
  have hsorted : sortByPitch ch.objects (eraseNonNotes ch.objects l) ≠ [] := by
    rw [herase]
    intro h
    have hlen := (List.perm_insertionSort
      (fun a b => compare_pitch ch.objects b a = false) l).length_eq
    rw [sortByPitch] at h
    rw [h] at hlen
    exact hne (List.length_eq_zero.mp hlen.symm)
  have := FilterList_spec ch l hnd hres hsorted
  rwa [herase] at this

/-- C1: for every non-empty list of distinct notes, none of them in a cluster,
`Chord::FilterList` returns and the member lists of the clusters it builds are
exactly the maximal runs of length at least 2 of the pitch-sorted list in which
each note lies one diatonic step above its predecessor: every cluster is a
contiguous stretch of the sorted list of length at least 2 whose consecutive
members differ by exactly 1; any two neighbours of the sorted list that differ
by exactly 1 are neighbours in one cluster; and no cluster can be extended by
the note that follows or precedes it in the sorted list.  For the pitches
`[60, 61, 62, 65]` the only cluster is `{60, 61, 62}` and 65 stays unclustered. -/
theorem FilterList_clusters_maximal_runs :
    (∀ (ch : Chord) (l : List Ref), l ≠ [] → l.Nodup →
      (∀ p ∈ l, ∃ n, asNote ch.objects p = some n ∧ n.m_cluster = none) →
      ∃ ch1, FilterList ch l = some (ch1, sortByPitch ch.objects l) ∧
        clusterMembers ch1
          = ((sortByPitch ch.objects l).splitBy (stepUp ch.objects)).filter
              (fun r => decide (2 ≤ r.length)) ∧
        (∀ c ∈ clusterMembers ch1,
          2 ≤ c.length ∧ c <:+: sortByPitch ch.objects l ∧
          c.Chain' (fun a b => pitchOf ch.objects b - pitchOf ch.objects a = 1)) ∧
        (∀ a b, [a, b] <:+: sortByPitch ch.objects l →
          pitchOf ch.objects b - pitchOf ch.objects a = 1 →
          ∃ c ∈ clusterMembers ch1, [a, b] <:+: c) ∧
        (∀ c ∈ clusterMembers ch1, ∀ x y,
          (c ++ [x] <:+: sortByPitch ch.objects l → c.getLast? = some y →
            pitchOf ch.objects x - pitchOf ch.objects y ≠ 1) ∧
          (x :: c <:+: sortByPitch ch.objects l → c.head? = some y →
            pitchOf ch.objects y - pitchOf ch.objects x ≠ 1))) ∧
    (FilterList (chordOf [60, 61, 62, 65]) [0, 1, 2, 3]).map
        (fun r => ((clusterMembers r.1).map (fun c => c.map (pitchOf r.1.objects)),
          (asNote r.1.objects 3).map (fun n => n.m_cluster)))
      = some ([[60, 61, 62]], some none) := by
  refine ⟨?_, by decide⟩
  intro ch l hne hnd hnotes
  obtain ⟨ch1, hF, hdone⟩ := FilterList_notes ch l hne hnd hnotes
  have hsnd : (sortByPitch ch.objects l).Nodup := by
    rw [sortByPitch, (List.perm_insertionSort _ _).nodup_iff]
    exact hnd
  refine ⟨ch1, hF, hdone.members, ?_, ?_, ?_⟩
  · intro c hc
    rw [hdone.members] at hc
    obtain ⟨h1, h2, h3⟩ := longRuns_mem _ _ hc
    exact ⟨h1, h2, h3.imp (fun a b hab => by simpa [stepUp] using hab)⟩
  · intro a b hab hstep
    rw [hdone.members]
    exact longRuns_cover _ _ hab (by simp [stepUp, hstep])
  · intro c hc x y
    rw [hdone.members] at hc
    constructor
    · intro hx hy
      have := longRuns_maximal_right (stepUp ch.objects) _ hsnd hc hx hy
      simpa [stepUp] using this
    · intro hx hy
      have := longRuns_maximal_left (stepUp ch.objects) _ hsnd hc hx hy
      simpa [stepUp] using this

theorem FilterList_clusters_maximal_runs_witness :
    ([0, 1, 2, 3] : List Ref) ≠ [] ∧ ([0, 1, 2, 3] : List Ref).Nodup ∧
    (∀ p ∈ ([0, 1, 2, 3] : List Ref),
      ∃ n, asNote (chordOf [60, 61, 62, 65]).objects p = some n ∧ n.m_cluster = none) ∧
    ∃ ch1, FilterList (chordOf [60, 61, 62, 65]) [0, 1, 2, 3]
        = some (ch1, sortByPitch (chordOf [60, 61, 62, 65]).objects [0, 1, 2, 3]) ∧
      clusterMembers ch1
        = ((sortByPitch (chordOf [60, 61, 62, 65]).objects [0, 1, 2, 3]).splitBy
            (stepUp (chordOf [60, 61, 62, 65]).objects)).filter
            (fun r => decide (2 ≤ r.length)) := by
  have h3 : ∀ p ∈ ([0, 1, 2, 3] : List Ref),
      ∃ n, asNote (chordOf [60, 61, 62, 65]).objects p = some n ∧ n.m_cluster = none := by
    intro p hp
    simp only [List.mem_cons, List.mem_singleton, List.not_mem_nil, or_false] at hp
    rcases hp with rfl | rfl | rfl | rfl <;> exact ⟨_, rfl, rfl⟩
  refine ⟨by decide, by decide, h3, ?_⟩
  obtain ⟨ch1, hF, hM, _⟩ :=
    FilterList_clusters_maximal_runs.1 (chordOf [60, 61, 62, 65]) [0, 1, 2, 3]
      (by decide) (by decide) h3
  exact ⟨ch1, hF, hM⟩

/-- C2: after `Chord::FilterList` on a non-empty list of distinct notes, none of
them in a cluster, any two clusters of the chord's cluster list have no note in
common, no cluster holds a note twice, and every cluster has at least 2 notes. -/
theorem FilterList_clusters_disjoint_and_long (ch : Chord) (l : List Ref) (hne : l ≠ [])
    (hnd : l.Nodup)
    (hnotes : ∀ p ∈ l, ∃ n, asNote ch.objects p = some n ∧ n.m_cluster = none) :
    ∃ ch1 sorted, FilterList ch l = some (ch1, sorted) ∧
      (clusterMembers ch1).Pairwise List.Disjoint ∧
      (∀ c ∈ clusterMembers ch1, c.Nodup ∧ 2 ≤ c.length) := by
  obtain ⟨ch1, hF, hdone⟩ := FilterList_notes ch l hne hnd hnotes
  have hsnd : (sortByPitch ch.objects l).Nodup := by
    rw [sortByPitch, (List.perm_insertionSort _ _).nodup_iff]
    exact hnd
  have hflat : (clusterMembers ch1).flatten.Nodup := by
    rw [hdone.members]
    exact longRuns_nodup _ _ hsnd
  obtain ⟨h1, h2⟩ := List.nodup_flatten.mp hflat
  refine ⟨ch1, _, hF, h2, fun c hc => ⟨h1 c hc, ?_⟩⟩
  rw [hdone.members] at hc
  exact (longRuns_mem _ _ hc).1

theorem FilterList_clusters_disjoint_and_long_witness :
    ([0, 1, 2, 3, 4] : List Ref) ≠ [] ∧ ([0, 1, 2, 3, 4] : List Ref).Nodup ∧
    ∃ ch1 sorted, FilterList (chordOf [64, 61, 60, 65, 62]) [0, 1, 2, 3, 4] = some (ch1, sorted) ∧
      (clusterMembers ch1).Pairwise List.Disjoint ∧
      (∀ c ∈ clusterMembers ch1, c.Nodup ∧ 2 ≤ c.length) :=
  ⟨by decide, by decide,
    FilterList_clusters_disjoint_and_long (chordOf [64, 61, 60, 65, 62]) [0, 1, 2, 3, 4]
      (by decide) (by decide) (by
        intro p hp
        simp only [List.mem_cons, List.mem_singleton, List.not_mem_nil, or_false] at hp
        rcases hp with rfl | rfl | rfl | rfl | rfl <;> exact ⟨_, rfl, rfl⟩)⟩

theorem filtered_ne_nil {objects : Objects} {l : List Ref}
    (h : ∃ p ∈ l, ∃ n, asNote objects p = some n) :
    sortByPitch objects (eraseNonNotes objects l) ≠ [] := by
  obtain ⟨p, hp, n, hn⟩ := h
  have : p ∈ sortByPitch objects (eraseNonNotes objects l) :=
    mem_filtered.mpr ⟨hp, by simp [hn]⟩
  exact List.ne_nil_of_mem this

theorem staleChord_own : OwnClusters staleChord [0, 1, 2, 3, 4, 5] := by
  intro p hp n hn
  simp only [List.mem_cons, List.mem_singleton, List.not_mem_nil, or_false] at hp
  rcases hp with rfl | rfl | rfl | rfl | rfl | rfl
  · simp [staleChord, asNote] at hn; subst hn; exact Or.inl ⟨rfl, rfl⟩
  · exact Or.inr ⟨(7, [1, 3]), by simp [staleChord], by simp⟩
  · simp [staleChord, asNote] at hn; subst hn; exact Or.inl ⟨rfl, rfl⟩
  · exact Or.inr ⟨(7, [1, 3]), by simp [staleChord], by simp⟩
  · simp [staleChord, asNote] at hn
  · simp [staleChord, asNote] at hn

/-- C9: after every call of `Chord::FilterList` that returns on a list of distinct
objects, the note at index `i` of a cluster has its back-reference pointing to
that cluster (whose address no other cluster of the chord has) and cluster
position `i + 1`; and every note of the list left that is in no cluster has a
null back-reference and position 0, provided that before the call it was
unclustered (null back-reference, position 0) or a member of one of this
chord's clusters.  The call returns whenever the list holds a note and all its
notes satisfy that proviso. -/
theorem FilterList_backrefs_and_positions :
    (∀ (ch : Chord) (l : List Ref) (ch1 : Chord) (l1 : List Ref), l.Nodup →
      FilterList ch l = some (ch1, l1) →
      (∀ cl ∈ ch1.m_clusters, ∀ (i : Nat) (p : Ref), cl.2[i]? = some p →
        ∃ n, asNote ch1.objects p = some n ∧ n.m_cluster = some cl.1 ∧
          n.m_clusterPosition = (i : Int) + 1) ∧
      (ch1.m_clusters.map Prod.fst).Nodup ∧
      (∀ p ∈ l1, (∀ cl ∈ ch1.m_clusters, p ∉ cl.2) →
        ∀ n0, asNote ch.objects p = some n0 →
        ((n0.m_cluster = none ∧ n0.m_clusterPosition = 0) ∨ ∃ cl ∈ ch.m_clusters, p ∈ cl.2) →
        ∃ n, asNote ch1.objects p = some n ∧ n.m_cluster = none ∧
          n.m_clusterPosition = 0)) ∧
    (∀ (ch : Chord) (l : List Ref), l.Nodup → OwnClusters ch l →
      (∃ p ∈ l, ∃ n, asNote ch.objects p = some n) →
      ∃ ch1 l1, FilterList ch l = some (ch1, l1)) := by
  constructor
  · intro ch l ch1 l1 hnd hF
    obtain ⟨st, hst, hinv⟩ := FilterList_some_inv hnd hF
    subst hst
    refine ⟨hinv.backrefs, hinv.addr_nodup, ?_⟩
    intro p _ hno n0 hn0 hgiven
    have hobj := hinv.untouched p (fun ⟨cl, hcl, hp⟩ => hno cl hcl hp)
    have hcl : ∃ m, asNote (ClearClusters ch).objects p = some m ∧ m.m_cluster = none ∧
        m.m_clusterPosition = 0 := by
      rcases hgiven with ⟨h1, h2⟩ | ⟨cl, hcl, hmem⟩
      · rcases ClearClusters_note ch hn0 with h | h
        · exact ⟨_, h, h1, h2⟩
        · exact ⟨_, h, rfl, rfl⟩
      · exact ⟨_, ClearClusters_member ch hn0 hcl hmem, rfl, rfl⟩
    obtain ⟨m, hm, hm1, hm2⟩ := hcl
    refine ⟨m, ?_, hm1, hm2⟩
    rw [← hm]
    simp [asNote, hobj]
  · intro ch l hnd hown hex
    obtain ⟨ch1, hF, _⟩ := FilterList_spec ch l hnd hown.resettable (filtered_ne_nil hex)
    exact ⟨ch1, _, hF⟩

theorem FilterList_backrefs_and_positions_witness :
    ([0, 1, 2, 3, 4, 5] : List Ref).Nodup ∧ OwnClusters staleChord [0, 1, 2, 3, 4, 5] ∧
    ∃ ch1 l1, FilterList staleChord [0, 1, 2, 3, 4, 5] = some (ch1, l1) ∧
      (∀ cl ∈ ch1.m_clusters, ∀ (i : Nat) (p : Ref), cl.2[i]? = some p →
        ∃ n, asNote ch1.objects p = some n ∧ n.m_cluster = some cl.1 ∧
          n.m_clusterPosition = (i : Int) + 1) ∧
      (ch1.m_clusters.map Prod.fst).Nodup := by
  refine ⟨by decide, staleChord_own, ?_⟩
  obtain ⟨ch1, l1, hF⟩ := FilterList_backrefs_and_positions.2 staleChord [0, 1, 2, 3, 4, 5]
    (by decide) staleChord_own ⟨0, by decide, _, rfl⟩
  obtain ⟨h1, h2, _⟩ := FilterList_backrefs_and_positions.1 staleChord [0, 1, 2, 3, 4, 5]
    ch1 l1 (by decide) hF
  exact ⟨ch1, l1, hF, h1, h2⟩

theorem FilterList_some_ne_nil {ch : Chord} {l : List Ref} {r : Chord × List Ref}
    (h : FilterList ch l = some r) :
    sortByPitch ch.objects (eraseNonNotes ch.objects l) ≠ [] := by
  intro hnil
  unfold FilterList at h
  rw [hnil] at h
  simp at h

/-- C7: `Chord::FilterList` is idempotent.  Whenever it has returned on a list of
distinct objects (whatever back-references the notes carried), applying it
again to the list it produced returns, leaves the same list, and builds
clusters with the same members in the same order; every note has the same
cluster position as after the first call and a null back-reference exactly when
it had one after the first call (the clusters themselves are new objects). -/
theorem FilterList_idempotent (ch : Chord) (l : List Ref) (hnd : l.Nodup)
    (ch1 : Chord) (l1 : List Ref) (h1 : FilterList ch l = some (ch1, l1)) :
    ∃ ch2, FilterList ch1 l1 = some (ch2, l1) ∧
      clusterMembers ch2 = clusterMembers ch1 ∧
      ∀ p, (asNote ch2.objects p).map (fun n => (n.m_cluster.isSome, n.m_clusterPosition))
        = (asNote ch1.objects p).map (fun n => (n.m_cluster.isSome, n.m_clusterPosition)) := by
  obtain ⟨first, rest, na, sta, hsorted, hl1, hna, hloopa, hcha⟩ := FilterList_some_unfold h1
  have hnd1 : (first :: rest).Nodup := by
    rw [← hsorted]; exact nodup_filtered ch.objects hnd
  have hia := GenInv.init ch na.diatonicPitch hnd1
  have hfa := GenInv.after_loop rest hia hloopa
  subst hcha
  have hpitch : ∀ p, pitchOf sta.chord.objects p = pitchOf ch.objects p := fun p => by
    rw [hfa.pitches, pitchOf_ClearClusters]
  have hkind : ∀ p, (asNote sta.chord.objects p).isSome = (asNote ch.objects p).isSome :=
    fun p => by rw [hfa.kinds, isSome_asNote_ClearClusters]
  -- the second call starts from the same sorted list
  have herase : eraseNonNotes sta.chord.objects l1 = l1 := by
    apply eraseNonNotes_notes
    intro p hp
    rw [hl1, ← hsorted] at hp
    have := (mem_filtered.mp hp).2
    rw [← hkind] at this
    exact Option.isSome_iff_exists.mp this
  have hsort : sortByPitch sta.chord.objects l1 = l1 := by
    rw [sortByPitch_congr hpitch, hl1, ← hsorted, sortByPitch_idem]
  have hnb : ∃ nb, asNote (ClearClusters sta.chord).objects first = some nb ∧
      nb.diatonicPitch = na.diatonicPitch := by
    have hp : pitchOf (ClearClusters sta.chord).objects first
        = pitchOf (ClearClusters ch).objects first := by
      rw [pitchOf_ClearClusters, hfa.pitches]
    have hk : (asNote (ClearClusters sta.chord).objects first).isSome
        = (asNote (ClearClusters ch).objects first).isSome := by
      rw [isSome_asNote_ClearClusters, hfa.kinds]
    have := map_pitch_eq_of hp hk
    rw [hna] at this
    cases hb : asNote (ClearClusters sta.chord).objects first with
    | none => simp [hb] at this
    | some nb => exact ⟨nb, rfl, by simpa [hb] using this⟩
  obtain ⟨nb, hnb, hnbp⟩ := hnb
  have hib := GenInv.init sta.chord nb.diatonicPitch hnd1
  -- back-references before the second run against those before the first
  have hK1 : ∀ p, IsMember sta.chord.m_clusters p →
      hasCluster (ClearClusters sta.chord).objects p = false :=
    fun p hp => hasCluster_cleared_member sta.chord hp
  have hK2 : ∀ p, ¬ IsMember sta.chord.m_clusters p →
      (ClearClusters sta.chord).objects p = (ClearClusters ch).objects p := fun p hp => by
    rw [cleared_not_member sta.chord hp, hfa.untouched p hp]
  have hK3 : ∀ p, ¬ IsMember sta.chord.m_clusters p →
      hasCluster (ClearClusters sta.chord).objects p
        = hasCluster (ClearClusters ch).objects p := fun p hp => by
    simp [hasCluster, asNote, hK2 p hp]
  have hlock : Lockstep
      { chord := ClearClusters ch, lastNote := first, lastPitch := na.diatonicPitch,
        curCluster := none }
      { chord := ClearClusters sta.chord, lastNote := first, lastPitch := nb.diatonicPitch,
        curCluster := none } rest sta.chord.m_clusters :=
    { last_eq := rfl
      pitch_eq := hnbp.symm
      members_eq := rfl
      cur_eq := rfl
      last_null := by
        show hasCluster (ClearClusters ch).objects first
          = hasCluster (ClearClusters sta.chord).objects first
        by_cases hm : IsMember sta.chord.m_clusters first
        · rw [hK1 first hm]
          cases hc : hasCluster (ClearClusters ch).objects first with
          | false => rfl
          | true =>
            exfalso
            rw [hasCluster_of_some hna] at hc
            obtain ⟨c, hc⟩ := Option.isSome_iff_exists.mp hc
            exact GenInv.stale_last hia hna hc
              (fun ⟨cl, hcl, _⟩ => by simp [ClearClusters_m_clusters] at hcl) hloopa hm
        · rw [hK3 first hm]
      notes_eq := fun p => by
        apply map_pitch_eq_of
        · show pitchOf (ClearClusters ch).objects p = pitchOf (ClearClusters sta.chord).objects p
          rw [pitchOf_ClearClusters, pitchOf_ClearClusters, hpitch]
        · show (asNote (ClearClusters ch).objects p).isSome
            = (asNote (ClearClusters sta.chord).objects p).isSome
          rw [isSome_asNote_ClearClusters, isSome_asNote_ClearClusters, hkind]
      rest_le := fun p _ hb => by
        by_cases hm : IsMember sta.chord.m_clusters p
        · rw [hK1 p hm] at hb
          cases hb
        · rw [← hK3 p hm]
          exact hb
      rest_final := fun p _ ha hb => by
        by_contra hm
        rw [hK3 p hm, ha] at hb
        cases hb }
  obtain ⟨stb, hloopb, hmembers⟩ := Lockstep.run rest hia hib hlock hloopa
  have hfb := GenInv.after_loop rest hib hloopb
  have hF2 : FilterList sta.chord l1 = some (stb.chord, l1) := by
    unfold FilterList
    rw [herase, hsort, hl1]
    simp [hnb, hloopb]
  refine ⟨stb.chord, hF2, hmembers, ?_⟩
  intro p
  by_cases hmem : IsMember sta.chord.m_clusters p
  · obtain ⟨cl, hcl, hp⟩ := hmem
    obtain ⟨i, hi⟩ := List.mem_iff_getElem?.mp hp
    obtain ⟨n1, hn1, hc1, hpos1⟩ := hfa.backrefs cl hcl i p hi
    have : cl.2 ∈ clusterMembers stb.chord := by
      rw [hmembers]
      exact List.mem_map.mpr ⟨cl, hcl, rfl⟩
    obtain ⟨cl2, hcl2, heq⟩ := List.mem_map.mp this
    obtain ⟨n2, hn2, hc2, hpos2⟩ := hfb.backrefs cl2 hcl2 i p (by rw [heq]; exact hi)
    simp [hn1, hn2, hc1, hc2, hpos1, hpos2]
  · have hno2 : ¬ IsMember stb.chord.m_clusters p := by
      rintro ⟨cl2, hcl2, hp2⟩
      have : cl2.2 ∈ clusterMembers sta.chord := by
        rw [← hmembers]
        exact List.mem_map.mpr ⟨cl2, hcl2, rfl⟩
      obtain ⟨cl, hcl, heq⟩ := List.mem_map.mp this
      exact hmem ⟨cl, hcl, by rw [heq]; exact hp2⟩
    have hobj : stb.chord.objects p = sta.chord.objects p := by
      rw [hfb.untouched p hno2, cleared_not_member sta.chord hmem]
    simp [asNote, hobj]

theorem FilterList_idempotent_witness :
    ([0, 1, 2, 3, 4, 5] : List Ref).Nodup ∧
    ∃ ch1 l1, FilterList staleChord [0, 1, 2, 3, 4, 5] = some (ch1, l1) ∧
      ∃ ch2, FilterList ch1 l1 = some (ch2, l1) ∧
        clusterMembers ch2 = clusterMembers ch1 ∧
        ∀ p, (asNote ch2.objects p).map (fun n => (n.m_cluster.isSome, n.m_clusterPosition))
          = (asNote ch1.objects p).map (fun n => (n.m_cluster.isSome, n.m_clusterPosition)) := by
  refine ⟨by decide, ?_⟩
  obtain ⟨ch1, hF, _⟩ := FilterList_spec staleChord [0, 1, 2, 3, 4, 5] (by decide)
    staleChord_own.resettable (filtered_ne_nil ⟨0, by decide, _, rfl⟩)
  exact ⟨ch1, _, hF, FilterList_idempotent staleChord [0, 1, 2, 3, 4, 5] (by decide) ch1 _ hF⟩

/-! ## Chord::FilterList: the list it leaves -/

theorem FilterList_some_list {ch : Chord} {l : List Ref} {ch1 : Chord} {l1 : List Ref}
    (h : FilterList ch l = some (ch1, l1)) :
    l1 = sortByPitch ch.objects (eraseNonNotes ch.objects l) := by
  unfold FilterList at h
  generalize sortByPitch ch.objects (eraseNonNotes ch.objects l) = sorted at h
  cases sorted with
  | nil => simp at h
  | cons first rest =>
    simp only at h
    cases h1 : asNote (ClearClusters ch).objects first with
    | none => simp [h1] at h
    | some n =>
      simp only [h1] at h
      cases h2 : clusterLoop
          { chord := ClearClusters ch, lastNote := first, lastPitch := n.diatonicPitch,
            curCluster := none } rest with
      | none => simp [h2] at h
      | some st =>
        simp only [h2, Option.some.injEq, Prod.mk.injEq] at h
        exact h.2.symm

/-- Stability of the sort: the notes of any one pitch keep their order. -/
theorem sortByPitch_stable (objects : Objects) (l : List Ref) (v : Int) :
    (sortByPitch objects l).filter (fun p => decide (pitchOf objects p = v))
      = l.filter (fun p => decide (pitchOf objects p = v)) := by
  have hpw : (l.filter (fun p => decide (pitchOf objects p = v))).Pairwise
      (fun a b => compare_pitch objects b a = false) := by
    rw [List.pairwise_iff_forall_sublist]
    intro a b hab
    have ha : a ∈ l.filter (fun p => decide (pitchOf objects p = v)) := hab.subset (by simp)
    have hb : b ∈ l.filter (fun p => decide (pitchOf objects p = v)) := hab.subset (by simp)
    simp only [List.mem_filter, decide_eq_true_eq] at ha hb
    rw [compare_pitch_false_iff, ha.2, hb.2]
  have hsub : List.Sublist (l.filter (fun p => decide (pitchOf objects p = v)))
      (sortByPitch objects l) :=
    List.sublist_insertionSort hpw (List.filter_sublist l)
  have hsub2 := hsub.filter (fun p => decide (pitchOf objects p = v))
  rw [List.filter_filter] at hsub2
  simp only [Bool.and_self] at hsub2
  have hperm : ((sortByPitch objects l).filter (fun p => decide (pitchOf objects p = v))).Perm
      (l.filter (fun p => decide (pitchOf objects p = v))) :=
    (List.perm_insertionSort _ l).filter _
  exact (hsub2.eq_of_length hperm.length_eq.symm).symm

/-- Whenever `FilterList` returns, the list it leaves holds exactly the notes of
the input (as a permutation), is sorted by non-decreasing diatonic pitch, and
keeps the input order among the notes of each pitch. -/
theorem FilterList_list {ch : Chord} {l : List Ref} {ch1 : Chord} {l1 : List Ref}
    (h : FilterList ch l = some (ch1, l1)) :
    l1.Perm (l.filter (fun p => (asNote ch.objects p).isSome)) ∧
    l1.Sorted (fun a b => pitchOf ch.objects a ≤ pitchOf ch.objects b) ∧
    ∀ v : Int, l1.filter (fun p => decide (pitchOf ch.objects p = v))
      = (l.filter (fun p => (asNote ch.objects p).isSome)).filter
          (fun p => decide (pitchOf ch.objects p = v)) := by
  rw [FilterList_some_list h, eraseNonNotes_eq_filter]
  refine ⟨List.perm_insertionSort _ _, ?_, fun v => sortByPitch_stable _ _ v⟩
  have := sorted_sortByPitch ch.objects (l.filter (fun p => (asNote ch.objects p).isSome))
  exact List.Pairwise.imp (fun hab => (compare_pitch_false_iff _ _ _).mp hab) this

/-- C8 (defect of the code): on an input list without any note, the empty list
included, `Chord::FilterList` erases every element and then reads
`*childList->begin()` of the emptied list, which is undefined: it leaves no list.
On every call that returns, the list left is a permutation of the notes of the
input, sorted by non-decreasing diatonic pitch, with the notes of each pitch in
their input order. -/
theorem FilterList_undefined_without_note :
    (∀ (ch : Chord) (l : List Ref),
      (∀ p ∈ l, asNote ch.objects p = none) → FilterList ch l = none) ∧
    (∀ ch : Chord, FilterList ch [] = none) ∧
    (∀ (ch : Chord) (l : List Ref) (ch1 : Chord) (l1 : List Ref),
      FilterList ch l = some (ch1, l1) →
      l1.Perm (l.filter (fun p => (asNote ch.objects p).isSome)) ∧
      l1.Sorted (fun a b => pitchOf ch.objects a ≤ pitchOf ch.objects b) ∧
      ∀ v : Int, l1.filter (fun p => decide (pitchOf ch.objects p = v))
        = (l.filter (fun p => (asNote ch.objects p).isSome)).filter
            (fun p => decide (pitchOf ch.objects p = v))) := by
  have h1 : ∀ (ch : Chord) (l : List Ref),
      (∀ p ∈ l, asNote ch.objects p = none) → FilterList ch l = none := by
    intro ch l h
    have herase : eraseNonNotes ch.objects l = [] := by
      rw [eraseNonNotes_eq_filter, List.filter_eq_nil_iff]
      intro p hp
      simp [h p hp]
    unfold FilterList
    rw [herase]
    rfl
  exact ⟨h1, fun ch => h1 ch [] (by simp), fun ch l ch1 l1 h => FilterList_list h⟩

theorem FilterList_undefined_without_note_witness :
    (∀ p ∈ ([4, 5] : List Ref), asNote staleChord.objects p = none) ∧
    FilterList staleChord [4, 5] = none :=
  ⟨by decide, FilterList_undefined_without_note.1 staleChord [4, 5] (by decide)⟩

/-! ## Chord::GetYExtremes -/

theorem GetYExtremesLoop_passed (objects : Objects) (l : List Ref) :
    ∀ (yMax yMin : Int) (seen : List Int), yMax ∈ seen → yMin ∈ seen →
      (∀ y ∈ seen, y ≤ yMax ∧ yMin ≤ y) →
      (GetYExtremesLoop objects l true yMax yMin).2.1 ∈ seen ++ noteYs objects l ∧
      (GetYExtremesLoop objects l true yMax yMin).2.2 ∈ seen ++ noteYs objects l ∧
      ∀ y ∈ seen ++ noteYs objects l,
        y ≤ (GetYExtremesLoop objects l true yMax yMin).2.1 ∧
        (GetYExtremesLoop objects l true yMax yMin).2.2 ≤ y := by
  induction l with
  | nil =>
    intro yMax yMin seen h1 h2 h3
    simpa [GetYExtremesLoop, noteYs] using ⟨h1, h2, h3⟩
  | cons p rest ih =>
    intro yMax yMin seen h1 h2 h3
    have hle : yMin ≤ yMax := (h3 yMax h1).2
    cases hp : asNote objects p with
    | none =>
      have hys : noteYs objects (p :: rest) = noteYs objects rest := by
        simp [noteYs, List.filterMap_cons, hp]
      rw [hys]
      simpa [GetYExtremesLoop, hp] using ih yMax yMin seen h1 h2 h3
    | some note =>
      have hys : seen ++ noteYs objects (p :: rest)
          = (seen ++ [note.drawingY]) ++ noteYs objects rest := by
        simp [noteYs, List.filterMap_cons, hp]
      rw [hys]
      by_cases hgt : note.drawingY > yMax
      · have := ih note.drawingY yMin (seen ++ [note.drawingY]) (by simp)
          (by simp [h2]) (by
            intro y hy
            simp only [List.mem_append, List.mem_singleton] at hy
            rcases hy with hy | rfl
            · exact ⟨le_of_lt (lt_of_le_of_lt (h3 y hy).1 hgt), (h3 y hy).2⟩
            · exact ⟨le_refl _, le_trans hle (le_of_lt hgt)⟩)
        simpa [GetYExtremesLoop, hp, hgt] using this
      · by_cases hlt : note.drawingY < yMin
        · have := ih yMax note.drawingY (seen ++ [note.drawingY]) (by simp [h1])
            (by simp) (by
              intro y hy
              simp only [List.mem_append, List.mem_singleton] at hy
              rcases hy with hy | rfl
              · exact ⟨(h3 y hy).1, le_of_lt (lt_of_lt_of_le hlt (h3 y hy).2)⟩
              · exact ⟨le_of_not_gt hgt, le_refl _⟩)
          simpa [GetYExtremesLoop, hp, hgt, hlt] using this
        · have := ih yMax yMin (seen ++ [note.drawingY]) (by simp [h1])
            (by simp [h2]) (by
              intro y hy
              simp only [List.mem_append, List.mem_singleton] at hy
              rcases hy with hy | rfl
              · exact h3 y hy
              · exact ⟨le_of_not_gt hgt, le_of_not_gt hlt⟩)
          simpa [GetYExtremesLoop, hp, hgt, hlt] using this

theorem GetYExtremesLoop_first (objects : Objects) (l : List Ref) (yMax yMin : Int)
    (h : ∃ p ∈ l, ∃ n, asNote objects p = some n) :
    (GetYExtremesLoop objects l false yMax yMin).2.1 ∈ noteYs objects l ∧
    (GetYExtremesLoop objects l false yMax yMin).2.2 ∈ noteYs objects l ∧
    ∀ y ∈ noteYs objects l,
      y ≤ (GetYExtremesLoop objects l false yMax yMin).2.1 ∧
      (GetYExtremesLoop objects l false yMax yMin).2.2 ≤ y := by
  induction l with
  | nil =>
    obtain ⟨p, hp, _⟩ := h
    cases hp
  | cons p rest ih =>
    cases hp : asNote objects p with
    | none =>
      have hys : noteYs objects (p :: rest) = noteYs objects rest := by
        simp [noteYs, List.filterMap_cons, hp]
      have hex : ∃ q ∈ rest, ∃ n, asNote objects q = some n := by
        obtain ⟨q, hq, n, hn⟩ := h
        rcases List.mem_cons.mp hq with rfl | hq
        · rw [hp] at hn; cases hn
        · exact ⟨q, hq, n, hn⟩
      rw [hys]
      simpa [GetYExtremesLoop, hp] using ih hex
    | some note =>
      have hys : noteYs objects (p :: rest) = [note.drawingY] ++ noteYs objects rest := by
        simp [noteYs, List.filterMap_cons, hp]
      rw [hys]
      have := GetYExtremesLoop_passed objects rest note.drawingY note.drawingY [note.drawingY]
        (by simp) (by simp) (by simp)
      simpa [GetYExtremesLoop, hp] using this

/-- C6: for every list containing at least one note, whatever the outputs held
before, `Chord::GetYExtremes` leaves in `yMax` the greatest and in `yMin` the
least drawing Y among the notes of the list (entries that are not notes do not
count); for the Y values 10, -4, 7 the result is max = 10, min = -4. -/
theorem GetYExtremes_max_min :
    (∀ (objects : Objects) (l : List Ref) (yMax yMin : Int),
      (∃ p ∈ l, ∃ n, asNote objects p = some n) →
      (GetYExtremes objects l yMax yMin).1 ∈ noteYs objects l ∧
      (∀ y ∈ noteYs objects l, y ≤ (GetYExtremes objects l yMax yMin).1) ∧
      (GetYExtremes objects l yMax yMin).2 ∈ noteYs objects l ∧
      (∀ y ∈ noteYs objects l, (GetYExtremes objects l yMax yMin).2 ≤ y)) ∧
    (∀ yMax yMin : Int, GetYExtremes (notesAt [10, -4, 7]) [0, 1, 2] yMax yMin = (10, -4)) := by
  refine ⟨?_, fun _ _ => rfl⟩
  intro objects l yMax yMin h
  obtain ⟨h1, h2, h3⟩ := GetYExtremesLoop_first objects l yMax yMin h
  exact ⟨h1, fun y hy => (h3 y hy).1, h2, fun y hy => (h3 y hy).2⟩

theorem GetYExtremes_max_min_witness :
    (∃ p ∈ ([5, 0, 1, 2] : List Ref), ∃ n, asNote (notesAt [10, -4, 7]) p = some n) ∧
    (GetYExtremes (notesAt [10, -4, 7]) [5, 0, 1, 2] 0 0).1 ∈ noteYs (notesAt [10, -4, 7]) [5, 0, 1, 2] ∧
    (∀ y ∈ noteYs (notesAt [10, -4, 7]) [5, 0, 1, 2],
      y ≤ (GetYExtremes (notesAt [10, -4, 7]) [5, 0, 1, 2] 0 0).1) ∧
    (GetYExtremes (notesAt [10, -4, 7]) [5, 0, 1, 2] 0 0).2 ∈ noteYs (notesAt [10, -4, 7]) [5, 0, 1, 2] ∧
    (∀ y ∈ noteYs (notesAt [10, -4, 7]) [5, 0, 1, 2],
      (GetYExtremes (notesAt [10, -4, 7]) [5, 0, 1, 2] 0 0).2 ≤ y) :=
  ⟨⟨0, by decide, _, rfl⟩,
    GetYExtremes_max_min.1 (notesAt [10, -4, 7]) [5, 0, 1, 2] 0 0 ⟨0, by decide, _, rfl⟩⟩

theorem GetYExtremesLoop_no_note (objects : Objects) (l : List Ref)
    (h : ∀ p ∈ l, asNote objects p = none) (passed : Bool) (yMax yMin : Int) :
    GetYExtremesLoop objects l passed yMax yMin = (passed, yMax, yMin) := by
  induction l with
  | nil => rfl
  | cons p rest ih =>
    have hp : asNote objects p = none := h p (List.mem_cons_self _ _)
    simp only [GetYExtremesLoop, hp]
    exact ih (fun q hq => h q (List.mem_cons_of_mem _ hq))

/-- C34: when the chord's list contains no note (the empty list included),
`Chord::GetYExtremes` leaves both outputs `yMax` and `yMin` exactly as they
were before the call. -/
theorem GetYExtremes_no_note (objects : Objects) (l : List Ref) (yMax yMin : Int)
    (h : ∀ p ∈ l, asNote objects p = none) :
    GetYExtremes objects l yMax yMin = (yMax, yMin) := by
  unfold GetYExtremes
  rw [GetYExtremesLoop_no_note objects l h]

theorem GetYExtremes_no_note_witness :
    (∀ p ∈ ([4, 5] : List Ref), asNote staleChord.objects p = none) ∧
    GetYExtremes staleChord.objects [4, 5] 17 (-3) = (17, -3) ∧
    GetYExtremes staleChord.objects [] 17 (-3) = (17, -3) :=
  ⟨by decide, GetYExtremes_no_note staleChord.objects [4, 5] 17 (-3) (by decide), rfl⟩

/-! ## Chord::FilterList on fewer than two notes -/

theorem FilterList_no_note (ch : Chord) (l : List Ref)
    (h : l.filter (fun p => (asNote ch.objects p).isSome) = []) : FilterList ch l = none := by
  unfold FilterList
  rw [eraseNonNotes_eq_filter, h]
  rfl

theorem FilterList_one_note (ch : Chord) (l : List Ref) (p : Ref)
    (h : l.filter (fun p => (asNote ch.objects p).isSome) = [p]) :
    FilterList ch l = some (ClearClusters ch, [p]) := by
  have hp : p ∈ l.filter (fun p => (asNote ch.objects p).isSome) := by
    rw [h]
    exact List.mem_singleton_self p
  have hnote : (asNote (ClearClusters ch).objects p).isSome = true := by
    rw [isSome_asNote_ClearClusters]
    exact (List.mem_filter.mp hp).2
  obtain ⟨n, hn⟩ := Option.isSome_iff_exists.mp hnote
  unfold FilterList
  rw [eraseNonNotes_eq_filter, h]
  simp [sortByPitch, hn, clusterLoop]

/-- C33 (defect of the code): for a list with exactly one note `Chord::FilterList`
returns, performs no clustering and leaves the chord's cluster list empty; for
a list with no note, the empty list included, it reads `*childList->begin()` of the
emptied list, which is undefined: it leaves no cluster list. -/
theorem FilterList_fewer_than_two_notes :
    (∀ (ch : Chord) (l : List Ref) (p : Ref),
      l.filter (fun p => (asNote ch.objects p).isSome) = [p] →
      ∃ ch1, FilterList ch l = some (ch1, [p]) ∧ ch1.m_clusters = []) ∧
    (∀ (ch : Chord) (l : List Ref),
      l.filter (fun p => (asNote ch.objects p).isSome) = [] → FilterList ch l = none) ∧
    (∀ ch : Chord, FilterList ch [] = none) := by
  refine ⟨?_, FilterList_no_note, fun ch => FilterList_no_note ch [] rfl⟩
  intro ch l p h
  exact ⟨ClearClusters ch, FilterList_one_note ch l p h, rfl⟩

theorem FilterList_fewer_than_two_notes_witness :
    ([4, 0, 5] : List Ref).filter (fun p => (asNote staleChord.objects p).isSome) = [0] ∧
    (∃ ch1, FilterList staleChord [4, 0, 5] = some (ch1, [0]) ∧ ch1.m_clusters = []) ∧
    FilterList staleChord [] = none :=
  ⟨by decide, FilterList_fewer_than_two_notes.1 staleChord [4, 0, 5] 0 (by decide), rfl⟩

/-! ## Chord::ResetAccidSpace -/

/-- Counterexample for C35: with `fullUnit` 3 the half unit is 1 and the double
unit 6, so for one accidental every row has length 6, not 4. -/
theorem ResetAccidSpace_counterexample :
    ResetAccidSpace 5 [noteAtY 10] 3
      = some (List.replicate 5 (List.replicate 6 false)) ∧
    (List.replicate 6 false).length ≠ 4 * [noteAtY 10].length := by
  constructor <;> decide

/-- C35 (amended): for every `fullUnit >= 2` and every non-empty accidental list of
size `n` (its first note being `first`, its last `last`) for which the `int`
arithmetic does not overflow (`2 * fullUnit * n` and the difference of the two Y
fit in 32 bits), `Chord::ResetAccidSpace` builds a grid with
`max((Y of first - Y of last) / halfUnit, ACCID_WIDTH)` rows, every row of length
`(2 * fullUnit * n) / halfUnit` with `halfUnit = fullUnit / 2`, and every cell
false; the row length is `4 * n` when `fullUnit` is even and at least `4 * n`
otherwise.  With an empty accidental list the grid is left empty.  `ACCID_WIDTH`
is taken non-negative.  Beyond the bound the result differs: with `fullUnit`
`2^30` and one accidental the double unit wraps to `-2^31`, the line length is
negative and no grid is built. -/
theorem ResetAccidSpace_grid (ACCID_WIDTH : Int) (hwidth : 0 ≤ ACCID_WIDTH) :
    (∀ (m_accidList : List Note) (first last : Note) (fullUnit : Int), 2 ≤ fullUnit →
      m_accidList.head? = some first → m_accidList.getLast? = some last →
      2 * fullUnit * m_accidList.length < 2147483648 →
      -2147483648 ≤ first.drawingY - last.drawingY →
      first.drawingY - last.drawingY < 2147483648 →
      ∃ grid, ResetAccidSpace ACCID_WIDTH m_accidList fullUnit = some grid ∧
        (grid.length : Int) = max ((first.drawingY - last.drawingY).tdiv (fullUnit / 2)) ACCID_WIDTH ∧
        (∀ row ∈ grid,
          (row.length : Int) = (2 * fullUnit * m_accidList.length) / (fullUnit / 2) ∧
          (fullUnit % 2 = 0 → row.length = 4 * m_accidList.length) ∧
          4 * m_accidList.length ≤ row.length ∧
          ∀ cell ∈ row, cell = false)) ∧
    (∀ fullUnit : Int, ResetAccidSpace ACCID_WIDTH [] fullUnit = some []) ∧
    ResetAccidSpace 5 [noteAtY 10] 1073741824 = none := by
  refine ⟨?_, fun _ => rfl, rfl⟩
  intro m_accidList first last fullUnit hfull hfirst hlast hprod hlo hhi
  have hhalf : Int.tdiv fullUnit 2 = fullUnit / 2 := Int.tdiv_eq_ediv (by omega) (by omega)
  have hpos : 0 < fullUnit / 2 := by omega
  have hne : fullUnit / 2 ≠ 0 := by omega
  have hneg1 : ¬ fullUnit / 2 = -1 := by omega
  have hn : (0 : Int) ≤ m_accidList.length := Int.natCast_nonneg _
  have hn1 : (1 : Int) ≤ m_accidList.length := by
    cases m_accidList with
    | nil => simp at hfirst
    | cons a t =>
      simp only [List.length_cons, Nat.cast_add, Nat.cast_one]
      omega
  have hw1 : wrapInt32 (fullUnit * 2) = fullUnit * 2 :=
    wrapInt32_of_range (by omega) (by nlinarith)
  have hw2 : wrapInt32 (m_accidList.length : Int) = m_accidList.length :=
    wrapInt32_of_range (by omega) (by nlinarith)
  have hw3 : wrapInt32 (fullUnit * 2 * (m_accidList.length : Int))
      = fullUnit * 2 * m_accidList.length :=
    wrapInt32_of_range (by nlinarith) (by nlinarith)
  have hw4 : wrapInt32 (first.drawingY - last.drawingY) = first.drawingY - last.drawingY :=
    wrapInt32_of_range hlo hhi
  have hline : Int.tdiv (fullUnit * 2 * (m_accidList.length : Int)) (fullUnit / 2)
      = (2 * fullUnit * m_accidList.length) / (fullUnit / 2) := by
    rw [Int.tdiv_eq_ediv (by positivity) (le_of_lt hpos)]
    have hcomm : fullUnit * 2 * (m_accidList.length : Int) = 2 * fullUnit * m_accidList.length := by
      ring
    rw [hcomm]
  have hge : 4 * (m_accidList.length : Int)
      ≤ (2 * fullUnit * m_accidList.length) / (fullUnit / 2) := by
    apply Int.le_ediv_of_mul_le hpos
    have h2 : fullUnit / 2 * 2 ≤ fullUnit := by omega
    nlinarith
  have hline0 : ¬ (2 * fullUnit * (m_accidList.length : Int)) / (fullUnit / 2) < 0 := by
    omega
  have hrow0 : ¬ max ((first.drawingY - last.drawingY).tdiv (fullUnit / 2)) ACCID_WIDTH < 0 := by
    have := le_max_right ((first.drawingY - last.drawingY).tdiv (fullUnit / 2)) ACCID_WIDTH
    omega
  unfold ResetAccidSpace
  rw [hfirst, hlast]
  simp only [hhalf, hw1, hw2, hw3, hw4, hne, hneg1, false_and, if_false, hline, hline0, hrow0]
  by_cases hzero : max ((first.drawingY - last.drawingY).tdiv (fullUnit / 2)) ACCID_WIDTH = 0
  · refine ⟨[], by simp [hzero], by simp [hzero], ?_⟩
    intro row hrow
    simp at hrow
  · rw [if_neg hzero]
    refine ⟨_, rfl, ?_, ?_⟩
    · rw [List.length_replicate, Int.toNat_of_nonneg (not_lt.mp hrow0)]
    · intro row hrow
      have hrw := (List.mem_replicate.mp hrow).2
      subst hrw
      have hlen : ((List.replicate
          ((2 * fullUnit * (m_accidList.length : Int)) / (fullUnit / 2)).toNat false).length : Int)
          = (2 * fullUnit * m_accidList.length) / (fullUnit / 2) := by
        rw [List.length_replicate, Int.toNat_of_nonneg (not_lt.mp hline0)]
      refine ⟨hlen, ?_, ?_, ?_⟩
      · intro heven
        have hf : fullUnit = fullUnit / 2 * 2 := by omega
        have hq : (2 * fullUnit * (m_accidList.length : Int)) / (fullUnit / 2)
            = 4 * m_accidList.length := by
          have : 2 * fullUnit * (m_accidList.length : Int)
              = 4 * m_accidList.length * (fullUnit / 2) := by
            nth_rewrite 1 [hf]
            ring
          rw [this, Int.mul_ediv_cancel _ hne]
        have hlen4 := hlen.trans hq
        exact_mod_cast hlen4
      · have : (4 * m_accidList.length : Int)
            ≤ ((List.replicate
              ((2 * fullUnit * (m_accidList.length : Int)) / (fullUnit / 2)).toNat false).length : Int) := by
          rw [hlen]
          exact hge
        exact_mod_cast this
      · intro cell hcell
        exact (List.mem_replicate.mp hcell).2

theorem ResetAccidSpace_grid_witness :
    ResetAccidSpace 5 [noteAtY 40, noteAtY 10] 4
      = some (List.replicate 15 (List.replicate 8 false)) ∧
    ∃ grid, ResetAccidSpace 5 [noteAtY 40, noteAtY 10] 4 = some grid ∧
      (grid.length : Int)
        = max (((noteAtY 40).drawingY - (noteAtY 10).drawingY).tdiv (4 / 2)) 5 ∧
      (∀ row ∈ grid,
        (row.length : Int) = (2 * 4 * ([noteAtY 40, noteAtY 10].length : Int)) / (4 / 2) ∧
        ((4 : Int) % 2 = 0 → row.length = 4 * [noteAtY 40, noteAtY 10].length) ∧
        4 * [noteAtY 40, noteAtY 10].length ≤ row.length ∧
        ∀ cell ∈ row, cell = false) :=
  ⟨by decide,
    (ResetAccidSpace_grid 5 (by decide)).1 [noteAtY 40, noteAtY 10] (noteAtY 40) (noteAtY 10) 4
      (by decide) rfl rfl (by decide) (by decide) (by decide)⟩

/-! ## Clustered notes and their neighbours -/

theorem chain_neighbour {α : Type} (R : α → α → Prop) :
    ∀ c : List α, 2 ≤ c.length → c.Chain' R → ∀ p ∈ c, ∃ q ∈ c, R p q ∨ R q p := by
  intro c
  induction c with
  | nil => intro h; simp at h
  | cons a t ih =>
    intro hlen hch p hp
    cases t with
    | nil => simp at hlen
    | cons b rest =>
      have hab : R a b := (List.chain'_cons.mp hch).1
      have hch2 : (b :: rest).Chain' R := (List.chain'_cons.mp hch).2
      rcases List.mem_cons.mp hp with rfl | hp
      · exact ⟨b, by simp, Or.inl hab⟩
      · cases rest with
        | nil =>
          rw [List.mem_singleton] at hp
          subst hp
          exact ⟨a, by simp, Or.inr hab⟩
        | cons x rest2 =>
          obtain ⟨q, hq, hr⟩ := ih (by simp) hch2 p hp
          exact ⟨q, List.mem_cons_of_mem _ hq, hr⟩

theorem adjacent_of_step {s : List Ref} {f : Ref → Int} (hs : s.Pairwise (fun a b => f a ≤ f b))
    (hnd : s.Nodup) (hinj : ∀ a ∈ s, ∀ b ∈ s, f a = f b → a = b) {p q : Ref} (hp : p ∈ s)
    (hq : q ∈ s) (hstep : f q - f p = 1) : [p, q] <:+: s := by
  obtain ⟨A, B, rfl⟩ := List.append_of_mem hp
  have hpw := List.pairwise_append.mp hs
  have hpB := (List.pairwise_cons.mp hpw.2.1)
  have hqB : q ∈ B := by
    rcases List.mem_append.mp hq with hqa | hqb
    · have := hpw.2.2 q hqa p (List.mem_cons_self _ _)
      omega
    · rcases List.mem_cons.mp hqb with rfl | hqb
      · omega
      · exact hqb
  cases B with
  | nil => simp at hqB
  | cons b B1 =>
    have hpb : f p ≤ f b := hpB.1 b (List.mem_cons_self _ _)
    have hbq : f b ≤ f q := by
      rcases List.mem_cons.mp hqB with rfl | hq1
      · exact le_refl _
      · exact (List.pairwise_cons.mp hpB.2).1 q hq1
    have hbs : b ∈ A ++ p :: b :: B1 := by simp
    have hne : f b ≠ f p := by
      intro h
      have hbp : b = p := hinj b hbs p hp h
      have hnd2 := (List.nodup_append.mp hnd).2.1
      exact (List.nodup_cons.mp hnd2).1 (by rw [hbp]; exact List.mem_cons_self _ _)
    have hbq2 : f b = f q := by omega
    have : b = q := hinj b hbs q hq hbq2
    subst this
    exact ⟨A, B1, by simp⟩

/-- C38: for every list of distinct objects with at least one note, whose notes are
unclustered or clustered in this chord and have pairwise distinct diatonic
pitches, `Chord::FilterList` returns and afterwards a note of the list is in a
cluster if and only if the list holds another note whose diatonic pitch is
exactly one step above or one step below it.  With duplicate pitches this fails:
for the pitches `[60, 60, 61]` the only cluster holds the second and the third
note, and the first note is in no cluster although the third lies one step
above it. -/
theorem FilterList_clustered_iff_neighbour :
    (∀ (ch : Chord) (l : List Ref), l.Nodup → Resettable ch l →
      (∃ p ∈ l, (asNote ch.objects p).isSome = true) →
      (∀ p ∈ l, ∀ q ∈ l, (asNote ch.objects p).isSome = true →
        (asNote ch.objects q).isSome = true → pitchOf ch.objects p = pitchOf ch.objects q →
        p = q) →
      ∃ ch1 l1, FilterList ch l = some (ch1, l1) ∧
        ∀ p ∈ l, (asNote ch.objects p).isSome = true →
          ((∃ c ∈ clusterMembers ch1, p ∈ c) ↔
            ∃ q ∈ l, (asNote ch.objects q).isSome = true ∧ q ≠ p ∧
              (pitchOf ch.objects q - pitchOf ch.objects p = 1 ∨
                pitchOf ch.objects p - pitchOf ch.objects q = 1))) ∧
    (FilterList (chordOf [60, 60, 61]) [0, 1, 2]).map (fun r => clusterMembers r.1)
      = some [[1, 2]] ∧
    pitchOf (chordOf [60, 60, 61]).objects 2 - pitchOf (chordOf [60, 60, 61]).objects 0 = 1 := by
  refine ⟨?_, by decide, by decide⟩
  intro ch l hnd hown hex hdist
  have hne : sortByPitch ch.objects (eraseNonNotes ch.objects l) ≠ [] := by
    obtain ⟨p, hp, hpn⟩ := hex
    intro h
    have hmem : p ∈ sortByPitch ch.objects (eraseNonNotes ch.objects l) :=
      mem_filtered.mpr ⟨hp, hpn⟩
    rw [h] at hmem
    simp at hmem
  obtain ⟨ch1, hF, hdone⟩ := FilterList_spec ch l hnd hown hne
  refine ⟨ch1, _, hF, ?_⟩
  have hsnd := nodup_filtered ch.objects hnd
  have hsorted : (sortByPitch ch.objects (eraseNonNotes ch.objects l)).Pairwise
      (fun a b => pitchOf ch.objects a ≤ pitchOf ch.objects b) :=
    List.Pairwise.imp (fun hab => (compare_pitch_false_iff _ _ _).mp hab)
      (sorted_sortByPitch ch.objects (eraseNonNotes ch.objects l))
  have hinj : ∀ a ∈ sortByPitch ch.objects (eraseNonNotes ch.objects l),
      ∀ b ∈ sortByPitch ch.objects (eraseNonNotes ch.objects l),
      pitchOf ch.objects a = pitchOf ch.objects b → a = b := by
    intro a ha b hb hab
    obtain ⟨ha1, ha2⟩ := mem_filtered.mp ha
    obtain ⟨hb1, hb2⟩ := mem_filtered.mp hb
    exact hdist a ha1 b hb1 ha2 hb2 hab
  intro p hp hpn
  have hps : p ∈ sortByPitch ch.objects (eraseNonNotes ch.objects l) :=
    mem_filtered.mpr ⟨hp, hpn⟩
  rw [hdone.members]
  constructor
  · rintro ⟨c, hc, hpc⟩
    obtain ⟨h2, hinf, hch⟩ := longRuns_mem _ _ hc
    obtain ⟨q, hq, hr⟩ := chain_neighbour _ c h2 hch p hpc
    have hqs := hinf.subset hq
    obtain ⟨hq1, hq2⟩ := mem_filtered.mp hqs
    refine ⟨q, hq1, hq2, ?_, ?_⟩
    · rintro rfl
      rcases hr with hr | hr <;> simp [stepUp] at hr
    · rcases hr with hr | hr
      · left
        simpa [stepUp] using hr
      · right
        simpa [stepUp] using hr
  · rintro ⟨q, hq, hqn, -, hstep⟩
    have hqs : q ∈ sortByPitch ch.objects (eraseNonNotes ch.objects l) :=
      mem_filtered.mpr ⟨hq, hqn⟩
    rcases hstep with hstep | hstep
    · have hadj := adjacent_of_step hsorted hsnd hinj hps hqs hstep
      obtain ⟨c, hc, hin⟩ := longRuns_cover (stepUp ch.objects) _ hadj (by simp [stepUp, hstep])
      exact ⟨c, hc, hin.subset (by simp)⟩
    · have hadj := adjacent_of_step hsorted hsnd hinj hqs hps hstep
      obtain ⟨c, hc, hin⟩ := longRuns_cover (stepUp ch.objects) _ hadj (by simp [stepUp, hstep])
      exact ⟨c, hc, hin.subset (by simp)⟩

theorem FilterList_clustered_iff_neighbour_witness :
    ([0, 1, 2, 3] : List Ref).Nodup ∧
    (FilterList (chordOf [60, 62, 61, 65]) [0, 1, 2, 3]).map (fun r => clusterMembers r.1)
      = some [[0, 2, 1]] ∧
    ∃ ch1 l1, FilterList (chordOf [60, 62, 61, 65]) [0, 1, 2, 3] = some (ch1, l1) ∧
      ∀ p ∈ ([0, 1, 2, 3] : List Ref),
        (asNote (chordOf [60, 62, 61, 65]).objects p).isSome = true →
        ((∃ c ∈ clusterMembers ch1, p ∈ c) ↔
          ∃ q ∈ ([0, 1, 2, 3] : List Ref),
            (asNote (chordOf [60, 62, 61, 65]).objects q).isSome = true ∧ q ≠ p ∧
            (pitchOf (chordOf [60, 62, 61, 65]).objects q
                - pitchOf (chordOf [60, 62, 61, 65]).objects p = 1 ∨
              pitchOf (chordOf [60, 62, 61, 65]).objects p
                - pitchOf (chordOf [60, 62, 61, 65]).objects q = 1)) :=
  ⟨by decide, by decide,
    FilterList_clustered_iff_neighbour.1 (chordOf [60, 62, 61, 65]) [0, 1, 2, 3] (by decide)
      (by
        intro p hp n hn
        simp only [List.mem_cons, List.mem_singleton, List.not_mem_nil, or_false] at hp
        rcases hp with rfl | rfl | rfl | rfl <;>
          · left
            simp only [chordOf, notesAt, asNote] at hn
            cases hn
            rfl)
      ⟨0, by decide, by decide⟩ (by decide)⟩

/-! ## BeamDrawingInterface::IsHorizontal -/

theorem headD_of_head? {items : List Int} {y : Int} (h : items.head? = some y) :
    items.headD 0 = y := by
  cases items with
  | nil => simp at h
  | cons a t => simpa using h

theorem getLastD_of_getLast? {items : List Int} {y : Int} (h : items.getLast? = some y) :
    items.getLastD 0 = y := by
  rw [List.getLastD_eq_getLast?, h]
  rfl

theorem horizontalItems_length (b : BeamDrawingInterface) :
    (horizontalItems b).length = (b.m_beamElementCoords.filter BeamElementCoord.usable).length := by
  simp [horizontalItems]

/-- C3: `BeamDrawingInterface::IsHorizontal` returns true whenever the beam is a
repeated pattern, or has one-step height, or has drawing place NONE, or has fewer
than two usable anchors (coords with a stem and a closest note), or its first
and last usable anchor have the same drawing Y.  Anchors `[0, 0, 0]` are
horizontal for every place, and anchors `[0, 5]` with place NONE are horizontal. -/
theorem IsHorizontal_true_rules :
    (∀ (k : VrvDef) (b : BeamDrawingInterface),
      (IsRepeatedPattern k b = true ∨ HasOneStepHeight k b = true ∨
        b.m_drawingPlace = data_BEAMPLACE.NONE ∨
        (b.m_beamElementCoords.filter BeamElementCoord.usable).length < 2 ∨
        (∃ y, (horizontalItems b).head? = some y ∧ (horizontalItems b).getLast? = some y)) →
      IsHorizontal k b = some true) ∧
    (∀ (k : VrvDef) (place : data_BEAMPLACE),
      IsHorizontal k (beamOf place [0, 0, 0]) = some true) ∧
    (∀ k : VrvDef, IsHorizontal k (beamOf data_BEAMPLACE.NONE [0, 5]) = some true) := by
  have main : ∀ (k : VrvDef) (b : BeamDrawingInterface),
      (IsRepeatedPattern k b = true ∨ HasOneStepHeight k b = true ∨
        b.m_drawingPlace = data_BEAMPLACE.NONE ∨
        (b.m_beamElementCoords.filter BeamElementCoord.usable).length < 2 ∨
        (∃ y, (horizontalItems b).head? = some y ∧ (horizontalItems b).getLast? = some y)) →
      IsHorizontal k b = some true := by
    intro k b h
    unfold IsHorizontal
    by_cases h1 : IsRepeatedPattern k b = true
    · simp [h1]
    by_cases h2 : HasOneStepHeight k b = true
    · simp [h1, h2]
    by_cases h3 : b.m_drawingPlace = data_BEAMPLACE.NONE
    · simp [h1, h2, h3]
    by_cases h4 : (horizontalItems b).length < 2
    · simp [h1, h2, h3, h4]
    rcases h with h | h | h | h | ⟨y, hy1, hy2⟩
    · exact absurd h h1
    · exact absurd h h2
    · exact absurd h h3
    · rw [← horizontalItems_length] at h
      exact absurd h h4
    · simp [h1, h2, h3, h4, hy1, hy2]
  refine ⟨main, ?_, ?_⟩
  · intro k place
    exact main k _ (Or.inr (Or.inr (Or.inr (Or.inr ⟨0, rfl, rfl⟩))))
  · intro k
    exact main k _ (Or.inr (Or.inr (Or.inl rfl)))

theorem IsHorizontal_true_rules_witness :
    (IsRepeatedPattern ⟨1024, 7, -2147483647⟩ (beamOf data_BEAMPLACE.above [0, 5, 0, 5, 0, 5]) = true ∨
      HasOneStepHeight ⟨1024, 7, -2147483647⟩ (beamOf data_BEAMPLACE.above [0, 5, 0, 5, 0, 5]) = true ∨
      (beamOf data_BEAMPLACE.above [0, 5, 0, 5, 0, 5]).m_drawingPlace = data_BEAMPLACE.NONE ∨
      ((beamOf data_BEAMPLACE.above [0, 5, 0, 5, 0, 5]).m_beamElementCoords.filter
        BeamElementCoord.usable).length < 2 ∨
      (∃ y, (horizontalItems (beamOf data_BEAMPLACE.above [0, 5, 0, 5, 0, 5])).head? = some y ∧
        (horizontalItems (beamOf data_BEAMPLACE.above [0, 5, 0, 5, 0, 5])).getLast? = some y)) ∧
    IsHorizontal ⟨1024, 7, -2147483647⟩ (beamOf data_BEAMPLACE.above [0, 5, 0, 5, 0, 5]) = some true :=
  ⟨Or.inl (by decide),
    IsHorizontal_true_rules.1 ⟨1024, 7, -2147483647⟩ (beamOf data_BEAMPLACE.above [0, 5, 0, 5, 0, 5])
      (Or.inl (by decide))⟩

theorem std_unique_copy_of_chain (items : List Int) (h : items.Chain' (fun x y => x ≠ y)) :
    std_unique_copy items = items := by
  induction items with
  | nil => rfl
  | cons a t ih =>
    cases t with
    | nil => rfl
    | cons b t2 =>
      have hab : a ≠ b := (List.chain'_cons.mp h).1
      have := ih (List.chain'_cons.mp h).2
      simp [std_unique_copy, hab, this]

/-- In a list whose elements are pairwise related by `R`, the first element is
related to every inner element and every inner element to the last. -/
theorem inner_between {R : Int → Int → Prop} {items : List Int} (h : items.Pairwise R)
    (hlen : 2 ≤ items.length) :
    R (items.headD 0) (items.getLastD 0) ∧
    ∀ m ∈ (items.drop 1).dropLast, R (items.headD 0) m ∧ R m (items.getLastD 0) := by
  cases items with
  | nil => simp at hlen
  | cons a t =>
    have ht : t ≠ [] := by
      intro e
      subst e
      simp at hlen
    obtain ⟨ha, hpt⟩ := List.pairwise_cons.mp h
    have hlast : (a :: t).getLastD 0 = t.getLast ht := by
      rw [List.getLastD_eq_getLast?, List.getLast?_eq_getLast _ (List.cons_ne_nil a t),
        List.getLast_cons ht]
      rfl
    rw [hlast]
    simp only [List.headD_cons, List.drop_one, List.tail_cons]
    refine ⟨ha _ (List.getLast_mem ht), ?_⟩
    intro m hm
    refine ⟨ha m (List.dropLast_subset t hm), ?_⟩
    have hsplit := List.dropLast_append_getLast ht
    rw [← hsplit] at hpt
    exact (List.pairwise_append.mp hpt).2.2 m hm _ (by simp)

theorem concaveShape_false_of_between {place : data_BEAMPLACE} {items : List Int} {first last : Int}
    (h : ∀ m ∈ (items.drop 1).dropLast, (first < m ∧ m < last) ∨ (first > m ∧ m > last)) :
    concaveShape place items first last = false := by
  unfold concaveShape
  rw [List.any_eq_false]
  intro m hm
  rcases h m hm with ⟨h1, h2⟩ | ⟨h1, h2⟩
  · by_cases ha : place = data_BEAMPLACE.above
    · simp [ha]; omega
    · by_cases hb : place = data_BEAMPLACE.below
      · simp [hb]; omega
      · simp [ha, hb]
  · by_cases ha : place = data_BEAMPLACE.above
    · simp [ha]; omega
    · by_cases hb : place = data_BEAMPLACE.below
      · simp [hb]; omega
      · simp [ha, hb]

theorem HasOneStepHeight_beamOf_0_5_10 (k : VrvDef) (place : data_BEAMPLACE) :
    HasOneStepHeight k (beamOf place [0, 5, 10]) = false := by
  unfold HasOneStepHeight
  split
  · rfl
  · rfl

/-- C10: for a beam with drawing place above or below that is not a repeated
pattern and not of one-step height, and whose usable anchors (at least 2) have
strictly increasing or strictly decreasing drawing Y values (each anchor
below, respectively above, all later ones), `IsHorizontal`
returns false; this covers the beams in which every coord is a usable anchor.
Anchors `[0, 5, 10]` with place above are angled. -/
theorem IsHorizontal_monotone_angled :
    (∀ (k : VrvDef) (b : BeamDrawingInterface),
      (b.m_drawingPlace = data_BEAMPLACE.above ∨ b.m_drawingPlace = data_BEAMPLACE.below) →
      IsRepeatedPattern k b = false → HasOneStepHeight k b = false →
      2 ≤ (horizontalItems b).length →
      ((horizontalItems b).Pairwise (fun x y => x < y) ∨
        (horizontalItems b).Pairwise (fun x y => x > y)) →
      IsHorizontal k b = some false) ∧
    (∀ k : VrvDef, IsHorizontal k (beamOf data_BEAMPLACE.above [0, 5, 10]) = some false) := by
  have main : ∀ (k : VrvDef) (b : BeamDrawingInterface),
      (b.m_drawingPlace = data_BEAMPLACE.above ∨ b.m_drawingPlace = data_BEAMPLACE.below) →
      IsRepeatedPattern k b = false → HasOneStepHeight k b = false →
      2 ≤ (horizontalItems b).length →
      ((horizontalItems b).Pairwise (fun x y => x < y) ∨
        (horizontalItems b).Pairwise (fun x y => x > y)) →
      IsHorizontal k b = some false := by
    intro k b hplace hrep hone hlen hmono
    have hnone : b.m_drawingPlace ≠ data_BEAMPLACE.NONE := by
      rcases hplace with h | h <;> simp [h]
    have hmixed : b.m_drawingPlace ≠ data_BEAMPLACE.mixed := by
      rcases hplace with h | h <;> simp [h]
    have hfacts : (horizontalItems b).headD 0 ≠ (horizontalItems b).getLastD 0 ∧
        concaveShape b.m_drawingPlace (horizontalItems b) ((horizontalItems b).headD 0)
          ((horizontalItems b).getLastD 0) = false ∧
        std_unique_copy (horizontalItems b) = horizontalItems b := by
      rcases hmono with h | h
      · obtain ⟨h1, h2⟩ := inner_between h hlen
        exact ⟨ne_of_lt h1, concaveShape_false_of_between (fun m hm => Or.inl (h2 m hm)),
          std_unique_copy_of_chain _ (h.chain'.imp (fun _ _ hab => ne_of_lt hab))⟩
      · obtain ⟨h1, h2⟩ := inner_between h hlen
        exact ⟨ne_of_gt h1, concaveShape_false_of_between (fun m hm => Or.inr (h2 m hm)),
          std_unique_copy_of_chain _ (h.chain'.imp (fun _ _ hab => ne_of_gt hab))⟩
    obtain ⟨hne, hconc, huniq⟩ := hfacts
    unfold IsHorizontal
    simp only [hrep, hone, hnone, hmixed, if_false, Bool.false_eq_true]
    have hlen2 : ¬ (horizontalItems b).length < 2 := by omega
    simp only [hlen2, if_false, hne, hconc, huniq, Bool.false_eq_true]
    by_cases h3 : (horizontalItems b).length > 2
    · have : ¬ (horizontalItems b).length = 2 := by omega
      simp [this]
    · simp [h3]
  refine ⟨main, ?_⟩
  intro k
  exact main k _ (Or.inl rfl) rfl (HasOneStepHeight_beamOf_0_5_10 k _) (by decide)
    (Or.inl (by decide))

theorem IsHorizontal_monotone_angled_witness :
    IsHorizontal ⟨1024, 7, -2147483647⟩ (beamOf data_BEAMPLACE.below [9, 4, 2, 1, -3])
      = some false :=
  IsHorizontal_monotone_angled.1 ⟨1024, 7, -2147483647⟩
    (beamOf data_BEAMPLACE.below [9, 4, 2, 1, -3]) (Or.inr rfl) (by decide) (by decide)
    (by decide) (Or.inr (by decide))

/-! ## BeamDrawingInterface::IsRepeatedPattern -/

theorem std_equal_tail_iff (items : List Int) :
    std_equal (items.drop 1) items = true ↔ ∀ x ∈ items, ∀ y ∈ items, x = y := by
  induction items with
  | nil => simp [std_equal]
  | cons a t ih =>
    cases t with
    | nil => simp [std_equal]
    | cons b t2 =>
      simp only [List.drop_one, List.tail_cons] at ih ⊢
      simp only [std_equal, Bool.and_eq_true, beq_iff_eq]
      rw [ih]
      constructor
      · rintro ⟨hba, hall⟩ x hx y hy
        have hx1 : x = b := by
          rcases List.mem_cons.mp hx with rfl | hx
          · exact hba.symm
          · exact hall x hx b (List.mem_cons_self _ _)
        have hy1 : y = b := by
          rcases List.mem_cons.mp hy with rfl | hy
          · exact hba.symm
          · exact hall y hy b (List.mem_cons_self _ _)
        rw [hx1, hy1]
      · intro hall
        exact ⟨hall b (by simp) a (by simp),
          fun x hx y hy => hall x (List.mem_cons_of_mem _ hx) y (List.mem_cons_of_mem _ hy)⟩

theorem mem_patternDividers {n d : Nat} :
    d ∈ patternDividers n ↔ 2 ≤ d ∧ d ≤ n / 2 ∧ d ∣ n := by
  simp only [patternDividers, List.mem_filter, List.mem_range, Bool.and_eq_true,
    decide_eq_true_eq, Nat.dvd_iff_mod_eq_zero]
  constructor
  · rintro ⟨h1, h2, h3⟩
    exact ⟨h2, by omega, h3⟩
  · rintro ⟨h1, h2, h3⟩
    exact ⟨by omega, h1, h3⟩

theorem patternAt_iff {items : List Int} {d : Nat} (hd : 0 < d) (hdvd : d ∣ items.length) :
    patternAt items d = true ↔ ∀ i, i < items.length → items[i]? = items[i % d]? := by
  unfold patternAt
  rw [List.all_eq_true]
  obtain ⟨q, hq⟩ := hdvd
  have hdiv : items.length / d = q := by
    rw [hq]; exact Nat.mul_div_cancel_left q hd
  constructor
  · intro h i hi
    by_cases hj : i / d = 0
    · have : i < d := (Nat.div_eq_zero_iff hd).mp hj
      rw [Nat.mod_eq_of_lt this]
    · have hjlt : i / d < items.length / d := by
        rw [hdiv]
        apply Nat.div_lt_of_lt_mul
        rw [← hq]; exact hi
      have hjpos : 1 ≤ i / d := Nat.pos_of_ne_zero hj
      have hmem : i / d ∈ (List.range (items.length / d)).drop 1 := by
        generalize i / d = j at hjlt hjpos
        generalize items.length / d = m at hjlt
        rw [List.mem_iff_getElem?]
        refine ⟨j - 1, ?_⟩
        rw [List.getElem?_drop, List.getElem?_range (by omega)]
        congr 1
        omega
      have hblock := h _ hmem
      simp only [decide_eq_true_eq] at hblock
      have hr : i % d < d := Nat.mod_lt _ hd
      have := congrArg (fun l => l[i % d]?) hblock
      simp only [List.getElem?_take_of_lt hr, List.getElem?_drop] at this
      rw [← this]
      congr 1
      have := Nat.div_add_mod i d
      rw [Nat.mul_comm] at this
      exact this.symm
  · intro h j hj
    have hj1 : 1 ≤ j ∧ j < items.length / d := by
      obtain ⟨i, hi⟩ := List.mem_iff_getElem?.mp hj
      rw [List.getElem?_drop] at hi
      have hlt : 1 + i < items.length / d := by
        by_contra hge
        rw [List.getElem?_eq_none (by simpa using Nat.le_of_not_lt hge)] at hi
        cases hi
      rw [List.getElem?_range hlt] at hi
      simp only [Option.some.injEq] at hi
      omega
    simp only [decide_eq_true_eq]
    apply List.ext_getElem?
    intro r
    by_cases hr : r < d
    · rw [List.getElem?_take_of_lt hr, List.getElem?_take_of_lt hr, List.getElem?_drop]
      have hlt : j * d + r < items.length := by
        rw [hdiv] at hj1
        calc j * d + r < j * d + d := by omega
          _ = (j + 1) * d := by ring
          _ ≤ q * d := Nat.mul_le_mul_right d (by omega)
          _ = items.length := by rw [hq, Nat.mul_comm]
      rw [h _ hlt]
      congr 1
      rw [Nat.mul_comm, Nat.mul_add_mod, Nat.mod_eq_of_lt hr]
    · rw [List.getElem?_take_eq_none (Nat.le_of_not_lt hr),
        List.getElem?_take_eq_none (Nat.le_of_not_lt hr)]

theorem patternItems_length_le (k : VrvDef) (b : BeamDrawingInterface) :
    (patternItems k b).length ≤ b.m_beamElementCoords.length := by
  simp only [patternItems, List.length_map]
  exact List.length_filter_le _ _

theorem place_above_or_below_iff (place : data_BEAMPLACE) :
    (place = data_BEAMPLACE.above ∨ place = data_BEAMPLACE.below) ↔
      place ≠ data_BEAMPLACE.mixed ∧ place ≠ data_BEAMPLACE.NONE := by
  cases place <;> simp

/-- The result of `IsRepeatedPattern` spelled out on the key list. -/
theorem IsRepeatedPattern_iff (k : VrvDef) (b : BeamDrawingInterface) :
    IsRepeatedPattern k b = true ↔
      (b.m_drawingPlace = data_BEAMPLACE.above ∨ b.m_drawingPlace = data_BEAMPLACE.below) ∧
      4 ≤ b.m_beamElementCoords.length ∧
      4 ≤ (patternItems k b).length ∧
      ¬ (∀ x ∈ patternItems k b, ∀ y ∈ patternItems k b, x = y) ∧
      ∃ d, 2 ≤ d ∧ d ≤ (patternItems k b).length / 2 ∧ d ∣ (patternItems k b).length ∧
        ∀ i, i < (patternItems k b).length →
          (patternItems k b)[i]? = (patternItems k b)[i % d]? := by
  rw [place_above_or_below_iff]
  unfold IsRepeatedPattern
  by_cases h1 : b.m_drawingPlace = data_BEAMPLACE.mixed
  · simp [h1]
  by_cases h2 : b.m_drawingPlace = data_BEAMPLACE.NONE
  · simp [h2]
  by_cases h3 : b.m_beamElementCoords.length < 4
  · simp only [h1, h2, h3, if_true, if_false]
    constructor
    · intro h; cases h
    · rintro ⟨_, h4, _⟩; omega
  by_cases h4 : (patternItems k b).length < 4
  · simp only [h1, h2, h3, h4, if_false, decide_True, Bool.true_or, if_true]
    constructor
    · intro h; cases h
    · rintro ⟨_, _, h5, _⟩; omega
  by_cases h5 : std_equal ((patternItems k b).drop 1) (patternItems k b) = true
  · simp only [h1, h2, h3, h4, h5, if_false, Bool.or_true, if_true]
    constructor
    · intro h; cases h
    · rintro ⟨_, _, _, h6, _⟩
      exact absurd ((std_equal_tail_iff _).mp h5) h6
  · have h5' : ¬ (∀ x ∈ patternItems k b, ∀ y ∈ patternItems k b, x = y) :=
      fun h => h5 ((std_equal_tail_iff _).mpr h)
    simp only [h1, h2, h3, h4, h5, if_false, decide_False, Bool.or_self, Bool.false_eq_true,
      List.any_eq_true]
    constructor
    · rintro ⟨d, hd, hpat⟩
      obtain ⟨hd2, hdle, hdvd⟩ := mem_patternDividers.mp hd
      exact ⟨⟨h1, h2⟩, by omega, by omega, h5', d, hd2, hdle, hdvd,
        (patternAt_iff (by omega) hdvd).mp hpat⟩
    · rintro ⟨_, _, _, _, d, hd2, hdle, hdvd, hper⟩
      exact ⟨d, mem_patternDividers.mpr ⟨hd2, hdle, hdvd⟩,
        (patternAt_iff (by omega) hdvd).mpr hper⟩

/-- C4: `BeamDrawingInterface::IsRepeatedPattern` returns true if and only if the
drawing place is above or below, there are at least 4 coords, the list of the
composite keys of the usable anchors has length `n >= 4`, the keys are not all
equal, and some period `d` with `2 <= d <= n / 2` and `d` dividing `n` satisfies
`key[i] = key[i mod d]` for every `i < n`.  Hence (for place above or below)
keys `[a, c, a, c, a, c]` with `a ≠ c` give true, pairwise distinct keys give
false, and fewer than 4 keys always give false.  The keys are the values the code
computes in 32-bit `int`: with `DUR_MAX` 1024 the anchors at Y 0, `2^22`, 0, `2^22`
all have the key 0, and the function returns false. -/
theorem IsRepeatedPattern_iff_period :
    (∀ (k : VrvDef) (b : BeamDrawingInterface),
      IsRepeatedPattern k b = true ↔
        (b.m_drawingPlace = data_BEAMPLACE.above ∨ b.m_drawingPlace = data_BEAMPLACE.below) ∧
        4 ≤ b.m_beamElementCoords.length ∧
        4 ≤ (patternItems k b).length ∧
        ¬ (∀ x ∈ patternItems k b, ∀ y ∈ patternItems k b, x = y) ∧
        ∃ d, 2 ≤ d ∧ d ≤ (patternItems k b).length / 2 ∧ d ∣ (patternItems k b).length ∧
          ∀ i, i < (patternItems k b).length →
            (patternItems k b)[i]? = (patternItems k b)[i % d]?) ∧
    (∀ (k : VrvDef) (b : BeamDrawingInterface) (a c : Int),
      (b.m_drawingPlace = data_BEAMPLACE.above ∨ b.m_drawingPlace = data_BEAMPLACE.below) →
      patternItems k b = [a, c, a, c, a, c] → a ≠ c → IsRepeatedPattern k b = true) ∧
    (∀ (k : VrvDef) (b : BeamDrawingInterface),
      (patternItems k b).Nodup → IsRepeatedPattern k b = false) ∧
    (∀ (k : VrvDef) (b : BeamDrawingInterface),
      (patternItems k b).length < 4 → IsRepeatedPattern k b = false) ∧
    (patternItems ⟨1024, 7, -2147483647⟩
        (beamOf data_BEAMPLACE.above [0, 4194304, 0, 4194304]) = [0, 0, 0, 0] ∧
      IsRepeatedPattern ⟨1024, 7, -2147483647⟩
        (beamOf data_BEAMPLACE.above [0, 4194304, 0, 4194304]) = false) := by
  refine ⟨IsRepeatedPattern_iff, ?_, ?_, ?_, ⟨rfl, rfl⟩⟩
  · intro k b a c hplace hkeys hac
    rw [IsRepeatedPattern_iff]
    have hlen := patternItems_length_le k b
    rw [hkeys] at hlen ⊢
    simp only [List.length_cons, List.length_nil] at hlen
    refine ⟨hplace, by omega, by simp, ?_, 2, by omega, by simp, ⟨3, rfl⟩, ?_⟩
    · intro h
      exact hac (h a (by simp) c (by simp))
    · intro i hi
      simp only [List.length_cons, List.length_nil] at hi
      interval_cases i <;> rfl
  · intro k b hnd
    rw [Bool.eq_false_iff]
    intro h
    obtain ⟨_, _, h4, _, d, hd2, hdle, _, hper⟩ := (IsRepeatedPattern_iff k b).mp h
    have hd : d < (patternItems k b).length := by omega
    have h0 := hper d hd
    rw [Nat.mod_self] at h0
    have := (List.getElem?_inj hd hnd h0)
    omega
  · intro k b hlen
    rw [Bool.eq_false_iff]
    intro h
    obtain ⟨_, _, h4, _⟩ := (IsRepeatedPattern_iff k b).mp h
    omega

theorem IsRepeatedPattern_iff_period_witness :
    IsRepeatedPattern ⟨1024, 7, -2147483647⟩ (beamOf data_BEAMPLACE.above [0, 5, 0, 5, 0, 5]) = true ∧
    IsRepeatedPattern ⟨1024, 7, -2147483647⟩ (beamOf data_BEAMPLACE.below [0, 1, 2, 3, 4, 5]) = false ∧
    IsRepeatedPattern ⟨1024, 7, -2147483647⟩ (beamOf data_BEAMPLACE.above [0, 5, 0]) = false :=
  ⟨IsRepeatedPattern_iff_period.2.1 ⟨1024, 7, -2147483647⟩
      (beamOf data_BEAMPLACE.above [0, 5, 0, 5, 0, 5]) 0 5120 (Or.inl rfl) (by decide) (by decide),
    IsRepeatedPattern_iff_period.2.2.1 ⟨1024, 7, -2147483647⟩
      (beamOf data_BEAMPLACE.below [0, 1, 2, 3, 4, 5]) (by decide),
    IsRepeatedPattern_iff_period.2.2.2.1 ⟨1024, 7, -2147483647⟩
      (beamOf data_BEAMPLACE.above [0, 5, 0]) (by decide)⟩

/-! ## The concave-shape rule of IsHorizontal -/

theorem mem_inner_of_getElem? {items : List Int} {i : Nat} {y : Int} (h1 : 1 ≤ i)
    (h2 : i + 1 < items.length) (h : items[i]? = some y) : y ∈ (items.drop 1).dropLast := by
  rw [List.dropLast_eq_take, List.mem_iff_getElem?]
  refine ⟨i - 1, ?_⟩
  rw [List.getElem?_take_of_lt (by simp; omega), List.getElem?_drop]
  have : 1 + (i - 1) = i := by omega
  rw [this, h]

/-- C11: for a beam with place above (resp. below) with more than 2 usable anchors
whose first anchor differs from the second or whose last differs from the
second-to-last, `IsHorizontal` returns true if some anchor strictly between the
first and the last has drawing Y >= (resp. <=) both the first and the last
anchor's Y; this holds whether or not an earlier rule applies.  Anchors
`[0, 10, 5]` above and `[10, 0, 5]` below are horizontal. -/
theorem IsHorizontal_concave_shape :
    (∀ (k : VrvDef) (b : BeamDrawingInterface) (first last y : Int) (i : Nat),
      (b.m_drawingPlace = data_BEAMPLACE.above ∨ b.m_drawingPlace = data_BEAMPLACE.below) →
      2 < (horizontalItems b).length →
      (horizontalItems b).head? = some first →
      (horizontalItems b).getLast? = some last →
      ((horizontalItems b)[1]? ≠ some first ∨
        (horizontalItems b)[(horizontalItems b).length - 2]? ≠ some last) →
      1 ≤ i → i + 1 < (horizontalItems b).length → (horizontalItems b)[i]? = some y →
      (if b.m_drawingPlace = data_BEAMPLACE.above then first ≤ y ∧ last ≤ y
        else y ≤ first ∧ y ≤ last) →
      IsHorizontal k b = some true) ∧
    (∀ k : VrvDef, IsHorizontal k (beamOf data_BEAMPLACE.above [0, 10, 5]) = some true) ∧
    (∀ k : VrvDef, IsHorizontal k (beamOf data_BEAMPLACE.below [10, 0, 5]) = some true) := by
  have main : ∀ (k : VrvDef) (b : BeamDrawingInterface) (first last y : Int) (i : Nat),
      (b.m_drawingPlace = data_BEAMPLACE.above ∨ b.m_drawingPlace = data_BEAMPLACE.below) →
      2 < (horizontalItems b).length →
      (horizontalItems b).head? = some first →
      (horizontalItems b).getLast? = some last →
      ((horizontalItems b)[1]? ≠ some first ∨
        (horizontalItems b)[(horizontalItems b).length - 2]? ≠ some last) →
      1 ≤ i → i + 1 < (horizontalItems b).length → (horizontalItems b)[i]? = some y →
      (if b.m_drawingPlace = data_BEAMPLACE.above then first ≤ y ∧ last ≤ y
        else y ≤ first ∧ y ≤ last) →
      IsHorizontal k b = some true := by
    intro k b first last y i hplace hlen hfirst hlast hstep hi1 hi2 hy hcmp
    unfold IsHorizontal
    by_cases h1 : IsRepeatedPattern k b = true
    · simp [h1]
    by_cases h2 : HasOneStepHeight k b = true
    · simp [h1, h2]
    have h3 : b.m_drawingPlace ≠ data_BEAMPLACE.NONE := by
      rcases hplace with h | h <;> rw [h] <;> decide
    have h5 : b.m_drawingPlace ≠ data_BEAMPLACE.mixed := by
      rcases hplace with h | h <;> rw [h] <;> decide
    have h4 : ¬ (horizontalItems b).length < 2 := by omega
    have hF : (horizontalItems b).headD 0 = first := headD_of_head? hfirst
    have hL : (horizontalItems b).getLastD 0 = last := getLastD_of_getLast? hlast
    by_cases h6 : first = last
    · simp [h1, h2, h3, h4, hfirst, hlast, h6]
    have hmem : y ∈ ((horizontalItems b).drop 1).dropLast := mem_inner_of_getElem? hi1 hi2 hy
    have hconc : concaveShape b.m_drawingPlace (horizontalItems b) first last = true := by
      unfold concaveShape
      rw [List.any_eq_true]
      refine ⟨y, hmem, ?_⟩
      rcases hplace with h | h
      · rw [h] at hcmp ⊢
        simp at hcmp
        simp [hcmp.1, hcmp.2]
      · rw [h] at hcmp ⊢
        simp at hcmp
        simp [hcmp.1, hcmp.2]
    have hsteps : (decide (first ≠ (horizontalItems b).getD 1 0) ||
        decide (last ≠ (horizontalItems b).getD ((horizontalItems b).length - 2) 0)) = true := by
      rw [Bool.or_eq_true, decide_eq_true_eq, decide_eq_true_eq]
      rcases hstep with h | h
      · left
        obtain ⟨z, hz⟩ : ∃ z, (horizontalItems b)[1]? = some z := by
          rw [List.getElem?_eq_getElem (by omega)]
          exact ⟨_, rfl⟩
        rw [List.getD_eq_getElem?_getD, hz]
        intro hc
        apply h
        rw [hz, hc]
        rfl
      · right
        obtain ⟨z, hz⟩ : ∃ z, (horizontalItems b)[(horizontalItems b).length - 2]? = some z := by
          rw [List.getElem?_eq_getElem (by omega)]
          exact ⟨_, rfl⟩
        rw [List.getD_eq_getElem?_getD, hz]
        intro hc
        apply h
        rw [hz, hc]
        rfl
    dsimp only
    rw [hF, hL]
    simp only [h1, h2, h3, h4, h5, h6, if_false, hsteps, hconc, if_true,
      decide_eq_true hlen, Bool.true_and, Bool.false_eq_true, Bool.and_self]
  refine ⟨main, ?_, ?_⟩
  · intro k
    exact main k (beamOf data_BEAMPLACE.above [0, 10, 5]) 0 5 10 1 (Or.inl rfl) (by decide) rfl rfl
      (Or.inl (by decide)) (by decide) (by decide) rfl (by decide)
  · intro k
    exact main k (beamOf data_BEAMPLACE.below [10, 0, 5]) 10 5 0 1 (Or.inr rfl) (by decide) rfl rfl
      (Or.inl (by decide)) (by decide) (by decide) rfl (by decide)

theorem IsHorizontal_concave_shape_witness :
    ((beamOf data_BEAMPLACE.above [0, 0, 10, 5]).m_drawingPlace = data_BEAMPLACE.above ∨
      (beamOf data_BEAMPLACE.above [0, 0, 10, 5]).m_drawingPlace = data_BEAMPLACE.below) ∧
    2 < (horizontalItems (beamOf data_BEAMPLACE.above [0, 0, 10, 5])).length ∧
    (horizontalItems (beamOf data_BEAMPLACE.above [0, 0, 10, 5]))[2]? = some 10 ∧
    IsHorizontal ⟨1024, 7, -2147483647⟩ (beamOf data_BEAMPLACE.above [0, 0, 10, 5]) = some true :=
  ⟨Or.inl rfl, by decide, rfl,
    IsHorizontal_concave_shape.1 ⟨1024, 7, -2147483647⟩ (beamOf data_BEAMPLACE.above [0, 0, 10, 5])
      0 5 10 2 (Or.inl rfl) (by decide) rfl rfl (Or.inr (by decide)) (by decide) (by decide) rfl
      (by decide)⟩

/-! ## IsHorizontalMixedBeam -/

/-- C12: `IsHorizontalMixedBeam` returns true for every 3-element item and
direction sequence of a beam with cross-staff content in which the first and the
third placement are equal and differ from the second; and it returns false
whenever the items and the directions have different lengths. -/
theorem IsHorizontalMixedBeam_three_and_mismatch :
    (∀ (k : VrvDef) (b : BeamDrawingInterface) (y0 y1 y2 : Int) (d0 d1 d2 : data_BEAMPLACE),
      b.m_crossStaffContent.isSome = true → d0 = d2 → d0 ≠ d1 →
      IsHorizontalMixedBeam k b [y0, y1, y2] [d0, d1, d2] = some true) ∧
    (∀ (k : VrvDef) (b : BeamDrawingInterface) (items : List Int)
      (directions : List data_BEAMPLACE),
      items.length ≠ directions.length →
      IsHorizontalMixedBeam k b items directions = some false) := by
  constructor
  · intro k b y0 y1 y2 d0 d1 d2 hcross h02 h01
    subst h02
    unfold IsHorizontalMixedBeam
    simp [hcross, h01]
  · intro k b items directions hlen
    unfold IsHorizontalMixedBeam
    simp [hlen]

theorem IsHorizontalMixedBeam_three_and_mismatch_witness :
    (crossStaffBeam.m_crossStaffContent.isSome = true ∧
      IsHorizontalMixedBeam vrvDef crossStaffBeam [0, 10, 4]
        [data_BEAMPLACE.above, data_BEAMPLACE.below, data_BEAMPLACE.above] = some true) ∧
    ([0, 10].length ≠ [data_BEAMPLACE.above].length ∧
      IsHorizontalMixedBeam vrvDef crossStaffBeam [0, 10] [data_BEAMPLACE.above] = some false) :=
  ⟨⟨rfl, IsHorizontalMixedBeam_three_and_mismatch.1 vrvDef crossStaffBeam 0 10 4
      data_BEAMPLACE.above data_BEAMPLACE.below data_BEAMPLACE.above rfl rfl (by decide)⟩,
    ⟨by decide, IsHorizontalMixedBeam_three_and_mismatch.2 vrvDef crossStaffBeam [0, 10]
      [data_BEAMPLACE.above] (by decide)⟩⟩

/-! ## BeamDrawingInterface::HasOneStepHeight -/

theorem stepHeightLoop_spec (coords : List BeamElementCoord) :
    ∀ top bottom : Int,
      top ≤ (stepHeightLoop coords top bottom).1 ∧
      (∀ loc ∈ closestLocs coords, loc ≤ (stepHeightLoop coords top bottom).1) ∧
      ((stepHeightLoop coords top bottom).1 = top ∨
        (stepHeightLoop coords top bottom).1 ∈ closestLocs coords) ∧
      (stepHeightLoop coords top bottom).2 ≤ bottom ∧
      (∀ loc ∈ closestLocs coords, (stepHeightLoop coords top bottom).2 ≤ loc) ∧
      ((stepHeightLoop coords top bottom).2 = bottom ∨
        (stepHeightLoop coords top bottom).2 ∈ closestLocs coords) := by
  induction coords with
  | nil =>
    intro top bottom
    simp [stepHeightLoop, closestLocs]
  | cons coord rest ih =>
    intro top bottom
    cases hc : coord.m_closestNote with
    | none =>
      have hl : closestLocs (coord :: rest) = closestLocs rest := by
        simp [closestLocs, List.filterMap_cons, hc]
      have hs : stepHeightLoop (coord :: rest) top bottom = stepHeightLoop rest top bottom := by
        simp [stepHeightLoop, hc]
      rw [hl, hs]
      exact ih top bottom
    | some note =>
      have hl : closestLocs (coord :: rest) = note.drawingLoc :: closestLocs rest := by
        simp [closestLocs, List.filterMap_cons, hc]
      have hs : stepHeightLoop (coord :: rest) top bottom
          = stepHeightLoop rest (if note.drawingLoc > top then note.drawingLoc else top)
              (if note.drawingLoc < bottom then note.drawingLoc else bottom) := by
        simp [stepHeightLoop, hc]
      rw [hl, hs]
      have ht : top ≤ (if note.drawingLoc > top then note.drawingLoc else top) ∧
          note.drawingLoc ≤ (if note.drawingLoc > top then note.drawingLoc else top) ∧
          ((if note.drawingLoc > top then note.drawingLoc else top) = top ∨
            (if note.drawingLoc > top then note.drawingLoc else top) = note.drawingLoc) := by
        split_ifs <;> omega
      have hb : (if note.drawingLoc < bottom then note.drawingLoc else bottom) ≤ bottom ∧
          (if note.drawingLoc < bottom then note.drawingLoc else bottom) ≤ note.drawingLoc ∧
          ((if note.drawingLoc < bottom then note.drawingLoc else bottom) = bottom ∨
            (if note.drawingLoc < bottom then note.drawingLoc else bottom)
              = note.drawingLoc) := by
        split_ifs <;> omega
      generalize (if note.drawingLoc > top then note.drawingLoc else top) = top1 at ht ⊢
      generalize (if note.drawingLoc < bottom then note.drawingLoc else bottom) = bottom1 at hb ⊢
      obtain ⟨h1, h2, h3, h4, h5, h6⟩ := ih top1 bottom1
      refine ⟨by omega, ?_, ?_, by omega, ?_, ?_⟩
      · intro loc hloc
        rcases List.mem_cons.mp hloc with rfl | hloc
        · omega
        · exact h2 loc hloc
      · rcases h3 with h3 | h3
        · rcases ht.2.2 with h | h
          · left
            rw [h3, h]
          · right
            rw [h3, h]
            exact List.mem_cons_self _ _
        · right
          exact List.mem_cons_of_mem _ h3
      · intro loc hloc
        rcases List.mem_cons.mp hloc with rfl | hloc
        · omega
        · exact h5 loc hloc
      · rcases h6 with h6 | h6
        · rcases hb.2.2 with h | h
          · left
            rw [h6, h]
          · right
            rw [h6, h]
            exact List.mem_cons_self _ _
        · right
          exact List.mem_cons_of_mem _ h6

/-- Counterexample for C14: a beam of 32nd notes with a single closest note at
staff location 130 has largest and smallest location equal, and
`HasOneStepHeight` returns false: `bottom` stays at its start value 128.  It
also returns false for a beam of 32nd notes without any closest note, where
`top` and `bottom` both keep their start values. -/
theorem HasOneStepHeight_counterexample :
    vrvDef.DUR_32 ≤ highBeam.m_shortestDur ∧
    closestLocs highBeam.m_beamElementCoords = [130] ∧
    (∀ x ∈ closestLocs highBeam.m_beamElementCoords,
      ∀ y ∈ closestLocs highBeam.m_beamElementCoords, x - y ≤ 1) ∧
    HasOneStepHeight vrvDef highBeam = false ∧
    HasOneStepHeight vrvDef { m_shortestDur := 7 } = false := by
  refine ⟨by decide, rfl, ?_, by decide, by decide⟩
  intro x hx y hy
  have h : closestLocs highBeam.m_beamElementCoords = [130] := rfl
  rw [h, List.mem_singleton] at hx hy
  omega

/-- C14 (amended): when every closest note has its staff location between -128
and 128, `HasOneStepHeight` returns true if and only if the shortest duration
is at least `DUR_32`, some coord has a closest note, and the largest and the
smallest staff location of the closest notes differ by at most 1. -/
theorem HasOneStepHeight_iff (k : VrvDef) (b : BeamDrawingInterface)
    (hrange : ∀ loc ∈ closestLocs b.m_beamElementCoords, -128 ≤ loc ∧ loc ≤ 128) :
    HasOneStepHeight k b = true ↔
      k.DUR_32 ≤ b.m_shortestDur ∧ closestLocs b.m_beamElementCoords ≠ [] ∧
      ∀ x ∈ closestLocs b.m_beamElementCoords, ∀ y ∈ closestLocs b.m_beamElementCoords,
        x - y ≤ 1 := by
  obtain ⟨h1, h2, h3, h4, h5, h6⟩ := stepHeightLoop_spec b.m_beamElementCoords (-128) 128
  unfold HasOneStepHeight
  by_cases hd : b.m_shortestDur < k.DUR_32
  · simp only [hd, if_true, Bool.false_eq_true, false_iff]
    intro h
    omega
  simp only [hd, if_false, decide_eq_true_eq]
  have hd1 : k.DUR_32 ≤ b.m_shortestDur := not_lt.mp hd
  constructor
  · intro h
    refine ⟨hd1, ?_, ?_⟩
    · intro hnil
      rw [hnil] at h3 h6
      simp only [List.not_mem_nil, or_false] at h3 h6
      rw [h3, h6] at h
      exact absurd h (by decide)
    · intro x hx y hy
      have := h2 x hx
      have := h5 y hy
      omega
  · rintro ⟨-, hne, hall⟩
    obtain ⟨l0, hl0⟩ := List.exists_mem_of_ne_nil _ hne
    have ht : (stepHeightLoop b.m_beamElementCoords (-128) 128).1
        ∈ closestLocs b.m_beamElementCoords := by
      rcases h3 with h3 | h3
      · have := h2 l0 hl0
        have := (hrange l0 hl0).1
        have : l0 = (stepHeightLoop b.m_beamElementCoords (-128) 128).1 := by omega
        rw [← this]
        exact hl0
      · exact h3
    have hb : (stepHeightLoop b.m_beamElementCoords (-128) 128).2
        ∈ closestLocs b.m_beamElementCoords := by
      rcases h6 with h6 | h6
      · have := h5 l0 hl0
        have := (hrange l0 hl0).2
        have : l0 = (stepHeightLoop b.m_beamElementCoords (-128) 128).2 := by omega
        rw [← this]
        exact hl0
      · exact h6
    have := hall _ ht _ hb
    have := h2 _ hb
    omega

theorem HasOneStepHeight_iff_witness :
    (∀ loc ∈ closestLocs (beamOf data_BEAMPLACE.above [3, 4, 3]).m_beamElementCoords,
      -128 ≤ loc ∧ loc ≤ 128) ∧
    (HasOneStepHeight ⟨1024, 0, -2147483647⟩ (beamOf data_BEAMPLACE.above [3, 4, 3]) = true ↔
      (0 : Int) ≤ (beamOf data_BEAMPLACE.above [3, 4, 3]).m_shortestDur ∧
      closestLocs (beamOf data_BEAMPLACE.above [3, 4, 3]).m_beamElementCoords ≠ [] ∧
      ∀ x ∈ closestLocs (beamOf data_BEAMPLACE.above [3, 4, 3]).m_beamElementCoords,
        ∀ y ∈ closestLocs (beamOf data_BEAMPLACE.above [3, 4, 3]).m_beamElementCoords,
          x - y ≤ 1) :=
  ⟨by decide,
    HasOneStepHeight_iff ⟨1024, 0, -2147483647⟩ (beamOf data_BEAMPLACE.above [3, 4, 3])
      (by decide)⟩

/-! ## The majority rule of IsHorizontalMixedBeam -/

theorem countDirectionChanges_eq (directions : List data_BEAMPLACE) :
    ∀ (previous : data_BEAMPLACE) (n : Nat),
      countDirectionChanges directions previous n
        = n + placementSwitches (previous :: directions) := by
  induction directions with
  | nil =>
    intro previous n
    simp [countDirectionChanges, placementSwitches]
  | cons current rest ih =>
    intro previous n
    by_cases h : current = previous
    · subst h
      simp [countDirectionChanges, placementSwitches, ih]
    · have h2 : previous ≠ current := fun hc => h hc.symm
      simp [countDirectionChanges, placementSwitches, ih, h, h2]
      omega

theorem BeamDirections.get_incr (m : BeamDirections) (x d : data_STEMDIRECTION) :
    (m.incr x).get d = m.get d + if x = d then 1 else 0 := by
  cases x <;> cases d <;> simp [BeamDirections.incr, BeamDirections.get]

theorem refDirections_refOf_cons (k : VrvDef) (previous item : Int) (ys : List Int)
    (d : data_STEMDIRECTION) (hitem : item ≠ k.VRV_UNSET) :
    (refDirections (refOf k previous) (item :: ys)).count d
      = (if previous = k.VRV_UNSET then 0
          else if GetNoteDirection previous item = d then 1 else 0)
        + (refDirections (refOf k (if previous = k.VRV_UNSET then item else previous)) ys).count d := by
  by_cases h : previous = k.VRV_UNSET
  · simp [refOf, h, hitem, refDirections, fromFirstDirections]
  · simp only [refOf, h, if_false, refDirections, List.map_cons, List.count_cons]
    simp only [beq_iff_eq]
    omega

theorem mixedBeamLoop_get (k : VrvDef) (d : data_STEMDIRECTION) (items : List Int) :
    ∀ (directions : List data_BEAMPLACE) (previousTop previousBottom : Int) (m : BeamDirections),
      (∀ y ∈ items, y ≠ k.VRV_UNSET) →
      (mixedBeamLoop k items directions previousTop previousBottom m).get d
        = m.get d
          + (refDirections (refOf k previousTop)
              (groupItems data_BEAMPLACE.above items directions)).count d
          + (refDirections (refOf k previousBottom)
              (groupItems data_BEAMPLACE.below items directions)).count d := by
  induction items with
  | nil =>
    intro directions previousTop previousBottom m _
    cases h1 : refOf k previousTop <;> cases h2 : refOf k previousBottom <;>
      simp [mixedBeamLoop, groupItems, refDirections, fromFirstDirections]
  | cons item items ih =>
    intro directions previousTop previousBottom m hunset
    have hitem : item ≠ k.VRV_UNSET := hunset item (List.mem_cons_self _ _)
    have hrest : ∀ y ∈ items, y ≠ k.VRV_UNSET := fun y hy => hunset y (List.mem_cons_of_mem _ hy)
    cases directions with
    | nil =>
      cases h1 : refOf k previousTop <;> cases h2 : refOf k previousBottom <;>
        simp [mixedBeamLoop, groupItems, refDirections, fromFirstDirections]
    | cons direction directions =>
      by_cases ha : direction = data_BEAMPLACE.above
      · subst ha
        have hg1 : groupItems data_BEAMPLACE.above (item :: items) (data_BEAMPLACE.above :: directions)
            = item :: groupItems data_BEAMPLACE.above items directions := by
          simp [groupItems]
        have hg2 : groupItems data_BEAMPLACE.below (item :: items) (data_BEAMPLACE.above :: directions)
            = groupItems data_BEAMPLACE.below items directions := by
          simp [groupItems]
        rw [hg1, hg2, refDirections_refOf_cons k previousTop item _ d hitem]
        by_cases ht : previousTop = k.VRV_UNSET
        · simp only [mixedBeamLoop, ht, if_true]
          rw [ih directions item previousBottom m hrest]
          omega
        · simp only [mixedBeamLoop, ht, if_false, if_true]
          rw [ih directions previousTop previousBottom _ hrest, BeamDirections.get_incr]
          omega
      · by_cases hb : direction = data_BEAMPLACE.below
        · subst hb
          have hg1 : groupItems data_BEAMPLACE.above (item :: items)
              (data_BEAMPLACE.below :: directions)
              = groupItems data_BEAMPLACE.above items directions := by
            simp [groupItems]
          have hg2 : groupItems data_BEAMPLACE.below (item :: items)
              (data_BEAMPLACE.below :: directions)
              = item :: groupItems data_BEAMPLACE.below items directions := by
            simp [groupItems]
          rw [hg1, hg2, refDirections_refOf_cons k previousBottom item _ d hitem]
          by_cases ht : previousBottom = k.VRV_UNSET
          · simp only [mixedBeamLoop, ht, if_true, ha, if_false]
            rw [ih directions previousTop item m hrest]
            omega
          · simp only [mixedBeamLoop, ht, if_false, if_true, ha]
            rw [ih directions previousTop previousBottom _ hrest, BeamDirections.get_incr]
            omega
        · have hg1 : groupItems data_BEAMPLACE.above (item :: items) (direction :: directions)
              = groupItems data_BEAMPLACE.above items directions := by
            simp [groupItems, ha]
          have hg2 : groupItems data_BEAMPLACE.below (item :: items) (direction :: directions)
              = groupItems data_BEAMPLACE.below items directions := by
            simp [groupItems, hb]
          rw [hg1, hg2]
          simp only [mixedBeamLoop, ha, hb, if_false]
          exact ih directions previousTop previousBottom m hrest

theorem majority_any_iff (outer : data_STEMDIRECTION) (m : BeamDirections)
    (ds : List data_STEMDIRECTION) (hm : ∀ d, m.get d = ds.count d) :
    ([data_STEMDIRECTION.NONE, data_STEMDIRECTION.up, data_STEMDIRECTION.down].any
      (fun d => if d = outer then false else decide (m.get d > m.get outer))) = true
      ↔ Outnumbered outer ds := by
  rw [List.any_eq_true]
  constructor
  · rintro ⟨d, -, hd⟩
    by_cases h : d = outer
    · simp [h] at hd
    · simp only [h, if_false, decide_eq_true_eq] at hd
      rw [hm, hm] at hd
      exact ⟨d, h, hd⟩
  · rintro ⟨d, h, hd⟩
    refine ⟨d, by cases d <;> simp, ?_⟩
    simp only [h, if_false, decide_eq_true_eq]
    rw [hm, hm]
    exact hd

/-- Counterexample for C13: anchors at `[0, 50, 10, 5, 3]` placed above, below,
above, above, above.  The placement switches twice and the outer direction is up.
Between consecutive anchors of the group above the directions are up, down, down,
so down outnumbers up (the same holds when only anchors next to each other in
the sequence are paired); `IsHorizontalMixedBeam` returns false, because it
counts the directions from the first anchor of the group: up, up, up. -/
theorem IsHorizontalMixedBeam_counterexample :
    zigzagItems.length = zigzagDirections.length ∧
    1 < placementSwitches zigzagDirections ∧
    GetNoteDirection 0 3 = data_STEMDIRECTION.up ∧
    consecutiveDirections (groupItems data_BEAMPLACE.above zigzagItems zigzagDirections)
      = [data_STEMDIRECTION.up, data_STEMDIRECTION.down, data_STEMDIRECTION.down] ∧
    consecutiveDirections (groupItems data_BEAMPLACE.below zigzagItems zigzagDirections) = [] ∧
    Outnumbered (GetNoteDirection 0 3)
      (consecutiveDirections (groupItems data_BEAMPLACE.above zigzagItems zigzagDirections)
        ++ consecutiveDirections (groupItems data_BEAMPLACE.below zigzagItems zigzagDirections)) ∧
    IsHorizontalMixedBeam vrvDef (beamOf data_BEAMPLACE.mixed zigzagItems) zigzagItems
      zigzagDirections = some false :=
  ⟨by decide, by decide, by decide, by decide, by decide,
    ⟨data_STEMDIRECTION.down, by decide, by decide⟩, by decide⟩

/-- C13 (amended): for equal-length items and directions with first item `first`
and last item `last`, where the 3-element cross-staff rule does not fire and no
item has the value `VRV_UNSET`, `IsHorizontalMixedBeam` returns false if the
placement switches at most once along the sequence; otherwise it returns true
if and only if some direction other than the outer direction
`GetNoteDirection(first, last)` occurs strictly more often than the outer
direction, where the occurrences counted are the directions from the first
anchor of each placement group (above, below) to each later anchor of the same
group. -/
theorem IsHorizontalMixedBeam_majority (k : VrvDef) (b : BeamDrawingInterface)
    (items : List Int) (directions : List data_BEAMPLACE) (first last : Int)
    (hlen : items.length = directions.length)
    (hfirst : items.head? = some first) (hlast : items.getLast? = some last)
    (hrule : ¬ (items.length = 3 ∧ b.m_crossStaffContent.isSome = true ∧
      directions.get? 0 = directions.get? 2 ∧ directions.get? 0 ≠ directions.get? 1))
    (hunset : ∀ y ∈ items, y ≠ k.VRV_UNSET) :
    (placementSwitches directions ≤ 1 →
      IsHorizontalMixedBeam k b items directions = some false) ∧
    (1 < placementSwitches directions →
      ∃ r, IsHorizontalMixedBeam k b items directions = some r ∧
        (r = true ↔
          Outnumbered (GetNoteDirection first last)
            (fromFirstDirections (groupItems data_BEAMPLACE.above items directions)
              ++ fromFirstDirections (groupItems data_BEAMPLACE.below items directions)))) := by
  have hr : (items.length = 3 && b.m_crossStaffContent.isSome
      && (decide (directions.get? 0 = directions.get? 2)
        && decide (directions.get? 0 ≠ directions.get? 1))) = false := by
    rw [Bool.eq_false_iff]
    intro hc
    apply hrule
    simp only [Bool.and_eq_true, decide_eq_true_eq] at hc
    exact ⟨hc.1.1, hc.1.2, hc.2.1, hc.2.2⟩
  obtain ⟨previous, rest, hdirs⟩ : ∃ previous rest, directions = previous :: rest := by
    cases directions with
    | nil =>
      cases items with
      | nil => simp at hfirst
      | cons a t => simp at hlen
    | cons previous rest => exact ⟨previous, rest, rfl⟩
  have hhead : directions.head? = some previous := by rw [hdirs]; rfl
  have hcount : countDirectionChanges directions previous 0 = placementSwitches directions := by
    rw [countDirectionChanges_eq, hdirs]
    simp [placementSwitches]
  have hget : ∀ d, (mixedBeamLoop k items directions k.VRV_UNSET k.VRV_UNSET {}).get d
      = (fromFirstDirections (groupItems data_BEAMPLACE.above items directions)
          ++ fromFirstDirections (groupItems data_BEAMPLACE.below items directions)).count d := by
    intro d
    rw [mixedBeamLoop_get k d items directions _ _ _ hunset, List.count_append]
    have h0 : ({} : BeamDirections).get d = 0 := by cases d <;> rfl
    simp [refOf, refDirections, h0]
  constructor
  · intro hsw
    unfold IsHorizontalMixedBeam
    rw [if_neg (fun h => h hlen), hr]
    simp only [if_false, Bool.false_eq_true, hhead, hfirst, hlast, hcount, hsw, if_true]
  · intro hsw
    have hsw2 : ¬ placementSwitches directions ≤ 1 := by omega
    refine ⟨_, ?_, majority_any_iff (GetNoteDirection first last) _ _ hget⟩
    unfold IsHorizontalMixedBeam
    rw [if_neg (fun h => h hlen), hr]
    simp only [if_false, Bool.false_eq_true, hhead, hfirst, hlast, hcount, hsw2]

theorem IsHorizontalMixedBeam_majority_witness :
    1 < placementSwitches zigzagDirections ∧
    fromFirstDirections (groupItems data_BEAMPLACE.above zigzagItems zigzagDirections)
      = [data_STEMDIRECTION.up, data_STEMDIRECTION.up, data_STEMDIRECTION.up] ∧
    ((placementSwitches zigzagDirections ≤ 1 →
      IsHorizontalMixedBeam vrvDef (beamOf data_BEAMPLACE.mixed zigzagItems) zigzagItems
        zigzagDirections = some false) ∧
    (1 < placementSwitches zigzagDirections →
      ∃ r, IsHorizontalMixedBeam vrvDef (beamOf data_BEAMPLACE.mixed zigzagItems) zigzagItems
          zigzagDirections = some r ∧
        (r = true ↔
          Outnumbered (GetNoteDirection 0 3)
            (fromFirstDirections (groupItems data_BEAMPLACE.above zigzagItems zigzagDirections)
              ++ fromFirstDirections
                (groupItems data_BEAMPLACE.below zigzagItems zigzagDirections))))) :=
  ⟨by decide, by decide,
    IsHorizontalMixedBeam_majority vrvDef (beamOf data_BEAMPLACE.mixed zigzagItems) zigzagItems
      zigzagDirections 0 3 (by decide) rfl rfl (by decide) (by decide)⟩

/-! ## BeamDrawingInterface::InitCoords -/

/-! Members that a part of the loop body leaves as they are. -/

@[simp]
theorem markChord_m_beamElementCoords (b : BeamDrawingInterface) (current : LayerElement) :
    (markChord b current).m_beamElementCoords = b.m_beamElementCoords := by
  unfold markChord
  split_ifs <;> rfl

@[simp]
theorem markChord_m_beamStaff (b : BeamDrawingInterface) (current : LayerElement) :
    (markChord b current).m_beamStaff = b.m_beamStaff := by
  unfold markChord
  split_ifs <;> rfl

@[simp]
theorem markChord_m_shortestDur (b : BeamDrawingInterface) (current : LayerElement) :
    (markChord b current).m_shortestDur = b.m_shortestDur := by
  unfold markChord
  split_ifs <;> rfl

@[simp]
theorem markChord_m_changingDur (b : BeamDrawingInterface) (current : LayerElement) :
    (markChord b current).m_changingDur = b.m_changingDur := by
  unfold markChord
  split_ifs <;> rfl

@[simp]
theorem markChord_m_hasMultipleStemDir (b : BeamDrawingInterface) (current : LayerElement) :
    (markChord b current).m_hasMultipleStemDir = b.m_hasMultipleStemDir := by
  unfold markChord
  split_ifs <;> rfl

@[simp]
theorem markChord_m_notesStemDir (b : BeamDrawingInterface) (current : LayerElement) :
    (markChord b current).m_notesStemDir = b.m_notesStemDir := by
  unfold markChord
  split_ifs <;> rfl

@[simp]
theorem markChord_m_crossStaffContent (b : BeamDrawingInterface) (current : LayerElement) :
    (markChord b current).m_crossStaffContent = b.m_crossStaffContent := by
  unfold markChord
  split_ifs <;> rfl

@[simp]
theorem markChord_m_crossStaffRel (b : BeamDrawingInterface) (current : LayerElement) :
    (markChord b current).m_crossStaffRel = b.m_crossStaffRel := by
  unfold markChord
  split_ifs <;> rfl

@[simp]
theorem fillCoord_m_beamStaff (b : BeamDrawingInterface) (elementCount : Nat) (current : LayerElement) (currentDur : Int) :
    (fillCoord b elementCount current currentDur).m_beamStaff = b.m_beamStaff := by
  unfold fillCoord
  rfl

@[simp]
theorem fillCoord_m_shortestDur (b : BeamDrawingInterface) (elementCount : Nat) (current : LayerElement) (currentDur : Int) :
    (fillCoord b elementCount current currentDur).m_shortestDur = b.m_shortestDur := by
  unfold fillCoord
  rfl

@[simp]
theorem fillCoord_m_changingDur (b : BeamDrawingInterface) (elementCount : Nat) (current : LayerElement) (currentDur : Int) :
    (fillCoord b elementCount current currentDur).m_changingDur = b.m_changingDur := by
  unfold fillCoord
  rfl

@[simp]
theorem fillCoord_m_hasMultipleStemDir (b : BeamDrawingInterface) (elementCount : Nat) (current : LayerElement) (currentDur : Int) :
    (fillCoord b elementCount current currentDur).m_hasMultipleStemDir = b.m_hasMultipleStemDir := by
  unfold fillCoord
  rfl

@[simp]
theorem fillCoord_m_notesStemDir (b : BeamDrawingInterface) (elementCount : Nat) (current : LayerElement) (currentDur : Int) :
    (fillCoord b elementCount current currentDur).m_notesStemDir = b.m_notesStemDir := by
  unfold fillCoord
  rfl

@[simp]
theorem fillCoord_m_crossStaffContent (b : BeamDrawingInterface) (elementCount : Nat) (current : LayerElement) (currentDur : Int) :
    (fillCoord b elementCount current currentDur).m_crossStaffContent = b.m_crossStaffContent := by
  unfold fillCoord
  rfl

@[simp]
theorem fillCoord_m_crossStaffRel (b : BeamDrawingInterface) (elementCount : Nat) (current : LayerElement) (currentDur : Int) :
    (fillCoord b elementCount current currentDur).m_crossStaffRel = b.m_crossStaffRel := by
  unfold fillCoord
  rfl

@[simp]
theorem beamBreak_m_beamStaff (b : BeamDrawingInterface) (elementCount : Nat) (current : LayerElement) :
    (beamBreak b elementCount current).m_beamStaff = b.m_beamStaff := by
  unfold beamBreak
  split <;> rfl

@[simp]
theorem beamBreak_m_shortestDur (b : BeamDrawingInterface) (elementCount : Nat) (current : LayerElement) :
    (beamBreak b elementCount current).m_shortestDur = b.m_shortestDur := by
  unfold beamBreak
  split <;> rfl

@[simp]
theorem beamBreak_m_hasMultipleStemDir (b : BeamDrawingInterface) (elementCount : Nat) (current : LayerElement) :
    (beamBreak b elementCount current).m_hasMultipleStemDir = b.m_hasMultipleStemDir := by
  unfold beamBreak
  split <;> rfl

@[simp]
theorem beamBreak_m_notesStemDir (b : BeamDrawingInterface) (elementCount : Nat) (current : LayerElement) :
    (beamBreak b elementCount current).m_notesStemDir = b.m_notesStemDir := by
  unfold beamBreak
  split <;> rfl

@[simp]
theorem beamBreak_m_crossStaffContent (b : BeamDrawingInterface) (elementCount : Nat) (current : LayerElement) :
    (beamBreak b elementCount current).m_crossStaffContent = b.m_crossStaffContent := by
  unfold beamBreak
  split <;> rfl

@[simp]
theorem beamBreak_m_crossStaffRel (b : BeamDrawingInterface) (elementCount : Nat) (current : LayerElement) :
    (beamBreak b elementCount current).m_crossStaffRel = b.m_crossStaffRel := by
  unfold beamBreak
  split <;> rfl

@[simp]
theorem crossStaffStep_m_beamElementCoords (b : BeamDrawingInterface) (current : LayerElement) :
    (crossStaffStep b current).m_beamElementCoords = b.m_beamElementCoords := by
  unfold crossStaffStep crossStaffOfNote
  split_ifs <;> rfl

@[simp]
theorem crossStaffStep_m_beamStaff (b : BeamDrawingInterface) (current : LayerElement) :
    (crossStaffStep b current).m_beamStaff = b.m_beamStaff := by
  unfold crossStaffStep crossStaffOfNote
  split_ifs <;> rfl

@[simp]
theorem crossStaffStep_m_shortestDur (b : BeamDrawingInterface) (current : LayerElement) :
    (crossStaffStep b current).m_shortestDur = b.m_shortestDur := by
  unfold crossStaffStep crossStaffOfNote
  split_ifs <;> rfl

@[simp]
theorem crossStaffStep_m_changingDur (b : BeamDrawingInterface) (current : LayerElement) :
    (crossStaffStep b current).m_changingDur = b.m_changingDur := by
  unfold crossStaffStep crossStaffOfNote
  split_ifs <;> rfl

@[simp]
theorem crossStaffStep_m_hasMultipleStemDir (b : BeamDrawingInterface) (current : LayerElement) :
    (crossStaffStep b current).m_hasMultipleStemDir = b.m_hasMultipleStemDir := by
  unfold crossStaffStep crossStaffOfNote
  split_ifs <;> rfl

@[simp]
theorem crossStaffStep_m_notesStemDir (b : BeamDrawingInterface) (current : LayerElement) :
    (crossStaffStep b current).m_notesStemDir = b.m_notesStemDir := by
  unfold crossStaffStep crossStaffOfNote
  split_ifs <;> rfl

@[simp]
theorem stemDirStep_m_beamElementCoords (b : BeamDrawingInterface) (current : LayerElement) :
    (stemDirStep b current).m_beamElementCoords = b.m_beamElementCoords := by
  unfold stemDirStep
  split_ifs <;> rfl

@[simp]
theorem stemDirStep_m_beamStaff (b : BeamDrawingInterface) (current : LayerElement) :
    (stemDirStep b current).m_beamStaff = b.m_beamStaff := by
  unfold stemDirStep
  split_ifs <;> rfl

@[simp]
theorem stemDirStep_m_shortestDur (b : BeamDrawingInterface) (current : LayerElement) :
    (stemDirStep b current).m_shortestDur = b.m_shortestDur := by
  unfold stemDirStep
  split_ifs <;> rfl

@[simp]
theorem stemDirStep_m_changingDur (b : BeamDrawingInterface) (current : LayerElement) :
    (stemDirStep b current).m_changingDur = b.m_changingDur := by
  unfold stemDirStep
  split_ifs <;> rfl

@[simp]
theorem stemDirStep_m_crossStaffContent (b : BeamDrawingInterface) (current : LayerElement) :
    (stemDirStep b current).m_crossStaffContent = b.m_crossStaffContent := by
  unfold stemDirStep
  split_ifs <;> rfl

@[simp]
theorem stemDirStep_m_crossStaffRel (b : BeamDrawingInterface) (current : LayerElement) :
    (stemDirStep b current).m_crossStaffRel = b.m_crossStaffRel := by
  unfold stemDirStep
  split_ifs <;> rfl

@[simp]
theorem shortestDurStep_m_beamElementCoords (b : BeamDrawingInterface) (current : LayerElement) (currentDur : Int) :
    (shortestDurStep b current currentDur).m_beamElementCoords = b.m_beamElementCoords := by
  unfold shortestDurStep
  split_ifs <;> rfl

@[simp]
theorem shortestDurStep_m_beamStaff (b : BeamDrawingInterface) (current : LayerElement) (currentDur : Int) :
    (shortestDurStep b current currentDur).m_beamStaff = b.m_beamStaff := by
  unfold shortestDurStep
  split_ifs <;> rfl

@[simp]
theorem shortestDurStep_m_changingDur (b : BeamDrawingInterface) (current : LayerElement) (currentDur : Int) :
    (shortestDurStep b current currentDur).m_changingDur = b.m_changingDur := by
  unfold shortestDurStep
  split_ifs <;> rfl

@[simp]
theorem shortestDurStep_m_hasMultipleStemDir (b : BeamDrawingInterface) (current : LayerElement) (currentDur : Int) :
    (shortestDurStep b current currentDur).m_hasMultipleStemDir = b.m_hasMultipleStemDir := by
  unfold shortestDurStep
  split_ifs <;> rfl

@[simp]
theorem shortestDurStep_m_notesStemDir (b : BeamDrawingInterface) (current : LayerElement) (currentDur : Int) :
    (shortestDurStep b current currentDur).m_notesStemDir = b.m_notesStemDir := by
  unfold shortestDurStep
  split_ifs <;> rfl

@[simp]
theorem shortestDurStep_m_crossStaffContent (b : BeamDrawingInterface) (current : LayerElement) (currentDur : Int) :
    (shortestDurStep b current currentDur).m_crossStaffContent = b.m_crossStaffContent := by
  unfold shortestDurStep
  split_ifs <;> rfl

@[simp]
theorem shortestDurStep_m_crossStaffRel (b : BeamDrawingInterface) (current : LayerElement) (currentDur : Int) :
    (shortestDurStep b current currentDur).m_crossStaffRel = b.m_crossStaffRel := by
  unfold shortestDurStep
  split_ifs <;> rfl

@[simp]
theorem changingDurStep_m_beamElementCoords (b : BeamDrawingInterface) (currentDur lastDur : Int) :
    (changingDurStep b currentDur lastDur).m_beamElementCoords = b.m_beamElementCoords := by
  unfold changingDurStep
  split_ifs <;> rfl

@[simp]
theorem changingDurStep_m_beamStaff (b : BeamDrawingInterface) (currentDur lastDur : Int) :
    (changingDurStep b currentDur lastDur).m_beamStaff = b.m_beamStaff := by
  unfold changingDurStep
  split_ifs <;> rfl

@[simp]
theorem changingDurStep_m_shortestDur (b : BeamDrawingInterface) (currentDur lastDur : Int) :
    (changingDurStep b currentDur lastDur).m_shortestDur = b.m_shortestDur := by
  unfold changingDurStep
  split_ifs <;> rfl

@[simp]
theorem changingDurStep_m_hasMultipleStemDir (b : BeamDrawingInterface) (currentDur lastDur : Int) :
    (changingDurStep b currentDur lastDur).m_hasMultipleStemDir = b.m_hasMultipleStemDir := by
  unfold changingDurStep
  split_ifs <;> rfl

@[simp]
theorem changingDurStep_m_notesStemDir (b : BeamDrawingInterface) (currentDur lastDur : Int) :
    (changingDurStep b currentDur lastDur).m_notesStemDir = b.m_notesStemDir := by
  unfold changingDurStep
  split_ifs <;> rfl

@[simp]
theorem changingDurStep_m_crossStaffContent (b : BeamDrawingInterface) (currentDur lastDur : Int) :
    (changingDurStep b currentDur lastDur).m_crossStaffContent = b.m_crossStaffContent := by
  unfold changingDurStep
  split_ifs <;> rfl

@[simp]
theorem changingDurStep_m_crossStaffRel (b : BeamDrawingInterface) (currentDur lastDur : Int) :
    (changingDurStep b currentDur lastDur).m_crossStaffRel = b.m_crossStaffRel := by
  unfold changingDurStep
  split_ifs <;> rfl

@[simp]
theorem markChord_m_drawingPlace (b : BeamDrawingInterface) (current : LayerElement) :
    (markChord b current).m_drawingPlace = b.m_drawingPlace := by
  unfold markChord
  split_ifs <;> rfl

@[simp]
theorem fillCoord_m_drawingPlace (b : BeamDrawingInterface) (elementCount : Nat) (current : LayerElement) (currentDur : Int) :
    (fillCoord b elementCount current currentDur).m_drawingPlace = b.m_drawingPlace := by
  unfold fillCoord
  rfl

@[simp]
theorem beamBreak_m_drawingPlace (b : BeamDrawingInterface) (elementCount : Nat) (current : LayerElement) :
    (beamBreak b elementCount current).m_drawingPlace = b.m_drawingPlace := by
  unfold beamBreak
  split <;> rfl

@[simp]
theorem crossStaffStep_m_drawingPlace (b : BeamDrawingInterface) (current : LayerElement) :
    (crossStaffStep b current).m_drawingPlace = b.m_drawingPlace := by
  unfold crossStaffStep crossStaffOfNote
  split_ifs <;> rfl

@[simp]
theorem stemDirStep_m_drawingPlace (b : BeamDrawingInterface) (current : LayerElement) :
    (stemDirStep b current).m_drawingPlace = b.m_drawingPlace := by
  unfold stemDirStep
  split_ifs <;> rfl

@[simp]
theorem shortestDurStep_m_drawingPlace (b : BeamDrawingInterface) (current : LayerElement) (currentDur : Int) :
    (shortestDurStep b current currentDur).m_drawingPlace = b.m_drawingPlace := by
  unfold shortestDurStep
  split_ifs <;> rfl

@[simp]
theorem changingDurStep_m_drawingPlace (b : BeamDrawingInterface) (currentDur lastDur : Int) :
    (changingDurStep b currentDur lastDur).m_drawingPlace = b.m_drawingPlace := by
  unfold changingDurStep
  split_ifs <;> rfl

/-! Members that a part of the loop body assigns. -/

theorem updateCoord_append (f : BeamElementCoord → BeamElementCoord)
    (done : List BeamElementCoord) (coord : BeamElementCoord) (rest : List BeamElementCoord) :
    updateCoord f (done ++ coord :: rest) done.length = done ++ f coord :: rest := by
  induction done with
  | nil => rfl
  | cons a t ih => simp [updateCoord, ih]

theorem updateCoord_updateCoord (f g : BeamElementCoord → BeamElementCoord)
    (coords : List BeamElementCoord) :
    ∀ n : Nat, updateCoord g (updateCoord f coords n) n = updateCoord (fun c => g (f c)) coords n := by
  induction coords with
  | nil =>
    intro n
    rfl
  | cons a t ih =>
    intro n
    cases n with
    | zero => rfl
    | succ n => simp [updateCoord, ih]

@[simp]
theorem fillCoord_coords (b : BeamDrawingInterface) (n : Nat) (e : LayerElement) (d : Int) :
    (fillCoord b n e d).m_beamElementCoords
      = updateCoord
          (fun coord => { coord with m_element := some e, m_dur := d, m_breaksec := 0 })
          b.m_beamElementCoords n := rfl

theorem beamBreak_coords (b : BeamDrawingInterface) (n : Nat) (e : LayerElement) :
    (beamBreak b n e).m_beamElementCoords
      = match e.breaksec with
        | some breaksec =>
          updateCoord (fun coord => { coord with m_breaksec := breaksec }) b.m_beamElementCoords n
        | none => b.m_beamElementCoords := by
  unfold beamBreak
  split <;> rfl

@[simp]
theorem beamBreak_changingDur (b : BeamDrawingInterface) (n : Nat) (e : LayerElement) :
    (beamBreak b n e).m_changingDur = (b.m_changingDur || e.breaksec.isSome) := by
  unfold beamBreak
  split <;> simp [*]

@[simp]
theorem shortestDurStep_shortestDur (b : BeamDrawingInterface) (e : LayerElement) (d : Int) :
    (shortestDurStep b e d).m_shortestDur
      = if e.classId = ClassId.CHORD ∨ e.classId = ClassId.NOTE ∨ e.classId = ClassId.TABGRP
        then max d b.m_shortestDur else b.m_shortestDur := by
  unfold shortestDurStep
  split_ifs <;> rfl

@[simp]
theorem changingDurStep_changingDur (b : BeamDrawingInterface) (d lastDur : Int) :
    (changingDurStep b d lastDur).m_changingDur = (b.m_changingDur || decide (d ≠ lastDur)) := by
  unfold changingDurStep
  cases hc : b.m_changingDur <;> split_ifs <;> simp_all

theorem initCoordsElement_coords (b : BeamDrawingInterface) (lastDur : Int) (n : Nat)
    (e : LayerElement) (d : Int) :
    (initCoordsElement b lastDur n e d).m_beamElementCoords
      = updateCoord
          (fun coord =>
            { coord with m_element := some e, m_dur := d, m_breaksec := e.breaksec.getD 0 })
          b.m_beamElementCoords n := by
  simp only [initCoordsElement, changingDurStep_m_beamElementCoords,
    shortestDurStep_m_beamElementCoords, stemDirStep_m_beamElementCoords,
    crossStaffStep_m_beamElementCoords, beamBreak_coords, fillCoord_coords,
    markChord_m_beamElementCoords]
  cases hb : e.breaksec with
  | none => rfl
  | some breaksec =>
    simp only [updateCoord_updateCoord]
    rfl

theorem initCoordsElement_beamStaff (b : BeamDrawingInterface) (lastDur : Int) (n : Nat)
    (e : LayerElement) (d : Int) :
    (initCoordsElement b lastDur n e d).m_beamStaff = b.m_beamStaff := by
  simp [initCoordsElement]

theorem initCoordsElement_shortestDur (b : BeamDrawingInterface) (lastDur : Int) (n : Nat)
    (e : LayerElement) (d : Int) :
    (initCoordsElement b lastDur n e d).m_shortestDur
      = if e.classId = ClassId.CHORD ∨ e.classId = ClassId.NOTE ∨ e.classId = ClassId.TABGRP
        then max d b.m_shortestDur else b.m_shortestDur := by
  simp [initCoordsElement]

theorem initCoordsElement_changingDur (b : BeamDrawingInterface) (lastDur : Int) (n : Nat)
    (e : LayerElement) (d : Int) :
    (initCoordsElement b lastDur n e d).m_changingDur
      = (b.m_changingDur || e.breaksec.isSome || decide (d ≠ lastDur)) := by
  simp [initCoordsElement]

theorem initCoordsLoop_inv
    (P : BeamDrawingInterface → Int → List LayerElement → List LayerElement → Prop)
    (step : ∀ (b : BeamDrawingInterface) (lastDur : Int) (seen : List LayerElement)
      (e : LayerElement) (todo : List LayerElement) (d : Int),
      P b lastDur seen (e :: todo) → e.actualDur = some d →
      P (initCoordsElement b lastDur seen.length e d) d (seen ++ [e]) todo) :
    ∀ (todo : List LayerElement) (b : BeamDrawingInterface) (lastDur : Int)
      (seen : List LayerElement) (current : LayerElement),
      P b lastDur seen (current :: todo) →
      (∀ e ∈ current :: todo, e.actualDur.isSome = true) →
      ∃ r lastDur1, initCoordsLoop b lastDur seen.length current (todo.map some) = some r ∧
        P r lastDur1 (seen ++ current :: todo) [] := by
  intro todo
  induction todo with
  | nil =>
    intro b lastDur seen current hP hdur
    obtain ⟨d, hd⟩ := Option.isSome_iff_exists.mp (hdur current (List.mem_cons_self _ _))
    refine ⟨_, d, ?_, step b lastDur seen current [] d hP hd⟩
    simp [initCoordsLoop, hd]
  | cons next todo ih =>
    intro b lastDur seen current hP hdur
    obtain ⟨d, hd⟩ := Option.isSome_iff_exists.mp (hdur current (List.mem_cons_self _ _))
    have hP1 := step b lastDur seen current (next :: todo) d hP hd
    have hlen : (seen ++ [current]).length = seen.length + 1 := by simp
    obtain ⟨r, lastDur1, hr, hPr⟩ := ih _ d (seen ++ [current]) next hP1
      (fun e he => hdur e (List.mem_cons_of_mem _ he))
    refine ⟨r, lastDur1, ?_, ?_⟩
    · rw [hlen] at hr
      simpa [initCoordsLoop, hd] using hr
    · simpa using hPr

theorem InitCoords_inv
    (P : BeamDrawingInterface → Int → List LayerElement → List LayerElement → Prop)
    (step : ∀ (b : BeamDrawingInterface) (lastDur : Int) (seen : List LayerElement)
      (e : LayerElement) (todo : List LayerElement) (d : Int),
      P b lastDur seen (e :: todo) → e.actualDur = some d →
      P (initCoordsElement b lastDur seen.length e d) d (seen ++ [e]) todo)
    (b : BeamDrawingInterface) (staff : Ref) (place : data_BEAMPLACE)
    (current : LayerElement) (rest : List LayerElement)
    (hdur : ∀ e ∈ current :: rest, e.actualDur.isSome = true)
    (init : ∀ d, current.actualDur = some d →
      P (beamStart staff (current :: rest).length) d [] (current :: rest)) :
    ∃ r lastDur, InitCoords b ((current :: rest).map some) staff place = some r ∧
      P r lastDur (current :: rest) [] := by
  obtain ⟨d, hd⟩ := Option.isSome_iff_exists.mp (hdur current (List.mem_cons_self _ _))
  obtain ⟨r, lastDur1, hr, hPr⟩ :=
    initCoordsLoop_inv P step rest (beamStart staff (current :: rest).length) d [] current
      (init d hd) hdur
  refine ⟨r, lastDur1, ?_, by simpa using hPr⟩
  rw [← hr]
  simp [InitCoords, hd, beamStart, ClearCoords, BeamDrawingInterface.Reset]

/-! ### One coord per element -/

theorem InitCoords_nil (b : BeamDrawingInterface) (staff : Ref) (place : data_BEAMPLACE) :
    InitCoords b [] staff place = some (ClearCoords b.Reset) := rfl

theorem InitCoords_coords (b : BeamDrawingInterface) (staff : Ref) (place : data_BEAMPLACE)
    (elems : List LayerElement) (hdur : ∀ e ∈ elems, e.actualDur.isSome = true) :
    ∃ r, InitCoords b (elems.map some) staff place = some r ∧
      r.m_beamElementCoords = elems.map coordOf := by
  cases elems with
  | nil => exact ⟨_, rfl, rfl⟩
  | cons current rest =>
    obtain ⟨r, -, hr, hP⟩ := InitCoords_inv
      (fun b _ seen todo =>
        b.m_beamElementCoords
          = seen.map coordOf ++ List.replicate todo.length ({} : BeamElementCoord))
      (by
        intro b lastDur seen e todo d hP hd
        have hlen : seen.length = (seen.map coordOf).length := by simp
        rw [initCoordsElement_coords, hP, List.length_cons, List.replicate_succ, hlen,
          updateCoord_append]
        simp [coordOf, hd])
      b staff place current rest hdur (fun d _ => rfl)
    exact ⟨r, hr, by simpa using hP⟩

/-- C15: for every element list whose members are all layer elements with a
duration, `InitCoords` returns, and afterwards the coord array has exactly as
many entries as the list (none for an empty list); for every index `i`, coord `i`
refers to element `i` of the list and holds that element's actual duration; and
the coords do not depend on the state before the call, so coords left from an
earlier call are discarded. -/
theorem InitCoords_one_coord_per_element (b : BeamDrawingInterface) (staff : Ref)
    (place : data_BEAMPLACE) (elems : List LayerElement)
    (hdur : ∀ e ∈ elems, e.actualDur.isSome = true) :
    ∃ r, InitCoords b (elems.map some) staff place = some r ∧
      r.m_beamElementCoords.length = elems.length ∧
      (elems = [] → r.m_beamElementCoords = []) ∧
      (∀ (i : Nat) (e : LayerElement), elems[i]? = some e →
        ∃ coord, r.m_beamElementCoords[i]? = some coord ∧ coord.m_element = some e ∧
          some coord.m_dur = e.actualDur) ∧
      (∀ b1 : BeamDrawingInterface,
        (InitCoords b1 (elems.map some) staff place).map
          BeamDrawingInterface.m_beamElementCoords = some r.m_beamElementCoords) := by
  obtain ⟨r, hr, hc⟩ := InitCoords_coords b staff place elems hdur
  refine ⟨r, hr, by simp [hc], ?_, ?_, ?_⟩
  · intro h
    rw [hc, h]
    rfl
  · intro i e he
    refine ⟨coordOf e, by simp [hc, he], rfl, ?_⟩
    obtain ⟨d, hd⟩ := Option.isSome_iff_exists.mp (hdur e (List.getElem?_mem he))
    simp [coordOf, hd]
  · intro b1
    obtain ⟨r1, hr1, hc1⟩ := InitCoords_coords b1 staff place elems hdur
    rw [hr1, hc, ← hc1]
    rfl

theorem InitCoords_one_coord_per_element_witness :
    (∀ e ∈ [noteOf 5 data_STEMDIRECTION.up, restOf 6 data_STEMDIRECTION.NONE],
      e.actualDur.isSome = true) ∧
    ∃ r, InitCoords usedBeam
        ([noteOf 5 data_STEMDIRECTION.up, restOf 6 data_STEMDIRECTION.NONE].map some) 0
        data_BEAMPLACE.above = some r ∧
      r.m_beamElementCoords.length
        = [noteOf 5 data_STEMDIRECTION.up, restOf 6 data_STEMDIRECTION.NONE].length ∧
      ([noteOf 5 data_STEMDIRECTION.up, restOf 6 data_STEMDIRECTION.NONE] = [] →
        r.m_beamElementCoords = []) ∧
      (∀ (i : Nat) (e : LayerElement),
        [noteOf 5 data_STEMDIRECTION.up, restOf 6 data_STEMDIRECTION.NONE][i]? = some e →
        ∃ coord, r.m_beamElementCoords[i]? = some coord ∧ coord.m_element = some e ∧
          some coord.m_dur = e.actualDur) ∧
      (∀ b1 : BeamDrawingInterface,
        (InitCoords b1
          ([noteOf 5 data_STEMDIRECTION.up, restOf 6 data_STEMDIRECTION.NONE].map some) 0
          data_BEAMPLACE.above).map
          BeamDrawingInterface.m_beamElementCoords = some r.m_beamElementCoords) :=
  ⟨by decide,
    InitCoords_one_coord_per_element usedBeam 0 data_BEAMPLACE.above
      [noteOf 5 data_STEMDIRECTION.up, restOf 6 data_STEMDIRECTION.NONE] (by decide)⟩

/-! ### Cross-staff content -/

theorem crossStaffOfNote_pair (b : BeamDrawingInterface) (note : ChordNote) (staff : Ref)
    (hb : b.m_beamStaff = some staff) :
    ((crossStaffOfNote b note).m_crossStaffContent, (crossStaffOfNote b note).m_crossStaffRel)
      = if note.crossMatch staff = [] then (b.m_crossStaffContent, b.m_crossStaffRel)
        else recorded (note.crossMatch staff).getLast? := by
  unfold crossStaffOfNote ChordNote.crossOther ChordNote.crossMatch
  rw [hb]
  cases hn : note.m_crossStaff with
  | none => simp
  | some s =>
    by_cases hs : s = staff
    · simp [hs]
    · simp [hs, recorded]

theorem crossStaffOfNote_beamStaff (b : BeamDrawingInterface) (note : ChordNote) :
    (crossStaffOfNote b note).m_beamStaff = b.m_beamStaff := by
  unfold crossStaffOfNote
  split_ifs <;> rfl

theorem crossStaffStep_pair (b : BeamDrawingInterface) (e : LayerElement) (staff : Ref)
    (hb : b.m_beamStaff = some staff) :
    ((crossStaffStep b e).m_crossStaffContent, (crossStaffStep b e).m_crossStaffRel)
      = if crossStaffMatches staff e = [] then (b.m_crossStaffContent, b.m_crossStaffRel)
        else recorded (crossStaffMatches staff e).getLast? := by
  have htop := crossStaffOfNote_pair b e.topNote staff hb
  have hbot := crossStaffOfNote_pair (crossStaffOfNote b e.topNote) e.bottomNote staff
    (by rw [crossStaffOfNote_beamStaff, hb])
  unfold crossStaffStep crossStaffMatches LayerElement.ownMatch
  rw [hb]
  cases he : e.crossStaff with
  | some s =>
    by_cases hs : s = staff
    · by_cases hc : e.classId = ClassId.CHORD
      · simp only [hs, hc, Option.isSome_some, ne_eq, not_true_eq_false, decide_False,
          Bool.and_false, Bool.false_eq_true, if_false, if_true]
        rw [hbot, htop]
        by_cases h1 : e.bottomNote.crossMatch staff = []
        · simp [h1]
        · simp [h1, List.getLast?_append]
          cases hl : (e.bottomNote.crossMatch staff).getLast? with
          | none => exact absurd (List.getLast?_eq_none_iff.mp hl) h1
          | some m => simp
      · simp [hs, hc]
    · simp [hs, recorded]
  | none =>
    by_cases hc : e.classId = ClassId.CHORD
    · simp only [hc, Option.isSome_none, Bool.false_and, Bool.false_eq_true, if_false, if_true, ne_eq,
        not_true_eq_false]
      rw [hbot, htop]
      by_cases h1 : e.bottomNote.crossMatch staff = []
      · simp [h1]
      · simp [h1, List.getLast?_append]
        cases hl : (e.bottomNote.crossMatch staff).getLast? with
        | none => exact absurd (List.getLast?_eq_none_iff.mp hl) h1
        | some m => simp
    · simp [hc]

theorem initCoordsElement_cross (b : BeamDrawingInterface) (lastDur : Int) (n : Nat)
    (e : LayerElement) (d : Int) (staff : Ref) (hb : b.m_beamStaff = some staff) :
    ((initCoordsElement b lastDur n e d).m_crossStaffContent,
        (initCoordsElement b lastDur n e d).m_crossStaffRel)
      = if crossStaffMatches staff e = [] then (b.m_crossStaffContent, b.m_crossStaffRel)
        else recorded (crossStaffMatches staff e).getLast? := by
  simp only [initCoordsElement, changingDurStep_m_crossStaffContent,
    changingDurStep_m_crossStaffRel, shortestDurStep_m_crossStaffContent,
    shortestDurStep_m_crossStaffRel, stemDirStep_m_crossStaffContent,
    stemDirStep_m_crossStaffRel]
  rw [crossStaffStep_pair _ e staff (by simp [hb])]
  simp

theorem InitCoords_cross (b : BeamDrawingInterface) (staff : Ref) (place : data_BEAMPLACE)
    (elems : List LayerElement) (hdur : ∀ e ∈ elems, e.actualDur.isSome = true) :
    ∃ r, InitCoords b (elems.map some) staff place = some r ∧
      (r.m_crossStaffContent, r.m_crossStaffRel)
        = recorded (allCrossStaffMatches staff elems).getLast? := by
  cases elems with
  | nil => exact ⟨_, rfl, rfl⟩
  | cons current rest =>
    obtain ⟨r, -, hr, hP⟩ := InitCoords_inv
      (fun b _ seen _ =>
        b.m_beamStaff = some staff ∧
        (b.m_crossStaffContent, b.m_crossStaffRel)
          = recorded (allCrossStaffMatches staff seen).getLast?)
      (by
        intro b lastDur seen e todo d hP hd
        obtain ⟨hs, hP⟩ := hP
        refine ⟨by rw [initCoordsElement_beamStaff, hs], ?_⟩
        rw [initCoordsElement_cross b lastDur _ e d staff hs]
        have happ : allCrossStaffMatches staff (seen ++ [e])
            = allCrossStaffMatches staff seen ++ crossStaffMatches staff e := by
          simp [allCrossStaffMatches]
        rw [happ]
        by_cases hm : crossStaffMatches staff e = []
        · simp [hm, hP]
        · rw [if_neg hm, List.getLast?_append]
          cases hl : (crossStaffMatches staff e).getLast? with
          | none => exact absurd (List.getLast?_eq_none_iff.mp hl) hm
          | some m => simp)
      b staff place current rest hdur (fun d _ => ⟨rfl, rfl⟩)
    exact ⟨r, hr, hP.2⟩

/-- Counterexample for C16: a beam on staff 0 with two notes, the first drawn on
staff 1 and the second on staff 2.  The first element on another staff is drawn
on staff 1; after `InitCoords` the recorded cross-staff content is staff 2. -/
theorem InitCoords_cross_staff_counterexample :
    (allCrossStaffMatches 0 [noteOn 1, noteOn 2]).head? = some (1, data_STAFFREL_basic.below) ∧
    (InitCoords {} [some (noteOn 1), some (noteOn 2)] 0 data_BEAMPLACE.above).map
      BeamDrawingInterface.m_crossStaffContent = some (some 2) := by
  constructor <;> decide

/-- C16 (amended): after `InitCoords`, the recorded cross-staff content and its
relation are those of the last match in list order, a match being an element
drawn on another staff than the beam's staff or, for a chord that is not itself
drawn on another staff, its top note and then its bottom note drawn on another
staff: every matching element replaces what was recorded before.  The content
is null, and the relation NONE, when there is no match. -/
theorem InitCoords_cross_staff_last (b : BeamDrawingInterface) (staff : Ref)
    (place : data_BEAMPLACE) (elems : List LayerElement)
    (hdur : ∀ e ∈ elems, e.actualDur.isSome = true) :
    ∃ r, InitCoords b (elems.map some) staff place = some r ∧
      (∀ m, (allCrossStaffMatches staff elems).getLast? = some m →
        r.m_crossStaffContent = some m.1 ∧ r.m_crossStaffRel = m.2) ∧
      (allCrossStaffMatches staff elems = [] →
        r.m_crossStaffContent = none ∧ r.m_crossStaffRel = data_STAFFREL_basic.NONE) := by
  obtain ⟨r, hr, hP⟩ := InitCoords_cross b staff place elems hdur
  refine ⟨r, hr, ?_, ?_⟩
  · intro m hm
    rw [hm] at hP
    obtain ⟨s, rel⟩ := m
    simp only [recorded, Prod.mk.injEq] at hP
    exact hP
  · intro hnil
    rw [hnil] at hP
    simp only [List.getLast?_nil, recorded, Prod.mk.injEq] at hP
    exact hP

theorem InitCoords_cross_staff_last_witness :
    (∀ e ∈ [noteOn 1, noteOn 2, noteOf 5 data_STEMDIRECTION.up], e.actualDur.isSome = true) ∧
    (allCrossStaffMatches 0 [noteOn 1, noteOn 2, noteOf 5 data_STEMDIRECTION.up]).getLast?
      = some (2, data_STAFFREL_basic.below) ∧
    ∃ r, InitCoords usedBeam
        ([noteOn 1, noteOn 2, noteOf 5 data_STEMDIRECTION.up].map some) 0
        data_BEAMPLACE.above = some r ∧
      (∀ m, (allCrossStaffMatches 0
          [noteOn 1, noteOn 2, noteOf 5 data_STEMDIRECTION.up]).getLast? = some m →
        r.m_crossStaffContent = some m.1 ∧ r.m_crossStaffRel = m.2) ∧
      (allCrossStaffMatches 0 [noteOn 1, noteOn 2, noteOf 5 data_STEMDIRECTION.up] = [] →
        r.m_crossStaffContent = none ∧ r.m_crossStaffRel = data_STAFFREL_basic.NONE) :=
  ⟨by decide, by decide,
    InitCoords_cross_staff_last usedBeam 0 data_BEAMPLACE.above
      [noteOn 1, noteOn 2, noteOf 5 data_STEMDIRECTION.up] (by decide)⟩

/-! ### Stem directions -/

theorem stemDirStep_multi (b : BeamDrawingInterface) (e : LayerElement) :
    (stemDirStep b e).m_hasMultipleStemDir
      = (b.m_hasMultipleStemDir ||
          (decide e.stemmed && decide (b.m_notesStemDir ≠ data_STEMDIRECTION.NONE)
            && decide (b.m_notesStemDir ≠ e.stemDir))) := by
  unfold stemDirStep LayerElement.stemmed
  cases hm : b.m_hasMultipleStemDir <;> split_ifs <;> simp_all

theorem stemDirStep_notes (b : BeamDrawingInterface) (e : LayerElement) :
    (stemDirStep b e).m_notesStemDir
      = if e.stemmed ∧ b.m_hasMultipleStemDir = false then
          (if b.m_notesStemDir ≠ data_STEMDIRECTION.NONE ∧ b.m_notesStemDir ≠ e.stemDir
            then data_STEMDIRECTION.NONE else e.stemDir)
        else b.m_notesStemDir := by
  unfold stemDirStep LayerElement.stemmed
  cases hm : b.m_hasMultipleStemDir <;> split_ifs <;> simp_all

theorem initCoordsElement_multi (b : BeamDrawingInterface) (lastDur : Int) (n : Nat)
    (e : LayerElement) (d : Int) :
    (initCoordsElement b lastDur n e d).m_hasMultipleStemDir
      = (b.m_hasMultipleStemDir ||
          (decide e.stemmed && decide (b.m_notesStemDir ≠ data_STEMDIRECTION.NONE)
            && decide (b.m_notesStemDir ≠ e.stemDir))) := by
  simp [initCoordsElement, stemDirStep_multi]

theorem initCoordsElement_notes (b : BeamDrawingInterface) (lastDur : Int) (n : Nat)
    (e : LayerElement) (d : Int) :
    (initCoordsElement b lastDur n e d).m_notesStemDir
      = if e.stemmed ∧ b.m_hasMultipleStemDir = false then
          (if b.m_notesStemDir ≠ data_STEMDIRECTION.NONE ∧ b.m_notesStemDir ≠ e.stemDir
            then data_STEMDIRECTION.NONE else e.stemDir)
        else b.m_notesStemDir := by
  simp [initCoordsElement, stemDirStep_notes]

/-- C17: after `InitCoords`, the multiple-stem-direction flag is true if and only
if two Note or Chord members of the list have different stem directions that
are both not NONE; when the flag is true the baseline notes stem direction is
NONE, and when it is false the baseline is the stem direction of every Note or
Chord member that has one (NONE if none has one).  Only Note and Chord members
take part: a rest or a tab group between two notes with stems up leaves the flag
false and the baseline up, whatever stem direction is read for it. -/
theorem InitCoords_stem_directions :
    (∀ (b : BeamDrawingInterface) (staff : Ref) (place : data_BEAMPLACE)
      (elems : List LayerElement), (∀ e ∈ elems, e.actualDur.isSome = true) →
      ∃ r, InitCoords b (elems.map some) staff place = some r ∧
        (r.m_hasMultipleStemDir = true ↔
          ∃ e1 ∈ elems, ∃ e2 ∈ elems, e1.stemmed ∧ e2.stemmed ∧ e1.stemDir ≠ e2.stemDir) ∧
        (r.m_hasMultipleStemDir = true → r.m_notesStemDir = data_STEMDIRECTION.NONE) ∧
        (r.m_hasMultipleStemDir = false →
          (∀ e ∈ elems, e.stemmed → r.m_notesStemDir = e.stemDir) ∧
          ((∀ e ∈ elems, ¬ e.stemmed) → r.m_notesStemDir = data_STEMDIRECTION.NONE))) ∧
    (∀ (dir : data_STEMDIRECTION) (cls : ClassId),
      cls = ClassId.REST ∨ cls = ClassId.TABGRP →
      (InitCoords {}
          [some (noteOf 5 data_STEMDIRECTION.up),
            some { classId := cls, actualDur := some 5, stemDir := dir },
            some (noteOf 5 data_STEMDIRECTION.up)] 0 data_BEAMPLACE.above).map
        (fun r => (r.m_hasMultipleStemDir, r.m_notesStemDir))
        = some (false, data_STEMDIRECTION.up)) := by
  constructor
  · intro b staff place elems hdur
    cases elems with
    | nil =>
      refine ⟨_, rfl, ?_, ?_, ?_⟩
      · simp [ClearCoords, BeamDrawingInterface.Reset]
      · intro _
        rfl
      · intro _
        exact ⟨by simp, fun _ => rfl⟩
    | cons current rest =>
      obtain ⟨r, -, hr, hP⟩ := InitCoords_inv
        (fun b _ seen _ =>
          (b.m_hasMultipleStemDir = true ↔
            ∃ e1 ∈ seen, ∃ e2 ∈ seen, e1.stemmed ∧ e2.stemmed ∧ e1.stemDir ≠ e2.stemDir) ∧
          (b.m_hasMultipleStemDir = true → b.m_notesStemDir = data_STEMDIRECTION.NONE) ∧
          (b.m_hasMultipleStemDir = false →
            (∀ e ∈ seen, e.stemmed → b.m_notesStemDir = e.stemDir) ∧
            ((∀ e ∈ seen, ¬ e.stemmed) → b.m_notesStemDir = data_STEMDIRECTION.NONE)))
        (by
          intro b lastDur seen e todo d hP hd
          obtain ⟨h1, h2, h3⟩ := hP
          rw [initCoordsElement_multi, initCoordsElement_notes]
          by_cases hm : b.m_hasMultipleStemDir = true
          · -- the flag is set already
            obtain ⟨e1, he1, e2, he2, hs⟩ := h1.mp hm
            refine ⟨?_, ?_, ?_⟩
            · simp only [hm, Bool.true_or, true_iff]
              exact ⟨e1, List.mem_append_left _ he1, e2, List.mem_append_left _ he2, hs⟩
            · intro _
              simp [hm, h2 hm]
            · intro hc
              simp [hm] at hc
          · have hmf : b.m_hasMultipleStemDir = false := by simpa using hm
            obtain ⟨h3a, h3b⟩ := h3 hmf
            have hno : ¬ ∃ e1 ∈ seen, ∃ e2 ∈ seen,
                e1.stemmed ∧ e2.stemmed ∧ e1.stemDir ≠ e2.stemDir := fun hc => hm (h1.mpr hc)
            by_cases hst : e.stemmed
            · by_cases hn : b.m_notesStemDir = data_STEMDIRECTION.NONE
              · -- no baseline yet: no stemmed element was seen
                have hseen : ∀ x ∈ seen, ¬ x.stemmed := by
                  intro x hx hxs
                  have := h3a x hx hxs
                  exact hxs.2 (this.symm.trans hn)
                refine ⟨?_, ?_, ?_⟩
                · simp only [hmf, hn, hst, Bool.false_or, ne_eq, not_true_eq_false, decide_False,
                    Bool.and_false, Bool.false_and, Bool.false_eq_true, false_iff]
                  rintro ⟨e1, he1, e2, he2, hs1, hs2, hne⟩
                  rcases List.mem_append.mp he1 with he1 | he1
                  · exact hseen e1 he1 hs1
                  · rcases List.mem_append.mp he2 with he2 | he2
                    · exact hseen e2 he2 hs2
                    · rw [List.mem_singleton] at he1 he2
                      exact hne (by rw [he1, he2])
                · intro hc
                  simp [hmf, hn] at hc
                · intro _
                  refine ⟨?_, ?_⟩
                  · intro x hx hxs
                    rcases List.mem_append.mp hx with hx | hx
                    · exact absurd hxs (hseen x hx)
                    · rw [List.mem_singleton] at hx
                      simp [hst, hmf, hn, hx]
                  · intro hall
                    exact absurd hst (hall e (by simp))
              · by_cases heq : b.m_notesStemDir = e.stemDir
                · -- same direction as the baseline
                  refine ⟨?_, ?_, ?_⟩
                  · simp only [hmf, heq, Bool.false_or, ne_eq, not_true_eq_false, decide_False,
                      Bool.and_false, Bool.false_eq_true, false_iff]
                    rintro ⟨e1, he1, e2, he2, hs1, hs2, hne⟩
                    have k1 : e1.stemDir = e.stemDir := by
                      rcases List.mem_append.mp he1 with he1 | he1
                      · rw [← h3a e1 he1 hs1, heq]
                      · rw [List.mem_singleton.mp he1]
                    have k2 : e2.stemDir = e.stemDir := by
                      rcases List.mem_append.mp he2 with he2 | he2
                      · rw [← h3a e2 he2 hs2, heq]
                      · rw [List.mem_singleton.mp he2]
                    exact hne (k1.trans k2.symm)
                  · intro hc
                    simp [hmf, heq] at hc
                  · intro _
                    refine ⟨?_, ?_⟩
                    · intro x hx hxs
                      rcases List.mem_append.mp hx with hx | hx
                      · have := h3a x hx hxs
                        simp [hst, hmf, heq, ← this]
                      · rw [List.mem_singleton] at hx
                        simp [hst, hmf, heq, hx]
                    · intro hall
                      exact absurd hst (hall e (by simp))
                · -- another direction than the baseline
                  have hex : ∃ x ∈ seen, x.stemmed := by
                    by_contra hc
                    push_neg at hc
                    exact hn (h3b hc)
                  obtain ⟨x, hx, hxs⟩ := hex
                  have hxd : x.stemDir = b.m_notesStemDir := (h3a x hx hxs).symm
                  refine ⟨?_, ?_, ?_⟩
                  · simp only [hmf, hst, hn, heq, Bool.false_or, ne_eq, not_false_eq_true,
                      decide_True, Bool.and_self, true_iff]
                    exact ⟨x, List.mem_append_left _ hx, e, by simp, hxs, hst,
                      by rw [hxd]; exact heq⟩
                  · intro _
                    simp [hst, hmf, hn, heq]
                  · intro hc
                    simp [hmf, hst, hn, heq] at hc
            · -- the element takes no part
              refine ⟨?_, ?_, ?_⟩
              · simp only [hmf, hst, Bool.false_or, decide_False, Bool.false_and,
                  Bool.false_eq_true, false_iff]
                rintro ⟨e1, he1, e2, he2, hs1, hs2, hne⟩
                rcases List.mem_append.mp he1 with he1 | he1
                · rcases List.mem_append.mp he2 with he2 | he2
                  · exact hno ⟨e1, he1, e2, he2, hs1, hs2, hne⟩
                  · rw [List.mem_singleton] at he2
                    exact hst (he2 ▸ hs2)
                · rw [List.mem_singleton] at he1
                  exact hst (he1 ▸ hs1)
              · intro hc
                simp [hmf, hst] at hc
              · intro _
                refine ⟨?_, ?_⟩
                · intro x hx hxs
                  rcases List.mem_append.mp hx with hx | hx
                  · simpa [hst] using h3a x hx hxs
                  · rw [List.mem_singleton] at hx
                    exact absurd (hx ▸ hxs) hst
                · intro hall
                  simpa [hst] using h3b (fun x hx => hall x (List.mem_append_left _ hx)))
        b staff place current rest hdur
        (fun d _ => ⟨by simp [beamStart], by simp [beamStart], by simp [beamStart]⟩)
      exact ⟨r, hr, hP⟩
  · intro dir cls hcls
    rcases hcls with rfl | rfl <;> cases dir <;> decide

theorem InitCoords_stem_directions_witness :
    (∀ e ∈ [noteOf 5 data_STEMDIRECTION.up, noteOf 5 data_STEMDIRECTION.down],
      e.actualDur.isSome = true) ∧
    (∃ e1 ∈ [noteOf 5 data_STEMDIRECTION.up, noteOf 5 data_STEMDIRECTION.down],
      ∃ e2 ∈ [noteOf 5 data_STEMDIRECTION.up, noteOf 5 data_STEMDIRECTION.down],
        e1.stemmed ∧ e2.stemmed ∧ e1.stemDir ≠ e2.stemDir) ∧
    ∃ r, InitCoords usedBeam
        ([noteOf 5 data_STEMDIRECTION.up, noteOf 5 data_STEMDIRECTION.down].map some) 0
        data_BEAMPLACE.above = some r ∧
      (r.m_hasMultipleStemDir = true ↔
        ∃ e1 ∈ [noteOf 5 data_STEMDIRECTION.up, noteOf 5 data_STEMDIRECTION.down],
          ∃ e2 ∈ [noteOf 5 data_STEMDIRECTION.up, noteOf 5 data_STEMDIRECTION.down],
            e1.stemmed ∧ e2.stemmed ∧ e1.stemDir ≠ e2.stemDir) ∧
      (r.m_hasMultipleStemDir = true → r.m_notesStemDir = data_STEMDIRECTION.NONE) ∧
      (r.m_hasMultipleStemDir = false →
        (∀ e ∈ [noteOf 5 data_STEMDIRECTION.up, noteOf 5 data_STEMDIRECTION.down],
          e.stemmed → r.m_notesStemDir = e.stemDir) ∧
        ((∀ e ∈ [noteOf 5 data_STEMDIRECTION.up, noteOf 5 data_STEMDIRECTION.down],
          ¬ e.stemmed) → r.m_notesStemDir = data_STEMDIRECTION.NONE)) :=
  ⟨by decide, by decide,
    InitCoords_stem_directions.1 usedBeam 0 data_BEAMPLACE.above
      [noteOf 5 data_STEMDIRECTION.up, noteOf 5 data_STEMDIRECTION.down] (by decide)⟩

/-! ### Shortest duration -/

/-- Counterexample for C18: a beam list with one note whose actual duration code
is -1.  The maximum code over the Note, Chord and TabGrp members is -1; after
`InitCoords` the shortest-duration value is 0, the value `Reset` gave it. -/
theorem InitCoords_shortest_dur_counterexample :
    (noteOf (-1) data_STEMDIRECTION.NONE).isNoteChordOrTabGrp ∧
    (noteOf (-1) data_STEMDIRECTION.NONE).actualDur = some (-1) ∧
    (InitCoords {} [some (noteOf (-1) data_STEMDIRECTION.NONE)] 0 data_BEAMPLACE.above).map
      BeamDrawingInterface.m_shortestDur = some 0 := by
  refine ⟨by decide, rfl, by decide⟩

/-- C18 (amended): after `InitCoords` on a list of layer elements with a
duration, the shortest-duration value is the larger of 0 and the maximum actual
duration code over the members that are a Note, a Chord or a TabGrp: it is at
least 0 and at least the code of every such member, and it is 0 or the code of
such a member.  Rests never contribute. -/
theorem InitCoords_shortest_dur (b : BeamDrawingInterface) (staff : Ref)
    (place : data_BEAMPLACE) (elems : List LayerElement)
    (hdur : ∀ e ∈ elems, e.actualDur.isSome = true) :
    ∃ r, InitCoords b (elems.map some) staff place = some r ∧
      0 ≤ r.m_shortestDur ∧
      (∀ e ∈ elems, e.isNoteChordOrTabGrp → ∀ d, e.actualDur = some d → d ≤ r.m_shortestDur) ∧
      (r.m_shortestDur = 0 ∨
        ∃ e ∈ elems, e.isNoteChordOrTabGrp ∧ e.actualDur = some r.m_shortestDur) := by
  cases elems with
  | nil =>
    refine ⟨_, rfl, le_refl _, ?_, Or.inl rfl⟩
    intro e he
    simp at he
  | cons current rest =>
    obtain ⟨r, -, hr, hP⟩ := InitCoords_inv
      (fun b _ seen _ =>
        0 ≤ b.m_shortestDur ∧
        (∀ e ∈ seen, e.isNoteChordOrTabGrp → ∀ d, e.actualDur = some d → d ≤ b.m_shortestDur) ∧
        (b.m_shortestDur = 0 ∨
          ∃ e ∈ seen, e.isNoteChordOrTabGrp ∧ e.actualDur = some b.m_shortestDur))
      (by
        intro b lastDur seen e todo d hP hd
        obtain ⟨h1, h2, h3⟩ := hP
        rw [initCoordsElement_shortestDur]
        by_cases hc : e.isNoteChordOrTabGrp
        · have hc1 : e.classId = ClassId.CHORD ∨ e.classId = ClassId.NOTE
              ∨ e.classId = ClassId.TABGRP := hc
          rw [if_pos hc1]
          refine ⟨le_trans h1 (le_max_right _ _), ?_, ?_⟩
          · intro x hx hxc dx hdx
            rcases List.mem_append.mp hx with hx | hx
            · exact le_trans (h2 x hx hxc dx hdx) (le_max_right _ _)
            · rw [List.mem_singleton] at hx
              subst hx
              rw [hd] at hdx
              cases hdx
              exact le_max_left _ _
          · rcases le_total d b.m_shortestDur with hle | hle
            · rw [max_eq_right hle]
              rcases h3 with h3 | ⟨x, hx, hxc, hxd⟩
              · exact Or.inl h3
              · exact Or.inr ⟨x, List.mem_append_left _ hx, hxc, hxd⟩
            · rw [max_eq_left hle]
              exact Or.inr ⟨e, by simp, hc, hd⟩
        · have hc1 : ¬ (e.classId = ClassId.CHORD ∨ e.classId = ClassId.NOTE
              ∨ e.classId = ClassId.TABGRP) := hc
          rw [if_neg hc1]
          refine ⟨h1, ?_, ?_⟩
          · intro x hx hxc dx hdx
            rcases List.mem_append.mp hx with hx | hx
            · exact h2 x hx hxc dx hdx
            · rw [List.mem_singleton] at hx
              subst hx
              exact absurd hxc hc
          · rcases h3 with h3 | ⟨x, hx, hxc, hxd⟩
            · exact Or.inl h3
            · exact Or.inr ⟨x, List.mem_append_left _ hx, hxc, hxd⟩)
      b staff place current rest hdur
      (fun d _ => ⟨le_refl _, by simp, Or.inl rfl⟩)
    exact ⟨r, hr, hP⟩

theorem InitCoords_shortest_dur_witness :
    (∀ e ∈ [noteOf 5 data_STEMDIRECTION.up, restOf 8 data_STEMDIRECTION.NONE,
      noteOf 6 data_STEMDIRECTION.up], e.actualDur.isSome = true) ∧
    (InitCoords usedBeam
      ([noteOf 5 data_STEMDIRECTION.up, restOf 8 data_STEMDIRECTION.NONE,
        noteOf 6 data_STEMDIRECTION.up].map some) 0 data_BEAMPLACE.above).map
      BeamDrawingInterface.m_shortestDur = some 6 ∧
    ∃ r, InitCoords usedBeam
        ([noteOf 5 data_STEMDIRECTION.up, restOf 8 data_STEMDIRECTION.NONE,
          noteOf 6 data_STEMDIRECTION.up].map some) 0 data_BEAMPLACE.above = some r ∧
      0 ≤ r.m_shortestDur ∧
      (∀ e ∈ [noteOf 5 data_STEMDIRECTION.up, restOf 8 data_STEMDIRECTION.NONE,
          noteOf 6 data_STEMDIRECTION.up],
        e.isNoteChordOrTabGrp → ∀ d, e.actualDur = some d → d ≤ r.m_shortestDur) ∧
      (r.m_shortestDur = 0 ∨
        ∃ e ∈ [noteOf 5 data_STEMDIRECTION.up, restOf 8 data_STEMDIRECTION.NONE,
            noteOf 6 data_STEMDIRECTION.up],
          e.isNoteChordOrTabGrp ∧ e.actualDur = some r.m_shortestDur) :=
  ⟨by decide, by decide,
    InitCoords_shortest_dur usedBeam 0 data_BEAMPLACE.above
      [noteOf 5 data_STEMDIRECTION.up, restOf 8 data_STEMDIRECTION.NONE,
        noteOf 6 data_STEMDIRECTION.up] (by decide)⟩

/-! ### Changing durations -/

/-- Counterexample for C19: a beam list with one note that has a secondary beam
break.  No two members have different actual durations; after `InitCoords` the
changingDur flag is true. -/
theorem InitCoords_changing_dur_counterexample :
    (∀ e1 ∈ [brokenNote], ∀ e2 ∈ [brokenNote], e1.actualDur = e2.actualDur) ∧
    (InitCoords {} [some brokenNote] 0 data_BEAMPLACE.above).map
      BeamDrawingInterface.m_changingDur = some true := by
  refine ⟨by decide, by decide⟩

/-- C19 (amended): after `InitCoords` on a list of layer elements with a duration,
the changingDur flag is true if and only if some member has a secondary beam
break (breaksec) or some two members have different actual durations. -/
theorem InitCoords_changing_dur (b : BeamDrawingInterface) (staff : Ref)
    (place : data_BEAMPLACE) (elems : List LayerElement)
    (hdur : ∀ e ∈ elems, e.actualDur.isSome = true) :
    ∃ r, InitCoords b (elems.map some) staff place = some r ∧
      (r.m_changingDur = true ↔
        (∃ e ∈ elems, e.breaksec.isSome = true) ∨
        (∃ e1 ∈ elems, ∃ e2 ∈ elems, e1.actualDur ≠ e2.actualDur)) := by
  cases elems with
  | nil =>
    refine ⟨_, rfl, ?_⟩
    simp [ClearCoords, BeamDrawingInterface.Reset]
  | cons current rest =>
    obtain ⟨r, lastDur1, hr, hP⟩ := InitCoords_inv
      (fun b lastDur seen todo =>
        (b.m_changingDur = true ↔
          (∃ e ∈ seen, e.breaksec.isSome = true) ∨
          (∃ e1 ∈ seen, ∃ e2 ∈ seen, e1.actualDur ≠ e2.actualDur)) ∧
        (b.m_changingDur = false → ∀ e ∈ seen, e.actualDur = some lastDur) ∧
        (seen = [] → ∀ e, todo.head? = some e → e.actualDur = some lastDur))
      (by
        intro b lastDur seen e todo d hP hd
        obtain ⟨h1, h2, h3⟩ := hP
        rw [initCoordsElement_changingDur]
        refine ⟨?_, ?_, by simp⟩
        · by_cases hc : b.m_changingDur = true
          · simp only [hc, Bool.true_or, true_iff]
            rcases h1.mp hc with ⟨x, hx, hxb⟩ | ⟨x, hx, y, hy, hxy⟩
            · exact Or.inl ⟨x, List.mem_append_left _ hx, hxb⟩
            · exact Or.inr ⟨x, List.mem_append_left _ hx, y, List.mem_append_left _ hy, hxy⟩
          · have hcf : b.m_changingDur = false := by simpa using hc
            have hall := h2 hcf
            have hno := fun h => hc (h1.mpr h)
            by_cases hb : e.breaksec.isSome = true
            · simp only [hb, Bool.or_true, Bool.true_or, true_iff]
              exact Or.inl ⟨e, by simp, hb⟩
            · by_cases hne : d = lastDur
              · simp only [hcf, hb, hne, Bool.or_self, ne_eq, not_true_eq_false, decide_False,
                  Bool.false_eq_true, false_iff]
                rintro (⟨x, hx, hxb⟩ | ⟨x, hx, y, hy, hxy⟩)
                · rcases List.mem_append.mp hx with hx | hx
                  · exact hno (Or.inl ⟨x, hx, hxb⟩)
                  · rw [List.mem_singleton] at hx
                    exact hb (hx ▸ hxb)
                · have k : ∀ z ∈ seen ++ [e], z.actualDur = some lastDur := by
                    intro z hz
                    rcases List.mem_append.mp hz with hz | hz
                    · exact hall z hz
                    · rw [List.mem_singleton.mp hz, hd, hne]
                  exact hxy ((k x hx).trans (k y hy).symm)
              · simp only [hcf, hb, hne, Bool.or_self, ne_eq, not_false_eq_true, decide_True,
                  Bool.or_true, true_iff]
                right
                cases seen with
                | nil =>
                  have := h3 rfl e rfl
                  rw [hd] at this
                  exact absurd (Option.some.inj this) hne
                | cons x seen1 =>
                  refine ⟨x, by simp, e, by simp, ?_⟩
                  rw [hall x (by simp), hd]
                  intro hc2
                  exact hne (Option.some.inj hc2).symm
        · intro hc x hx
          simp only [Bool.or_eq_false_iff, decide_eq_false_iff_not, ne_eq, not_not] at hc
          obtain ⟨⟨hc1, -⟩, hc2⟩ := hc
          rcases List.mem_append.mp hx with hx | hx
          · rw [h2 hc1 x hx, hc2]
          · rw [List.mem_singleton.mp hx, hd])
      b staff place current rest hdur
      (fun d hd => ⟨by simp [beamStart], by simp, by
        intro _ e he
        simp only [List.head?_cons, Option.some.injEq] at he
        rw [← he, hd]⟩)
    exact ⟨r, hr, hP.1⟩

theorem InitCoords_changing_dur_witness :
    (∀ e ∈ [noteOf 5 data_STEMDIRECTION.up, noteOf 6 data_STEMDIRECTION.up],
      e.actualDur.isSome = true) ∧
    (InitCoords usedBeam
      ([noteOf 5 data_STEMDIRECTION.up, noteOf 6 data_STEMDIRECTION.up].map some) 0
      data_BEAMPLACE.above).map BeamDrawingInterface.m_changingDur = some true ∧
    ∃ r, InitCoords usedBeam
        ([noteOf 5 data_STEMDIRECTION.up, noteOf 6 data_STEMDIRECTION.up].map some) 0
        data_BEAMPLACE.above = some r ∧
      (r.m_changingDur = true ↔
        (∃ e ∈ [noteOf 5 data_STEMDIRECTION.up, noteOf 6 data_STEMDIRECTION.up],
          e.breaksec.isSome = true) ∨
        (∃ e1 ∈ [noteOf 5 data_STEMDIRECTION.up, noteOf 6 data_STEMDIRECTION.up],
          ∃ e2 ∈ [noteOf 5 data_STEMDIRECTION.up, noteOf 6 data_STEMDIRECTION.up],
            e1.actualDur ≠ e2.actualDur)) :=
  ⟨by decide, by decide,
    InitCoords_changing_dur usedBeam 0 data_BEAMPLACE.above
      [noteOf 5 data_STEMDIRECTION.up, noteOf 6 data_STEMDIRECTION.up] (by decide)⟩

/-! ## BeamDrawingInterface::InitCue -/

/-- C20: `InitCue(forceCue)` sets the cue-size flag to true when `forceCue` is
true, and otherwise to true if and only if every coord has an element that is a
grace note or has drawing cue size; afterwards, if the cue-size flag is true and
the baseline notes stem direction was NONE it is up, and in every other case
the baseline stem direction is unchanged. -/
theorem InitCue_cue_size_and_stem_dir (b : BeamDrawingInterface) (forceCue : Bool) :
    (forceCue = true → (InitCue b forceCue).m_cueSize = true) ∧
    (forceCue = false →
      ((InitCue b forceCue).m_cueSize = true ↔
        ∀ coord ∈ b.m_beamElementCoords, ∃ element, coord.m_element = some element ∧
          (element.isGraceNote = true ∨ element.drawingCueSize = true))) ∧
    ((InitCue b forceCue).m_cueSize = true ∧ b.m_notesStemDir = data_STEMDIRECTION.NONE →
      (InitCue b forceCue).m_notesStemDir = data_STEMDIRECTION.up) ∧
    (¬ ((InitCue b forceCue).m_cueSize = true ∧ b.m_notesStemDir = data_STEMDIRECTION.NONE) →
      (InitCue b forceCue).m_notesStemDir = b.m_notesStemDir) := by
  have hcue : (InitCue b forceCue).m_cueSize
      = (if forceCue then forceCue
          else b.m_beamElementCoords.all (fun coord =>
            match coord.m_element with
            | none => false
            | some element => element.isGraceNote || element.drawingCueSize)) := by
    unfold InitCue
    dsimp only
    split_ifs <;> rfl
  have hdir : (InitCue b forceCue).m_notesStemDir
      = if (InitCue b forceCue).m_cueSize = true ∧ b.m_notesStemDir = data_STEMDIRECTION.NONE
        then data_STEMDIRECTION.up else b.m_notesStemDir := by
    rw [hcue]
    unfold InitCue
    dsimp only
    split_ifs <;> rfl
  refine ⟨?_, ?_, ?_, ?_⟩
  · intro hf
    rw [hcue, hf]
    rfl
  · intro hf
    rw [hcue, hf]
    simp only [Bool.false_eq_true, if_false, List.all_eq_true]
    constructor
    · intro h coord hcoord
      have := h coord hcoord
      cases he : coord.m_element with
      | none => simp [he] at this
      | some element =>
        rw [he] at this
        exact ⟨element, rfl, by simpa using this⟩
    · intro h coord hcoord
      obtain ⟨element, he, hor⟩ := h coord hcoord
      rw [he]
      simpa using hor
  · intro h
    rw [hdir, if_pos h]
  · intro h
    rw [hdir, if_neg h]

theorem InitCue_cue_size_and_stem_dir_witness :
    ((InitCue { m_beamElementCoords := [coordOf { isGraceNote := true }] } false).m_cueSize
        = true ∧
      ({ m_beamElementCoords := [coordOf { isGraceNote := true }] } :
        BeamDrawingInterface).m_notesStemDir = data_STEMDIRECTION.NONE) ∧
    (InitCue { m_beamElementCoords := [coordOf { isGraceNote := true }] } false).m_notesStemDir
      = data_STEMDIRECTION.up :=
  ⟨by decide,
    (InitCue_cue_size_and_stem_dir
      { m_beamElementCoords := [coordOf { isGraceNote := true }] } false).2.2.1 (by decide)⟩

/-! ## The two-pitch branch of IsHorizontal -/

theorem std_unique_copy_ne_nil (x : Int) (l : List Int) : std_unique_copy (x :: l) ≠ [] := by
  induction l generalizing x with
  | nil => simp [std_unique_copy]
  | cons y rest ih =>
    by_cases h : x = y
    · simp only [std_unique_copy, h, if_true]
      exact ih y
    · simp [std_unique_copy, h]

theorem std_unique_copy_length_one (l : List Int) :
    ∀ x : Int, (std_unique_copy (x :: l)).length = 1 → ∀ z ∈ l, z = x := by
  induction l with
  | nil =>
    intro x _ z hz
    simp at hz
  | cons y rest ih =>
    intro x h z hz
    by_cases hxy : x = y
    · subst hxy
      simp only [std_unique_copy, if_true] at h
      rcases List.mem_cons.mp hz with rfl | hz
      · rfl
      · exact ih x h z hz
    · simp only [std_unique_copy, hxy, if_false, List.length_cons] at h
      have := List.length_pos.mpr (std_unique_copy_ne_nil y rest)
      omega

theorem std_unique_copy_first_step {x y : Int} {rest : List Int} (hxy : x ≠ y)
    (hu : (std_unique_copy (x :: y :: rest)).length = 2) : ∀ z ∈ rest, z = y := by
  simp only [std_unique_copy, hxy, if_false, List.length_cons] at hu
  exact std_unique_copy_length_one rest y (by omega)

theorem std_unique_copy_last_step (l : List Int) :
    ∀ {w z : Int}, w ≠ z → (std_unique_copy (l ++ [w, z])).length = 2 → ∀ u ∈ l, u = w := by
  induction l with
  | nil =>
    intro w z _ _ u hu
    simp at hu
  | cons x rest ih =>
    intro w z hwz h u hu
    obtain ⟨hd, tl, htl⟩ : ∃ hd tl, rest ++ [w, z] = hd :: tl := by
      cases rest with
      | nil => exact ⟨w, [z], rfl⟩
      | cons r rest1 => exact ⟨r, rest1 ++ [w, z], rfl⟩
    have hhd : rest = [] ∧ hd = w ∨ hd ∈ rest := by
      cases rest with
      | nil =>
        simp only [List.nil_append, List.cons.injEq] at htl
        exact Or.inl ⟨rfl, htl.1.symm⟩
      | cons r rest1 =>
        simp only [List.cons_append, List.cons.injEq] at htl
        exact Or.inr (by rw [← htl.1]; exact List.mem_cons_self _ _)
    rw [List.cons_append, htl] at h
    by_cases hx : x = hd
    · subst hx
      simp only [std_unique_copy, if_true] at h
      rw [← htl] at h
      have hrest := ih hwz h
      have hxw : x = w := by
        rcases hhd with ⟨-, h1⟩ | h1
        · exact h1
        · exact hrest x h1
      rcases List.mem_cons.mp hu with rfl | hu
      · exact hxw
      · exact hrest u hu
    · exfalso
      simp only [std_unique_copy, hx, if_false, List.length_cons] at h
      have hall := std_unique_copy_length_one tl hd (by omega)
      have hw : w ∈ hd :: tl := by rw [← htl]; simp
      have hz : z ∈ hd :: tl := by rw [← htl]; simp
      have hw1 : w = hd := by
        rcases List.mem_cons.mp hw with h1 | h1
        · exact h1
        · exact hall w h1
      have hz1 : z = hd := by
        rcases List.mem_cons.mp hz with h1 | h1
        · exact h1
        · exact hall z h1
      exact hwz (hw1.trans hz1.symm)

theorem std_is_sorted_iff_chain (l : List Int) :
    std_is_sorted l = true ↔ l.Chain' (fun a b => a ≤ b) := by
  induction l with
  | nil => simp [std_is_sorted]
  | cons x rest ih =>
    cases rest with
    | nil => simp [std_is_sorted]
    | cons y rest1 =>
      simp only [std_is_sorted, Bool.and_eq_true, decide_eq_true_eq, ih, List.chain'_cons]

theorem exists_two_last {l : List Int} (h : 2 < l.length) :
    ∃ (init : List Int) (w z : Int), init ≠ [] ∧ l = init ++ [w, z] := by
  have hrev : 2 < l.reverse.length := by simpa using h
  cases hr : l.reverse with
  | nil => simp [hr] at hrev
  | cons z t =>
    cases t with
    | nil => simp [hr] at hrev
    | cons w t1 =>
      refine ⟨t1.reverse, w, z, ?_, ?_⟩
      · intro hnil
        have : t1 = [] := by simpa using hnil
        simp [hr, this] at hrev
      · have := congrArg List.reverse hr
        simpa using this

/-- For place above or below, whenever the two-pitch branch would answer "horizontal",
a middle anchor already satisfies the concave-shape check. -/
theorem twoPitchStep_concave (place : data_BEAMPLACE)
    (hplace : place = data_BEAMPLACE.above ∨ place = data_BEAMPLACE.below)
    (items : List Int) (hlen : 2 < items.length)
    (hu : (std_unique_copy items).length = 2)
    (ht : twoPitchStep place items (decide (items.headD 0 ≠ items.getD 1 0))
      (decide (items.getLastD 0 ≠ items.getD (items.length - 2) 0)) = true) :
    concaveShape place items (items.headD 0) (items.getLastD 0) = true := by
  -- the two shapes a two-pitch sequence with a step at one end can have
  have hfirst : items.headD 0 ≠ items.getD 1 0 →
      ∃ x y, x ≠ y ∧ items.headD 0 = x ∧ items.getLastD 0 = y ∧ items[1]? = some y ∧
        (std_is_sorted items = true → x ≤ y) ∧
        (std_is_sorted items.reverse = true → y ≤ x) := by
    intro hstep
    match items, hlen, hu, hstep with
    | x :: y :: rest, hlen, hu, hstep =>
      have hxy : x ≠ y := by simpa using hstep
      have hall := std_unique_copy_first_step hxy hu
      have hne : rest ≠ [] := by
        intro h
        simp [h] at hlen
      have hlast : (x :: y :: rest).getLast? = some y := by
        rw [List.getLast?_cons_cons]
        cases rest with
        | nil => exact absurd rfl hne
        | cons r t =>
          rw [List.getLast?_cons_cons, List.getLast?_eq_getLast _ (List.cons_ne_nil r t)]
          exact congrArg some (hall _ (List.getLast_mem (List.cons_ne_nil r t)))
      refine ⟨x, y, hxy, rfl, getLastD_of_getLast? hlast, by simp, ?_, ?_⟩
      · intro hs
        have := (std_is_sorted_iff_chain _).mp hs
        exact (List.chain'_cons.mp this).1
      · intro hs
        have := (std_is_sorted_iff_chain _).mp hs
        rw [List.chain'_reverse] at this
        exact (List.chain'_cons.mp this).1
  have hlast : items.getLastD 0 ≠ items.getD (items.length - 2) 0 →
      ∃ w z, w ≠ z ∧ items.headD 0 = w ∧ items.getLastD 0 = z ∧
        items[items.length - 2]? = some w ∧
        (std_is_sorted items = true → w ≤ z) ∧
        (std_is_sorted items.reverse = true → z ≤ w) := by
    intro hstep
    obtain ⟨init, w, z, hne, rfl⟩ := exists_two_last hlen
    have hidx : (init ++ [w, z]).length - 2 = init.length := by simp
    have hget : (init ++ [w, z])[init.length]? = some w := by
      rw [List.getElem?_append_right (le_refl _)]
      simp
    have hl : (init ++ [w, z]).getLastD 0 = z :=
      getLastD_of_getLast? (by simp)
    have hwz : w ≠ z := by
      rw [hidx, hl, List.getD_eq_getElem?_getD, hget] at hstep
      exact fun h => hstep (by simpa using h.symm)
    have hall := std_unique_copy_last_step init hwz hu
    have hh : (init ++ [w, z]).headD 0 = w := by
      cases init with
      | nil => exact absurd rfl hne
      | cons a t => exact hall a (List.mem_cons_self _ _)
    refine ⟨w, z, hwz, hh, hl, by rw [hidx]; exact hget, ?_, ?_⟩
    · intro hs
      have hc := (std_is_sorted_iff_chain _).mp hs
      have h2 : List.Chain' (fun a b : Int => a ≤ b) [w, z] :=
        hc.infix ⟨init, [], by simp⟩
      exact (List.chain'_cons.mp h2).1
    · intro hs
      have hc := (std_is_sorted_iff_chain _).mp hs
      rw [List.chain'_reverse] at hc
      have h2 : List.Chain' (flip fun a b : Int => a ≤ b) [w, z] :=
        hc.infix ⟨init, [], by simp⟩
      exact (List.chain'_cons.mp h2).1
  -- a middle anchor equal to one end and beyond the other
  have hmid1 : ∀ y, items[1]? = some y → y ∈ (items.drop 1).dropLast := fun y h =>
    mem_inner_of_getElem? (le_refl 1) (by omega) h
  have hmid2 : ∀ y, items[items.length - 2]? = some y → y ∈ (items.drop 1).dropLast :=
    fun y h => mem_inner_of_getElem? (by omega) (by omega) h
  unfold concaveShape
  rw [List.any_eq_true]
  unfold twoPitchStep at ht
  rcases hplace with rfl | rfl
  · simp only [if_true] at ht
    by_cases h1 : (decide (items.headD 0 ≠ items.getD 1 0) && std_is_sorted items) = true
    · simp only [Bool.and_eq_true, decide_eq_true_eq] at h1
      obtain ⟨x, y, -, hx, hy, hget, hs, -⟩ := hfirst h1.1
      refine ⟨y, hmid1 y hget, ?_⟩
      have := hs h1.2
      rw [hx, hy]
      simp [this]
    · rw [if_neg h1] at ht
      by_cases h2 : (decide (items.getLastD 0 ≠ items.getD (items.length - 2) 0)
          && std_is_sorted items.reverse) = true
      · simp only [Bool.and_eq_true, decide_eq_true_eq] at h2
        obtain ⟨w, z, -, hw, hz, hget, -, hs⟩ := hlast h2.1
        refine ⟨w, hmid2 w hget, ?_⟩
        have := hs h2.2
        rw [hw, hz]
        simp [this]
      · rw [if_neg h2] at ht
        exact absurd ht (by simp)
  · simp only [reduceCtorEq, if_false] at ht
    by_cases h1 : (decide (items.getLastD 0 ≠ items.getD (items.length - 2) 0)
        && std_is_sorted items) = true
    · simp only [Bool.and_eq_true, decide_eq_true_eq] at h1
      obtain ⟨w, z, -, hw, hz, hget, hs, -⟩ := hlast h1.1
      refine ⟨w, hmid2 w hget, ?_⟩
      have := hs h1.2
      rw [hw, hz]
      simp [this]
    · rw [if_neg h1] at ht
      by_cases h2 : (decide (items.headD 0 ≠ items.getD 1 0)
          && std_is_sorted items.reverse) = true
      · simp only [Bool.and_eq_true, decide_eq_true_eq] at h2
        obtain ⟨x, y, -, hx, hy, hget, -, hs⟩ := hfirst h2.1
        refine ⟨y, hmid1 y hget, ?_⟩
        have := hs h2.2
        rw [hx, hy]
        simp [this]
      · rw [if_neg h2] at ht
        exact absurd ht (by simp)

/-- The two results of `IsHorizontal` and of its variant without the two-pitch branch
agree whenever the drawing place is not mixed. -/
theorem IsHorizontal_eq_without (k : VrvDef) (b : BeamDrawingInterface)
    (hplace : b.m_drawingPlace ≠ data_BEAMPLACE.mixed) :
    IsHorizontal k b = IsHorizontalWithoutTwoPitch k b := by
  unfold IsHorizontal IsHorizontalWithoutTwoPitch
  by_cases h1 : IsRepeatedPattern k b = true
  · rw [if_pos h1, if_pos h1]
  rw [if_neg h1, if_neg h1]
  by_cases h2 : HasOneStepHeight k b = true
  · rw [if_pos h2, if_pos h2]
  rw [if_neg h2, if_neg h2]
  by_cases h3 : b.m_drawingPlace = data_BEAMPLACE.NONE
  · rw [if_pos h3, if_pos h3]
  rw [if_neg h3, if_neg h3]
  have hab : b.m_drawingPlace = data_BEAMPLACE.above
      ∨ b.m_drawingPlace = data_BEAMPLACE.below := by
    cases hp : b.m_drawingPlace with
    | NONE => exact absurd hp h3
    | above => exact Or.inl rfl
    | below => exact Or.inr rfl
    | mixed => exact absurd hp hplace
  dsimp only
  by_cases h4 : (horizontalItems b).length < 2
  · rw [if_pos h4, if_pos h4]
  rw [if_neg h4, if_neg h4]
  by_cases h5 : (horizontalItems b).headD 0 = (horizontalItems b).getLastD 0
  · rw [if_pos h5, if_pos h5]
  rw [if_neg h5, if_neg h5, if_neg hplace]
  dsimp only
  by_cases h6 : (decide ((horizontalItems b).length > 2)
      && (decide ((horizontalItems b).headD 0 ≠ (horizontalItems b).getD 1 0)
        || decide ((horizontalItems b).getLastD 0
          ≠ (horizontalItems b).getD ((horizontalItems b).length - 2) 0))) = true
  · rw [if_pos h6, if_pos h6]
    by_cases hc : concaveShape b.m_drawingPlace (horizontalItems b)
        ((horizontalItems b).headD 0) ((horizontalItems b).getLastD 0) = true
    · rw [if_pos hc, if_pos hc]
    · rw [if_neg hc, if_neg hc]
      have hlen : 2 < (horizontalItems b).length := by
        simp only [Bool.and_eq_true, decide_eq_true_eq] at h6
        exact h6.1
      rw [if_neg]
      intro hu
      simp only [Bool.and_eq_true, decide_eq_true_eq] at hu
      exact hc (twoPitchStep_concave _ hab _ hlen hu.1 hu.2)
  · rw [if_neg h6, if_neg h6]

/-- C37: for drawing place above or below (and for an unset place) `IsHorizontal`
equals its variant with the two-pitch branch removed, because with more than two
anchors, exactly two runs of equal values, a step at one end and the order the branch
asks for, a middle anchor already passes the concave-shape check; for place mixed the
branch can decide: on the anchors 5, 0, 0 the function answers true and the variant
false. -/
theorem IsHorizontal_two_pitch_redundant :
    (∀ (k : VrvDef) (b : BeamDrawingInterface),
      b.m_drawingPlace = data_BEAMPLACE.above ∨ b.m_drawingPlace = data_BEAMPLACE.below →
      IsHorizontal k b = IsHorizontalWithoutTwoPitch k b)
    ∧ (∀ (place : data_BEAMPLACE) (items : List Int),
      place = data_BEAMPLACE.above ∨ place = data_BEAMPLACE.below →
      2 < items.length → (std_unique_copy items).length = 2 →
      twoPitchStep place items (decide (items.headD 0 ≠ items.getD 1 0))
        (decide (items.getLastD 0 ≠ items.getD (items.length - 2) 0)) = true →
      concaveShape place items (items.headD 0) (items.getLastD 0) = true)
    ∧ (IsHorizontal vrvDef (beamOf data_BEAMPLACE.mixed [5, 0, 0]) = some true
      ∧ IsHorizontalWithoutTwoPitch vrvDef (beamOf data_BEAMPLACE.mixed [5, 0, 0])
        = some false) := by
  refine ⟨?_, ?_, ?_, ?_⟩
  · intro k b hab
    apply IsHorizontal_eq_without
    rcases hab with h | h <;> rw [h] <;> decide
  · intro place items hplace hlen hu ht
    exact twoPitchStep_concave place hplace items hlen hu ht
  · decide
  · decide

theorem IsHorizontal_two_pitch_redundant_witness :
    IsHorizontal vrvDef (beamOf data_BEAMPLACE.above [0, 5, 5])
        = IsHorizontalWithoutTwoPitch vrvDef (beamOf data_BEAMPLACE.above [0, 5, 5])
    ∧ IsHorizontal vrvDef (beamOf data_BEAMPLACE.above [0, 5, 5]) = some true
    ∧ concaveShape data_BEAMPLACE.below [0, 0, 5] 0 5 = true :=
  ⟨IsHorizontal_two_pitch_redundant.1 vrvDef (beamOf data_BEAMPLACE.above [0, 5, 5])
      (Or.inl rfl),
    by decide,
    IsHorizontal_two_pitch_redundant.2.1 data_BEAMPLACE.below [0, 0, 5] (Or.inr rfl)
      (by decide) (by decide) (by decide)⟩

/-! ## Reset, InitCoords and the state of the beam -/

theorem InitCoords_any_state (b1 b2 : BeamDrawingInterface)
    (childList : List (Option LayerElement)) (staff : Ref) (place1 place2 : data_BEAMPLACE) :
    InitCoords b1 childList staff place1 = InitCoords b2 childList staff place2 := by
  have h : ClearCoords b1.Reset = ClearCoords b2.Reset := rfl
  unfold InitCoords
  rw [h]

/-- C21: `InitCoords` keeps nothing of the state before: for any two prior states of
the beam, `InitCoords` on the same element list and the same staff gives the
same result, member by member (flags, shortest duration, stem direction,
cross-staff content, place, coords), whether or not `Reset` was called before
and whatever the `place` argument is; `IsHorizontal` then gives the same
answer.  On a list of layer elements with a duration both calls return. -/
theorem InitCoords_deterministic (k : VrvDef) (b1 b2 : BeamDrawingInterface)
    (childList : List (Option LayerElement)) (staff : Ref) (place1 place2 : data_BEAMPLACE) :
    InitCoords b1 childList staff place1 = InitCoords b2 childList staff place2 ∧
    InitCoords b1.Reset childList staff place1 = InitCoords b1 childList staff place1 ∧
    (InitCoords b1 childList staff place1).bind (IsHorizontal k)
      = (InitCoords b2 childList staff place2).bind (IsHorizontal k) ∧
    (∀ elems : List LayerElement, (∀ e ∈ elems, e.actualDur.isSome = true) →
      childList = elems.map some →
      ∃ r, InitCoords b1 childList staff place1 = some r ∧
        InitCoords b2 childList staff place2 = some r) := by
  refine ⟨InitCoords_any_state b1 b2 childList staff place1 place2,
    InitCoords_any_state _ _ childList staff place1 place1, ?_, ?_⟩
  · rw [InitCoords_any_state b1 b2 childList staff place1 place2]
  · intro elems hdur hlist
    obtain ⟨r, hr, -⟩ := InitCoords_coords b1 staff place1 elems hdur
    refine ⟨r, by rw [hlist, hr], ?_⟩
    rw [← InitCoords_any_state b1 b2 childList staff place1 place2, hlist, hr]

theorem InitCoords_deterministic_witness :
    InitCoords usedBeam [some (noteOf 5 data_STEMDIRECTION.up), some (noteOn 2)] 0
        data_BEAMPLACE.above
      = InitCoords {} [some (noteOf 5 data_STEMDIRECTION.up), some (noteOn 2)] 0
        data_BEAMPLACE.below ∧
    (InitCoords usedBeam [some (noteOf 5 data_STEMDIRECTION.up), some (noteOn 2)] 0
        data_BEAMPLACE.above).bind (IsHorizontal vrvDef) = some true :=
  ⟨(InitCoords_deterministic vrvDef usedBeam {} _ 0 data_BEAMPLACE.above
      data_BEAMPLACE.below).1, by decide⟩

/-! ## BeamDrawingInterface::GetBeamOverflow -/

/-- C22: `GetBeamOverflow`, for a beam with a beam staff and cross-staff content:
with place mixed both outputs are null; with place below `above` is null and
`below` is the beam staff's alignment if the cross-staff relation is above, else
the cross-staff content's alignment; with place above `below` is null and `above`
is the beam staff's alignment if the relation is below, else the cross-staff
content's alignment.  Without a beam staff or without cross-staff content both
outputs are left as they were. -/
theorem GetBeamOverflow_cases (b : BeamDrawingInterface) (GetAlignment : Ref → Option Ref)
    (above below : Option Ref) :
    (∀ beamStaff crossStaffContent : Ref,
      b.m_beamStaff = some beamStaff → b.m_crossStaffContent = some crossStaffContent →
      (b.m_drawingPlace = data_BEAMPLACE.mixed →
        GetBeamOverflow b GetAlignment above below = (none, none)) ∧
      (b.m_drawingPlace = data_BEAMPLACE.below →
        GetBeamOverflow b GetAlignment above below
          = (none, if b.m_crossStaffRel = data_STAFFREL_basic.above then GetAlignment beamStaff
              else GetAlignment crossStaffContent)) ∧
      (b.m_drawingPlace = data_BEAMPLACE.above →
        GetBeamOverflow b GetAlignment above below
          = (if b.m_crossStaffRel = data_STAFFREL_basic.below then GetAlignment beamStaff
              else GetAlignment crossStaffContent, none))) ∧
    (b.m_beamStaff = none ∨ b.m_crossStaffContent = none →
      GetBeamOverflow b GetAlignment above below = (above, below)) := by
  constructor
  · intro beamStaff crossStaffContent h1 h2
    refine ⟨?_, ?_, ?_⟩
    · intro hp
      simp [GetBeamOverflow, h1, h2, hp]
    · intro hp
      unfold GetBeamOverflow
      rw [h1, h2, hp]
      by_cases hr : b.m_crossStaffRel = data_STAFFREL_basic.above <;> simp [hr]
    · intro hp
      unfold GetBeamOverflow
      rw [h1, h2, hp]
      by_cases hr : b.m_crossStaffRel = data_STAFFREL_basic.below <;> simp [hr]
  · intro h
    unfold GetBeamOverflow
    rcases h with h | h
    · rw [h]
    · rw [h]
      cases b.m_beamStaff <;> rfl

theorem GetBeamOverflow_cases_witness :
    GetBeamOverflow { crossStaffBeam with m_beamStaff := some 0, m_drawingPlace := data_BEAMPLACE.below }
        (fun staff => some (staff + 10)) (some 7) (some 8)
      = (none, some 11) ∧
    GetBeamOverflow { crossStaffBeam with m_drawingPlace := data_BEAMPLACE.below }
        (fun staff => some (staff + 10)) (some 7) (some 8)
      = (some 7, some 8) :=
  ⟨((GetBeamOverflow_cases
        { crossStaffBeam with m_beamStaff := some 0, m_drawingPlace := data_BEAMPLACE.below }
        (fun staff => some (staff + 10)) (some 7) (some 8)).1 0 1 rfl rfl).2.1 rfl,
    (GetBeamOverflow_cases { crossStaffBeam with m_drawingPlace := data_BEAMPLACE.below }
      (fun staff => some (staff + 10)) (some 7) (some 8)).2 (Or.inl rfl)⟩

/-! ## The drawing place after InitCoords -/

theorem initCoordsElement_drawingPlace (b : BeamDrawingInterface) (lastDur : Int) (n : Nat)
    (e : LayerElement) (d : Int) :
    (initCoordsElement b lastDur n e d).m_drawingPlace = b.m_drawingPlace := by
  simp [initCoordsElement]

theorem initCoordsLoop_drawingPlace (rest : List (Option LayerElement)) :
    ∀ (b : BeamDrawingInterface) (lastDur : Int) (n : Nat) (current : LayerElement)
      (r : BeamDrawingInterface),
      initCoordsLoop b lastDur n current rest = some r → r.m_drawingPlace = b.m_drawingPlace := by
  induction rest with
  | nil =>
    intro b lastDur n current r h
    cases hd : current.actualDur with
    | none => simp [initCoordsLoop, hd] at h
    | some d =>
      simp only [initCoordsLoop, hd, Option.some.injEq] at h
      rw [← h, initCoordsElement_drawingPlace]
  | cons next rest ih =>
    intro b lastDur n current r h
    cases hd : current.actualDur with
    | none => cases next <;> simp [initCoordsLoop, hd] at h
    | some d =>
      cases next with
      | none =>
        simp only [initCoordsLoop, hd, Option.some.injEq] at h
        rw [← h, initCoordsElement_drawingPlace]
      | some e =>
        simp only [initCoordsLoop, hd] at h
        rw [ih _ _ _ _ _ h, initCoordsElement_drawingPlace]

theorem InitCoords_drawingPlace {b r : BeamDrawingInterface}
    {childList : List (Option LayerElement)} {staff : Ref} {place : data_BEAMPLACE}
    (h : InitCoords b childList staff place = some r) :
    r.m_drawingPlace = data_BEAMPLACE.NONE := by
  unfold InitCoords at h
  cases childList with
  | nil =>
    simp only [Option.some.injEq] at h
    rw [← h]
    rfl
  | cons first rest =>
    cases first with
    | none => simp at h
    | some current =>
      cases hd : current.actualDur with
      | none => simp [hd] at h
      | some d =>
        simp only [hd] at h
        rw [initCoordsLoop_drawingPlace _ _ _ _ _ _ h]
        rfl

theorem IsHorizontal_place_none (k : VrvDef) (b : BeamDrawingInterface)
    (h : b.m_drawingPlace = data_BEAMPLACE.NONE) : IsHorizontal k b = some true := by
  unfold IsHorizontal
  by_cases h1 : IsRepeatedPattern k b = true
  · simp [h1]
  by_cases h2 : HasOneStepHeight k b = true
  · simp [h1, h2]
  simp [h1, h2, h]

/-- C36: for every element list, staff and value of the `place` argument on which
`InitCoords` returns, the state it leaves has drawing place NONE, so the `place`
argument has no effect; `IsHorizontal` called on that state returns true.
`InitCoords` returns on every list of layer elements with a duration. -/
theorem InitCoords_place_none_horizontal :
    (∀ (k : VrvDef) (b r : BeamDrawingInterface) (childList : List (Option LayerElement))
      (staff : Ref) (place : data_BEAMPLACE),
      InitCoords b childList staff place = some r →
      r.m_drawingPlace = data_BEAMPLACE.NONE ∧ IsHorizontal k r = some true) ∧
    (∀ (k : VrvDef) (b : BeamDrawingInterface) (elems : List LayerElement) (staff : Ref)
      (place : data_BEAMPLACE), (∀ e ∈ elems, e.actualDur.isSome = true) →
      ∃ r, InitCoords b (elems.map some) staff place = some r ∧
        r.m_drawingPlace = data_BEAMPLACE.NONE ∧ IsHorizontal k r = some true) := by
  constructor
  · intro k b r childList staff place h
    exact ⟨InitCoords_drawingPlace h, IsHorizontal_place_none k r (InitCoords_drawingPlace h)⟩
  · intro k b elems staff place hdur
    obtain ⟨r, hr, -⟩ := InitCoords_coords b staff place elems hdur
    exact ⟨r, hr, InitCoords_drawingPlace hr,
      IsHorizontal_place_none k r (InitCoords_drawingPlace hr)⟩

theorem InitCoords_place_none_horizontal_witness :
    (∀ e ∈ [noteOf 5 data_STEMDIRECTION.up, noteOf 6 data_STEMDIRECTION.up,
      noteOf 5 data_STEMDIRECTION.up], e.actualDur.isSome = true) ∧
    ∃ r, InitCoords usedBeam
        ([noteOf 5 data_STEMDIRECTION.up, noteOf 6 data_STEMDIRECTION.up,
          noteOf 5 data_STEMDIRECTION.up].map some) 0 data_BEAMPLACE.above = some r ∧
      r.m_drawingPlace = data_BEAMPLACE.NONE ∧ IsHorizontal vrvDef r = some true :=
  ⟨by decide,
    InitCoords_place_none_horizontal.2 vrvDef usedBeam
      [noteOf 5 data_STEMDIRECTION.up, noteOf 6 data_STEMDIRECTION.up,
        noteOf 5 data_STEMDIRECTION.up] 0 data_BEAMPLACE.above (by decide)⟩

/-! ## Tuplet::CalcDrawingBracketAndNumPos -/

theorem countStemDirs_up_down (l : List TupletListElement) :
    ∀ ups downs : Nat,
      (∀ e ∈ l, e.stemDir = some data_STEMDIRECTION.up ∨
        e.stemDir = some data_STEMDIRECTION.down) →
      countStemDirs l ups downs = (ups + upStems l, downs + downStems l) := by
  induction l with
  | nil => intro ups downs _; rfl
  | cons e rest ih =>
    intro ups downs h
    have hrest := fun u d => ih u d (fun e he => h e (List.mem_cons_of_mem _ he))
    have he := h e (List.mem_cons_self _ _)
    cases e with
    | chord dir =>
      cases dir <;>
        simp [TupletListElement.stemDir] at he <;>
        simp [countStemDirs, hrest, upStems, downStems, List.countP_cons,
          TupletListElement.stemDir] <;> omega
    | note isChordTone dir =>
      cases isChordTone <;> cases dir <;>
        simp [TupletListElement.stemDir] at he <;>
        simp [countStemDirs, hrest, upStems, downStems, List.countP_cons,
          TupletListElement.stemDir] <;> omega
    | other => simp [TupletListElement.stemDir] at he

/-- C5: for a tuplet without explicit bracket place whose list holds only chords
and notes that are not chord tones, each with stem direction up or down,
`CalcDrawingBracketAndNumPos` sets the bracket position to above exactly when
"more up stems than down stems" differs from the note-head flag, and to below
otherwise.  Without the flag, 3 up stems and 1 down stem give above and equal
counts give below; with the flag the side is the opposite one. -/
theorem CalcDrawingBracketAndNumPos_bracket_side :
    (∀ (t : Tuplet) (tupletNumHead : Bool),
      t.m_bracketPlace = data_STAFFREL_basic.NONE →
      (∀ e ∈ t.list, e.stemDir = some data_STEMDIRECTION.up ∨
        e.stemDir = some data_STEMDIRECTION.down) →
      (CalcDrawingBracketAndNumPos t tupletNumHead).m_drawingBracketPos
        = if decide (upStems t.list > downStems t.list) ≠ tupletNumHead
          then data_STAFFREL_basic.above else data_STAFFREL_basic.below) ∧
    (∀ numPlace pos0 pos1,
      ((CalcDrawingBracketAndNumPos
          { m_numPlace := numPlace, m_drawingBracketPos := pos0, m_drawingNumPos := pos1,
            list := [TupletListElement.note false data_STEMDIRECTION.up,
              TupletListElement.note false data_STEMDIRECTION.down,
              TupletListElement.note false data_STEMDIRECTION.up,
              TupletListElement.chord data_STEMDIRECTION.up] } false).m_drawingBracketPos
        = data_STAFFREL_basic.above) ∧
      ((CalcDrawingBracketAndNumPos
          { m_numPlace := numPlace, m_drawingBracketPos := pos0, m_drawingNumPos := pos1,
            list := [TupletListElement.note false data_STEMDIRECTION.up,
              TupletListElement.note false data_STEMDIRECTION.down,
              TupletListElement.note false data_STEMDIRECTION.up,
              TupletListElement.chord data_STEMDIRECTION.up] } true).m_drawingBracketPos
        = data_STAFFREL_basic.below) ∧
      ((CalcDrawingBracketAndNumPos
          { m_numPlace := numPlace, m_drawingBracketPos := pos0, m_drawingNumPos := pos1,
            list := [TupletListElement.note false data_STEMDIRECTION.up,
              TupletListElement.chord data_STEMDIRECTION.down] } false).m_drawingBracketPos
        = data_STAFFREL_basic.below) ∧
      ((CalcDrawingBracketAndNumPos
          { m_numPlace := numPlace, m_drawingBracketPos := pos0, m_drawingNumPos := pos1,
            list := [TupletListElement.note false data_STEMDIRECTION.up,
              TupletListElement.chord data_STEMDIRECTION.down] } true).m_drawingBracketPos
        = data_STAFFREL_basic.above)) := by
  constructor
  · intro t flag hplace hlist
    have hcount := countStemDirs_up_down t.list 0 0 hlist
    simp only [Nat.zero_add] at hcount
    unfold CalcDrawingBracketAndNumPos
    simp only [Tuplet.HasBracketPlace, hplace, bne_self_eq_false, Bool.false_eq_true, if_false,
      ne_eq, not_true_eq_false, hcount]
    by_cases hgt : upStems t.list > downStems t.list <;> cases flag <;> simp [hgt]
  · intro numPlace pos0 pos1
    refine ⟨rfl, rfl, rfl, rfl⟩

theorem CalcDrawingBracketAndNumPos_bracket_side_witness :
    (CalcDrawingBracketAndNumPos
        { list := [TupletListElement.chord data_STEMDIRECTION.down,
            TupletListElement.note false data_STEMDIRECTION.up,
            TupletListElement.chord data_STEMDIRECTION.down] } true).m_drawingBracketPos
      = if decide (upStems [TupletListElement.chord data_STEMDIRECTION.down,
            TupletListElement.note false data_STEMDIRECTION.up,
            TupletListElement.chord data_STEMDIRECTION.down]
          > downStems [TupletListElement.chord data_STEMDIRECTION.down,
            TupletListElement.note false data_STEMDIRECTION.up,
            TupletListElement.chord data_STEMDIRECTION.down]) ≠ true
        then data_STAFFREL_basic.above else data_STAFFREL_basic.below :=
  CalcDrawingBracketAndNumPos_bracket_side.1
    { list := [TupletListElement.chord data_STEMDIRECTION.down,
        TupletListElement.note false data_STEMDIRECTION.up,
        TupletListElement.chord data_STEMDIRECTION.down] } true rfl (by decide)

/-! ## Tuplet::IsSupportedChild and Tuplet::AddChild -/

theorem IsSupportedChild_iff (child : TreeObject) :
    IsSupportedChild child = true ↔
      child.classId ∈ [ClassId.BEAM, ClassId.TUPLET_BRACKET, ClassId.BTREM, ClassId.CHORD,
        ClassId.CLEF, ClassId.FTREM, ClassId.NOTE, ClassId.TUPLET_NUM, ClassId.REST,
        ClassId.SPACE, ClassId.TUPLET] ∨ child.isEditorialElement = true := by
  unfold IsSupportedChild
  cases hc : child.classId <;> cases he : child.isEditorialElement <;> simp

/-- C23: `Tuplet::AddChild` with a child that is not a beam, tuplet bracket, bTrem,
chord, clef, fTrem, note, tuplet num, rest, space or tuplet and is not an
editorial element changes nothing: the tree and the tuplet are as before, so
the tuplet's child list is unchanged and the child's parent is not set. -/
theorem AddChild_unsupported (tree : Ref → TreeObject) (t : Tuplet) (self child : Ref)
    (hclass : (tree child).classId ∉ [ClassId.BEAM, ClassId.TUPLET_BRACKET, ClassId.BTREM,
      ClassId.CHORD, ClassId.CLEF, ClassId.FTREM, ClassId.NOTE, ClassId.TUPLET_NUM,
      ClassId.REST, ClassId.SPACE, ClassId.TUPLET])
    (hedit : (tree child).isEditorialElement = false) :
    IsSupportedChild (tree child) = false ∧
    AddChild tree t self child = (tree, t) ∧
    (AddChild tree t self child).2.m_children = t.m_children ∧
    ((AddChild tree t self child).1 child).m_parent = (tree child).m_parent := by
  have hs : IsSupportedChild (tree child) = false := by
    rw [Bool.eq_false_iff, ne_eq, IsSupportedChild_iff]
    rintro (h | h)
    · exact hclass h
    · rw [hedit] at h
      exact absurd h (by decide)
  have h : AddChild tree t self child = (tree, t) := by
    simp [AddChild, hs]
  exact ⟨hs, h, by rw [h], by rw [h]⟩

theorem AddChild_unsupported_witness :
    IsSupportedChild (smallTree 3) = false ∧
    AddChild smallTree { m_children := [1] } 0 3 = (smallTree, { m_children := [1] }) ∧
    (AddChild smallTree { m_children := [1] } 0 3).2.m_children = [1] ∧
    ((AddChild smallTree { m_children := [1] } 0 3).1 3).m_parent = (smallTree 3).m_parent :=
  AddChild_unsupported smallTree { m_children := [1] } 0 3 (by decide) rfl

/-- C24: `Tuplet::AddChild` with a supported child makes the new child list the
child followed by the old list when the child is a tuplet bracket or a tuplet
num, and the old list followed by the child for every other supported class; so
the children there were keep their relative order.  The child's parent is the
tuplet afterwards. -/
theorem AddChild_supported (tree : Ref → TreeObject) (t : Tuplet) (self child : Ref)
    (hs : IsSupportedChild (tree child) = true) :
    ((tree child).classId = ClassId.TUPLET_BRACKET ∨ (tree child).classId = ClassId.TUPLET_NUM →
      (AddChild tree t self child).2.m_children = child :: t.m_children) ∧
    (¬ ((tree child).classId = ClassId.TUPLET_BRACKET
        ∨ (tree child).classId = ClassId.TUPLET_NUM) →
      (AddChild tree t self child).2.m_children = t.m_children ++ [child]) ∧
    List.Sublist t.m_children (AddChild tree t self child).2.m_children ∧
    ((AddChild tree t self child).1 child).m_parent = some self := by
  have hclass : (Function.update tree child { tree child with m_parent := some self } child).classId
      = (tree child).classId := by
    rw [Function.update_same]
  have hA : (tree child).classId = ClassId.TUPLET_BRACKET ∨ (tree child).classId = ClassId.TUPLET_NUM →
      (AddChild tree t self child).2.m_children = child :: t.m_children := by
    intro h
    simp only [AddChild, hs, Bool.not_true, Bool.false_eq_true, if_false, hclass, h, if_true]
  have hB : ¬ ((tree child).classId = ClassId.TUPLET_BRACKET
        ∨ (tree child).classId = ClassId.TUPLET_NUM) →
      (AddChild tree t self child).2.m_children = t.m_children ++ [child] := by
    intro h
    simp only [AddChild, hs, Bool.not_true, Bool.false_eq_true, if_false, hclass, h]
  refine ⟨hA, hB, ?_, ?_⟩
  · by_cases h : (tree child).classId = ClassId.TUPLET_BRACKET
        ∨ (tree child).classId = ClassId.TUPLET_NUM
    · rw [hA h]
      exact List.sublist_cons_self _ _
    · rw [hB h]
      exact List.sublist_append_left _ _
  · simp [AddChild, hs]

theorem AddChild_supported_witness :
    IsSupportedChild (smallTree 2) = true ∧
    (AddChild smallTree { m_children := [1, 4] } 0 2).2.m_children = [2, 1, 4] ∧
    (AddChild smallTree { m_children := [2, 1] } 0 4).2.m_children = [2, 1, 4] :=
  ⟨by decide,
    (AddChild_supported smallTree { m_children := [1, 4] } 0 2 (by decide)).1 (Or.inl rfl),
    by decide⟩

/-! ## Explicit places in CalcDrawingBracketAndNumPos -/

/-- C25: when the tuplet has an explicit bracket place, `CalcDrawingBracketAndNumPos`
sets the drawing bracket position to that place, whatever the list and the
note-head flag are; and in every case the drawing number position is the
explicit number place when there is one, and the final drawing bracket position
otherwise. -/
theorem CalcDrawingBracketAndNumPos_explicit (t : Tuplet) (tupletNumHead : Bool) :
    (t.HasBracketPlace = true →
      (CalcDrawingBracketAndNumPos t tupletNumHead).m_drawingBracketPos = t.m_bracketPlace) ∧
    (t.HasNumPlace = true →
      (CalcDrawingBracketAndNumPos t tupletNumHead).m_drawingNumPos = t.m_numPlace) ∧
    (t.HasNumPlace = false →
      (CalcDrawingBracketAndNumPos t tupletNumHead).m_drawingNumPos
        = (CalcDrawingBracketAndNumPos t tupletNumHead).m_drawingBracketPos) := by
  unfold CalcDrawingBracketAndNumPos Tuplet.HasBracketPlace Tuplet.HasNumPlace
  by_cases hb : t.m_bracketPlace = data_STAFFREL_basic.NONE <;>
    by_cases hn : t.m_numPlace = data_STAFFREL_basic.NONE <;>
    simp [hb, hn]

theorem CalcDrawingBracketAndNumPos_explicit_witness :
    ({ m_bracketPlace := data_STAFFREL_basic.above,
        list := [TupletListElement.chord data_STEMDIRECTION.down] } : Tuplet).HasBracketPlace
      = true ∧
    (CalcDrawingBracketAndNumPos
      { m_bracketPlace := data_STAFFREL_basic.above,
        list := [TupletListElement.chord data_STEMDIRECTION.down] } true).m_drawingBracketPos
      = data_STAFFREL_basic.above :=
  ⟨by decide,
    (CalcDrawingBracketAndNumPos_explicit
      { m_bracketPlace := data_STAFFREL_basic.above,
        list := [TupletListElement.chord data_STEMDIRECTION.down] } true).1 (by decide)⟩

/-! ## Tuplet::AdjustTupletBracketY -/

/-- C27: in `AdjustTupletBracketY` with a bracket-aligned beam, the nudge of
`doubleUnit / 4` is added to the vertical margin if and only if the beam is
horizontal, its Y lies strictly between the top and the bottom of the staff, and
`doubleUnit` divides the Y of the beam itself, whatever the Y of the staff is.
With the staff at Y 1005, a double unit of 10 and a staff height of 40, a
horizontal beam at Y 995 sits on the second staff line and gets no nudge (the
bracket's relative Y becomes 10), and a horizontal beam at Y 1000 sits between
two lines and gets the nudge (the relative Y becomes 12). -/
theorem AdjustTupletBracketY_nudge_on_absolute_Y :
    (∀ (beam : Beam) (yReference doubleUnit staffHeight margin : Int), doubleUnit ≠ 0 →
      staffLineNudge beam yReference doubleUnit staffHeight margin
        = some (if beam.m_beamSlope = 0 ∧ beam.m_startingY < yReference
              ∧ beam.m_startingY > yReference - staffHeight ∧ doubleUnit ∣ beam.m_startingY
            then margin + Int.tdiv doubleUnit 4 else margin)) ∧
    (onStaffLine 995 (plainLayout.staffDrawingY 0) (plainLayout.GetDrawingStaffSize 100)
        (plainLayout.GetDrawingDoubleUnit 100) ∧
      (AdjustTupletBracketY plainLayout (beamedTuplet 995) 0 100).map
        (fun t1 => t1.tupletBracket.map TupletBracket.drawingYRel) = some (some 10)) ∧
    (¬ onStaffLine 1000 (plainLayout.staffDrawingY 0) (plainLayout.GetDrawingStaffSize 100)
        (plainLayout.GetDrawingDoubleUnit 100) ∧
      (AdjustTupletBracketY plainLayout (beamedTuplet 1000) 0 100).map
        (fun t1 => t1.tupletBracket.map TupletBracket.drawingYRel) = some (some 12)) := by
  refine ⟨?_, ⟨by decide, by decide⟩, ⟨by decide, by decide⟩⟩
  intro beam yReference doubleUnit staffHeight margin hd
  unfold staffLineNudge
  have hdvd : doubleUnit ∣ beam.m_startingY ↔ Int.tmod beam.m_startingY doubleUnit = 0 :=
    Int.dvd_iff_tmod_eq_zero
  by_cases h1 : beam.m_beamSlope = 0
  · by_cases h2 : beam.m_startingY < yReference ∧ beam.m_startingY > yReference - staffHeight
    · by_cases h3 : Int.tmod beam.m_startingY doubleUnit = 0
      · simp [h1, h2, hd, h3, hdvd]
      · simp [h1, h2, hd, h3, hdvd]
    · have h2a : ¬ (beam.m_startingY < yReference ∧ beam.m_startingY > yReference - staffHeight
          ∧ doubleUnit ∣ beam.m_startingY) := fun h => h2 ⟨h.1, h.2.1⟩
      simp only [h1, h2, if_true, if_false, true_and, h2a]
  · simp [h1]

theorem AdjustTupletBracketY_nudge_on_absolute_Y_witness :
    (10 : Int) ≠ 0 ∧
    staffLineNudge { m_startingY := 995 } 1005 10 40 10 = some 10 ∧
    staffLineNudge { m_startingY := 995 } 1005 10 40 10
      = some (if ({ m_startingY := 995 } : Beam).m_beamSlope = 0
            ∧ ({ m_startingY := 995 } : Beam).m_startingY < 1005
            ∧ ({ m_startingY := 995 } : Beam).m_startingY > 1005 - 40
            ∧ (10 : Int) ∣ ({ m_startingY := 995 } : Beam).m_startingY
          then 10 + Int.tdiv 10 4 else 10) :=
  ⟨by decide, by decide,
    AdjustTupletBracketY_nudge_on_absolute_Y.1 { m_startingY := 995 } 1005 10 40 10 (by decide)⟩

/-! ## Tuplet::HasValidTupletNumPosition -/

/-- C29: `HasValidTupletNumPosition(preferred, other)` returns true when there is no
number-aligned beam, false when that beam's place is mixed, and otherwise false
exactly when either `preferred.N < other.N` and both the beam place and the
number position are below, or `preferred.N >= other.N` and both the beam place
and the number position are above. -/
theorem HasValidTupletNumPosition_cases (layout : Layout) (t : Tuplet)
    (preferredStaff otherStaff : Ref) :
    (t.m_numAlignedBeam = none →
      HasValidTupletNumPosition layout t preferredStaff otherStaff = true) ∧
    (∀ beam, t.m_numAlignedBeam = some beam →
      (beam.m_drawingPlace = data_BEAMPLACE.mixed →
        HasValidTupletNumPosition layout t preferredStaff otherStaff = false) ∧
      (beam.m_drawingPlace ≠ data_BEAMPLACE.mixed →
        (HasValidTupletNumPosition layout t preferredStaff otherStaff = false ↔
          (layout.staffN preferredStaff < layout.staffN otherStaff ∧
            beam.m_drawingPlace = data_BEAMPLACE.below ∧
            t.m_drawingNumPos = data_STAFFREL_basic.below) ∨
          (layout.staffN preferredStaff ≥ layout.staffN otherStaff ∧
            beam.m_drawingPlace = data_BEAMPLACE.above ∧
            t.m_drawingNumPos = data_STAFFREL_basic.above)))) := by
  constructor
  · intro h
    simp [HasValidTupletNumPosition, h]
  · intro beam h
    constructor
    · intro hm
      simp [HasValidTupletNumPosition, h, hm]
    · intro hm
      unfold HasValidTupletNumPosition
      rw [h]
      simp only [hm, if_false]
      by_cases hn : layout.staffN preferredStaff < layout.staffN otherStaff
      · have hge : ¬ layout.staffN preferredStaff ≥ layout.staffN otherStaff := not_le.mpr hn
        by_cases hc : beam.m_drawingPlace = data_BEAMPLACE.below
            ∧ t.m_drawingNumPos = data_STAFFREL_basic.below
        · simp [hn, hc]
        · simp only [hn, hc, if_true, if_false, hge, false_and, or_false, true_and]
          simp
      · have hge : layout.staffN preferredStaff ≥ layout.staffN otherStaff := not_lt.mp hn
        by_cases hc : beam.m_drawingPlace = data_BEAMPLACE.above
            ∧ t.m_drawingNumPos = data_STAFFREL_basic.above
        · simp [hn, hc, hge]
        · simp only [hn, hc, if_false, hge, false_and, false_or, true_and]
          simp

theorem HasValidTupletNumPosition_cases_witness :
    ({ m_numAlignedBeam := some { m_drawingPlace := data_BEAMPLACE.below },
        m_drawingNumPos := data_STAFFREL_basic.below } : Tuplet).m_numAlignedBeam
      = some { m_drawingPlace := data_BEAMPLACE.below } ∧
    HasValidTupletNumPosition plainLayout
      { m_numAlignedBeam := some { m_drawingPlace := data_BEAMPLACE.below },
        m_drawingNumPos := data_STAFFREL_basic.below } 1 2 = false :=
  ⟨rfl,
    (((HasValidTupletNumPosition_cases plainLayout
      { m_numAlignedBeam := some { m_drawingPlace := data_BEAMPLACE.below },
        m_drawingNumPos := data_STAFFREL_basic.below } 1 2).2
      { m_drawingPlace := data_BEAMPLACE.below } rfl).2 (by decide)).mpr
      (Or.inl ⟨by decide, rfl, rfl⟩)⟩

/-! ## Tuplet::CalculateTupletNumCrossStaff -/

theorem crossStaffLoop_conflict (l : List Descendant) :
    ∀ (crossStaff crossLayer : Option Ref) (count : Nat),
      ((∃ c, crossStaff = some c ∧ ∃ d ∈ l, d.m_crossStaff.isSome = true ∧
          d.m_crossStaff ≠ some c) ∨
        (∃ d1 ∈ l, ∃ d2 ∈ l, d1.m_crossStaff.isSome = true ∧ d2.m_crossStaff.isSome = true ∧
          d1.m_crossStaff ≠ d2.m_crossStaff)) →
      (crossStaffLoop l crossStaff crossLayer count).1 = none := by
  induction l with
  | nil =>
    intro crossStaff crossLayer count h
    rcases h with ⟨c, -, d, hd, -⟩ | ⟨d1, hd1, -⟩
    · simp at hd
    · simp at hd1
  | cons d rest ih =>
    intro crossStaff crossLayer count h
    by_cases hbreak : (crossStaff.isSome && d.m_crossStaff.isSome
        && decide (d.m_crossStaff ≠ crossStaff)) = true
    · rw [crossStaffLoop, if_pos hbreak]
    · have hstay : ∀ c, crossStaff = some c → d.m_crossStaff.isSome = true →
          d.m_crossStaff = some c := by
        intro c hc hs
        by_contra hne
        apply hbreak
        simp [hc, hs, hne]
      by_cases hs : d.m_crossStaff.isSome = true
      · obtain ⟨s, hds⟩ := Option.isSome_iff_exists.mp hs
        have hstep : crossStaffLoop (d :: rest) crossStaff crossLayer count
            = crossStaffLoop rest d.m_crossStaff d.m_crossLayer (count + 1) := by
          rw [crossStaffLoop, if_neg hbreak, if_pos hs]
        rw [hstep]
        apply ih
        left
        refine ⟨s, hds, ?_⟩
        rcases h with ⟨c, hc, x, hx, hxs, hxne⟩ | ⟨d1, hd1, d2, hd2, h1, h2, hne⟩
        · have hdc := hstay c hc hs
          have hsc : s = c := by
            rw [hds] at hdc
            exact Option.some.inj hdc
          rcases List.mem_cons.mp hx with rfl | hx
          · exact absurd hdc hxne
          · exact ⟨x, hx, hxs, by rw [hsc]; exact hxne⟩
        · by_cases k1 : d1.m_crossStaff = some s
          · have k2 : d2.m_crossStaff ≠ some s := fun k => hne (k1.trans k.symm)
            rcases List.mem_cons.mp hd2 with rfl | hd2
            · exact absurd hds k2
            · exact ⟨d2, hd2, h2, k2⟩
          · rcases List.mem_cons.mp hd1 with rfl | hd1
            · exact absurd hds k1
            · exact ⟨d1, hd1, h1, k1⟩
      · have hstep : crossStaffLoop (d :: rest) crossStaff crossLayer count
            = crossStaffLoop rest crossStaff crossLayer count := by
          rw [crossStaffLoop, if_neg hbreak, if_neg hs]
        rw [hstep]
        apply ih
        rcases h with ⟨c, hc, x, hx, hxs, hxne⟩ | ⟨d1, hd1, d2, hd2, h1, h2, hne⟩
        · left
          refine ⟨c, hc, ?_⟩
          rcases List.mem_cons.mp hx with rfl | hx
          · exact absurd hxs hs
          · exact ⟨x, hx, hxs, hxne⟩
        · right
          rcases List.mem_cons.mp hd1 with rfl | hd1
          · exact absurd h1 hs
          · rcases List.mem_cons.mp hd2 with rfl | hd2
            · exact absurd h2 hs
            · exact ⟨d1, hd1, d2, hd2, h1, h2, hne⟩

theorem crossStaffLoop_none (l : List Descendant) :
    ∀ (crossLayer : Option Ref) (count : Nat), (∀ d ∈ l, d.m_crossStaff = none) →
      (crossStaffLoop l none crossLayer count).1 = none := by
  induction l with
  | nil =>
    intro crossLayer count _
    rfl
  | cons d rest ih =>
    intro crossLayer count h
    have hd : d.m_crossStaff = none := h d (List.mem_cons_self _ _)
    have hstep : crossStaffLoop (d :: rest) none crossLayer count
        = crossStaffLoop rest none crossLayer count := by
      simp [crossStaffLoop, hd]
    rw [hstep]
    exact ih crossLayer count (fun x hx => h x (List.mem_cons_of_mem _ hx))

/-- C30: in `CalculateTupletNumCrossStaff` for a tuplet that is not itself cross-staff
(and has a staff ancestor): if two of its Chord, Note or Rest descendants have
different non-null cross staves, the element's cross staff and cross layer are
left as they were; likewise when no such descendant is cross-staff. -/
theorem CalculateTupletNumCrossStaff_unchanged (layout : Layout) (t : Tuplet)
    (layerElement : TupletNum) (staff : Ref) (hcross : t.m_crossStaff = none)
    (hstaff : t.staffAncestor = some staff) :
    ((∃ d1 ∈ t.durationDescendants, ∃ d2 ∈ t.durationDescendants,
        d1.m_crossStaff.isSome = true ∧ d2.m_crossStaff.isSome = true ∧
        d1.m_crossStaff ≠ d2.m_crossStaff) →
      CalculateTupletNumCrossStaff layout t layerElement = some layerElement) ∧
    ((∀ d ∈ t.durationDescendants, d.m_crossStaff = none) →
      CalculateTupletNumCrossStaff layout t layerElement = some layerElement) := by
  have hlist : t.FindAllDescendantsByComparison [ClassId.CHORD, ClassId.NOTE, ClassId.REST]
      = t.durationDescendants := rfl
  constructor
  · intro h
    have hr := crossStaffLoop_conflict t.durationDescendants none none 0 (Or.inr h)
    unfold CalculateTupletNumCrossStaff
    simp only [hcross, Option.isSome_none, Bool.false_eq_true, if_false, hstaff, hlist, hr]
  · intro h
    have hr := crossStaffLoop_none t.durationDescendants none 0 h
    unfold CalculateTupletNumCrossStaff
    simp only [hcross, Option.isSome_none, Bool.false_eq_true, if_false, hstaff, hlist, hr]

theorem CalculateTupletNumCrossStaff_unchanged_witness :
    (∃ d1 ∈ twoCrossTuplet.durationDescendants, ∃ d2 ∈ twoCrossTuplet.durationDescendants,
      d1.m_crossStaff.isSome = true ∧ d2.m_crossStaff.isSome = true ∧
      d1.m_crossStaff ≠ d2.m_crossStaff) ∧
    CalculateTupletNumCrossStaff plainLayout twoCrossTuplet { m_crossStaff := some 9 }
      = some { m_crossStaff := some 9 } :=
  ⟨by decide,
    (CalculateTupletNumCrossStaff_unchanged plainLayout twoCrossTuplet { m_crossStaff := some 9 } 0
      rfl rfl).1 (by decide)⟩

/-! ## Tuplet::AdjustTupletNumY -/

theorem CalculateTupletNumCrossStaff_some (layout : Layout) (t : Tuplet) (num : TupletNum)
    (h : t.m_crossStaff.isSome = true ∨ t.staffAncestor.isSome = true) :
    ∃ num1, CalculateTupletNumCrossStaff layout t num = some num1 ∧
      num1.alignedBracket = num.alignedBracket ∧ num1.drawingYRel = num.drawingYRel := by
  unfold CalculateTupletNumCrossStaff
  by_cases hc : t.m_crossStaff.isSome = true
  · rw [if_pos hc]
    exact ⟨_, rfl, rfl, rfl⟩
  · rw [if_neg hc]
    have hs : t.staffAncestor.isSome = true := h.resolve_left hc
    obtain ⟨staff, hstaff⟩ := Option.isSome_iff_exists.mp hs
    rw [hstaff]
    dsimp only
    cases (crossStaffLoop
        (t.FindAllDescendantsByComparison [ClassId.CHORD, ClassId.NOTE, ClassId.REST])
        none none 0).1 with
    | none => exact ⟨_, rfl, rfl, rfl⟩
    | some crossStaff =>
      dsimp only
      split_ifs
      · exact ⟨_, rfl, rfl, rfl⟩
      · exact ⟨_, rfl, rfl, rfl⟩

/-- C28: for a visible tuplet number (in a tuplet that is cross-staff or has a staff
ancestor, the number's bracket pointer being null or pointing to a bracket)
`AdjustTupletNumY` returns and leaves the bracket as it was; when the number is
not aligned with a bracket its relative Y afterwards is not inside the staff: it
is >= 0 when the number position is above and <= -staffHeight when it is below,
whatever the overlap pass and the aligned beam give; when the number is aligned
with a bracket its relative Y is the relative Y of the bracket the pointer
points to, as that bracket is at the time of the call. -/
theorem AdjustTupletNumY_outside_staff (layout : Layout) (t : Tuplet) (staff : Ref)
    (staffSize : Int) (num : TupletNum) (hnum : t.tupletNum = some num)
    (hvis : t.m_numVisible ≠ data_BOOLEAN.false)
    (hret : t.m_crossStaff.isSome = true ∨ t.staffAncestor.isSome = true)
    (hptr : ∀ ptr, num.alignedBracket = some ptr → (t.bracketAt ptr).isSome = true) :
    ∃ t1 num1, AdjustTupletNumY layout t staff staffSize = some t1 ∧
      t1.tupletNum = some num1 ∧
      t1.tupletBracket = t.tupletBracket ∧
      (num.alignedBracket = none →
        (t.m_drawingNumPos = data_STAFFREL_basic.above → 0 ≤ num1.drawingYRel) ∧
        (t.m_drawingNumPos = data_STAFFREL_basic.below →
          num1.drawingYRel ≤ -(layout.GetDrawingStaffSize staffSize))) ∧
      (∀ ptr bracket, num.alignedBracket = some ptr → t1.bracketAt ptr = some bracket →
        num1.drawingYRel = bracket.drawingYRel) ∧
      (∀ bracket, num.alignedBracket = some BracketPtr.ownBracket →
        t1.tupletBracket = some bracket → num1.drawingYRel = bracket.drawingYRel) := by
  obtain ⟨num0, hcalc, hb0, -⟩ := CalculateTupletNumCrossStaff_some layout t num hret
  unfold AdjustTupletNumY
  rw [hnum]
  simp only [hvis, if_false, hcalc]
  cases hb : num0.alignedBracket with
  | some ptr =>
    have hsome := hptr ptr (by rw [← hb0, hb])
    obtain ⟨bracket0, hbr0⟩ := Option.isSome_iff_exists.mp hsome
    simp only [hbr0]
    have hat : ∀ ptr1 bracket1, num.alignedBracket = some ptr1 →
        Tuplet.bracketAt
          { t with tupletNum := some { num0 with drawingYRel := bracket0.drawingYRel } } ptr1
          = some bracket1 →
        bracket0.drawingYRel = bracket1.drawingYRel := by
      intro ptr1 bracket1 hp1 hat1
      rw [← hb0, hb] at hp1
      cases hp1
      have hsame : Tuplet.bracketAt
          { t with tupletNum := some { num0 with drawingYRel := bracket0.drawingYRel } } ptr
          = t.bracketAt ptr := by
        cases ptr <;> rfl
      rw [hsame, hbr0] at hat1
      cases hat1
      rfl
    refine ⟨_, _, rfl, rfl, rfl, ?_, ?_, ?_⟩
    · intro hn
      rw [← hb0, hb] at hn
      exact absurd hn (by simp)
    · intro ptr1 bracket1 hp1 hat1
      exact hat ptr1 bracket1 hp1 hat1
    · intro bracket1 hp1 hat1
      exact hat BracketPtr.ownBracket bracket1 hp1 hat1
  | none =>
    refine ⟨_, _, rfl, rfl, rfl, ?_, ?_, ?_⟩
    · intro _
      dsimp only
      constructor
      · intro hpos
        simp only [hpos, if_true, true_and, reduceCtorEq, false_and, false_or]
        split_ifs <;> omega
      · intro hpos
        simp only [hpos, reduceCtorEq, if_false, true_and, false_and, or_false]
        split_ifs <;> omega
    · intro ptr bracket hbr
      rw [← hb0, hb] at hbr
      exact absurd hbr (by simp)
    · intro bracket hbr
      rw [← hb0, hb] at hbr
      exact absurd hbr (by simp)

theorem AdjustTupletNumY_outside_staff_witness :
    ((AdjustTupletsX smallTree alignedTuplet).bind
        (fun t1 => AdjustTupletBracketY plainLayout t1 0 100)).map
      (fun t2 => (t2.tupletBracket, t2.tupletNum))
      = some (bracketedTuplet.tupletBracket, bracketedTuplet.tupletNum) ∧
    (((AdjustTupletsX smallTree alignedTuplet).bind
        (fun t1 => AdjustTupletBracketY plainLayout t1 0 100)).bind
        (fun t2 => AdjustTupletNumY plainLayout t2 0 100)).map
      (fun t3 => (t3.tupletBracket.map TupletBracket.drawingYRel,
        t3.tupletNum.map TupletNum.drawingYRel)) = some (some 25, some 25) ∧
    (AdjustTupletNumY plainLayout bracketedTuplet 0 100).map
      (fun t1 => (t1.tupletBracket.map TupletBracket.drawingYRel,
        t1.tupletNum.map TupletNum.drawingYRel)) = some (some 25, some 25) ∧
    (AdjustTupletNumY plainLayout plainTuplet 0 100).map
      (fun t1 => t1.tupletNum.map TupletNum.drawingYRel) = some (some 10) ∧
    ∃ t1 num1, AdjustTupletNumY plainLayout bracketedTuplet 0 100 = some t1 ∧
      t1.tupletNum = some num1 ∧
      t1.tupletBracket = bracketedTuplet.tupletBracket ∧
      (({ alignedBracket := some BracketPtr.ownBracket } : TupletNum).alignedBracket = none →
        (bracketedTuplet.m_drawingNumPos = data_STAFFREL_basic.above → 0 ≤ num1.drawingYRel) ∧
        (bracketedTuplet.m_drawingNumPos = data_STAFFREL_basic.below →
          num1.drawingYRel ≤ -(plainLayout.GetDrawingStaffSize 100))) ∧
      (∀ ptr bracket,
        ({ alignedBracket := some BracketPtr.ownBracket } : TupletNum).alignedBracket = some ptr →
        t1.bracketAt ptr = some bracket → num1.drawingYRel = bracket.drawingYRel) ∧
      (∀ bracket,
        ({ alignedBracket := some BracketPtr.ownBracket } : TupletNum).alignedBracket
          = some BracketPtr.ownBracket →
        t1.tupletBracket = some bracket → num1.drawingYRel = bracket.drawingYRel) :=
  ⟨by decide, by decide, by decide, by decide,
    AdjustTupletNumY_outside_staff plainLayout bracketedTuplet 0 100
      { alignedBracket := some BracketPtr.ownBracket } rfl (by decide) (Or.inr rfl)
      (by
        intro ptr hp
        cases hp
        rfl)⟩

/-! ## The cross-staff assignment of CalculateTupletNumCrossStaff -/

theorem crossStaffLoop_consistent (c : Ref) (l : List Descendant) :
    ∀ (crossStaff crossLayer : Option Ref) (count : Nat),
      (crossStaff = none ∨ crossStaff = some c) →
      (∀ d ∈ l, d.m_crossStaff = none ∨ d.m_crossStaff = some c) →
      crossStaffLoop l crossStaff crossLayer count
        = (if l.any (fun d => d.m_crossStaff.isSome) then some c else crossStaff,
            lastCrossLayer l crossLayer, count + crossCount l) := by
  induction l with
  | nil =>
    intro crossStaff crossLayer count _ _
    simp [crossStaffLoop, lastCrossLayer, crossCount]
  | cons d rest ih =>
    intro crossStaff crossLayer count hcs hall
    have hrest : ∀ x ∈ rest, x.m_crossStaff = none ∨ x.m_crossStaff = some c :=
      fun x hx => hall x (List.mem_cons_of_mem _ hx)
    rcases hall d (List.mem_cons_self _ _) with hd | hd
    · have hstep : crossStaffLoop (d :: rest) crossStaff crossLayer count
          = crossStaffLoop rest crossStaff crossLayer count := by
        simp [crossStaffLoop, hd]
      rw [hstep, ih crossStaff crossLayer count hcs hrest]
      simp [lastCrossLayer, crossCount, hd, List.countP_cons]
    · have hstep : crossStaffLoop (d :: rest) crossStaff crossLayer count
          = crossStaffLoop rest (some c) d.m_crossLayer (count + 1) := by
        rcases hcs with h | h <;> simp [crossStaffLoop, hd, h]
      rw [hstep, ih (some c) d.m_crossLayer (count + 1) (Or.inr rfl) hrest]
      simp [lastCrossLayer, crossCount, hd, List.countP_cons]
      omega

/-- Counterexample for C31: a tuplet on staff 0 with one of its three notes on
cross staff 1 and a number-aligned beam of place mixed.
`HasValidTupletNumPosition(crossStaff, staff)` is false, and the number is
assigned to the cross staff: the tuplet is not mostly cross-staff and
`HasValidTupletNumPosition(staff, crossStaff)` is false. -/
theorem CalculateTupletNumCrossStaff_counterexample :
    mixedBeamTuplet.m_crossStaff = none ∧
    (∀ d ∈ mixedBeamTuplet.durationDescendants,
      d.m_crossStaff = none ∨ d.m_crossStaff = some 1) ∧
    HasValidTupletNumPosition plainLayout mixedBeamTuplet 1 0 = false ∧
    (CalculateTupletNumCrossStaff plainLayout mixedBeamTuplet {}).map TupletNum.m_crossStaff
      = some (some 1) := by
  refine ⟨rfl, by decide, by decide, by decide⟩

/-- C31 (amended): in `CalculateTupletNumCrossStaff` for a tuplet that is not itself
cross-staff (and has the staff ancestor `staff`) whose cross-staff Chord, Note and
Rest descendants all have the cross staff `c`, there being at least one, the
number is assigned to the cross staff `c` (with the cross layer of the last
cross-staff descendant) if and only if either most descendants are cross-staff
and `HasValidTupletNumPosition(c, staff)` is true, or not most descendants are
cross-staff and `HasValidTupletNumPosition(staff, c)` is false; otherwise the
number is left as it was. -/
theorem CalculateTupletNumCrossStaff_assigns (layout : Layout) (t : Tuplet) (num : TupletNum)
    (staff c : Ref) (hcross : t.m_crossStaff = none) (hstaff : t.staffAncestor = some staff)
    (hall : ∀ d ∈ t.durationDescendants, d.m_crossStaff = none ∨ d.m_crossStaff = some c)
    (hex : ∃ d ∈ t.durationDescendants, d.m_crossStaff = some c) :
    ((t.isMostlyCrossStaff ∧ HasValidTupletNumPosition layout t c staff = true) ∨
        (¬ t.isMostlyCrossStaff ∧ HasValidTupletNumPosition layout t staff c = false) →
      CalculateTupletNumCrossStaff layout t num
        = some { num with m_crossStaff := some c,
                          m_crossLayer := lastCrossLayer t.durationDescendants none }) ∧
    (¬ ((t.isMostlyCrossStaff ∧ HasValidTupletNumPosition layout t c staff = true) ∨
        (¬ t.isMostlyCrossStaff ∧ HasValidTupletNumPosition layout t staff c = false)) →
      CalculateTupletNumCrossStaff layout t num = some num) := by
  have hlist : t.FindAllDescendantsByComparison [ClassId.CHORD, ClassId.NOTE, ClassId.REST]
      = t.durationDescendants := rfl
  have hany : t.durationDescendants.any (fun d => d.m_crossStaff.isSome) = true := by
    obtain ⟨d, hd, hdc⟩ := hex
    rw [List.any_eq_true]
    exact ⟨d, hd, by simp [hdc]⟩
  have hloop := crossStaffLoop_consistent c t.durationDescendants none none 0 (Or.inl rfl) hall
  rw [hany] at hloop
  simp only [if_true, Nat.zero_add] at hloop
  have hunfold : CalculateTupletNumCrossStaff layout t num
      = if (decide t.isMostlyCrossStaff && HasValidTupletNumPosition layout t c staff)
            || (!decide t.isMostlyCrossStaff && !HasValidTupletNumPosition layout t staff c) then
          some { num with m_crossStaff := some c,
                          m_crossLayer := lastCrossLayer t.durationDescendants none }
        else some num := by
    unfold CalculateTupletNumCrossStaff
    simp only [hcross, Option.isSome_none, Bool.false_eq_true, if_false, hstaff, hlist, hloop]
    rfl
  rw [hunfold]
  constructor
  · intro h
    rw [if_pos]
    rcases h with ⟨h1, h2⟩ | ⟨h1, h2⟩
    · simp [h1, h2]
    · simp [h1, h2]
  · intro h
    rw [if_neg]
    intro hc
    apply h
    by_cases hm : t.isMostlyCrossStaff
    · left
      simpa [hm] using hc
    · right
      simpa [hm] using hc

theorem CalculateTupletNumCrossStaff_assigns_witness :
    (¬ mixedBeamTuplet.isMostlyCrossStaff ∧
      HasValidTupletNumPosition plainLayout mixedBeamTuplet 0 1 = false) ∧
    CalculateTupletNumCrossStaff plainLayout mixedBeamTuplet {}
      = some { m_crossStaff := some 1, m_crossLayer := some 7 } :=
  ⟨⟨by decide, by decide⟩,
    ((CalculateTupletNumCrossStaff_assigns plainLayout mixedBeamTuplet {} 0 1 rfl rfl
      (by decide) (by decide)).1 (Or.inr ⟨by decide, by decide⟩)).trans (by decide)⟩

/-! ## Tuplet::AdjustTupletsX -/

theorem cancelAlignment_concordant {beam0 : Option Beam} {pos : data_STAFFREL_basic} {beam : Beam}
    (h : cancelAlignment beam0 pos = some beam) :
    beam0 = some beam ∧
    ¬ (beam.m_drawingPlace = data_BEAMPLACE.above ∧ pos = data_STAFFREL_basic.below) ∧
    ¬ (beam.m_drawingPlace = data_BEAMPLACE.below ∧ pos = data_STAFFREL_basic.above) := by
  unfold cancelAlignment at h
  cases beam0 with
  | none => simp at h
  | some b =>
    simp only at h
    split_ifs at h with h1 h2
    cases h
    exact ⟨rfl, h1, h2⟩

theorem AdjustTupletsX_beams (tree : Ref → TreeObject) (t : Tuplet) (hnum : t.hasNum = true)
    (hvis : ¬ (t.m_bracketVisible = data_BOOLEAN.false ∧ t.m_numVisible = data_BOOLEAN.false))
    (hleft : t.m_drawingLeft.isSome = true) (hright : t.m_drawingRight.isSome = true)
    (hpos : t.m_drawingBracketPos ≠ data_STAFFREL_basic.NONE) :
    ∃ (t1 : Tuplet) (beam0 : Option Beam), AdjustTupletsX tree t = some t1 ∧
      t1.m_drawingBracketPos = t.m_drawingBracketPos ∧
      t1.m_drawingNumPos = t.m_drawingNumPos ∧
      t1.m_bracketAlignedBeam = cancelAlignment beam0 t.m_drawingBracketPos ∧
      t1.m_numAlignedBeam = cancelAlignment beam0 t.m_drawingNumPos := by
  obtain ⟨left, hl⟩ := Option.isSome_iff_exists.mp hleft
  obtain ⟨right, hr⟩ := Option.isSome_iff_exists.mp hright
  have hx : ∃ x, GetDrawingLeftRightXRel t = some x := by
    unfold GetDrawingLeftRightXRel
    rw [hl, hr]
    exact ⟨_, rfl⟩
  obtain ⟨⟨XRelLeft, XRelRight⟩, hx⟩ := hx
  unfold AdjustTupletsX
  simp only [hnum, Bool.not_true, Bool.false_eq_true, if_false, hvis, hl, hr, Option.isNone_some,
    Bool.or_self, hpos, hx]
  exact ⟨_, _, rfl, rfl, rfl, rfl, rfl⟩

/-- C32: after `Tuplet::AdjustTupletsX` on a tuplet that is not short-circuited (and
whose bracket position is not NONE, as the function asserts), a non-null
bracket-aligned beam never contradicts the bracket side: it is not the case that
the beam place is above and the bracket position below, or the beam place below
and the bracket position above; a non-null number-aligned beam never
contradicts the number side in the same sense; and when bracket position and
number position are equal the two aligned beams are equal. -/
theorem AdjustTupletsX_concordant (tree : Ref → TreeObject) (t : Tuplet)
    (hnum : t.hasNum = true)
    (hvis : ¬ (t.m_bracketVisible = data_BOOLEAN.false ∧ t.m_numVisible = data_BOOLEAN.false))
    (hleft : t.m_drawingLeft.isSome = true) (hright : t.m_drawingRight.isSome = true)
    (hpos : t.m_drawingBracketPos ≠ data_STAFFREL_basic.NONE) :
    ∃ t1, AdjustTupletsX tree t = some t1 ∧
      (∀ beam, t1.m_bracketAlignedBeam = some beam →
        ¬ (beam.m_drawingPlace = data_BEAMPLACE.above
            ∧ t1.m_drawingBracketPos = data_STAFFREL_basic.below) ∧
        ¬ (beam.m_drawingPlace = data_BEAMPLACE.below
            ∧ t1.m_drawingBracketPos = data_STAFFREL_basic.above)) ∧
      (∀ beam, t1.m_numAlignedBeam = some beam →
        ¬ (beam.m_drawingPlace = data_BEAMPLACE.above
            ∧ t1.m_drawingNumPos = data_STAFFREL_basic.below) ∧
        ¬ (beam.m_drawingPlace = data_BEAMPLACE.below
            ∧ t1.m_drawingNumPos = data_STAFFREL_basic.above)) ∧
      (t1.m_drawingBracketPos = t1.m_drawingNumPos →
        t1.m_bracketAlignedBeam = t1.m_numAlignedBeam) := by
  obtain ⟨t1, beam0, h, hb, hn, hbb, hnb⟩ := AdjustTupletsX_beams tree t hnum hvis hleft hright hpos
  refine ⟨t1, h, ?_, ?_, ?_⟩
  · intro beam hbeam
    rw [hbb] at hbeam
    rw [hb]
    exact (cancelAlignment_concordant hbeam).2
  · intro beam hbeam
    rw [hnb] at hbeam
    rw [hn]
    exact (cancelAlignment_concordant hbeam).2
  · intro heq
    rw [hbb, hnb, ← hb, ← hn, heq]

theorem AdjustTupletsX_concordant_witness :
    (AdjustTupletsX smallTree splitTuplet).map
      (fun t1 => (t1.m_bracketAlignedBeam, t1.m_numAlignedBeam))
      = some (none, some { m_drawingPlace := data_BEAMPLACE.above }) ∧
    ∃ t1, AdjustTupletsX smallTree splitTuplet = some t1 ∧
      (∀ beam, t1.m_bracketAlignedBeam = some beam →
        ¬ (beam.m_drawingPlace = data_BEAMPLACE.above
            ∧ t1.m_drawingBracketPos = data_STAFFREL_basic.below) ∧
        ¬ (beam.m_drawingPlace = data_BEAMPLACE.below
            ∧ t1.m_drawingBracketPos = data_STAFFREL_basic.above)) ∧
      (∀ beam, t1.m_numAlignedBeam = some beam →
        ¬ (beam.m_drawingPlace = data_BEAMPLACE.above
            ∧ t1.m_drawingNumPos = data_STAFFREL_basic.below) ∧
        ¬ (beam.m_drawingPlace = data_BEAMPLACE.below
            ∧ t1.m_drawingNumPos = data_STAFFREL_basic.above)) ∧
      (t1.m_drawingBracketPos = t1.m_drawingNumPos →
        t1.m_bracketAlignedBeam = t1.m_numAlignedBeam) :=
  ⟨by decide,
    AdjustTupletsX_concordant smallTree splitTuplet rfl (by decide) rfl rfl (by decide)⟩

/-! ## The stem tally and the positions after CalcDrawingBracketAndNumPos -/

theorem countStemDirs_tally (l : List TupletListElement) :
    ∀ ups downs : Nat,
      countStemDirs l ups downs
        = (ups + upStems l, downs + l.countP TupletListElement.talliedDown) := by
  induction l with
  | nil =>
    intro ups downs
    rfl
  | cons e rest ih =>
    intro ups downs
    cases e with
    | chord dir =>
      cases dir <;>
        simp [countStemDirs, ih, upStems, List.countP_cons, TupletListElement.stemDir,
          TupletListElement.talliedDown] <;> omega
    | note isChordTone dir =>
      cases isChordTone <;> cases dir <;>
        simp [countStemDirs, ih, upStems, List.countP_cons, TupletListElement.stemDir,
          TupletListElement.talliedDown] <;> omega
    | other =>
      simp [countStemDirs, ih, upStems, List.countP_cons, TupletListElement.stemDir,
        TupletListElement.talliedDown]

/-- C39: in the stem tally of `CalcDrawingBracketAndNumPos` a chord counts as a
down-stem whenever its drawing stem direction is not up (NONE included), a note
that is not a chord tone counts as up or down only with that stem direction
(with NONE for neither side), and chord tones are never counted.  Without
explicit place and note-head flag, one up-stem note plus one chord with stem
direction NONE resolves to below, and one up-stem note plus one note with stem
direction NONE resolves to above. -/
theorem CalcDrawingBracketAndNumPos_tally :
    (∀ l : List TupletListElement,
      countStemDirs l 0 0 = (upStems l, l.countP TupletListElement.talliedDown)) ∧
    (∀ dir, (TupletListElement.chord dir).talliedDown = true ↔ dir ≠ data_STEMDIRECTION.up) ∧
    (∀ dir, upStems [TupletListElement.chord dir] = 1 ↔ dir = data_STEMDIRECTION.up) ∧
    (upStems [TupletListElement.note false data_STEMDIRECTION.NONE] = 0 ∧
      (TupletListElement.note false data_STEMDIRECTION.NONE).talliedDown = false) ∧
    (∀ dir, upStems [TupletListElement.note true dir] = 0 ∧
      (TupletListElement.note true dir).talliedDown = false) ∧
    (CalcDrawingBracketAndNumPos
        { list := [TupletListElement.note false data_STEMDIRECTION.up,
            TupletListElement.chord data_STEMDIRECTION.NONE] } false).m_drawingBracketPos
      = data_STAFFREL_basic.below ∧
    (CalcDrawingBracketAndNumPos
        { list := [TupletListElement.note false data_STEMDIRECTION.up,
            TupletListElement.note false data_STEMDIRECTION.NONE] } false).m_drawingBracketPos
      = data_STAFFREL_basic.above := by
  refine ⟨?_, ?_, ?_, ⟨by decide, rfl⟩, ?_, by decide, by decide⟩
  · intro l
    simpa using countStemDirs_tally l 0 0
  · intro dir
    simp [TupletListElement.talliedDown]
  · intro dir
    cases dir <;> decide
  · intro dir
    cases dir <;> exact ⟨by decide, rfl⟩

/-- C40: after `CalcDrawingBracketAndNumPos`, for every tuplet and flag value, the
drawing bracket position is above or below and the drawing number position is
above or below, never NONE; so the assertion `m_drawingBracketPos != NONE` of
`AdjustTupletsX` and `AdjustTupletsY` holds of the state it leaves. -/
theorem CalcDrawingBracketAndNumPos_never_none (t : Tuplet) (tupletNumHead : Bool) :
    ((CalcDrawingBracketAndNumPos t tupletNumHead).m_drawingBracketPos
        = data_STAFFREL_basic.above ∨
      (CalcDrawingBracketAndNumPos t tupletNumHead).m_drawingBracketPos
        = data_STAFFREL_basic.below) ∧
    ((CalcDrawingBracketAndNumPos t tupletNumHead).m_drawingNumPos
        = data_STAFFREL_basic.above ∨
      (CalcDrawingBracketAndNumPos t tupletNumHead).m_drawingNumPos
        = data_STAFFREL_basic.below) ∧
    (CalcDrawingBracketAndNumPos t tupletNumHead).m_drawingBracketPos
      ≠ data_STAFFREL_basic.NONE ∧
    (CalcDrawingBracketAndNumPos t tupletNumHead).m_drawingNumPos
      ≠ data_STAFFREL_basic.NONE := by
  unfold CalcDrawingBracketAndNumPos Tuplet.HasBracketPlace Tuplet.HasNumPlace
  by_cases hc : (countStemDirs t.list 0 0).1 > (countStemDirs t.list 0 0).2
  · cases hb : t.m_bracketPlace <;> cases hn : t.m_numPlace <;> cases tupletNumHead <;>
      simp [hc]
  · have hc1 : (countStemDirs t.list 0 0).1 ≤ (countStemDirs t.list 0 0).2 := not_lt.mp hc
    cases hb : t.m_bracketPlace <;> cases hn : t.m_numPlace <;> cases tupletNumHead <;>
      simp [hc, hc1]

theorem CalcDrawingBracketAndNumPos_never_none_witness :
    (CalcDrawingBracketAndNumPos { list := [TupletListElement.other] } true).m_drawingBracketPos
      ≠ data_STAFFREL_basic.NONE ∧
    (CalcDrawingBracketAndNumPos { list := [TupletListElement.other] } true).m_drawingBracketPos
      = data_STAFFREL_basic.above :=
  ⟨(CalcDrawingBracketAndNumPos_never_none { list := [TupletListElement.other] } true).2.2.1,
    by decide⟩

theorem CalcDrawingBracketAndNumPos_tally_witness :
    countStemDirs
        [TupletListElement.note false data_STEMDIRECTION.up,
          TupletListElement.chord data_STEMDIRECTION.NONE,
          TupletListElement.note true data_STEMDIRECTION.down] 0 0
      = (1, 1) :=
  (CalcDrawingBracketAndNumPos_tally.1 _).trans (by decide)

end Verovio
